import Mathlib

/-!
# mml2midi: a shallow embedding of the MIDI codec, the lexer, the parser and the translator

Sources: `extern/midi-codec/midi-parser.h`, `extern/midi-codec/midi-writer.h`,
`source/mml2midi.h`, `source/mml-lexer.c`, `source/mml-parser.c`,
`source/mml-writer-midi.c`.

Conventions of the embedding.
* Machine integers are natural numbers; every place where the C code truncates
  (a store into `uint8_t`/`uint16_t`, `uint32_t` arithmetic, the conversion to
  `int32_t`) is written out with `u8`, `u16`, `u32`, `u32_sub`, `i32`.
* A `const uint8_t *` is a `Mem`: the byte found at every offset from the
  pointer.  The length that travels with the pointer is a separate number, as
  in the C code, so reads past that length are reads of whatever memory follows.
* Pointers are never `NULL`; the `NULL` guards of the C functions are dropped.
* A function that returns `-1` without having written anything returns `none`.
* A dynamic array (`da_append`, `da_append_many`) is the list of its items;
  `realloc` succeeds. A sequence that the parser reaches through a pointer is
  kept by value in the parser context.
* A loop of the C code is a recursive function whose first argument counts the
  iterations left. Where the loop condition gives the count (`offset < size`)
  the argument is exactly that count; otherwise it is a budget, and a result
  `out_of_fuel` says that the budget ended before the loop did.
* A stop of the process (`abort ()`, a failed `assert`, the `int3` trap, a
  division by zero) is an outcome of its own, never a returned value.
* Memory from `malloc` is not initialised: what such a block denotes is a
  parameter (`uninit`) of the function that allocates it.
-/

namespace Mml2Midi

set_option autoImplicit false

/-! ## Machine arithmetic -/

/-- Truncation of a value stored into a `uint8_t`. -/
def u8 (x : Nat) : Nat := x % 256

/-- Truncation of a value stored into a `uint16_t`. -/
def u16 (x : Nat) : Nat := x % 65536

/-- Truncation of a value stored into a `uint32_t`. -/
def u32 (x : Nat) : Nat := x % 4294967296

/-- Subtraction of two `uint32_t` values, wrapping below zero. -/
def u32_sub (a b : Nat) : Nat :=
  if u32 b ≤ u32 a then u32 a - u32 b else 4294967296 - (u32 b - u32 a)

/-- Conversion of a `uint32_t` bit pattern to `int32_t` (two's complement). -/
def i32 (x : Nat) : Int :=
  if u32 x < 2147483648 then (u32 x : Int) else (u32 x : Int) - 4294967296

/-! ## Memory -/

/-- The bytes readable from a `const uint8_t *`, by offset. Values are bytes (below 256). -/
abbrev Mem := Nat → Nat

/-- Pointer arithmetic: `ptr + k`. -/
def ptr_add (m : Mem) (k : Nat) : Mem := fun i => m (k + i)

/-- A buffer holding the bytes `l`, followed in memory by `rest`. -/
def bytes_of (l : List Nat) (rest : Mem) : Mem :=
  fun i => if i < l.length then l.getD i 0 else rest (i - l.length)

/-- Memory holding zero bytes only. -/
def zero_mem : Mem := fun _ => 0

/-- The `n` bytes at a pointer, as `memcpy` reads them. -/
def mem_take (m : Mem) (n : Nat) : List Nat := (List.range n).map m

/-! ## Data model -/

/-- `#define MIDI_NOTE_OFF 0x8`. -/
abbrev MIDI_NOTE_OFF : Nat := 0x8
/-- `#define MIDI_NOTE_ON 0x9`. -/
abbrev MIDI_NOTE_ON : Nat := 0x9
/-- `#define MIDI_POLY_PRESSURE 0xA`. -/
abbrev MIDI_POLY_PRESSURE : Nat := 0xA
/-- `#define MIDI_CONTROLLER 0xB`. -/
abbrev MIDI_CONTROLLER : Nat := 0xB
/-- `#define MIDI_PROGRAM 0xC`. -/
abbrev MIDI_PROGRAM : Nat := 0xC
/-- `#define MIDI_CHAN_PRESSURE 0xD`. -/
abbrev MIDI_CHAN_PRESSURE : Nat := 0xD
/-- `#define MIDI_PITCH_BEND 0xE`. -/
abbrev MIDI_PITCH_BEND : Nat := 0xE

/-- The struct `midi_event_t`. The union `as` is two bytes of storage:
`bytes0`, `bytes1` are `as.bytes[0]`, `as.bytes[1]` (equally `note`/`velocity`,
`controller`/`value`, `program`, `chan_pressure`), and `as.pitch_bend` is the
16-bit little-endian reading of the same two bytes. -/
structure midi_event_t where
  kind : Nat
  channel : Nat
  bytes0 : Nat
  bytes1 : Nat
deriving DecidableEq, Repr

/-- Reading `e->as.pitch_bend`. -/
def midi_event_t.pitch_bend (e : midi_event_t) : Nat := e.bytes0 + 256 * e.bytes1

/-- Storing a `uint16_t` into `e->as.pitch_bend`. -/
def midi_event_t.set_pitch_bend (e : midi_event_t) (v : Nat) : midi_event_t :=
  { e with bytes0 := u16 v % 256, bytes1 := u16 v / 256 }

/-- The enum `midi_event_kind`. -/
inductive midi_event_kind where
  | EV_MIDI
  | EV_SYSEX
  | EV_META
deriving DecidableEq, Repr

/-- The struct `track_event_t`. The members of the union `as` are kept as
separate fields; the code reads only the member that `kind` selects. -/
structure track_event_t where
  kind : midi_event_kind
  delta : Nat
  midi : midi_event_t
  sysex_length : Nat
  sysex_data : Mem
  meta_type : Nat
  meta_length : Nat
  meta_data : Mem

/-- The struct `track_parser_t`. -/
structure track_parser_t where
  bytes : Mem
  idx : Nat
  len : Nat
  last_status : Nat

/-- A zero-initialized `midi_event_t`. -/
def midi_event_zero : midi_event_t := { kind := 0, channel := 0, bytes0 := 0, bytes1 := 0 }

/-- A zero-initialized `track_event_t`. -/
def track_event_zero : track_event_t :=
  { kind := midi_event_kind.EV_MIDI, delta := 0, midi := midi_event_zero,
    sysex_length := 0, sysex_data := zero_mem, meta_type := 0, meta_length := 0,
    meta_data := zero_mem }

/-! ## Variable-length quantities -/

/-- `midi_vlq_encode`: the bytes stored into `out_bytes`; the return value `i`
is the length of the list. Each stored value is below 256 by its mask. -/
def midi_vlq_encode (value : Nat) : List Nat :=
  (if value ≥ 1 <<< 28 then [((value >>> 28) &&& 0x7F) ||| 0x80] else []) ++
  (if value ≥ 1 <<< 21 then [((value >>> 21) &&& 0x7F) ||| 0x80] else []) ++
  (if value ≥ 1 <<< 14 then [((value >>> 14) &&& 0x7F) ||| 0x80] else []) ++
  (if value ≥ 1 <<< 7 then [((value >>> 7) &&& 0x7F) ||| 0x80] else []) ++
  [value &&& 0x7F]

/-- The `for (i = 0; i < 5 && i < len; ++i)` loop of `midi_vlq_decode`, entered
at index `i` with accumulator `value`; the first argument is `5 - i`, the number
of iterations left before `i < 5` fails. Returns `(i + 1, value)`. -/
def midi_vlq_decode_loop (bytes : Mem) (len : Nat) : Nat → Nat → Nat → Option (Nat × Nat)
  | 0, _, _ => none
  | n + 1, i, value =>
    if i < len then
      let b := bytes i
      let value := u32 (value <<< 7) ||| (b &&& 0x7F)
      if b &&& 0x80 = 0 then some (i + 1, value)
      else midi_vlq_decode_loop bytes len n (i + 1) value
    else none

/-- `midi_vlq_decode`: `some (bytes used, *out_value)`, or `none` for `-1`. -/
def midi_vlq_decode (bytes : Mem) (len : Nat) : Option (Nat × Nat) :=
  if len = 0 then none else midi_vlq_decode_loop bytes len 5 0 0

/-! ## Channel events -/

/-- `midi_event_to_bytes`: the `ev_len` bytes copied to `out_bytes`, or `none` for `-1`. -/
def midi_event_to_bytes (e : midi_event_t) (rolling : Bool) : Option (List Nat) :=
  let status : List Nat :=
    if rolling then [] else [u8 (u8 (0 ||| (e.kind <<< 4)) ||| e.channel)]
  if e.kind = MIDI_NOTE_ON ∨ e.kind = MIDI_NOTE_OFF ∨ e.kind = MIDI_POLY_PRESSURE
      ∨ e.kind = MIDI_CONTROLLER then
    some (status ++ [e.bytes0, e.bytes1])
  else if e.kind = MIDI_PROGRAM ∨ e.kind = MIDI_CHAN_PRESSURE then
    some (status ++ [e.bytes0])
  else if e.kind = MIDI_PITCH_BEND then
    some (status ++ [u8 e.pitch_bend, u8 (e.pitch_bend >>> 7)])
  else none

/-- `midi_event_from_bytes`: `some (bytes_used, *e)`, or `none` for `-1`
(returned before `*e` is touched). -/
def midi_event_from_bytes (e : midi_event_t) (bytes : Mem) (len : Nat) :
    Option (Nat × midi_event_t) :=
  if len < 2 then none else
  let kind := (bytes 0 &&& 0xF0) >>> 4
  let chan := bytes 0 &&& 0x0F
  if kind = MIDI_NOTE_ON ∨ kind = MIDI_NOTE_OFF ∨ kind = MIDI_POLY_PRESSURE
      ∨ kind = MIDI_CONTROLLER then
    if len < 3 then none
    else some (3, { kind := kind, channel := chan, bytes0 := bytes 1, bytes1 := bytes 2 })
  else if kind = MIDI_PROGRAM ∨ kind = MIDI_CHAN_PRESSURE then
    some (2, { e with kind := kind, channel := chan, bytes0 := bytes 1 })
  else if kind = MIDI_PITCH_BEND then
    if len < 3 then none
    else
      let e1 := e.set_pitch_bend (bytes 1)
      let e2 := e1.set_pitch_bend (e1.pitch_bend ||| (bytes 2 <<< 7))
      some (3, { e2 with kind := kind, channel := chan })
  else some (1, { e with kind := kind, channel := chan })

/-- `midi_event_from_bytes_rolling`: as `midi_event_from_bytes`, with the status
byte passed in and absent from `bytes`. -/
def midi_event_from_bytes_rolling (e : midi_event_t) (status : Nat) (bytes : Mem) (len : Nat) :
    Option (Nat × midi_event_t) :=
  if len = 0 then none else
  let kind := (status &&& 0xF0) >>> 4
  let chan := status &&& 0x0F
  if kind = MIDI_NOTE_ON ∨ kind = MIDI_NOTE_OFF ∨ kind = MIDI_POLY_PRESSURE
      ∨ kind = MIDI_CONTROLLER then
    if len < 2 then none
    else some (2, { kind := kind, channel := chan, bytes0 := bytes 0, bytes1 := bytes 1 })
  else if kind = MIDI_PROGRAM ∨ kind = MIDI_CHAN_PRESSURE then
    some (1, { e with kind := kind, channel := chan, bytes0 := bytes 0 })
  else if kind = MIDI_PITCH_BEND then
    if len < 2 then none
    else
      let e1 := e.set_pitch_bend (bytes 0)
      let e2 := e1.set_pitch_bend (e1.pitch_bend ||| (bytes 1 <<< 7))
      some (2, { e2 with kind := kind, channel := chan })
  else some (0, { e with kind := kind, channel := chan })

/-! ## Track events -/

/-- What `track_event_to_bytes` leaves behind: the `int` it returns and the
bytes it has stored into `out_bytes`. -/
structure to_bytes_result where
  ret : Int
  out : List Nat
deriving DecidableEq, Repr

/-- `track_event_to_bytes`. The byte count `n` is an `int`; adding the
`uint32_t` payload length to it is done in 32 bits. -/
def track_event_to_bytes (e : track_event_t) : to_bytes_result :=
  let d := midi_vlq_encode e.delta
  if d.length = 0 then { ret := -1, out := d } else
  let n : Nat := d.length
  match e.kind with
  | midi_event_kind.EV_MIDI =>
    match midi_event_to_bytes e.midi false with
    | some bs => { ret := (bs.length : Int) + n, out := d ++ bs }
    | none => { ret := -1 + n, out := d }
  | midi_event_kind.EV_META =>
    let l := midi_vlq_encode e.meta_length
    if l.length = 0 then { ret := -1, out := d ++ [0xFF, e.meta_type] ++ l } else
    { ret := i32 (n + 2 + l.length + e.meta_length),
      out := d ++ [0xFF, e.meta_type] ++ l ++ mem_take e.meta_data e.meta_length }
  | midi_event_kind.EV_SYSEX =>
    let l := midi_vlq_encode e.sysex_length
    if l.length = 0 then { ret := -1, out := d ++ [0xF0] ++ l } else
    { ret := i32 (n + 1 + l.length + e.sysex_length),
      out := d ++ [0xF0] ++ l ++ mem_take e.sysex_data e.sysex_length }

/-- `track_event_get_storage_size`; `total` is a `uint32_t`. -/
def track_event_get_storage_size (e : track_event_t) : Nat :=
  let total := 0
  let total := u32 (total + (midi_vlq_encode e.delta).length)
  let total := u32 (total + 1)
  match e.kind with
  | midi_event_kind.EV_MIDI =>
    if e.midi.kind = MIDI_NOTE_ON ∨ e.midi.kind = MIDI_NOTE_OFF
        ∨ e.midi.kind = MIDI_POLY_PRESSURE ∨ e.midi.kind = MIDI_CONTROLLER
        ∨ e.midi.kind = MIDI_PITCH_BEND then u32 (total + 2)
    else if e.midi.kind = MIDI_PROGRAM ∨ e.midi.kind = MIDI_CHAN_PRESSURE then u32 (total + 1)
    else total
  | midi_event_kind.EV_META =>
    let total := u32 (total + 1)
    let total := u32 (total + (midi_vlq_encode e.meta_length).length)
    u32 (total + e.meta_length)
  | midi_event_kind.EV_SYSEX =>
    let total := u32 (total + (midi_vlq_encode e.sysex_length).length)
    let total := u32 (total + e.sysex_length)
    u32 (total + 1)

/-- What `track_event_next` leaves behind: the `int` it returns, and the parser
and the event as it has updated them (also on the paths that return `-1`). -/
structure next_result where
  ret : Int
  p : track_parser_t
  e : track_event_t

/-- `track_event_next`. -/
def track_event_next (p : track_parser_t) (e : track_event_t) : next_result :=
  match midi_vlq_decode (ptr_add p.bytes p.idx) (u32_sub p.len p.idx) with
  | none => { ret := -1, p := p, e := e }
  | some (n, delta) =>
    let p := { p with idx := u32 (p.idx + n) }
    let e := { e with delta := delta }
    let bytes_left := u32_sub p.len p.idx
    if bytes_left = 0 then { ret := -1, p := p, e := e } else
    let b := p.bytes p.idx
    if 0x80 ≤ b ∧ b < 0xF0 then
      match midi_event_from_bytes e.midi (ptr_add p.bytes p.idx) bytes_left with
      | none => { ret := -1, p := p, e := e }
      | some (ev_len, m) =>
        let e := { e with midi := m }
        if ev_len = 0 then { ret := -1, p := p, e := e } else
        { ret := ev_len,
          p := { p with last_status := b, idx := u32 (p.idx + ev_len) },
          e := { e with kind := midi_event_kind.EV_MIDI } }
    else if b = 0xF0 ∨ b = 0xF7 then
      match midi_vlq_decode (ptr_add p.bytes (p.idx + 1)) (u32_sub (u32_sub p.len p.idx) 1) with
      | none => { ret := -1, p := p, e := e }
      | some (n, vlength) =>
        let ev_len := u32 (1 + n + vlength)
        { ret := i32 ev_len,
          p := { p with idx := u32 (p.idx + ev_len) },
          e := { e with kind := midi_event_kind.EV_SYSEX,
                        sysex_data := ptr_add p.bytes (p.idx + 1 + n),
                        sysex_length := u32_sub vlength 1 } }
    else if b = 0xFF then
      let type := p.bytes (u32 (p.idx + 1))
      match midi_vlq_decode (ptr_add p.bytes (p.idx + 2)) (u32_sub (u32_sub p.len p.idx) 2) with
      | none => { ret := -1, p := p, e := e }
      | some (n, vlength) =>
        let ev_len := u32 (2 + n + vlength)
        { ret := i32 ev_len,
          p := { p with idx := u32 (p.idx + ev_len) },
          e := { e with kind := midi_event_kind.EV_META,
                        meta_type := type,
                        meta_data := ptr_add p.bytes (p.idx + 2 + n),
                        meta_length := vlength } }
    else if 0x80 ≤ p.last_status ∧ p.last_status < 0xF0 then
      match midi_event_from_bytes_rolling e.midi p.last_status (ptr_add p.bytes p.idx)
          bytes_left with
      | none => { ret := -1, p := p, e := e }
      | some (ev_len, m) =>
        let e := { e with midi := m }
        if ev_len = 0 then { ret := -1, p := p, e := e } else
        { ret := ev_len,
          p := { p with idx := u32 (p.idx + ev_len) },
          e := { e with kind := midi_event_kind.EV_MIDI } }
    else { ret := -1, p := p, e := e }

/-- A fresh parser over a buffer: index 0, no status seen. -/
def track_parser_fresh (bytes : Mem) (len : Nat) : track_parser_t :=
  { bytes := bytes, idx := 0, len := len, last_status := 0 }

/-! ## Concrete inputs -/

/-- A note-on track event: delta 480, channel 0, note 60, velocity 0. -/
def sample_note_event : track_event_t :=
  { track_event_zero with
    delta := 480,
    midi := { kind := MIDI_NOTE_ON, channel := 0, bytes0 := 60, bytes1 := 0 } }

/-- A tempo meta event: delta 0, type `0x51`, payload `07 A1 20` (500000). -/
def sample_tempo_event : track_event_t :=
  { track_event_zero with
    kind := midi_event_kind.EV_META,
    meta_type := 0x51, meta_length := 3, meta_data := bytes_of [0x07, 0xA1, 0x20] zero_mem }

/-- A system-exclusive track event: delta 0, payload of the single byte `42`. -/
def sample_sysex_event : track_event_t :=
  { track_event_zero with
    kind := midi_event_kind.EV_SYSEX,
    sysex_length := 1, sysex_data := bytes_of [0x42] zero_mem }

/-- A parser that has seen the note-on status `0x90`, over the buffer
`00 3C 40`: a delta-time of 0 and two data bytes. -/
def sample_parser_running : track_parser_t :=
  { bytes := bytes_of [0x00, 0x3C, 0x40] zero_mem, idx := 0, len := 3, last_status := 0x90 }

/-- A parser that has seen the note-on status `0x90`, over the buffer `00 3C`:
a delta-time of 0 and one data byte. -/
def sample_parser_short : track_parser_t :=
  { bytes := bytes_of [0x00, 0x3C] zero_mem, idx := 0, len := 2, last_status := 0x90 }

/-! ## Source text: the lexer (`mml-lexer.c`)

Bytes of the source are natural numbers below 256. A `char` that is passed to a
`<ctype.h>` predicate is classified by its byte value in the "C" locale, in which
no byte from `0x80` up is a space, a digit or alphanumeric. -/

/-- The enum `token_kind`. -/
inductive token_kind where
  | MML_NUMBER
  | MML_EXPANSION
  | MML_DEFINITION
  | MML_COMMAND
  | MML_NOTE
  | MML_PLUS
  | MML_MINUS
  | MML_DOT
  | MML_SCOLON
  | MML_LBRACKET
  | MML_RBRACKET
  | MML_COLON
  | MML_LBRACE
  | MML_RBRACE
  | MML_UNKNOWN
  | MML_EOF
deriving DecidableEq, Repr

/-- The struct `string_view`. The pointer `data` is kept as the offset of its
target in the source buffer; the null pointer of the end-of-input token is 0. -/
structure string_view where
  data : Nat
  size : Nat
deriving DecidableEq, Repr

/-- The struct `token`. -/
structure token where
  kind : token_kind
  view : string_view
deriving DecidableEq, Repr

/-- The struct `mmlexer`. -/
structure mmlexer where
  offset : Nat
  size : Nat
  data : Mem

/-- Modelled from the C library: `isspace` in the "C" locale. -/
def isspace (c : Nat) : Bool := c == 32 || (9 ≤ c && c ≤ 13)

/-- Modelled from the C library: `isdigit`. -/
def isdigit (c : Nat) : Bool := 48 ≤ c && c ≤ 57

/-- Modelled from the C library: `isalnum` in the "C" locale. -/
def isalnum (c : Nat) : Bool :=
  (48 ≤ c && c ≤ 57) || (65 ≤ c && c ≤ 90) || (97 ≤ c && c ≤ 122)

/-- Modelled from the C library: `tolower` in the "C" locale. -/
def tolower (c : Nat) : Nat := if 65 ≤ c ∧ c ≤ 90 then c + 32 else c

/-- `utf8_char_len`. -/
def utf8_char_len (c : Nat) : Nat :=
  if c &&& 0x80 = 0 then 1
  else if c &&& 0xE0 = 0xC0 then 2
  else if c &&& 0xF0 = 0xE0 then 3
  else if c &&& 0xF8 = 0xF0 then 4
  else 1

/-- `is_space`. -/
def is_space (c : Nat) : Bool := isspace c

/-- `is_digit`. -/
def is_digit (c : Nat) : Bool := isdigit c

/-- `is_ident_char`. -/
def is_ident_char (c : Nat) : Bool := isalnum c || decide (c ≥ 0x80)

/-- The `while` loop of `skip_whitespace` at `offset`; the first argument is
`size - offset`, which is 0 exactly when `offset < size` fails. -/
def skip_whitespace_loop (data : Mem) : Nat → Nat → Nat
  | 0, offset => offset
  | n + 1, offset =>
    if is_space (data offset) then skip_whitespace_loop data n (offset + 1) else offset

/-- `skip_whitespace`. -/
def skip_whitespace (lexer : mmlexer) : mmlexer :=
  { lexer with
    offset := skip_whitespace_loop lexer.data (lexer.size - lexer.offset) lexer.offset }

/-- The `while` loop of the `'@'` case of `read_next_token` at `length`; the
first argument is `size - (offset + length)`, which is 0 exactly when
`offset + length < size` fails. Returns the final `length`. -/
def expansion_loop (data : Mem) (offset : Nat) : Nat → Nat → Nat
  | 0, length => length
  | n + 1, length =>
    if is_ident_char (data (offset + length)) then expansion_loop data offset n (length + 1)
    else length

/-- The `while` loop of the `'!'` case of `read_next_token`, as `expansion_loop`. -/
def definition_loop (data : Mem) (offset : Nat) : Nat → Nat → Nat
  | 0, length => length
  | n + 1, length =>
    if is_ident_char (data (offset + length)) ∧ ¬ is_space (data (offset + length))
        ∧ data (offset + length) ≠ 123 then
      definition_loop data offset n (length + 1)
    else length

/-- The `while` loop of the digit case of `read_next_token`, as `expansion_loop`. -/
def number_loop (data : Mem) (offset : Nat) : Nat → Nat → Nat
  | 0, length => length
  | n + 1, length =>
    if is_digit (data (offset + length)) then number_loop data offset n (length + 1)
    else length

/-- The `switch` of `read_next_token` on the byte `c` at `offset`: the kind of
the token and the size of its view (`u8char_len` where the case leaves the view
as it was). -/
def read_next_token_switch (lexer : mmlexer) (offset u8char_len c : Nat) : token_kind × Nat :=
  if (97 ≤ c ∧ c ≤ 103) ∨ c = 114 then (token_kind.MML_NOTE, u8char_len)
  else if c = 111 ∨ c = 60 ∨ c = 62 ∨ c = 108 ∨ c = 118 ∨ c = 116 then
    (token_kind.MML_COMMAND, u8char_len)
  else if c = 43 then (token_kind.MML_PLUS, u8char_len)
  else if c = 45 then (token_kind.MML_MINUS, u8char_len)
  else if c = 46 then (token_kind.MML_DOT, u8char_len)
  else if c = 59 then (token_kind.MML_SCOLON, u8char_len)
  else if c = 125 then (token_kind.MML_RBRACE, u8char_len)
  else if c = 123 then (token_kind.MML_LBRACE, u8char_len)
  else if c = 93 then (token_kind.MML_RBRACKET, u8char_len)
  else if c = 91 then (token_kind.MML_LBRACKET, u8char_len)
  else if c = 58 then (token_kind.MML_COLON, u8char_len)
  else if c = 64 then
    (token_kind.MML_EXPANSION, expansion_loop lexer.data offset (lexer.size - (offset + 1)) 1)
  else if c = 33 then
    (token_kind.MML_DEFINITION, definition_loop lexer.data offset (lexer.size - (offset + 1)) 1)
  else if is_digit c then
    (token_kind.MML_NUMBER, number_loop lexer.data offset (lexer.size - (offset + 0)) 0)
  else (token_kind.MML_UNKNOWN, u8char_len)

/-- `read_next_token`: the token and the lexer after it, or `none` where the
code executes the `int3` trap (the token kind is still `MML_UNKNOWN`). -/
def read_next_token (lexer : mmlexer) : Option (token × mmlexer) :=
  let lexer := skip_whitespace lexer
  let offset := lexer.offset
  if offset = lexer.size then
    some ({ kind := token_kind.MML_EOF, view := { data := 0, size := 0 } }, lexer)
  else
    let u8char_len := utf8_char_len (lexer.data offset)
    let u8char_len := if offset + u8char_len > lexer.size then lexer.size - offset else u8char_len
    let ks := read_next_token_switch lexer offset u8char_len (lexer.data offset)
    let tok : token := { kind := ks.1, view := { data := lexer.offset, size := ks.2 } }
    if tok.kind = token_kind.MML_UNKNOWN then none
    else some (tok, { lexer with offset := lexer.offset + tok.view.size })

/-- What `mml_tokenize` can end in: the token array, the `int3` trap of
`read_next_token`, or (in this model only) the end of the iteration budget. -/
inductive tokenize_result where
  | tokens (items : List token)
  | trap
  | out_of_fuel
deriving DecidableEq, Repr

/-- The `for (;;)` loop of `mml_tokenize`, with an iteration budget. -/
def mml_tokenize_loop : Nat → mmlexer → List token → tokenize_result
  | 0, _, _ => tokenize_result.out_of_fuel
  | n + 1, lexer, tokens =>
    match read_next_token lexer with
    | none => tokenize_result.trap
    | some (t, lexer) =>
      let tokens := tokens ++ [t]
      if t.kind = token_kind.MML_EOF then tokenize_result.tokens tokens
      else mml_tokenize_loop n lexer tokens

/-- `mml_tokenize`. `strlen_source` is what the C library's `strlen (source)`
returns, used when `length` is 0. The loop is given `length + 1` iterations:
every token before the last covers a byte, so the loop cannot make more. -/
def mml_tokenize (source : Mem) (length : Nat) (strlen_source : Nat) : tokenize_result :=
  let length := if length = 0 then strlen_source else length
  mml_tokenize_loop (length + 1) { data := source, offset := 0, size := length } []

/-! ## Events and the parser (`mml2midi.h`, `mml-parser.c`) -/

/-- Modelled from the spec: the members `chord_link` and `tie` of `as.note`, which
`mml-writer-midi.c` reads and the `mml_event` of `mml2midi.h` does not declare
(the chord-link flag and the tie flag of a note). The rest is the struct
`mml_event` of `mml2midi.h`, the union `as` being selected by `kind`:
`MML_EV_NOTE` with `pitch`, `length`, `dots`, `acc`; `MML_EV_CTL` with `cmd`,
`value`; `MML_EV_EOT`. -/
inductive mml_event where
  | note (pitch length dots : Nat) (acc : Int) (chord_link tie : Bool)
  | ctl (cmd value : Nat)
  | eot
deriving DecidableEq, Repr

/-- The struct `macro`; the sequence that `body` points to is kept by value. -/
structure macro_t where
  name : string_view
  body : List mml_event
deriving DecidableEq, Repr

/-- The struct `parser_context`. The sequence that `out_sequence` points to is
kept by value: the parser swaps the pointer around the body of a loop or of a
definition and never writes to a sequence that is not the current one. -/
structure parser_context where
  tokens : List token
  idx : Nat
  out_sequence : List mml_event
  macro_table : List macro_t
deriving DecidableEq, Repr

/-- The ways in which the parser stops the process (`abort ()`, a failed
`assert`), and the one place where it writes past a buffer. -/
inductive parse_abort where
  /-- "expected identifier after '@'" -/
  | expected_identifier
  /-- "macro ... is not defined" -/
  | macro_not_defined
  /-- "Unexpected token in loop body" -/
  | unexpected_in_loop_body
  /-- "Unexpected token in loop break body" -/
  | unexpected_in_loop_break
  /-- "expected closing bracket ']'" -/
  | expected_rbracket
  /-- "expected number after loop body" -/
  | expected_number
  /-- "expected '{' after DEFINITION" -/
  | expected_lbrace
  /-- "Unexpected token in definition body" -/
  | unexpected_in_definition
  /-- "expected closing brace '}'" -/
  | expected_rbrace
  /-- "Unexpected token in track body" -/
  | unexpected_in_track
  /-- `assert (*endptr == 0)` fails -/
  | assert_endptr
  /-- a number of 32 bytes or more is copied into `char buffer[32]` -/
  | buffer_overflow
deriving DecidableEq, Repr

/-- What a parser function can end in: its result, a stop of the process, or
(in this model only) the end of the recursion or iteration budget. -/
inductive outcome (α : Type) where
  | done (a : α)
  | abort (e : parse_abort)
  | out_of_fuel
deriving DecidableEq, Repr

/-- The element `tokens[i]`. The array ends with an end-of-input token, which is
also what an index past the end of the list reads here. -/
def token_at (tokens : List token) (i : Nat) : token :=
  tokens.getD i { kind := token_kind.MML_EOF, view := { data := 0, size := 0 } }

/-- `memcmp (a, b, n) == 0` on two addresses of the source buffer. -/
def memcmp_eq (src : Mem) (a b n : Nat) : Bool :=
  (List.range n).all (fun i => src (a + i) == src (b + i))

/-- The test of `macro_search` on an entry of the table:
`curr.size == name.size && memcmp (curr.data, name.data, name.size) == 0`. -/
def macro_named (src : Mem) (name : string_view) (m : macro_t) : Bool :=
  m.name.size == name.size && memcmp_eq src m.name.data name.data name.size

/-- `macro_search`: the first entry of the table, from index 0 up, that passes
the test. -/
def macro_search (src : Mem) (ctx : parser_context) (name : string_view) : Option macro_t :=
  ctx.macro_table.find? (macro_named src name)

/-- `advance`. -/
def advance (ctx : parser_context) : token × parser_context :=
  (token_at ctx.tokens ctx.idx, { ctx with idx := ctx.idx + 1 })

/-- `peek_kind`. -/
def peek_kind (ctx : parser_context) : token_kind := (token_at ctx.tokens ctx.idx).kind

/-- `expect`. -/
def expect (ctx : parser_context) (kind : token_kind) : Bool × parser_context :=
  if peek_kind ctx ≠ kind then (false, ctx) else (true, (advance ctx).2)

/-- The digits at the head of a string, in base 10, added to `acc`, and the
rest of the string. -/
def strtoul_digits : Nat → List Nat → Nat × List Nat
  | acc, [] => (acc, [])
  | acc, c :: cs => if isdigit c then strtoul_digits (acc * 10 + (c - 48)) cs else (acc, c :: cs)

/-- Modelled from the C library: `strtoul (buffer, &endptr, 10)` with a 64-bit
`unsigned long`, on the bytes of `buffer` (the string ends at its first zero
byte): the value returned and whether `*endptr == 0`. -/
def strtoul (buffer : List Nat) : Nat × Bool :=
  let str := buffer.takeWhile (fun c => c != 0)
  let s := str.dropWhile isspace
  let neg := s.head? == some 45
  let s := if s.head? == some 45 ∨ s.head? == some 43 then s.tail else s
  if (s.head?.map isdigit) == some true then
    let r := strtoul_digits 0 s
    let v := if r.1 > 18446744073709551615 then 18446744073709551615
      else if neg then (18446744073709551616 - r.1) % 18446744073709551616 else r.1
    (v, r.2.isEmpty)
  else (0, str.isEmpty)

/-- The conversion of a number token that `parse_note`, `parse_command` and
`parse_loop` each write out: copy the view into `char buffer[32]`, terminate it,
`strtoul`, `assert (*endptr == 0)`, store into an `unsigned`. -/
def read_unsigned (src : Mem) (view : string_view) : outcome Nat :=
  if view.size ≥ 32 then outcome.abort parse_abort.buffer_overflow
  else
    let r := strtoul (mem_take (ptr_add src view.data) view.size)
    if r.2 then outcome.done (u32 r.1) else outcome.abort parse_abort.assert_endptr

/-- Conversion of a `char` (signed, 8 bits) to `char32_t`. -/
def char_to_char32 (c : Nat) : Nat := if c < 128 then c else c + 4294967040

/-- `parse_expansion`. -/
def parse_expansion (src : Mem) (ctx : parser_context) : outcome (Bool × parser_context) :=
  if peek_kind ctx ≠ token_kind.MML_EXPANSION then outcome.done (false, ctx)
  else
    let d := (advance ctx).1
    let ctx := (advance ctx).2
    let ident : string_view := { data := d.view.data + 1, size := d.view.size - 1 }
    if ident.size = 0 then outcome.abort parse_abort.expected_identifier
    else
      match macro_search src ctx ident with
      | none => outcome.abort parse_abort.macro_not_defined
      | some m => outcome.done (true, { ctx with out_sequence := ctx.out_sequence ++ m.body })

/-- The `for (;;)` loop of `parse_note` that counts the dots; the first
argument is the number of tokens from `idx` to the end of the array, at which
the end-of-input token stops the loop. -/
def parse_note_dots : Nat → Nat → parser_context → Nat × parser_context
  | 0, dots, ctx => (dots, ctx)
  | n + 1, dots, ctx =>
    if peek_kind ctx ≠ token_kind.MML_DOT then (dots, ctx)
    else parse_note_dots n (u32 (dots + 1)) (advance ctx).2

/-- `parse_note`. -/
def parse_note (src : Mem) (ctx : parser_context) : outcome (Bool × parser_context) :=
  if peek_kind ctx ≠ token_kind.MML_NOTE then outcome.done (false, ctx)
  else
    let note := (advance ctx).1
    let ctx := (advance ctx).2
    let pitch := char_to_char32 (src note.view.data)
    let acc_ctx : Int × parser_context :=
      if peek_kind ctx = token_kind.MML_PLUS then (1, (advance ctx).2)
      else if peek_kind ctx = token_kind.MML_MINUS then (-1, (advance ctx).2)
      else (0, ctx)
    let acc := acc_ctx.1
    let ctx := acc_ctx.2
    let len_ctx : outcome (Nat × parser_context) :=
      if peek_kind ctx = token_kind.MML_NUMBER then
        match read_unsigned src (advance ctx).1.view with
        | outcome.done v => outcome.done (v, (advance ctx).2)
        | outcome.abort e => outcome.abort e
        | outcome.out_of_fuel => outcome.out_of_fuel
      else outcome.done (0, ctx)
    match len_ctx with
    | outcome.abort e => outcome.abort e
    | outcome.out_of_fuel => outcome.out_of_fuel
    | outcome.done (length, ctx) =>
      let dots_ctx := parse_note_dots (ctx.tokens.length - ctx.idx) 0 ctx
      let ev := mml_event.note pitch length dots_ctx.1 acc false false
      outcome.done (true, { dots_ctx.2 with out_sequence := dots_ctx.2.out_sequence ++ [ev] })

/-- `parse_command`. -/
def parse_command (src : Mem) (ctx : parser_context) : outcome (Bool × parser_context) :=
  if peek_kind ctx ≠ token_kind.MML_COMMAND then outcome.done (false, ctx)
  else
    let cmdtok := (advance ctx).1
    let ctx := (advance ctx).2
    let cmd := char_to_char32 (src cmdtok.view.data)
    let arg_ctx : outcome (Nat × parser_context) :=
      if peek_kind ctx = token_kind.MML_NUMBER then
        match read_unsigned src (advance ctx).1.view with
        | outcome.done v => outcome.done (v, (advance ctx).2)
        | outcome.abort e => outcome.abort e
        | outcome.out_of_fuel => outcome.out_of_fuel
      else outcome.done (0, ctx)
    match arg_ctx with
    | outcome.abort e => outcome.abort e
    | outcome.out_of_fuel => outcome.out_of_fuel
    | outcome.done (arg, ctx) =>
      outcome.done (true, { ctx with out_sequence := ctx.out_sequence ++ [mml_event.ctl cmd arg] })

/-- A `for (;;)` loop that calls `parse_action` (`act`) until the kind of the
next token is one of those in `stop`, and stops the process with `err` when
`act` returns false; with an iteration budget. It is the body loop and the break
loop of `parse_loop` and the body loop of `parse_definition`. -/
def scan_actions (act : parser_context → outcome (Bool × parser_context))
    (stop : token_kind → Bool) (err : parse_abort) :
    Nat → parser_context → outcome parser_context
  | 0, _ => outcome.out_of_fuel
  | n + 1, ctx =>
    if stop (peek_kind ctx) then outcome.done ctx
    else
      match act ctx with
      | outcome.done (true, ctx) => scan_actions act stop err n ctx
      | outcome.done (false, _) => outcome.abort err
      | outcome.abort e => outcome.abort e
      | outcome.out_of_fuel => outcome.out_of_fuel

/-- The test that ends the body loop of `parse_loop`:
`kind == MML_EOF || kind == MML_RBRACKET || kind == MML_COLON`. -/
def loop_body_stop (kind : token_kind) : Bool :=
  kind = token_kind.MML_EOF ∨ kind = token_kind.MML_RBRACKET ∨ kind = token_kind.MML_COLON

/-- The test that ends the break loop of `parse_loop`:
`kind == MML_EOF || kind == MML_RBRACKET`. -/
def loop_break_stop (kind : token_kind) : Bool :=
  kind = token_kind.MML_EOF ∨ kind = token_kind.MML_RBRACKET

/-- The test that ends the body loop of `parse_definition`:
`kind == MML_EOF || kind == MML_RBRACE`. -/
def definition_stop (kind : token_kind) : Bool :=
  kind = token_kind.MML_EOF ∨ kind = token_kind.MML_RBRACE

/-- The `for` loop at the end of `parse_loop`, which appends to `parent_seq`;
the first argument is the number of iterations left, `loopi - 1 - i`. -/
def parse_loop_unroll (loop_seq break_seq : List mml_event) :
    Nat → List mml_event → List mml_event
  | 0, parent_seq => parent_seq
  | n + 1, parent_seq =>
    let parent_seq := parent_seq ++ loop_seq
    let parent_seq := if break_seq.length > 0 then parent_seq ++ break_seq else parent_seq
    parse_loop_unroll loop_seq break_seq n parent_seq

/-- `parse_loop`, with `parse_action` as `act`. The two sequences that it
allocates with `calloc` start empty. -/
def parse_loop (src : Mem) (act : parser_context → outcome (Bool × parser_context))
    (ctx : parser_context) : outcome (Bool × parser_context) :=
  if peek_kind ctx ≠ token_kind.MML_LBRACKET then outcome.done (false, ctx)
  else
    let ctx := (advance ctx).2
    let parent_seq := ctx.out_sequence
    match scan_actions act loop_body_stop parse_abort.unexpected_in_loop_body
        (ctx.tokens.length + 1) { ctx with out_sequence := [] } with
    | outcome.abort e => outcome.abort e
    | outcome.out_of_fuel => outcome.out_of_fuel
    | outcome.done ctx =>
      let loop_seq := ctx.out_sequence
      let brk : outcome parser_context :=
        if peek_kind ctx = token_kind.MML_COLON then
          scan_actions act loop_break_stop parse_abort.unexpected_in_loop_break
            (ctx.tokens.length + 1) { (advance ctx).2 with out_sequence := [] }
        else outcome.done { ctx with out_sequence := [] }
      match brk with
      | outcome.abort e => outcome.abort e
      | outcome.out_of_fuel => outcome.out_of_fuel
      | outcome.done ctx =>
        let break_seq := ctx.out_sequence
        let ctx := { ctx with out_sequence := parent_seq }
        if (expect ctx token_kind.MML_RBRACKET).1 = false then
          outcome.abort parse_abort.expected_rbracket
        else
          let ctx := (expect ctx token_kind.MML_RBRACKET).2
          if peek_kind ctx ≠ token_kind.MML_NUMBER then outcome.abort parse_abort.expected_number
          else
            match read_unsigned src (advance ctx).1.view with
            | outcome.abort e => outcome.abort e
            | outcome.out_of_fuel => outcome.out_of_fuel
            | outcome.done loopi =>
              let ctx := (advance ctx).2
              let parent_seq := parse_loop_unroll loop_seq break_seq (u32_sub loopi 1) parent_seq
              outcome.done (true, { ctx with out_sequence := parent_seq ++ loop_seq })

/-- `parse_action`, with a budget for the depth of the loops it enters. -/
def parse_action (src : Mem) : Nat → parser_context → outcome (Bool × parser_context)
  | 0, _ => outcome.out_of_fuel
  | n + 1, ctx =>
    if peek_kind ctx = token_kind.MML_EOF then outcome.done (false, ctx)
    else
      match parse_note src ctx with
      | outcome.abort e => outcome.abort e
      | outcome.out_of_fuel => outcome.out_of_fuel
      | outcome.done (true, ctx) => outcome.done (true, ctx)
      | outcome.done (false, ctx) =>
        match parse_command src ctx with
        | outcome.abort e => outcome.abort e
        | outcome.out_of_fuel => outcome.out_of_fuel
        | outcome.done (true, ctx) => outcome.done (true, ctx)
        | outcome.done (false, ctx) =>
          match parse_loop src (parse_action src n) ctx with
          | outcome.abort e => outcome.abort e
          | outcome.out_of_fuel => outcome.out_of_fuel
          | outcome.done (true, ctx) => outcome.done (true, ctx)
          | outcome.done (false, ctx) =>
            match parse_expansion src ctx with
            | outcome.abort e => outcome.abort e
            | outcome.out_of_fuel => outcome.out_of_fuel
            | outcome.done (true, ctx) => outcome.done (true, ctx)
            | outcome.done (false, ctx) => outcome.done (false, ctx)

/-- `parse_definition`. The `mml_sequence` for the body comes from `malloc` and
is not initialised: `uninit` is the sequence that its fields denote, whatever
the allocator left in the block (the empty sequence when the block is
zero-filled). -/
def parse_definition (src : Mem) (uninit : List mml_event) (fuel : Nat) (ctx : parser_context) :
    outcome (Bool × parser_context) :=
  if peek_kind ctx ≠ token_kind.MML_DEFINITION then outcome.done (false, ctx)
  else
    let d := (advance ctx).1
    let ctx := (advance ctx).2
    let ident : string_view := { data := d.view.data + 1, size := d.view.size - 1 }
    if ident.size = 0 then outcome.abort parse_abort.expected_identifier
    else if (expect ctx token_kind.MML_LBRACE).1 = false then
      outcome.abort parse_abort.expected_lbrace
    else
      let ctx := (expect ctx token_kind.MML_LBRACE).2
      let parent_seq := ctx.out_sequence
      match scan_actions (parse_action src fuel) definition_stop
          parse_abort.unexpected_in_definition (ctx.tokens.length + 1)
          { ctx with out_sequence := uninit } with
      | outcome.abort e => outcome.abort e
      | outcome.out_of_fuel => outcome.out_of_fuel
      | outcome.done ctx =>
        let macro_seq := ctx.out_sequence
        let ctx := { ctx with out_sequence := parent_seq }
        if (expect ctx token_kind.MML_RBRACE).1 = false then
          outcome.abort parse_abort.expected_rbrace
        else
          let ctx := (expect ctx token_kind.MML_RBRACE).2
          if macro_seq.length = 0 then outcome.done (true, ctx)
          else
            outcome.done (true,
              { ctx with macro_table := ctx.macro_table ++ [{ name := ident, body := macro_seq }] })

/-- `parse_track`, with an iteration budget. -/
def parse_track (src : Mem) (uninit : List mml_event) (fuel : Nat) :
    Nat → parser_context → outcome parser_context
  | 0, _ => outcome.out_of_fuel
  | n + 1, ctx =>
    if peek_kind ctx = token_kind.MML_EOF ∨ peek_kind ctx = token_kind.MML_SCOLON then
      outcome.done ctx
    else if peek_kind ctx = token_kind.MML_DEFINITION then
      match parse_definition src uninit fuel ctx with
      | outcome.abort e => outcome.abort e
      | outcome.out_of_fuel => outcome.out_of_fuel
      | outcome.done (_, ctx) => parse_track src uninit fuel n ctx
    else
      match parse_action src fuel ctx with
      | outcome.abort e => outcome.abort e
      | outcome.out_of_fuel => outcome.out_of_fuel
      | outcome.done (true, ctx) => parse_track src uninit fuel n ctx
      | outcome.done (false, _) => outcome.abort parse_abort.unexpected_in_track

/-- The `for (;;)` loop of `mml_parse`, with an iteration budget; the context
holds `*out_sequence`. -/
def mml_parse_loop (src : Mem) (uninit : List mml_event) (fuel : Nat) :
    Nat → parser_context → outcome parser_context
  | 0, _ => outcome.out_of_fuel
  | n + 1, ctx =>
    if peek_kind ctx = token_kind.MML_EOF then outcome.done ctx
    else if peek_kind ctx = token_kind.MML_SCOLON then
      mml_parse_loop src uninit fuel n
        (advance { ctx with out_sequence := ctx.out_sequence ++ [mml_event.eot] }).2
    else
      match parse_track src uninit fuel (ctx.tokens.length + 1) ctx with
      | outcome.abort e => outcome.abort e
      | outcome.out_of_fuel => outcome.out_of_fuel
      | outcome.done ctx => mml_parse_loop src uninit fuel n ctx

/-- `mml_parse`: the value returned and `*out_sequence`. The views of `tokens`
point into `src`. Every budget is one more than the number of tokens. -/
def mml_parse (src : Mem) (uninit : List mml_event) (tokens : List token)
    (out_sequence : List mml_event) : outcome (Int × List mml_event) :=
  if (token_at tokens 0).kind = token_kind.MML_EOF then outcome.done (-1, out_sequence)
  else
    match mml_parse_loop src uninit (tokens.length + 1) (tokens.length + 1)
        { tokens := tokens, idx := 0, out_sequence := out_sequence, macro_table := [] } with
    | outcome.abort e => outcome.abort e
    | outcome.out_of_fuel => outcome.out_of_fuel
    | outcome.done ctx => outcome.done (0, ctx.out_sequence)

/-- The first steps of `main`: `mml_tokenize (source, 0)` on the string `text`
(free of zero bytes, followed by its terminator), then `mml_parse` into an empty
sequence. `none` where the tokenizer does not return. -/
def parse_text (uninit : List mml_event) (text : List Nat) :
    Option (outcome (Int × List mml_event)) :=
  match mml_tokenize (bytes_of text zero_mem) 0 text.length with
  | tokenize_result.tokens items => some (mml_parse (bytes_of text zero_mem) uninit items [])
  | _ => none

/-! ## The file writer (`midi-writer.h`) -/

/-- Modelled from the C library: a stream opened with `fopen (path, "wb")`, as
the bytes of the file and the file position. Writes and seeks succeed. -/
structure FILE_t where
  content : List Nat
  pos : Nat
deriving DecidableEq, Repr

/-- Modelled from the C library: `fwrite` of the bytes `data` at the file
position (a position past the end of the file leaves a gap of zero bytes). -/
def fwrite (f : FILE_t) (data : List Nat) : FILE_t :=
  { content := (f.content ++ List.replicate (f.pos - f.content.length) 0).take f.pos ++ data
      ++ f.content.drop (f.pos + data.length),
    pos := f.pos + data.length }

/-- Modelled from the C library: `fseek (f, offset, SEEK_SET)`. -/
def fseek (f : FILE_t) (offset : Nat) : FILE_t := { f with pos := offset }

/-- The struct `midi_writer_t`. -/
structure midi_writer_t where
  dst : FILE_t
  i : Nat
  ntracks : Nat
  track_offset : Nat
deriving DecidableEq, Repr

/-- `_mw_write_u32`: the value returned and the writer. -/
def _mw_write_u32 (mw : midi_writer_t) (x : Nat) : Int × midi_writer_t :=
  let b := [u8 (x >>> 24), u8 (x >>> 16), u8 (x >>> 8), u8 x]
  let n := 4
  (i32 (u32_sub n 4), { mw with dst := fwrite mw.dst b, i := u32 (mw.i + n) })

/-- `_mw_write_u16`: the value returned and the writer. -/
def _mw_write_u16 (mw : midi_writer_t) (x : Nat) : Int × midi_writer_t :=
  let b := [u8 (x >>> 8), u8 x]
  let n := 2
  (i32 (u32_sub n 2), { mw with dst := fwrite mw.dst b, i := u32 (mw.i + n) })

/-- `mw_begin`, on a writer whose stream is `dst`. -/
def mw_begin (dst : FILE_t) (format tickdiv : Nat) : Int × midi_writer_t :=
  let mw : midi_writer_t := { dst := dst, i := 0, ntracks := 0, track_offset := 0 }
  let r := _mw_write_u32 mw 0x4d546864
  if r.1 ≠ 0 then (-1, r.2) else
  let r := _mw_write_u32 r.2 6
  if r.1 ≠ 0 then (-1, r.2) else
  let r := _mw_write_u16 r.2 format
  if r.1 ≠ 0 then (-1, r.2) else
  let r := _mw_write_u16 r.2 0xAFAF
  if r.1 ≠ 0 then (-1, r.2) else
  let r := _mw_write_u16 r.2 tickdiv
  if r.1 ≠ 0 then (-1, r.2) else
  (0, r.2)

/-- `mw_track_begin`. -/
def mw_track_begin (mw : midi_writer_t) : Int × midi_writer_t :=
  let r := _mw_write_u32 mw 0x4d54726b
  if r.1 ≠ 0 then (-1, r.2) else
  let r := _mw_write_u32 r.2 0xFAFAFAFA
  if r.1 ≠ 0 then (-1, r.2) else
  (0, { r.2 with track_offset := r.2.i })

/-- `mw_track_append` of the `len` bytes `data`. -/
def mw_track_append (mw : midi_writer_t) (data : List Nat) : Int × midi_writer_t :=
  if data.length = 0 then (-1, mw)
  else (0, { mw with dst := fwrite mw.dst data, i := u32 (mw.i + data.length) })

/-- `mw_track_end`. -/
def mw_track_end (mw : midi_writer_t) : Int × midi_writer_t :=
  let saved_i := mw.i
  let mw := { mw with dst := fseek mw.dst (u32_sub mw.track_offset 4) }
  let track_len := u32_sub saved_i mw.track_offset
  let r := _mw_write_u32 mw track_len
  if r.1 ≠ 0 then (-1, { r.2 with dst := fseek r.2.dst saved_i }) else
  let mw := { r.2 with i := saved_i }
  let mw := { mw with dst := fseek mw.dst saved_i }
  (0, { mw with ntracks := u16 (mw.ntracks + 1) })

/-- `mw_end`. -/
def mw_end (mw : midi_writer_t) : Int × midi_writer_t :=
  let mw := { mw with dst := fseek mw.dst 10 }
  let r := _mw_write_u16 mw mw.ntracks
  if r.1 ≠ 0 then (-1, r.2) else (0, r.2)

/-! ## The translator (`mml-writer-midi.c`) -/

/-- Conversion of an `int` to `uint8_t`. -/
def int_to_u8 (x : Int) : Nat := (x % 256).toNat

/-- Truncation of a value stored into a `size_t` (64 bits). -/
def u64 (x : Nat) : Nat := x % 18446744073709551616

/-- Subtraction of two `size_t` values, wrapping below zero. -/
def u64_sub (a b : Nat) : Nat :=
  if u64 b ≤ u64 a then u64 a - u64 b else 18446744073709551616 - (u64 b - u64 a)

/-- `pitch_to_midi_note`; `octave` is the `uint8_t` argument. -/
def pitch_to_midi_note (pitch : Nat) (octave : Nat) (accidental : Int) : Int :=
  let pitch := tolower pitch
  let base_note : Option Int :=
    if pitch = 99 then some 0
    else if pitch = 100 then some 2
    else if pitch = 101 then some 4
    else if pitch = 102 then some 5
    else if pitch = 103 then some 7
    else if pitch = 97 then some 9
    else if pitch = 98 then some 11
    else none
  match base_note with
  | none => -1
  | some base_note =>
    let midi_note : Int := ((octave : Int) + 1) * 12 + base_note + accidental
    let midi_note := if midi_note < 0 then 0 else midi_note
    let midi_note := if midi_note > 127 then 127 else midi_note
    midi_note

/-- The `for` loop of `calculate_duration`; the first argument is `dots - i`.
Returns `total_ticks`. -/
def calculate_duration_loop : Nat → Nat → Nat → Nat
  | 0, total_ticks, _ => total_ticks
  | n + 1, total_ticks, dot_add =>
    let dot_add := dot_add / 2
    calculate_duration_loop n (u32 (total_ticks + dot_add)) dot_add

/-- `calculate_duration`. -/
def calculate_duration (length dots ticks_per_quarter : Nat) : Nat :=
  if length = 0 then 0
  else
    let base_ticks := u32 (4 * ticks_per_quarter) / length
    calculate_duration_loop dots base_ticks base_ticks

/-- The struct `mml_context`. `events` is the sequence that the pointer of that
name points to (the translator stores default lengths into its notes). -/
structure mml_context where
  mw : midi_writer_t
  last_status : Nat
  events : List mml_event
  offset : Nat
  tempo_us : Nat
  ticks_per_quarter : Nat
  current_tick : Nat
  default_length : Nat
  octave : Int
  velocity : Nat
  channel : Nat
  active_notes : List Bool
deriving DecidableEq, Repr

/-- The struct `chord_note_t`. -/
structure chord_note_t where
  midi_note : Nat
  is_tied : Bool
deriving DecidableEq, Repr

/-- What a translator function can end in: its result, a division by zero, a
call of `abort ()`, a store past the end of the array `batch` of
`process_track`, or (in this model only) the end of the iteration budget. -/
inductive translated (α : Type) where
  | done (a : α)
  | division_by_zero
  | abort
  | out_of_bounds
  | out_of_fuel
deriving DecidableEq, Repr

/-- `write_tempo`: the value returned and the writer. -/
def write_tempo (mw : midi_writer_t) (delta tempo_us : Nat) : Int × midi_writer_t :=
  let data := [(tempo_us >>> 16) &&& 0xff, (tempo_us >>> 8) &&& 0xff, tempo_us &&& 0xff]
  let ev : track_event_t :=
    { track_event_zero with
      kind := midi_event_kind.EV_META, delta := delta,
      meta_type := 0x51, meta_length := 3, meta_data := bytes_of data zero_mem }
  let r := track_event_to_bytes ev
  if r.ret < 0 then (-1, mw) else mw_track_append mw (r.out.take r.ret.toNat)

/-- `write_midi`: the value returned and the context. -/
def write_midi (ctx : mml_context) (delta : Nat) (midiev : midi_event_t) : Int × mml_context :=
  let status := u8 ((midiev.kind <<< 4) ||| (midiev.channel &&& 0x0F))
  let d := midi_vlq_encode delta
  match midi_event_to_bytes midiev (ctx.last_status == status) with
  | none => (-1, ctx)
  | some bs =>
    let ctx := { ctx with mw := (mw_track_append ctx.mw (d ++ bs)).2 }
    (((d.length + bs.length : Nat) : Int), { ctx with last_status := status })

/-- `write_end_of_track`: the value returned and the writer. -/
def write_end_of_track (mw : midi_writer_t) (delta : Nat) : Int × midi_writer_t :=
  let ev : track_event_t :=
    { track_event_zero with
      kind := midi_event_kind.EV_META, delta := delta,
      meta_type := 0x2F, meta_length := 0, meta_data := zero_mem }
  let r := track_event_to_bytes ev
  if r.ret < 0 then (-1, mw) else mw_track_append mw (r.out.take r.ret.toNat)

/-- `process_control`. -/
def process_control (ctx : mml_context) (cmd arg : Nat) : translated mml_context :=
  if cmd = 116 then
    if arg = 0 then translated.division_by_zero
    else
      let ctx := { ctx with tempo_us := 60000000 / arg }
      translated.done { ctx with mw := (write_tempo ctx.mw 0 ctx.tempo_us).2 }
  else if cmd = 111 then translated.done { ctx with octave := i32 arg }
  else if cmd = 118 then translated.done { ctx with velocity := u8 (arg % 127) }
  else if cmd = 108 then translated.done { ctx with default_length := arg }
  else if cmd = 62 then translated.done { ctx with octave := ctx.octave + 1 }
  else if cmd = 60 then translated.done { ctx with octave := ctx.octave - 1 }
  else translated.abort

/-- What the `while` loop of `process_track` that gathers a batch carries. -/
structure batch_state where
  ctx : mml_context
  batch : List chord_note_t
  step_duration : Nat
  step_complete : Bool
deriving DecidableEq, Repr

/-- The `while (!step_complete && ctx->offset < ctx->events->size)` loop of
`process_track`; the first argument is `size - offset`. -/
def process_track_gather : Nat → batch_state → batch_state
  | 0, s => s
  | n + 1, s =>
    if s.step_complete then s
    else
      match s.ctx.events.getD s.ctx.offset mml_event.eot with
      | mml_event.note pitch length dots acc chord_link tie =>
        let note := pitch_to_midi_note pitch (int_to_u8 s.ctx.octave) acc
        let batch :=
          if note ≥ 0 then s.batch ++ [{ midi_note := u8 note.toNat, is_tied := tie }]
          else s.batch
        let s := { s with batch := batch }
        let s :=
          if chord_link = false then
            let length := if length = 0 then s.ctx.default_length else length
            { s with
              ctx := { s.ctx with
                events := s.ctx.events.set s.ctx.offset
                  (mml_event.note pitch length dots acc chord_link tie) },
              step_duration := calculate_duration length dots s.ctx.ticks_per_quarter,
              step_complete := true }
          else s
        process_track_gather n { s with ctx := { s.ctx with offset := s.ctx.offset + 1 } }
      | _ => s

/-- The first `for` loop of `process_track` over the batch, from index `i`:
the context and `delta`. -/
def process_track_on : List chord_note_t → Nat → mml_context → Nat → mml_context × Nat
  | [], _, ctx, delta => (ctx, delta)
  | c :: rest, i, ctx, delta =>
    if ctx.active_notes.getD c.midi_note false = false then
      let mev : midi_event_t :=
        { kind := MIDI_NOTE_ON, channel := ctx.channel, bytes0 := c.midi_note,
          bytes1 := ctx.velocity }
      let ctx := (write_midi ctx (if i = 0 then delta else 0) mev).2
      let delta := if i = 0 then 0 else delta
      let ctx := { ctx with active_notes := ctx.active_notes.set c.midi_note true }
      process_track_on rest (i + 1) ctx delta
    else process_track_on rest (i + 1) ctx delta

/-- What the second `for` loop of `process_track` over the batch carries. -/
structure off_state where
  ctx : mml_context
  first_off : Bool
  off_delta : Nat
  last_tick : Nat
deriving DecidableEq, Repr

/-- The second `for` loop of `process_track` over the batch. -/
def process_track_off : List chord_note_t → off_state → off_state
  | [], s => s
  | c :: rest, s =>
    if c.is_tied = false then
      let mev : midi_event_t :=
        { kind := MIDI_NOTE_ON, channel := s.ctx.channel, bytes0 := c.midi_note, bytes1 := 0 }
      let ctx := (write_midi s.ctx (if s.first_off then s.off_delta else 0) mev).2
      let s := { s with ctx := ctx }
      let s :=
        if s.first_off then
          { s with off_delta := 0, last_tick := u32 s.ctx.current_tick, first_off := false }
        else s
      process_track_off rest
        { s with ctx := { s.ctx with active_notes := s.ctx.active_notes.set c.midi_note false } }
    else process_track_off rest s

/-- The `for (;;)` loop of `process_track`, with an iteration budget: the value
returned (`last_tick`) and the context. The array `batch` has 128 elements: a
batch of more notes than that has been stored past its end. -/
def process_track_loop : Nat → mml_context → Nat → translated (Nat × mml_context)
  | 0, _, _ => translated.out_of_fuel
  | n + 1, ctx, last_tick =>
    if ctx.offset ≥ ctx.events.length then translated.done (last_tick, ctx)
    else
      match ctx.events.getD ctx.offset mml_event.eot with
      | mml_event.eot => translated.done (last_tick, { ctx with offset := ctx.offset + 1 })
      | mml_event.ctl cmd value =>
        match process_control { ctx with offset := ctx.offset + 1 } cmd value with
        | translated.done ctx => process_track_loop n ctx last_tick
        | translated.division_by_zero => translated.division_by_zero
        | translated.abort => translated.abort
        | translated.out_of_bounds => translated.out_of_bounds
        | translated.out_of_fuel => translated.out_of_fuel
      | mml_event.note _ _ _ _ _ _ =>
        let g := process_track_gather (ctx.events.length - ctx.offset)
          { ctx := ctx, batch := [], step_duration := 0, step_complete := false }
        if g.batch.length > 128 then translated.out_of_bounds else
        let ctx := g.ctx
        let delta := u32 (u64_sub ctx.current_tick last_tick)
        let ctx := (process_track_on g.batch 0 ctx delta).1
        let last_tick := if g.batch.length > 0 then u32 ctx.current_tick else last_tick
        let ctx := { ctx with current_tick := u64 (ctx.current_tick + g.step_duration) }
        let s := process_track_off g.batch
          { ctx := ctx, first_off := true,
            off_delta := u32 (u64_sub ctx.current_tick last_tick),
            last_tick := last_tick }
        process_track_loop n s.ctx s.last_tick

/-- `process_track`. The loop is given one iteration more than there are
events from `offset` on. -/
def process_track (ctx : mml_context) : translated (Nat × mml_context) :=
  let ctx := { ctx with active_notes := List.replicate 128 false }
  process_track_loop (ctx.events.length - ctx.offset + 1) ctx 0

/-- The body of the `for (;;)` loop of `mml_write_midi` from the reset of the
state to the increment of the channel: one track. -/
def mml_write_midi_track (ctx : mml_context) : translated mml_context :=
  let ctx := { ctx with
    current_tick := 0, default_length := 4, tempo_us := 500000, octave := 4,
    velocity := 100, last_status := 0 }
  let ctx := { ctx with mw := (mw_track_begin ctx.mw).2 }
  let ctx := { ctx with mw := (write_tempo ctx.mw 0 ctx.tempo_us).2 }
  match process_track ctx with
  | translated.division_by_zero => translated.division_by_zero
  | translated.abort => translated.abort
  | translated.out_of_bounds => translated.out_of_bounds
  | translated.out_of_fuel => translated.out_of_fuel
  | translated.done (t, ctx) =>
    let ctx := { ctx with mw := (write_end_of_track ctx.mw t).2 }
    let ctx := { ctx with mw := (mw_track_end ctx.mw).2 }
    translated.done { ctx with channel := u8 (ctx.channel + 1) }

/-- The `for (;;)` loop of `mml_write_midi`, with an iteration budget. -/
def mml_write_midi_loop : Nat → mml_context → translated mml_context
  | 0, _ => translated.out_of_fuel
  | n + 1, ctx =>
    if ctx.offset ≥ ctx.events.length then translated.done ctx
    else
      match mml_write_midi_track ctx with
      | translated.division_by_zero => translated.division_by_zero
      | translated.abort => translated.abort
      | translated.out_of_bounds => translated.out_of_bounds
      | translated.out_of_fuel => translated.out_of_fuel
      | translated.done ctx =>
        if ctx.channel ≥ 16 then translated.done ctx else mml_write_midi_loop n ctx

/-- The context of `mml_write_midi` when it enters its loop: the initializer of
`ctx` (the members it does not name are zero) and the writer after `mw_begin`
on the file just opened. `MIDI_FMT_MTRACK` is 1. -/
def mml_write_midi_start (events : List mml_event) : mml_context :=
  let file : FILE_t := { content := [], pos := 0 }
  let ctx : mml_context :=
    { mw := { dst := file, i := 0, ntracks := 0, track_offset := 0 },
      last_status := 0, events := events, offset := 0, tempo_us := 0,
      ticks_per_quarter := 480, current_tick := 0, default_length := 0, octave := 0,
      velocity := 0, channel := 0, active_notes := List.replicate 128 false }
  { ctx with mw := (mw_begin file 1 ctx.ticks_per_quarter).2 }

/-- `mml_write_midi` for a file that opens: the value returned and the file
written. The channel starts at 0 and the loop ends when it reaches 16, so 16
iterations are all the loop can make. -/
def mml_write_midi (events : List mml_event) : translated (Int × FILE_t) :=
  match mml_write_midi_loop 16 (mml_write_midi_start events) with
  | translated.division_by_zero => translated.division_by_zero
  | translated.abort => translated.abort
  | translated.out_of_bounds => translated.out_of_bounds
  | translated.out_of_fuel => translated.out_of_fuel
  | translated.done ctx => translated.done (0, (mw_end ctx.mw).2.dst)

/-! ## Statement devices -/

/-- What a decoded track event holds, the payload of a meta or system-exclusive
event being given as the bytes that its pointer and length denote. -/
structure event_summary where
  kind : midi_event_kind
  delta : Nat
  midi : midi_event_t
  meta_type : Nat
  payload : List Nat
deriving DecidableEq, Repr

/-- The summary of a track event: the member of the union that `kind` selects. -/
def summary_of (e : track_event_t) : event_summary :=
  match e.kind with
  | midi_event_kind.EV_MIDI =>
    { kind := e.kind, delta := e.delta, midi := e.midi, meta_type := 0, payload := [] }
  | midi_event_kind.EV_META =>
    { kind := e.kind, delta := e.delta, midi := midi_event_zero, meta_type := e.meta_type,
      payload := mem_take e.meta_data e.meta_length }
  | midi_event_kind.EV_SYSEX =>
    { kind := e.kind, delta := e.delta, midi := midi_event_zero, meta_type := 0,
      payload := mem_take e.sysex_data e.sysex_length }

/-- The events of a track: what successive calls of `track_event_next` decode
from the data of the track, each into a zero-initialized event, until the data
is used up; `none` when a call fails or the budget of calls ends. -/
def track_events : Nat → track_parser_t → Option (List event_summary)
  | 0, _ => none
  | n + 1, p =>
    if p.idx ≥ p.len then some []
    else
      let r := track_event_next p track_event_zero
      if r.ret < 0 then none
      else (track_events n r.p).map (fun l => summary_of r.e :: l)

/-- The track event that a summary describes: the payload of a meta or
system-exclusive event is pointed to with its length. -/
def event_of_summary (s : event_summary) : track_event_t :=
  { kind := s.kind, delta := s.delta, midi := s.midi,
    sysex_length := s.payload.length, sysex_data := bytes_of s.payload zero_mem,
    meta_type := s.meta_type, meta_length := s.payload.length,
    meta_data := bytes_of s.payload zero_mem }

/-- The bytes that the translator appends to a track for an event when the last
status it has written is `last_status`: a channel event as `write_midi` writes
it (the delta-time, then the event with its status byte left out when it is
`last_status`), any other event as `write_tempo` and `write_end_of_track` write
theirs (`track_event_to_bytes`). -/
def written_event (last_status : Nat) (s : event_summary) : List Nat :=
  match s.kind with
  | midi_event_kind.EV_MIDI =>
    midi_vlq_encode s.delta ++
      ((midi_event_to_bytes s.midi
        (last_status == u8 ((s.midi.kind <<< 4) ||| (s.midi.channel &&& 0x0F)))).getD [])
  | _ => (track_event_to_bytes (event_of_summary s)).out

/-- The last status of the translator after it has written an event:
`write_midi` stores the status of the channel event, `write_tempo` and
`write_end_of_track` store nothing. -/
def status_after_event (last_status : Nat) (s : event_summary) : Nat :=
  match s.kind with
  | midi_event_kind.EV_MIDI => u8 ((s.midi.kind <<< 4) ||| (s.midi.channel &&& 0x0F))
  | _ => last_status

/-- The bytes that the translator appends to a track for a list of events. -/
def written_events : Nat → List event_summary → List Nat
  | _, [] => []
  | last_status, s :: rest =>
    written_event last_status s ++ written_events (status_after_event last_status s) rest

/-- The four bytes of a 32-bit value, most significant first. -/
def be32 (x : Nat) : List Nat := [x / 16777216 % 256, x / 65536 % 256, x / 256 % 256, x % 256]

/-- The two bytes of a 16-bit value, most significant first. -/
def be16 (x : Nat) : List Nat := [x / 256 % 256, x % 256]

/-- A track chunk: `MTrk`, the length of the data in four bytes, the data. -/
def track_chunk (data : List Nat) : List Nat := [0x4d, 0x54, 0x72, 0x6b] ++ be32 data.length ++ data

/-- The header chunk: `MThd`, the length 6, then format, track count and
division in two bytes each. -/
def header_chunk (format ntracks tickdiv : Nat) : List Nat :=
  [0x4d, 0x54, 0x68, 0x64] ++ be32 6 ++ be16 format ++ be16 ntracks ++ be16 tickdiv

/-- A caller's `mw_track_append` of each buffer in turn: the values returned,
in order, and the writer. -/
def mw_track_appends (mw : midi_writer_t) : List (List Nat) → List Int × midi_writer_t
  | [] => ([], mw)
  | b :: bs =>
    ((mw_track_append mw b).1 :: (mw_track_appends (mw_track_append mw b).2 bs).1,
     (mw_track_appends (mw_track_append mw b).2 bs).2)

/-- One track as a caller of the writer makes it: `mw_track_begin`, then
`mw_track_append` of each buffer, then `mw_track_end`; the values returned, in
order, and the writer. -/
def mw_write_track (mw : midi_writer_t) (bufs : List (List Nat)) : List Int × midi_writer_t :=
  ((mw_track_begin mw).1 :: (mw_track_appends (mw_track_begin mw).2 bufs).1
      ++ [(mw_track_end (mw_track_appends (mw_track_begin mw).2 bufs).2).1],
   (mw_track_end (mw_track_appends (mw_track_begin mw).2 bufs).2).2)

/-- Tracks written one after the other, each as `mw_write_track`. -/
def mw_write_tracks (mw : midi_writer_t) : List (List (List Nat)) → List Int × midi_writer_t
  | [] => ([], mw)
  | t :: ts =>
    ((mw_write_track mw t).1 ++ (mw_write_tracks (mw_write_track mw t).2 ts).1,
     (mw_write_tracks (mw_write_track mw t).2 ts).2)

/-- The file as `fopen (path, "wb")` leaves it: empty, at position 0. -/
def file_opened : FILE_t := { content := [], pos := 0 }

/-- The duration formula in the words of the specification:
`base + Σ (base / 2^i for i in 1..=dots)`. -/
def duration_formula (base dots : Nat) : Nat :=
  base + ((List.range dots).map (fun i => base / 2 ^ (i + 1))).sum

/-- The note number in the words of the specification:
`(octave+1)×12 + offset + accidental`, clamped to [0,127]. -/
def note_number_formula (octave offset accidental : Int) : Int :=
  max 0 (min 127 ((octave + 1) * 12 + offset + accidental))

/-- The local `u8char_len` of `read_next_token` once it is set: the length
that the first byte of the token announces, cut to the bytes left. -/
def token_char_len (lexer : mmlexer) : Nat :=
  if (skip_whitespace lexer).offset + utf8_char_len (lexer.data (skip_whitespace lexer).offset)
      > lexer.size
  then lexer.size - (skip_whitespace lexer).offset
  else utf8_char_len (lexer.data (skip_whitespace lexer).offset)

/-- The bytes of `data` from `start` on of which `len` is the length of the
maximal run that satisfies `p`, in a buffer of `size` bytes: the run lies in the
buffer, every byte of it satisfies `p`, and the byte after it, if the buffer has
one, does not. -/
def maximal_run (p : Nat → Bool) (data : Mem) (start size len : Nat) : Prop :=
  start + len ≤ size ∧ (∀ i, i < len → p (data (start + i)) = true)
    ∧ (start + len < size → p (data (start + len)) = false)

/-! ## Concrete source texts -/

/-- The text `c4`. -/
def text_c4 : List Nat := [99, 52]

/-- The text `cde;`. -/
def text_cde : List Nat := [99, 100, 101, 59]

/-- The text `!x{cde}@x;`. -/
def text_macro_cde : List Nat := [33, 120, 123, 99, 100, 101, 125, 64, 120, 59]

/-- The text `[cd:e]3;`. -/
def text_loop_cd_e_3 : List Nat := [91, 99, 100, 58, 101, 93, 51, 59]

/-- The text `cdecdecd;`. -/
def text_cdecdecd : List Nat := [99, 100, 101, 99, 100, 101, 99, 100, 59]

/-- The text `[c]0;`. -/
def text_loop_c_0 : List Nat := [91, 99, 93, 48, 59]

/-- The text `!x{@x}`. -/
def text_self_reference : List Nat := [33, 120, 123, 64, 120, 125]

/-- The text `@y!y{c};`. -/
def text_forward_reference : List Nat := [64, 121, 33, 121, 123, 99, 125, 59]

/-- The text `!x{}@x;`. -/
def text_empty_definition : List Nat := [33, 120, 123, 125, 64, 120, 59]

/-- The text `t120 o4 c4;`. -/
def text_t120_o4_c4 : List Nat := [116, 49, 50, 48, 32, 111, 52, 32, 99, 52, 59]

/-- The text `o0<c;`. -/
def text_o0_down_c : List Nat := [111, 48, 60, 99, 59]

/-- The text `@ab1 c`. -/
def text_reference_ab1 : List Nat := [64, 97, 98, 49, 32, 99]

/-- A sequence of one event, as a block that `malloc` hands out again may still
denote: a rest of length 1. -/
def stale_sequence : List mml_event := [mml_event.note 114 1 0 0 false false]

/-- The tokens of `[cd:e]3;`. -/
def tokens_loop_cd_e_3 : List token :=
  [{ kind := token_kind.MML_LBRACKET, view := { data := 0, size := 1 } },
   { kind := token_kind.MML_NOTE, view := { data := 1, size := 1 } },
   { kind := token_kind.MML_NOTE, view := { data := 2, size := 1 } },
   { kind := token_kind.MML_COLON, view := { data := 3, size := 1 } },
   { kind := token_kind.MML_NOTE, view := { data := 4, size := 1 } },
   { kind := token_kind.MML_RBRACKET, view := { data := 5, size := 1 } },
   { kind := token_kind.MML_NUMBER, view := { data := 6, size := 1 } },
   { kind := token_kind.MML_SCOLON, view := { data := 7, size := 1 } },
   { kind := token_kind.MML_EOF, view := { data := 0, size := 0 } }]

/-- The parser at the start of `[cd:e]3;`, the output sequence holding one
event already. -/
def context_loop_cd_e_3 : parser_context :=
  { tokens := tokens_loop_cd_e_3, idx := 0, out_sequence := [mml_event.ctl 111 4],
    macro_table := [] }

/-- The parser after the body `cd` of `[cd:e]3;`, the output sequence being the
body sequence. -/
def context_loop_cd_e_3_body : parser_context :=
  { tokens := tokens_loop_cd_e_3, idx := 3,
    out_sequence := [mml_event.note 99 0 0 0 false false, mml_event.note 100 0 0 0 false false],
    macro_table := [] }

/-- The parser after the break section `e` of `[cd:e]3;`, the output sequence
being the break sequence. -/
def context_loop_cd_e_3_break : parser_context :=
  { tokens := tokens_loop_cd_e_3, idx := 5,
    out_sequence := [mml_event.note 101 0 0 0 false false], macro_table := [] }

/-- The tokens of `[c]0;`. -/
def tokens_loop_c_0 : List token :=
  [{ kind := token_kind.MML_LBRACKET, view := { data := 0, size := 1 } },
   { kind := token_kind.MML_NOTE, view := { data := 1, size := 1 } },
   { kind := token_kind.MML_RBRACKET, view := { data := 2, size := 1 } },
   { kind := token_kind.MML_NUMBER, view := { data := 3, size := 1 } },
   { kind := token_kind.MML_SCOLON, view := { data := 4, size := 1 } },
   { kind := token_kind.MML_EOF, view := { data := 0, size := 0 } }]

/-- The parser at the start of `[c]0;`, the output sequence empty. -/
def context_loop_c_0 : parser_context :=
  { tokens := tokens_loop_c_0, idx := 0, out_sequence := [], macro_table := [] }

/-- The parser after the body `c` of `[c]0;`, the output sequence being the
body sequence. -/
def context_loop_c_0_body : parser_context :=
  { tokens := tokens_loop_c_0, idx := 2,
    out_sequence := [mml_event.note 99 0 0 0 false false], macro_table := [] }

/-- The parser of `[c]0;` after the absent break section: the break sequence
is empty. -/
def context_loop_c_0_break : parser_context :=
  { tokens := tokens_loop_c_0, idx := 2, out_sequence := [], macro_table := [] }

/-- The data of the track that the translation of `t120 o4 c4;` writes. -/
def track_t120_o4_c4 : List Nat :=
  [0x00, 0xFF, 0x51, 0x03, 0x07, 0xA1, 0x20,
   0x00, 0xFF, 0x51, 0x03, 0x07, 0xA1, 0x20,
   0x00, 0x90, 0x3C, 0x64,
   0x83, 0x60, 0x3C, 0x00,
   0x83, 0x60, 0xFF, 0x2F, 0x00]

/-- The data of the track that the translation of `o0<c;` writes. -/
def track_o0_down_c : List Nat :=
  [0x00, 0xFF, 0x51, 0x03, 0x07, 0xA1, 0x20,
   0x00, 0x90, 0x7F, 0x64,
   0x83, 0x60, 0x7F, 0x00,
   0x83, 0x60, 0xFF, 0x2F, 0x00]

/-- The header chunk that `mw_begin` and `mw_end` write for one track at
division 480: `MThd`, length 6, format 1, 1 track, 480. -/
def header_one_track : List Nat := [77, 84, 104, 100, 0, 0, 0, 6, 0, 1, 0, 1, 1, 224]

/-- A tempo meta event at delta 0: 500000 microseconds per quarter note. -/
def summary_tempo : event_summary :=
  { kind := midi_event_kind.EV_META, delta := 0, midi := midi_event_zero, meta_type := 0x51,
    payload := [0x07, 0xA1, 0x20] }

/-- A Note-On event on channel 0 for note 60 (`kind` is `MIDI_NOTE_ON`). -/
def summary_note_on (delta velocity : Nat) : event_summary :=
  { kind := midi_event_kind.EV_MIDI, delta := delta,
    midi := { kind := MIDI_NOTE_ON, channel := 0, bytes0 := 60, bytes1 := velocity },
    meta_type := 0, payload := [] }

/-- The end-of-track meta event. -/
def summary_end_of_track (delta : Nat) : event_summary :=
  { kind := midi_event_kind.EV_META, delta := delta, midi := midi_event_zero, meta_type := 0x2F,
    payload := [] }

/-! ## Statement devices of the translator and the file writer -/

/-- The translator's tick when its loop ends and the bytes of the file at that
point (before `mw_end`), for a sequence on which the loop ends. -/
def mml_write_midi_final (events : List mml_event) : Option (Nat × List Nat) :=
  match mml_write_midi_loop 16 (mml_write_midi_start events) with
  | translated.done ctx => some (ctx.current_tick, ctx.mw.dst.content)
  | _ => none

/-! ## Concrete event sequences -/

/-- The events of `c4;`. -/
def events_c4 : List mml_event := [mml_event.note 99 4 0 0 false false, mml_event.eot]

/-- The events of `r4;`. -/
def events_r4 : List mml_event := [mml_event.note 114 4 0 0 false false, mml_event.eot]

/-- The events of `t1;`. -/
def events_t1 : List mml_event := [mml_event.ctl 116 1, mml_event.eot]

/-- The events of `c t120 c;`. -/
def events_c_t120_c : List mml_event :=
  [mml_event.note 99 0 0 0 false false, mml_event.ctl 116 120,
   mml_event.note 99 0 0 0 false false, mml_event.eot]

/-- A quarter note c that is tied, then the chord of c and e, a quarter note
long: c is still sounding when the chord starts. -/
def events_tied_chord : List mml_event :=
  [mml_event.note 99 4 0 0 false true, mml_event.note 99 4 0 0 true false,
   mml_event.note 101 4 0 0 false false, mml_event.eot]

/-- The text `c t120 c;`. -/
def text_c_t120_c : List Nat := [99, 32, 116, 49, 50, 48, 32, 99, 59]

/-- The text `t1;`. -/
def text_t1 : List Nat := [116, 49, 59]

/-- The text `c4;`. -/
def text_c4_track : List Nat := [99, 52, 59]

/-- The text `r4;`. -/
def text_r4_track : List Nat := [114, 52, 59]

/-- A Note-On event on channel 0. -/
def summary_note (delta note velocity : Nat) : event_summary :=
  { kind := midi_event_kind.EV_MIDI, delta := delta,
    midi := { kind := MIDI_NOTE_ON, channel := 0, bytes0 := note, bytes1 := velocity },
    meta_type := 0, payload := [] }

/-- The writer is in step with its file: the file position is the end of the
file, and the offset `i` that the writer keeps is that position. -/
def mw_synced (mw : midi_writer_t) : Prop :=
  mw.dst.pos = mw.dst.content.length ∧ mw.i = mw.dst.content.length

/-- The chunks of a list of tracks, each given as the buffers appended to it. -/
def track_chunks (tracks : List (List (List Nat))) : List Nat :=
  (tracks.map (fun t => track_chunk t.flatten)).flatten

/-- A track as a caller appends it: a tempo meta event in one buffer. -/
def sample_buffers_tempo : List (List Nat) := [[0x00, 0xFF, 0x51, 0x03, 0x07, 0xA1, 0x20]]

/-- A track as a caller appends it: a Note-On, a Note-On with velocity 0 that
leaves out the status byte, and the end of the track, in three buffers. -/
def sample_buffers_note : List (List Nat) :=
  [[0x00, 0x90, 0x3C, 0x64], [0x83, 0x60, 0x3C, 0x00], [0x00, 0xFF, 0x2F, 0x00]]

/-- The writer after `mw_begin` with format 1 and division 480 on the file just
opened and one track written. -/
def sample_writer : midi_writer_t :=
  (mw_write_tracks (mw_begin file_opened 1 480).2 [sample_buffers_tempo]).2

/-- The buffers that the translator appends to a track for a list of events,
one buffer for each event. -/
def event_buffers : Nat → List event_summary → List (List Nat)
  | _, [] => []
  | last_status, s :: rest =>
    written_event last_status s :: event_buffers (status_after_event last_status s) rest

/-- The last status of the translator after it has written a list of events. -/
def status_after_events : Nat → List event_summary → Nat
  | last_status, [] => last_status
  | last_status, s :: rest => status_after_events (status_after_event last_status s) rest

/-- The summary of a channel event. -/
def summary_midi (delta : Nat) (m : midi_event_t) : event_summary :=
  { kind := midi_event_kind.EV_MIDI, delta := delta, midi := m, meta_type := 0, payload := [] }

/-- The summary of a meta event. -/
def summary_meta (delta type : Nat) (payload : List Nat) : event_summary :=
  { kind := midi_event_kind.EV_META, delta := delta, midi := midi_event_zero, meta_type := type,
    payload := payload }

/-- An event as the translator writes it between the first tempo event and the
end of a track on channel `ch`: a tempo meta event with three payload bytes, or
a Note-On on that channel with a note and a velocity below 128. -/
def translator_event (ch : Nat) (s : event_summary) : Prop :=
  s.delta < 4294967296
  ∧ ((∃ b2 b1 b0 : Nat, b2 < 256 ∧ b1 < 256 ∧ b0 < 256
        ∧ s = summary_meta s.delta 0x51 [b2, b1, b0])
    ∨ (∃ note velocity : Nat, note < 128 ∧ velocity < 128
        ∧ s = summary_midi s.delta
            { kind := MIDI_NOTE_ON, channel := ch, bytes0 := note, bytes1 := velocity }))

/-- The events of a track as the translator writes it on channel `ch`: the
tempo meta event with the default tempo at delta 0, events of the track, and
the end-of-track meta event. -/
def translator_track (ch : Nat) (evs : List event_summary) : Prop :=
  ∃ (mid : List event_summary) (t : Nat),
    evs = summary_meta 0 0x51 [0x07, 0xA1, 0x20] :: (mid ++ [summary_meta t 0x2F []])
    ∧ t < 4294967296 ∧ ∀ s ∈ mid, translator_event ch s

/-- What holds of the translator inside a track on channel `ch`, `mw0` being
the writer after the `mw_track_begin` of the track and `evs` the events written
to the track so far: the writer is `mw0` after one `mw_track_append` for each
event, the last status is the one that these events leave, the events are
translator events, and the velocity is below 128. -/
def track_inv (mw0 : midi_writer_t) (ch : Nat) (ctx : mml_context)
    (evs : List event_summary) : Prop :=
  ctx.mw = (mw_track_appends mw0 (event_buffers 0 evs)).2
  ∧ ctx.last_status = status_after_events 0 evs
  ∧ (∀ s ∈ evs, translator_event ch s)
  ∧ ctx.channel = ch ∧ ch < 16 ∧ ctx.velocity < 128

/-- The tracks that the translator writes from channel `ch` on: the first is a
translator track on channel `ch`, the next on channel `ch + 1`, and so on. -/
def translator_tracks : Nat → List (List event_summary) → Prop
  | _, [] => True
  | ch, t :: ts => translator_track ch t ∧ translator_tracks (ch + 1) ts

/-- Two contexts of the translator that differ at most in the writer, in the
events and in the offset. -/
def same_state (a b : mml_context) : Prop :=
  { a with mw := b.mw, events := b.events, offset := b.offset } = b

/-- Two runs of the translator inside a track on channel `ch` that have written
the same events `evs` so far, one to a writer that was `mwa` after the
`mw_track_begin` of the track and one to a writer that was `mwb`, and that
differ at most in the writer, in the events and in the offset. -/
def track_rel (mwa mwb : midi_writer_t) (ch : Nat) (a b : mml_context)
    (evs : List event_summary) : Prop :=
  track_inv mwa ch a evs ∧ track_inv mwb ch b evs ∧ same_state a b

/-- The events that two contexts have still to read are the same up to the end
of the track: the same events `s`, after which both sequences end or which end
with the end of a track. -/
def same_track_events (a b : mml_context) (s qa qb : List mml_event) : Prop :=
  a.events.drop a.offset = s ++ qa ∧ b.events.drop b.offset = s ++ qb
  ∧ ((qa = [] ∧ qb = []) ∨ ∃ s0, s = s0 ++ [mml_event.eot])

/-- The parser of a track whose bytes are `pre ++ data`, when it has read the
bytes `pre` and the last status it has seen is `st`. -/
def track_parser_at (pre data : List Nat) (rest : Mem) (st : Nat) : track_parser_t :=
  { bytes := bytes_of (pre ++ data) rest, idx := pre.length, len := (pre ++ data).length,
    last_status := st }

/-- Whether an event is an end-of-track meta event (type 0x2F). -/
def is_end_of_track (s : event_summary) : Bool :=
  decide (s.kind = midi_event_kind.EV_META ∧ s.meta_type = 0x2F)

/-- The chunks of the tracks whose events are given: for each track, `MTrk`,
the length and the bytes written for its events. -/
def event_track_chunks (tracks : List (List event_summary)) : List Nat :=
  (tracks.map (fun evs => track_chunk (written_events 0 evs))).flatten

/-- The events of `t120 o4 c4;`. -/
def events_t120_o4_c4 : List mml_event :=
  [mml_event.ctl 116 120, mml_event.ctl 111 4, mml_event.note 99 4 0 0 false false,
   mml_event.eot]

/-- The file that the translation of `t120 o4 c4;` writes. -/
def file_t120_o4_c4 : FILE_t :=
  { content := header_one_track ++ [77, 84, 114, 107, 0, 0, 0, 27] ++ track_t120_o4_c4,
    pos := 12 }

/-- The data of the track that the translation of `c t120 c;` writes. -/
def track_c_t120_c : List Nat :=
  [0x00, 0xFF, 0x51, 0x03, 0x07, 0xA1, 0x20,
   0x00, 0x90, 0x3C, 0x64,
   0x83, 0x60, 0x3C, 0x00,
   0x00, 0xFF, 0x51, 0x03, 0x07, 0xA1, 0x20,
   0x00, 0x3C, 0x64,
   0x83, 0x60, 0x3C, 0x00,
   0x87, 0x40, 0xFF, 0x2F, 0x00]

/-- The file that the translation of `c t120 c;` writes. -/
def file_c_t120_c : FILE_t :=
  { content := header_one_track ++ [77, 84, 114, 107, 0, 0, 0, 34] ++ track_c_t120_c,
    pos := 12 }

/-- The bytes of the source that a view covers. -/
def view_bytes (source : Mem) (v : string_view) : List Nat :=
  mem_take (ptr_add source v.data) v.size

/-- The text ` c4 ` + tab + `@a1` + newline + `;`. -/
def text_spaced : List Nat := [32, 99, 52, 32, 9, 64, 97, 49, 10, 59]

/-- The tokens of `text_spaced`. -/
def tokens_spaced : List token :=
  [{ kind := token_kind.MML_NOTE, view := { data := 1, size := 1 } },
   { kind := token_kind.MML_NUMBER, view := { data := 2, size := 1 } },
   { kind := token_kind.MML_EXPANSION, view := { data := 5, size := 3 } },
   { kind := token_kind.MML_SCOLON, view := { data := 9, size := 1 } },
   { kind := token_kind.MML_EOF, view := { data := 0, size := 0 } }]

/-- The text `t;`: the command `t` without a numeric argument. -/
def text_t_no_argument : List Nat := [116, 59]

/-- The text `t0;`. -/
def text_t0 : List Nat := [116, 48, 59]

/-- The events of `t;` and of `t0;`. -/
def events_t0 : List mml_event := [mml_event.ctl 116 0, mml_event.eot]

/-! ## Bit-level facts -/

theorem and_low_byte (b m : Nat) (hm : m < 256) : b &&& m = (b % 256) &&& m := by
  have h1 : (255 : Nat) &&& m = m := by
    rw [Nat.and_comm]
    exact Nat.and_pow_two_sub_one_of_lt_two_pow (n := 8) hm
  have h2 : b &&& 255 = b % 256 := Nat.and_pow_two_sub_one_eq_mod b 8
  rw [← h2, Nat.and_assoc, h1]

theorem and_7F (b : Nat) : b &&& 0x7F = b % 128 :=
  Nat.and_pow_two_sub_one_eq_mod b 7

theorem and_0F (b : Nat) : b &&& 0x0F = b % 16 :=
  Nat.and_pow_two_sub_one_eq_mod b 4

set_option maxRecDepth 100000 in
theorem and_80 (b : Nat) : b &&& 0x80 = 128 * (b / 128 % 2) := by
  have key : ∀ c, c < 256 → c &&& 0x80 = 128 * (c / 128 % 2) := by decide
  rw [and_low_byte b 0x80 (by decide), key (b % 256) (Nat.mod_lt _ (by decide))]
  omega

set_option maxRecDepth 100000 in
theorem and_F0_shr (b : Nat) : (b &&& 0xF0) >>> 4 = b / 16 % 16 := by
  have key : ∀ c, c < 256 → (c &&& 0xF0) >>> 4 = c / 16 % 16 := by decide
  rw [and_low_byte b 0xF0 (by decide), key (b % 256) (Nat.mod_lt _ (by decide))]
  omega

theorem and_80_eq_zero (b : Nat) : b &&& 0x80 = 0 ↔ b / 128 % 2 = 0 := by
  rw [and_80]; omega

theorem or_80 (x : Nat) (h : x < 128) : x ||| 0x80 = x + 128 := by
  have := Nat.mul_add_lt_is_or (i := 7) (b := x) h 1
  rw [Nat.or_comm]
  simpa [Nat.add_comm] using this.symm

theorem shl_or_low (a g : Nat) (h : g < 128) : (128 * a) ||| g = 128 * a + g :=
  (Nat.mul_add_lt_is_or (i := 7) (b := g) h a).symm

theorem vlq_acc (a b : Nat) :
    u32 (a <<< 7) ||| (b &&& 0x7F) = (a * 128) % 4294967296 + b % 128 := by
  have h1 : u32 (a <<< 7) = 128 * (a % 33554432) := by
    simp only [u32, Nat.shiftLeft_eq]; omega
  rw [h1, and_7F, shl_or_low _ _ (Nat.mod_lt _ (by decide))]
  omega

/-! ## Variable-length quantities: encoder -/

/-- The encoder in arithmetic form, one line per length. -/
theorem vlq_encode_cases (v : Nat) :
    midi_vlq_encode v =
      if v < 128 then [v]
      else if v < 16384 then [v / 128 % 128 + 128, v % 128]
      else if v < 2097152 then [v / 16384 % 128 + 128, v / 128 % 128 + 128, v % 128]
      else if v < 268435456 then
        [v / 2097152 % 128 + 128, v / 16384 % 128 + 128, v / 128 % 128 + 128, v % 128]
      else
        [v / 268435456 % 128 + 128, v / 2097152 % 128 + 128, v / 16384 % 128 + 128,
          v / 128 % 128 + 128, v % 128] := by
  have g : ∀ k, ((v >>> k) &&& 0x7F) ||| 0x80 = v / 2 ^ k % 128 + 128 := by
    intro k
    rw [and_7F, or_80 _ (Nat.mod_lt _ (by decide)), Nat.shiftRight_eq_div_pow]
  have h0 : v &&& 0x7F = v % 128 := and_7F v
  unfold midi_vlq_encode
  rw [g 28, g 21, g 14, g 7, h0]
  have e28 : (1 : Nat) <<< 28 = 268435456 := by decide
  have e21 : (1 : Nat) <<< 21 = 2097152 := by decide
  have e14 : (1 : Nat) <<< 14 = 16384 := by decide
  have e7 : (1 : Nat) <<< 7 = 128 := by decide
  rw [e28, e21, e14, e7]
  by_cases c1 : v < 128
  · have : v % 128 = v := Nat.mod_eq_of_lt c1
    simp [c1, this, show ¬ (268435456 ≤ v) by omega, show ¬ (2097152 ≤ v) by omega,
      show ¬ (16384 ≤ v) by omega, show ¬ (128 ≤ v) by omega]
  · by_cases c2 : v < 16384
    · simp [c1, c2, show ¬ (268435456 ≤ v) by omega, show ¬ (2097152 ≤ v) by omega,
        show ¬ (16384 ≤ v) by omega, show 128 ≤ v by omega]
    · by_cases c3 : v < 2097152
      · simp [c1, c2, c3, show ¬ (268435456 ≤ v) by omega, show ¬ (2097152 ≤ v) by omega,
          show 16384 ≤ v by omega, show 128 ≤ v by omega]
      · by_cases c4 : v < 268435456
        · simp [c1, c2, c3, c4, show ¬ (268435456 ≤ v) by omega, show 2097152 ≤ v by omega,
            show 16384 ≤ v by omega, show 128 ≤ v by omega]
        · simp [c1, c2, c3, c4, show 268435456 ≤ v by omega, show 2097152 ≤ v by omega,
            show 16384 ≤ v by omega, show 128 ≤ v by omega]

theorem vlq_encode_length_pos (v : Nat) : 1 ≤ (midi_vlq_encode v).length := by
  rw [vlq_encode_cases]; split_ifs <;> simp

theorem vlq_encode_length_le (v : Nat) : (midi_vlq_encode v).length ≤ 5 := by
  rw [vlq_encode_cases]; split_ifs <;> simp

theorem vlq_encode_length (v : Nat) :
    (midi_vlq_encode v).length =
      if v < 128 then 1 else if v < 16384 then 2 else if v < 2097152 then 3
      else if v < 268435456 then 4 else 5 := by
  rw [vlq_encode_cases]; split_ifs <;> rfl

/-! ## Variable-length quantities: decoder -/

/-- One iteration of the decoding loop, in arithmetic form. -/
theorem vlq_loop_step (bytes : Mem) (len n i value : Nat) :
    midi_vlq_decode_loop bytes len (n + 1) i value =
      if i < len then
        if bytes i / 128 % 2 = 0 then
          some (i + 1, (value * 128) % 4294967296 + bytes i % 128)
        else
          midi_vlq_decode_loop bytes len n (i + 1)
            ((value * 128) % 4294967296 + bytes i % 128)
      else none := by
  simp only [midi_vlq_decode_loop, vlq_acc, and_80_eq_zero]

theorem bytes_of_lt (l : List Nat) (rest : Mem) (i : Nat) (h : i < l.length) :
    bytes_of l rest i = l.getD i 0 := by
  simp [bytes_of, h]

theorem bytes_of_append_lt (l t : List Nat) (rest : Mem) (i : Nat) (h : i < l.length) :
    bytes_of (l ++ t) rest i = l.getD i 0 := by
  have h2 : i < (l ++ t).length := by simp; omega
  rw [bytes_of_lt _ _ _ h2]
  simp [List.getD_eq_getElem?_getD, List.getElem?_append_left h]

/-- Decoding what the encoder wrote gives the value back and uses exactly the
bytes written, whatever follows them, for every 32-bit value. -/
theorem vlq_decode_encode (v : Nat) (hv : v < 4294967296) (bytes : Mem) (len : Nat)
    (hlen : (midi_vlq_encode v).length ≤ len)
    (hb : ∀ i, i < (midi_vlq_encode v).length → bytes i = (midi_vlq_encode v).getD i 0) :
    midi_vlq_decode bytes len = some ((midi_vlq_encode v).length, v) := by
  have hpos := vlq_encode_length_pos v
  have hl0 : ¬ len = 0 := by omega
  unfold midi_vlq_decode
  rw [if_neg hl0]
  clear hpos hl0
  rw [vlq_encode_cases] at hlen hb ⊢
  split_ifs at hlen hb ⊢ with c1 c2 c3 c4 <;>
    simp only [List.length_cons, List.length_nil] at hlen hb ⊢
  · have b0 := hb 0 (by omega)
    simp only [List.getD_cons_zero, List.getD_cons_succ] at b0
    rw [vlq_loop_step, if_pos (by omega), b0, if_pos (by omega)]
    simp only [Option.some.injEq, Prod.mk.injEq, true_and]
    omega
  · have b0 := hb 0 (by omega)
    have b1 := hb 1 (by omega)
    simp only [List.getD_cons_zero, List.getD_cons_succ] at b0 b1
    rw [vlq_loop_step, if_pos (by omega), b0, if_neg (by omega),
      vlq_loop_step, if_pos (by omega), b1, if_pos (by omega)]
    simp only [Option.some.injEq, Prod.mk.injEq, true_and]
    omega
  · have b0 := hb 0 (by omega)
    have b1 := hb 1 (by omega)
    have b2 := hb 2 (by omega)
    simp only [List.getD_cons_zero, List.getD_cons_succ] at b0 b1 b2
    rw [vlq_loop_step, if_pos (by omega), b0, if_neg (by omega),
      vlq_loop_step, if_pos (by omega), b1, if_neg (by omega),
      vlq_loop_step, if_pos (by omega), b2, if_pos (by omega)]
    simp only [Option.some.injEq, Prod.mk.injEq, true_and]
    omega
  · have b0 := hb 0 (by omega)
    have b1 := hb 1 (by omega)
    have b2 := hb 2 (by omega)
    have b3 := hb 3 (by omega)
    simp only [List.getD_cons_zero, List.getD_cons_succ] at b0 b1 b2 b3
    rw [vlq_loop_step, if_pos (by omega), b0, if_neg (by omega),
      vlq_loop_step, if_pos (by omega), b1, if_neg (by omega),
      vlq_loop_step, if_pos (by omega), b2, if_neg (by omega),
      vlq_loop_step, if_pos (by omega), b3, if_pos (by omega)]
    simp only [Option.some.injEq, Prod.mk.injEq, true_and]
    omega
  · have b0 := hb 0 (by omega)
    have b1 := hb 1 (by omega)
    have b2 := hb 2 (by omega)
    have b3 := hb 3 (by omega)
    have b4 := hb 4 (by omega)
    simp only [List.getD_cons_zero, List.getD_cons_succ] at b0 b1 b2 b3 b4
    rw [vlq_loop_step, if_pos (by omega), b0, if_neg (by omega),
      vlq_loop_step, if_pos (by omega), b1, if_neg (by omega),
      vlq_loop_step, if_pos (by omega), b2, if_neg (by omega),
      vlq_loop_step, if_pos (by omega), b3, if_neg (by omega),
      vlq_loop_step, if_pos (by omega), b4, if_pos (by omega)]
    simp only [Option.some.injEq, Prod.mk.injEq, true_and]
    omega

theorem vlq_loop_none_iff (bytes : Mem) (len : Nat) :
    ∀ n i value, midi_vlq_decode_loop bytes len n i value = none ↔
      ∀ j, i ≤ j → j < i + n → j < len → bytes j / 128 % 2 ≠ 0 := by
  intro n
  induction n with
  | zero =>
    intro i value
    constructor
    · intro _ j h1 h2; omega
    · intro _; rfl
  | succ n ih =>
    intro i value
    rw [vlq_loop_step]
    by_cases hi : i < len
    · rw [if_pos hi]
      by_cases hc : bytes i / 128 % 2 = 0
      · rw [if_pos hc]
        constructor
        · intro h; cases h
        · intro h; exact absurd hc (h i (Nat.le_refl i) (by omega) hi)
      · rw [if_neg hc, ih]
        constructor
        · intro h j h1 h2 h3
          by_cases hj : j = i
          · subst hj; exact hc
          · exact h j (by omega) (by omega) h3
        · intro h j h1 h2 h3
          exact h j (by omega) (by omega) h3
    · rw [if_neg hi]
      constructor
      · intro _ j h1 _ h3; omega
      · intro _; rfl

theorem vlq_loop_some (bytes : Mem) (len : Nat) :
    ∀ n i value k v, midi_vlq_decode_loop bytes len n i value = some (k, v) →
      i < k ∧ k ≤ i + n ∧ k ≤ len ∧ bytes (k - 1) / 128 % 2 = 0 ∧
        ∀ j, i ≤ j → j < k - 1 → bytes j / 128 % 2 ≠ 0 := by
  intro n
  induction n with
  | zero =>
    intro i value k v h
    simp [midi_vlq_decode_loop] at h
  | succ n ih =>
    intro i value k v h
    rw [vlq_loop_step] at h
    by_cases hi : i < len
    · rw [if_pos hi] at h
      by_cases hc : bytes i / 128 % 2 = 0
      · rw [if_pos hc] at h
        simp only [Option.some.injEq, Prod.mk.injEq] at h
        obtain ⟨hk, _⟩ := h
        subst hk
        refine ⟨by omega, by omega, by omega, by simpa using hc, ?_⟩
        intro j h1 h2
        omega
      · rw [if_neg hc] at h
        obtain ⟨h1, h2, h3, h4, h5⟩ := ih _ _ _ _ h
        refine ⟨by omega, by omega, h3, h4, ?_⟩
        intro j hj1 hj2
        by_cases hj : j = i
        · subst hj; exact hc
        · exact h5 j (by omega) hj2
    · rw [if_neg hi] at h
      cases h

/-! ## Channel events: encoder and decoders -/

theorem or_low4 (a c : Nat) (h : c < 16) : (16 * a) ||| c = 16 * a + c :=
  (Nat.mul_add_lt_is_or (i := 4) (b := c) h a).symm

theorem status_byte (kind channel : Nat) (hk : kind ≤ 15) (hc : channel ≤ 15) :
    u8 (u8 (0 ||| (kind <<< 4)) ||| channel) = 16 * kind + channel := by
  have h1 : kind <<< 4 = 16 * kind := by rw [Nat.shiftLeft_eq]; omega
  have h2 : u8 (16 * kind) = 16 * kind := by unfold u8; omega
  rw [h1, Nat.zero_or, h2, or_low4 _ _ (by omega)]
  unfold u8; omega

theorem status_inherited (kind channel : Nat) (hc : channel ≤ 15) :
    (kind <<< 4) ||| channel = 16 * kind + channel := by
  have h1 : kind <<< 4 = 16 * kind := by rw [Nat.shiftLeft_eq]; omega
  rw [h1, or_low4 _ _ (by omega)]

theorem pitch_bend_set (e : midi_event_t) (v : Nat) :
    (e.set_pitch_bend v).pitch_bend = u16 v := by
  simp only [midi_event_t.pitch_bend, midi_event_t.set_pitch_bend]
  omega

theorem pitch_bend_mk (k c : Nat) (x : midi_event_t) :
    ({ kind := k, channel := c, bytes0 := x.bytes0, bytes1 := x.bytes1 } :
      midi_event_t).pitch_bend = x.pitch_bend := rfl

/-- The full encoding is the status byte followed by the status-suppressed encoding. -/
theorem to_bytes_cons (e : midi_event_t) (hk : e.kind ≤ 15) (hc : e.channel ≤ 15) :
    midi_event_to_bytes e false =
      (midi_event_to_bytes e true).map (fun d => (16 * e.kind + e.channel) :: d) := by
  simp only [midi_event_to_bytes, status_byte _ _ hk hc, Bool.false_eq_true, if_false, if_true]
  split_ifs <;> simp

/-- The explicit-status decoder is the inherited-status decoder run on the
bytes after the status byte, with the status byte counted. -/
theorem from_bytes_eq_rolling (e : midi_event_t) (bytes : Mem) (len : Nat) :
    midi_event_from_bytes e bytes (len + 1) =
      (midi_event_from_bytes_rolling e (bytes 0) (ptr_add bytes 1) len).map
        (fun r => (r.1 + 1, r.2)) := by
  simp only [midi_event_from_bytes, midi_event_from_bytes_rolling, ptr_add]
  by_cases h0 : len = 0
  · subst h0; simp
  · rw [if_neg (by omega), if_neg h0]
    by_cases h1 : len < 2
    · have h1' : len + 1 < 3 := by omega
      simp only [h1, h1', if_true]
      split_ifs <;> simp
    · have h1' : ¬ len + 1 < 3 := by omega
      simp only [h1, h1', if_false]
      split_ifs <;> simp

/-- The inherited-status decoder reads only the `len` bytes it is given. -/
theorem rolling_congr (e : midi_event_t) (status : Nat) (b1 b2 : Mem) (len : Nat)
    (h : ∀ i, i < len → b1 i = b2 i) :
    midi_event_from_bytes_rolling e status b1 len =
      midi_event_from_bytes_rolling e status b2 len := by
  simp only [midi_event_from_bytes_rolling]
  by_cases h0 : len = 0
  · simp [h0]
  · have e0 := h 0 (by omega)
    by_cases h1 : len < 2
    · simp only [h0, h1, e0, if_true, if_false]
    · have e1 := h 1 (by omega)
      simp only [h0, h1, e0, e1, if_false]

theorem ptr_add_bytes_of_cons (s : Nat) (l : List Nat) (rest : Mem) :
    ptr_add (bytes_of (s :: l) rest) 1 = bytes_of l rest := by
  funext i
  simp only [ptr_add, bytes_of, List.length_cons]
  by_cases h : i < l.length
  · have h' : 1 + i < l.length + 1 := by omega
    rw [if_pos h, if_pos h', Nat.add_comm 1 i]
    rfl
  · have h' : ¬ 1 + i < l.length + 1 := by omega
    rw [if_neg h, if_neg h']
    congr 1
    omega

/-- The inherited-status decoder on a channel status, given enough data bytes. -/
theorem rolling_some (e : midi_event_t) (status : Nat) (bytes : Mem) (len : Nat)
    (hk : 8 ≤ status / 16 % 16 ∧ status / 16 % 16 ≤ 14)
    (hlen : (if status / 16 % 16 = 12 ∨ status / 16 % 16 = 13 then 1 else 2) ≤ len) :
    ∃ m, midi_event_from_bytes_rolling e status bytes len =
        some ((if status / 16 % 16 = 12 ∨ status / 16 % 16 = 13 then 1 else 2), m) ∧
      m.kind = status / 16 % 16 ∧ m.channel = status % 16 ∧
      (status / 16 % 16 ≠ 14 → m.bytes0 = bytes 0) ∧
      (status / 16 % 16 ≠ 12 → status / 16 % 16 ≠ 13 → status / 16 % 16 ≠ 14 →
        m.bytes1 = bytes 1) ∧
      (status / 16 % 16 = 14 →
        m.bytes0 = u16 (u16 (bytes 0) ||| (bytes 1 <<< 7)) % 256 ∧
        m.bytes1 = u16 (u16 (bytes 0) ||| (bytes 1 <<< 7)) / 256) := by
  simp only [midi_event_from_bytes_rolling, and_F0_shr, and_0F]
  generalize status / 16 % 16 = k at hk hlen ⊢
  obtain ⟨hk1, hk2⟩ := hk
  by_cases h12 : k = 12 ∨ k = 13
  · rw [if_pos h12] at hlen
    have h0 : ¬ len = 0 := by omega
    rcases h12 with h | h <;> subst h <;> simp [h0]
  · rw [if_neg h12] at hlen
    have h0 : ¬ len = 0 := by omega
    have h1 : ¬ len < 2 := by omega
    simp only [not_or] at h12
    interval_cases k <;> simp [h0, h1] at h12 ⊢
    have hp := pitch_bend_set e (bytes 0)
    simp only [midi_event_t.set_pitch_bend] at hp
    simp only [midi_event_t.set_pitch_bend, hp, and_self]

/-- The inherited-status decoder on a two-data-byte status with one byte left. -/
theorem rolling_short (e : midi_event_t) (status : Nat) (bytes : Mem) (len : Nat)
    (hk : 8 ≤ status / 16 % 16 ∧ status / 16 % 16 ≤ 14)
    (h12 : ¬ (status / 16 % 16 = 12 ∨ status / 16 % 16 = 13))
    (hlen : len < 2) :
    midi_event_from_bytes_rolling e status bytes len = none := by
  simp only [midi_event_from_bytes_rolling, and_F0_shr, and_0F]
  generalize status / 16 % 16 = k at hk h12 ⊢
  obtain ⟨hk1, hk2⟩ := hk
  by_cases h0 : len = 0
  · simp [h0]
  · interval_cases k <;> simp [h0, hlen] at h12 ⊢

/-! ## Track events: the paths of `track_event_next` -/

theorem next_delta_fail (p : track_parser_t) (e : track_event_t)
    (h1 : midi_vlq_decode (ptr_add p.bytes p.idx) (u32_sub p.len p.idx) = none) :
    (track_event_next p e).ret = -1 := by
  unfold track_event_next
  rw [h1]

theorem next_no_status_byte (p : track_parser_t) (e : track_event_t) (n delta : Nat)
    (h1 : midi_vlq_decode (ptr_add p.bytes p.idx) (u32_sub p.len p.idx) = some (n, delta))
    (h2 : u32_sub p.len (u32 (p.idx + n)) = 0) :
    (track_event_next p e).ret = -1 := by
  unfold track_event_next
  rw [h1]
  dsimp only
  rw [if_pos h2]

theorem next_midi (p : track_parser_t) (e : track_event_t) (n delta ev_len : Nat)
    (m : midi_event_t)
    (h1 : midi_vlq_decode (ptr_add p.bytes p.idx) (u32_sub p.len p.idx) = some (n, delta))
    (h2 : u32_sub p.len (u32 (p.idx + n)) ≠ 0)
    (h3 : 0x80 ≤ p.bytes (u32 (p.idx + n)) ∧ p.bytes (u32 (p.idx + n)) < 0xF0)
    (h4 : midi_event_from_bytes e.midi (ptr_add p.bytes (u32 (p.idx + n)))
        (u32_sub p.len (u32 (p.idx + n))) = some (ev_len, m))
    (h5 : ev_len ≠ 0) :
    (track_event_next p e).ret = ev_len ∧
    (track_event_next p e).p.idx = u32 (u32 (p.idx + n) + ev_len) ∧
    (track_event_next p e).p.last_status = p.bytes (u32 (p.idx + n)) ∧
    (track_event_next p e).e.kind = midi_event_kind.EV_MIDI ∧
    (track_event_next p e).e.delta = delta ∧
    (track_event_next p e).e.midi = m := by
  unfold track_event_next
  rw [h1]
  dsimp only
  rw [if_neg h2, if_pos h3, h4]
  dsimp only
  rw [if_neg h5]
  exact ⟨rfl, rfl, rfl, rfl, rfl, rfl⟩

theorem next_midi_fail (p : track_parser_t) (e : track_event_t) (n delta : Nat)
    (h1 : midi_vlq_decode (ptr_add p.bytes p.idx) (u32_sub p.len p.idx) = some (n, delta))
    (h2 : u32_sub p.len (u32 (p.idx + n)) ≠ 0)
    (h3 : 0x80 ≤ p.bytes (u32 (p.idx + n)) ∧ p.bytes (u32 (p.idx + n)) < 0xF0)
    (h4 : midi_event_from_bytes e.midi (ptr_add p.bytes (u32 (p.idx + n)))
        (u32_sub p.len (u32 (p.idx + n))) = none) :
    (track_event_next p e).ret = -1 := by
  unfold track_event_next
  rw [h1]
  dsimp only
  rw [if_neg h2, if_pos h3, h4]

theorem next_sysex (p : track_parser_t) (e : track_event_t) (n delta n2 vlength : Nat)
    (h1 : midi_vlq_decode (ptr_add p.bytes p.idx) (u32_sub p.len p.idx) = some (n, delta))
    (h2 : u32_sub p.len (u32 (p.idx + n)) ≠ 0)
    (h3 : p.bytes (u32 (p.idx + n)) = 0xF0 ∨ p.bytes (u32 (p.idx + n)) = 0xF7)
    (h4 : midi_vlq_decode (ptr_add p.bytes (u32 (p.idx + n) + 1))
        (u32_sub (u32_sub p.len (u32 (p.idx + n))) 1) = some (n2, vlength)) :
    (track_event_next p e).ret = i32 (u32 (1 + n2 + vlength)) ∧
    (track_event_next p e).p.idx = u32 (u32 (p.idx + n) + u32 (1 + n2 + vlength)) ∧
    (track_event_next p e).e.kind = midi_event_kind.EV_SYSEX ∧
    (track_event_next p e).e.delta = delta ∧
    (track_event_next p e).e.sysex_length = u32_sub vlength 1 ∧
    (track_event_next p e).e.sysex_data = ptr_add p.bytes (u32 (p.idx + n) + 1 + n2) := by
  have h3' : ¬ (0x80 ≤ p.bytes (u32 (p.idx + n)) ∧ p.bytes (u32 (p.idx + n)) < 0xF0) := by
    omega
  unfold track_event_next
  rw [h1]
  dsimp only
  rw [if_neg h2, if_neg h3', if_pos h3, h4]
  exact ⟨rfl, rfl, rfl, rfl, rfl, rfl⟩

theorem next_meta (p : track_parser_t) (e : track_event_t) (n delta n2 vlength : Nat)
    (h1 : midi_vlq_decode (ptr_add p.bytes p.idx) (u32_sub p.len p.idx) = some (n, delta))
    (h2 : u32_sub p.len (u32 (p.idx + n)) ≠ 0)
    (h3 : p.bytes (u32 (p.idx + n)) = 0xFF)
    (h4 : midi_vlq_decode (ptr_add p.bytes (u32 (p.idx + n) + 2))
        (u32_sub (u32_sub p.len (u32 (p.idx + n))) 2) = some (n2, vlength)) :
    (track_event_next p e).ret = i32 (u32 (2 + n2 + vlength)) ∧
    (track_event_next p e).p.idx = u32 (u32 (p.idx + n) + u32 (2 + n2 + vlength)) ∧
    (track_event_next p e).e.kind = midi_event_kind.EV_META ∧
    (track_event_next p e).e.delta = delta ∧
    (track_event_next p e).e.meta_type = p.bytes (u32 (u32 (p.idx + n) + 1)) ∧
    (track_event_next p e).e.meta_length = vlength ∧
    (track_event_next p e).e.meta_data = ptr_add p.bytes (u32 (p.idx + n) + 2 + n2) := by
  have h3a : ¬ (0x80 ≤ p.bytes (u32 (p.idx + n)) ∧ p.bytes (u32 (p.idx + n)) < 0xF0) := by
    omega
  have h3b : ¬ (p.bytes (u32 (p.idx + n)) = 0xF0 ∨ p.bytes (u32 (p.idx + n)) = 0xF7) := by
    omega
  unfold track_event_next
  rw [h1]
  dsimp only
  rw [if_neg h2, if_neg h3a, if_neg h3b, if_pos h3, h4]
  exact ⟨rfl, rfl, rfl, rfl, rfl, rfl, rfl⟩

theorem next_rolling (p : track_parser_t) (e : track_event_t) (n delta ev_len : Nat)
    (m : midi_event_t)
    (h1 : midi_vlq_decode (ptr_add p.bytes p.idx) (u32_sub p.len p.idx) = some (n, delta))
    (h2 : u32_sub p.len (u32 (p.idx + n)) ≠ 0)
    (h3a : ¬ (0x80 ≤ p.bytes (u32 (p.idx + n)) ∧ p.bytes (u32 (p.idx + n)) < 0xF0))
    (h3b : ¬ (p.bytes (u32 (p.idx + n)) = 0xF0 ∨ p.bytes (u32 (p.idx + n)) = 0xF7))
    (h3c : ¬ p.bytes (u32 (p.idx + n)) = 0xFF)
    (hs : 0x80 ≤ p.last_status ∧ p.last_status < 0xF0)
    (h4 : midi_event_from_bytes_rolling e.midi p.last_status (ptr_add p.bytes (u32 (p.idx + n)))
        (u32_sub p.len (u32 (p.idx + n))) = some (ev_len, m))
    (h5 : ev_len ≠ 0) :
    (track_event_next p e).ret = ev_len ∧
    (track_event_next p e).p.idx = u32 (u32 (p.idx + n) + ev_len) ∧
    (track_event_next p e).p.last_status = p.last_status ∧
    (track_event_next p e).e.kind = midi_event_kind.EV_MIDI ∧
    (track_event_next p e).e.delta = delta ∧
    (track_event_next p e).e.midi = m := by
  unfold track_event_next
  rw [h1]
  dsimp only
  rw [if_neg h2, if_neg h3a, if_neg h3b, if_neg h3c, if_pos hs, h4]
  dsimp only
  rw [if_neg h5]
  exact ⟨rfl, rfl, rfl, rfl, rfl, rfl⟩

theorem next_rolling_fail (p : track_parser_t) (e : track_event_t) (n delta : Nat)
    (h1 : midi_vlq_decode (ptr_add p.bytes p.idx) (u32_sub p.len p.idx) = some (n, delta))
    (h2 : u32_sub p.len (u32 (p.idx + n)) ≠ 0)
    (h3a : ¬ (0x80 ≤ p.bytes (u32 (p.idx + n)) ∧ p.bytes (u32 (p.idx + n)) < 0xF0))
    (h3b : ¬ (p.bytes (u32 (p.idx + n)) = 0xF0 ∨ p.bytes (u32 (p.idx + n)) = 0xF7))
    (h3c : ¬ p.bytes (u32 (p.idx + n)) = 0xFF)
    (hs : 0x80 ≤ p.last_status ∧ p.last_status < 0xF0)
    (h4 : midi_event_from_bytes_rolling e.midi p.last_status (ptr_add p.bytes (u32 (p.idx + n)))
        (u32_sub p.len (u32 (p.idx + n))) = none) :
    (track_event_next p e).ret = -1 := by
  unfold track_event_next
  rw [h1]
  dsimp only
  rw [if_neg h2, if_neg h3a, if_neg h3b, if_neg h3c, if_pos hs, h4]

theorem next_no_status (p : track_parser_t) (e : track_event_t) (n delta : Nat)
    (h1 : midi_vlq_decode (ptr_add p.bytes p.idx) (u32_sub p.len p.idx) = some (n, delta))
    (h2 : u32_sub p.len (u32 (p.idx + n)) ≠ 0)
    (h3a : ¬ (0x80 ≤ p.bytes (u32 (p.idx + n)) ∧ p.bytes (u32 (p.idx + n)) < 0xF0))
    (h3b : ¬ (p.bytes (u32 (p.idx + n)) = 0xF0 ∨ p.bytes (u32 (p.idx + n)) = 0xF7))
    (h3c : ¬ p.bytes (u32 (p.idx + n)) = 0xFF)
    (hs : ¬ (0x80 ≤ p.last_status ∧ p.last_status < 0xF0)) :
    (track_event_next p e).ret = -1 := by
  unfold track_event_next
  rw [h1]
  dsimp only
  rw [if_neg h2, if_neg h3a, if_neg h3b, if_neg h3c, if_neg hs]

/-! ## Memory and written buffers -/

theorem ptr_add_zero (m : Mem) : ptr_add m 0 = m := by
  funext i
  simp [ptr_add]

theorem ptr_add_add (m : Mem) (a b : Nat) : ptr_add m (a + b) = ptr_add (ptr_add m a) b := by
  funext i
  simp [ptr_add, Nat.add_assoc]

theorem ptr_add_apply (m : Mem) (a i : Nat) : m (a + i) = ptr_add m a i := rfl

theorem bytes_of_append (a b : List Nat) (rest : Mem) :
    bytes_of (a ++ b) rest = bytes_of a (bytes_of b rest) := by
  funext i
  simp only [bytes_of, List.length_append]
  by_cases h : i < a.length
  · have h' : i < a.length + b.length := by omega
    rw [if_pos h, if_pos h']
    simp [List.getD_eq_getElem?_getD, List.getElem?_append_left h]
  · rw [if_neg h]
    by_cases h2 : i < a.length + b.length
    · have h3 : i - a.length < b.length := by omega
      rw [if_pos h2, if_pos h3]
      simp [List.getD_eq_getElem?_getD, List.getElem?_append_right (Nat.le_of_not_lt h)]
    · have h3 : ¬ i - a.length < b.length := by omega
      rw [if_neg h2, if_neg h3]
      congr 1
      omega

theorem ptr_add_bytes_of (a : List Nat) (rest : Mem) :
    ptr_add (bytes_of a rest) a.length = rest := by
  funext i
  simp [ptr_add, bytes_of]

theorem bytes_of_cons_zero (x : Nat) (l : List Nat) (rest : Mem) :
    bytes_of (x :: l) rest 0 = x := by
  simp [bytes_of]

theorem mem_take_length (m : Mem) (n : Nat) : (mem_take m n).length = n := by
  simp [mem_take]

theorem bytes_of_mem_take (m rest : Mem) (n i : Nat) (h : i < n) :
    bytes_of (mem_take m n) rest i = m i := by
  simp [bytes_of, mem_take, h, List.getD_eq_getElem?_getD]

theorem u32_small (x : Nat) (h : x < 4294967296) : u32 x = x := Nat.mod_eq_of_lt h

theorem u32_sub_small (a b : Nat) (h : b ≤ a) (ha : a < 4294967296) : u32_sub a b = a - b := by
  unfold u32_sub u32
  split_ifs <;> omega

theorem i32_small (x : Nat) (h : x < 2147483648) : i32 x = (x : Int) := by
  unfold i32 u32
  rw [if_pos (by omega)]
  congr 1
  omega

/-- Reading the delta-time at the head of a written buffer from index 0. -/
theorem fresh_delta (delta : Nat) (hd : delta < 4294967296) (tail : List Nat) (rest : Mem)
    (hL : (midi_vlq_encode delta ++ tail).length < 4294967296) :
    midi_vlq_decode (ptr_add (bytes_of (midi_vlq_encode delta ++ tail) rest) 0)
        (u32_sub (midi_vlq_encode delta ++ tail).length 0)
      = some ((midi_vlq_encode delta).length, delta) ∧
    u32 (0 + (midi_vlq_encode delta).length) = (midi_vlq_encode delta).length ∧
    u32_sub (midi_vlq_encode delta ++ tail).length (midi_vlq_encode delta).length = tail.length ∧
    ptr_add (bytes_of (midi_vlq_encode delta ++ tail) rest) (midi_vlq_encode delta).length =
      bytes_of tail rest := by
  have h5 := vlq_encode_length_le delta
  simp only [List.length_append] at hL
  refine ⟨?_, ?_, ?_, ?_⟩
  · rw [ptr_add_zero, u32_sub_small _ _ (Nat.zero_le _) (by simpa using hL)]
    apply vlq_decode_encode delta hd
    · simp
    · intro i hi
      exact bytes_of_append_lt _ _ _ i hi
  · rw [u32_small _ (by omega)]; omega
  · rw [u32_sub_small _ _ (by simp) (by simpa using hL)]
    simp
  · rw [bytes_of_append, ptr_add_bytes_of]

theorem bytes_of_append_at (a b : List Nat) (rest : Mem) (i : Nat) :
    bytes_of (a ++ b) rest (a.length + i) = bytes_of b rest i := by
  have h : bytes_of (a ++ b) rest (a.length + i) =
      ptr_add (bytes_of (a ++ b) rest) a.length i := rfl
  rw [h, bytes_of_append, ptr_add_bytes_of]

theorem bytes_of_append_head (a : List Nat) (x : Nat) (l : List Nat) (rest : Mem) :
    bytes_of (a ++ x :: l) rest a.length = x := by
  have h := bytes_of_append_at a (x :: l) rest 0
  rw [Nat.add_zero] at h
  rw [h, bytes_of_cons_zero]

theorem bend_roundtrip (v : Nat) (hv : v < 16384) :
    u16 (u16 (u8 v) ||| (u8 (v >>> 7) <<< 7)) = v := by
  have key : ∀ q, q < 128 → 128 * (q % 2) ||| 128 * q = 128 * q := by decide
  have h1 : u16 (u8 v) = 128 * (v / 128 % 2) ||| v % 128 := by
    rw [shl_or_low _ _ (Nat.mod_lt _ (by decide))]
    unfold u16 u8
    omega
  have h2 : u8 (v >>> 7) <<< 7 = 128 * (v / 128) := by
    rw [Nat.shiftLeft_eq, Nat.shiftRight_eq_div_pow]
    unfold u8
    omega
  rw [h1, h2, Nat.or_assoc, Nat.or_comm (v % 128), ← Nat.or_assoc,
    key _ (by omega), shl_or_low _ _ (Nat.mod_lt _ (by decide))]
  unfold u16
  omega

theorem to_bytes_rolling_eq (e : midi_event_t) (hk : 8 ≤ e.kind ∧ e.kind ≤ 14) :
    midi_event_to_bytes e true =
      some (if e.kind = 12 ∨ e.kind = 13 then [e.bytes0]
        else if e.kind = 14 then [u8 e.pitch_bend, u8 (e.pitch_bend >>> 7)]
        else [e.bytes0, e.bytes1]) := by
  obtain ⟨kind, channel, b0, b1⟩ := e
  obtain ⟨hk1, hk2⟩ := hk
  simp only at hk1 hk2 ⊢
  interval_cases kind <;> simp [midi_event_to_bytes]

theorem track_to_bytes_midi (e : track_event_t) (bs : List Nat)
    (hkind : e.kind = midi_event_kind.EV_MIDI)
    (hbs : midi_event_to_bytes e.midi false = some bs) :
    track_event_to_bytes e =
      { ret := (bs.length : Int) + ((midi_vlq_encode e.delta).length : Nat),
        out := midi_vlq_encode e.delta ++ bs } := by
  have hpos := vlq_encode_length_pos e.delta
  unfold track_event_to_bytes
  dsimp only
  rw [if_neg (by omega), hkind]
  dsimp only
  rw [hbs]

theorem track_to_bytes_meta (e : track_event_t) (hkind : e.kind = midi_event_kind.EV_META) :
    track_event_to_bytes e =
      { ret := i32 ((midi_vlq_encode e.delta).length + 2 + (midi_vlq_encode e.meta_length).length
          + e.meta_length),
        out := midi_vlq_encode e.delta ++ [0xFF, e.meta_type] ++ midi_vlq_encode e.meta_length
          ++ mem_take e.meta_data e.meta_length } := by
  have hpos := vlq_encode_length_pos e.delta
  have hpos2 := vlq_encode_length_pos e.meta_length
  unfold track_event_to_bytes
  dsimp only
  rw [if_neg (by omega), hkind]
  dsimp only
  rw [if_neg (by omega)]

theorem track_to_bytes_sysex (e : track_event_t) (hkind : e.kind = midi_event_kind.EV_SYSEX) :
    track_event_to_bytes e =
      { ret := i32 ((midi_vlq_encode e.delta).length + 1 + (midi_vlq_encode e.sysex_length).length
          + e.sysex_length),
        out := midi_vlq_encode e.delta ++ [0xF0] ++ midi_vlq_encode e.sysex_length
          ++ mem_take e.sysex_data e.sysex_length } := by
  have hpos := vlq_encode_length_pos e.delta
  have hpos2 := vlq_encode_length_pos e.sysex_length
  unfold track_event_to_bytes
  dsimp only
  rw [if_neg (by omega), hkind]
  dsimp only
  rw [if_neg (by omega)]

/-! ## Track events: writing, then reading -/

theorem roundtrip_midi (e e0 : track_event_t) (rest : Mem)
    (hdelta : e.delta < 4294967296)
    (hkind : e.kind = midi_event_kind.EV_MIDI)
    (hk : 8 ≤ e.midi.kind ∧ e.midi.kind ≤ 14) (hc : e.midi.channel ≤ 15)
    (hb0 : e.midi.bytes0 < 256)
    (hpb : e.midi.kind = 14 → e.midi.pitch_bend < 16384) :
    (track_event_to_bytes e).ret = ((track_event_to_bytes e).out.length : Nat) ∧
    0 < (track_event_next (track_parser_fresh (bytes_of (track_event_to_bytes e).out rest)
      (track_event_to_bytes e).out.length) e0).ret ∧
    (track_event_next (track_parser_fresh (bytes_of (track_event_to_bytes e).out rest)
      (track_event_to_bytes e).out.length) e0).p.idx = (track_event_to_bytes e).out.length ∧
    (track_event_next (track_parser_fresh (bytes_of (track_event_to_bytes e).out rest)
      (track_event_to_bytes e).out.length) e0).e.delta = e.delta ∧
    (track_event_next (track_parser_fresh (bytes_of (track_event_to_bytes e).out rest)
      (track_event_to_bytes e).out.length) e0).e.kind = e.kind ∧
    (track_event_next (track_parser_fresh (bytes_of (track_event_to_bytes e).out rest)
      (track_event_to_bytes e).out.length) e0).e.midi.kind = e.midi.kind ∧
    (track_event_next (track_parser_fresh (bytes_of (track_event_to_bytes e).out rest)
      (track_event_to_bytes e).out.length) e0).e.midi.channel = e.midi.channel ∧
    (track_event_next (track_parser_fresh (bytes_of (track_event_to_bytes e).out rest)
      (track_event_to_bytes e).out.length) e0).e.midi.bytes0 = e.midi.bytes0 ∧
    (¬ (e.midi.kind = MIDI_PROGRAM ∨ e.midi.kind = MIDI_CHAN_PRESSURE) →
      (track_event_next (track_parser_fresh (bytes_of (track_event_to_bytes e).out rest)
        (track_event_to_bytes e).out.length) e0).e.midi.bytes1 = e.midi.bytes1) := by
  have hsupp := to_bytes_rolling_eq e.midi hk
  generalize hS : (if e.midi.kind = 12 ∨ e.midi.kind = 13 then [e.midi.bytes0]
        else if e.midi.kind = 14 then [u8 e.midi.pitch_bend, u8 (e.midi.pitch_bend >>> 7)]
        else [e.midi.bytes0, e.midi.bytes1]) = supp at hsupp
  have hlen : supp.length = (if e.midi.kind = 12 ∨ e.midi.kind = 13 then 1 else 2) := by
    rw [← hS]; split_ifs <;> rfl
  have hfull := to_bytes_cons e.midi (by omega) hc
  rw [hsupp] at hfull
  simp only [Option.map_some'] at hfull
  rw [track_to_bytes_midi e _ hkind hfull]
  dsimp only
  have hd5 := vlq_encode_length_le e.delta
  have hd1 := vlq_encode_length_pos e.delta
  have hsl : supp.length ≤ 2 := by rw [hlen]; split_ifs <;> omega
  have hsl1 : 1 ≤ supp.length := by rw [hlen]; split_ifs <;> omega
  obtain ⟨h1, hidx, hleft, hptr⟩ :=
    fresh_delta e.delta hdelta ((16 * e.midi.kind + e.midi.channel) :: supp) rest
      (by simp only [List.length_append, List.length_cons]; omega)
  have hkd : (16 * e.midi.kind + e.midi.channel) / 16 % 16 = e.midi.kind := by omega
  have hcd : (16 * e.midi.kind + e.midi.channel) % 16 = e.midi.channel := by omega
  obtain ⟨m, hm, hmk, hmc, hm0, hm1, hmb⟩ :=
    rolling_some e0.midi (16 * e.midi.kind + e.midi.channel) (bytes_of supp rest) supp.length
      (by rw [hkd]; exact hk) (by rw [hkd, hlen])
  rw [hkd] at hm hmk hm0 hm1 hmb
  rw [hcd] at hmc
  rw [← hlen] at hm
  have hfrom : midi_event_from_bytes e0.midi
      (bytes_of ((16 * e.midi.kind + e.midi.channel) :: supp) rest) (supp.length + 1) =
      some (supp.length + 1, m) := by
    rw [from_bytes_eq_rolling, bytes_of_cons_zero, ptr_add_bytes_of_cons, hm]
    rfl
  have hnext := next_midi
    { bytes := bytes_of (midi_vlq_encode e.delta ++ (16 * e.midi.kind + e.midi.channel) :: supp)
        rest,
      idx := 0,
      len := (midi_vlq_encode e.delta ++ (16 * e.midi.kind + e.midi.channel) :: supp).length,
      last_status := 0 }
    e0 (midi_vlq_encode e.delta).length e.delta (supp.length + 1) m h1
    (by dsimp only; rw [hidx, hleft]; simp)
    (by
      dsimp only
      rw [hidx, bytes_of_append_head]
      omega)
    (by
      dsimp only
      rw [hidx, hleft, hptr, List.length_cons]
      exact hfrom)
    (by omega)
  dsimp only at hnext
  rw [hidx] at hnext
  obtain ⟨n1, n2, -, n4, n5, n6⟩ := hnext
  simp only [track_parser_fresh]
  rw [n1, n2, n4, n5, n6]
  have hx0 : ∀ x y : Nat, bytes_of [x, y] rest 0 = x := by intro x y; simp [bytes_of]
  have hx1 : ∀ x y : Nat, bytes_of [x, y] rest 1 = y := by intro x y; simp [bytes_of]
  have hy0 : ∀ x : Nat, bytes_of [x] rest 0 = x := by intro x; simp [bytes_of]
  have hpay : m.bytes0 = e.midi.bytes0 ∧
      (¬ (e.midi.kind = MIDI_PROGRAM ∨ e.midi.kind = MIDI_CHAN_PRESSURE) →
        m.bytes1 = e.midi.bytes1) := by
    by_cases h14 : e.midi.kind = 14
    · have hs : supp = [u8 e.midi.pitch_bend, u8 (e.midi.pitch_bend >>> 7)] := by
        rw [← hS]; simp [h14]
      obtain ⟨q0, q1⟩ := hmb h14
      rw [hs, hx0, hx1, bend_roundtrip _ (hpb h14)] at q0 q1
      unfold midi_event_t.pitch_bend at q0 q1
      constructor
      · omega
      · intro _; omega
    · by_cases h12 : e.midi.kind = 12 ∨ e.midi.kind = 13
      · have hs : supp = [e.midi.bytes0] := by rw [← hS]; simp [h12]
        have q0 := hm0 h14
        rw [hs, hy0] at q0
        exact ⟨q0, fun h => absurd h12 h⟩
      · have hs : supp = [e.midi.bytes0, e.midi.bytes1] := by rw [← hS]; simp [h12, h14]
        have q0 := hm0 h14
        have q1 := hm1 (fun h => h12 (Or.inl h)) (fun h => h12 (Or.inr h)) h14
        rw [hs, hx0] at q0
        rw [hs, hx1] at q1
        exact ⟨q0, fun _ => q1⟩
  refine ⟨?_, by omega, ?_, rfl, hkind.symm, hmk, hmc, hpay.1, hpay.2⟩
  · simp only [List.length_append, List.length_cons]
    push_cast
    omega
  · rw [u32_small _ (by omega)]
    simp only [List.length_append, List.length_cons]

theorem roundtrip_meta (e e0 : track_event_t) (rest : Mem)
    (hdelta : e.delta < 4294967296)
    (hkind : e.kind = midi_event_kind.EV_META)
    (hlen : e.meta_length < 4294967296)
    (hfit : (track_event_to_bytes e).out.length < 2147483648) :
    (track_event_to_bytes e).ret = ((track_event_to_bytes e).out.length : Nat) ∧
    0 < (track_event_next (track_parser_fresh (bytes_of (track_event_to_bytes e).out rest)
      (track_event_to_bytes e).out.length) e0).ret ∧
    (track_event_next (track_parser_fresh (bytes_of (track_event_to_bytes e).out rest)
      (track_event_to_bytes e).out.length) e0).p.idx = (track_event_to_bytes e).out.length ∧
    (track_event_next (track_parser_fresh (bytes_of (track_event_to_bytes e).out rest)
      (track_event_to_bytes e).out.length) e0).e.delta = e.delta ∧
    (track_event_next (track_parser_fresh (bytes_of (track_event_to_bytes e).out rest)
      (track_event_to_bytes e).out.length) e0).e.kind = e.kind ∧
    (track_event_next (track_parser_fresh (bytes_of (track_event_to_bytes e).out rest)
      (track_event_to_bytes e).out.length) e0).e.meta_type = e.meta_type ∧
    (track_event_next (track_parser_fresh (bytes_of (track_event_to_bytes e).out rest)
      (track_event_to_bytes e).out.length) e0).e.meta_length = e.meta_length ∧
    (∀ i, i < e.meta_length →
      (track_event_next (track_parser_fresh (bytes_of (track_event_to_bytes e).out rest)
        (track_event_to_bytes e).out.length) e0).e.meta_data i = e.meta_data i) := by
  rw [track_to_bytes_meta e hkind] at hfit ⊢
  dsimp only at hfit ⊢
  have hassoc : midi_vlq_encode e.delta ++ [0xFF, e.meta_type] ++ midi_vlq_encode e.meta_length
      ++ mem_take e.meta_data e.meta_length =
      midi_vlq_encode e.delta ++ (0xFF :: e.meta_type ::
        (midi_vlq_encode e.meta_length ++ mem_take e.meta_data e.meta_length)) := by
    simp
  rw [hassoc] at hfit ⊢
  generalize hd : midi_vlq_encode e.delta = d at hfit ⊢
  generalize hl : midi_vlq_encode e.meta_length = l at hfit ⊢
  generalize hpl : mem_take e.meta_data e.meta_length = payload at hfit ⊢
  have hpll : payload.length = e.meta_length := by rw [← hpl, mem_take_length]
  have hd5 : d.length ≤ 5 := by rw [← hd]; exact vlq_encode_length_le _
  have hd1 : 1 ≤ d.length := by rw [← hd]; exact vlq_encode_length_pos _
  have hl5 : l.length ≤ 5 := by rw [← hl]; exact vlq_encode_length_le _
  have hl1 : 1 ≤ l.length := by rw [← hl]; exact vlq_encode_length_pos _
  simp only [List.length_append, List.length_cons] at hfit
  obtain ⟨h1, hidx, hleft, hptr⟩ :=
    fresh_delta e.delta hdelta (0xFF :: e.meta_type :: (l ++ payload)) rest
      (by rw [hd]; simp only [List.length_append, List.length_cons]; omega)
  rw [hd] at h1 hidx hleft hptr
  have hvl : midi_vlq_decode (bytes_of (l ++ payload) rest) (l.length + payload.length) =
      some (l.length, e.meta_length) := by
    have h := vlq_decode_encode e.meta_length hlen (bytes_of (l ++ payload) rest)
      (l.length + payload.length) (by rw [hl]; omega)
      (by rw [hl]; intro i hi; exact bytes_of_append_lt _ _ _ i hi)
    rwa [hl] at h
  have hp2 : ptr_add (bytes_of (0xFF :: e.meta_type :: (l ++ payload)) rest) 2 =
      bytes_of (l ++ payload) rest := by
    have h := ptr_add_bytes_of [0xFF, e.meta_type] (bytes_of (l ++ payload) rest)
    rw [← bytes_of_append] at h
    exact h
  have hnext := next_meta
    { bytes := bytes_of (d ++ 0xFF :: e.meta_type :: (l ++ payload)) rest,
      idx := 0,
      len := (d ++ 0xFF :: e.meta_type :: (l ++ payload)).length,
      last_status := 0 }
    e0 d.length e.delta l.length e.meta_length h1
    (by dsimp only; rw [hidx, hleft]; simp)
    (by dsimp only; rw [hidx, bytes_of_append_head])
    (by
      dsimp only
      rw [hidx, hleft, ptr_add_add, hptr, hp2, u32_sub_small _ _ (by simp) (by simp; omega)]
      simp only [List.length_cons, List.length_append]
      rw [show l.length + payload.length + 1 + 1 - 2 = l.length + payload.length by omega]
      exact hvl)
  dsimp only at hnext
  rw [hidx] at hnext
  obtain ⟨n1, n2, n3, n4, n5, n6, n7⟩ := hnext
  simp only [track_parser_fresh]
  rw [n1, n2, n3, n4, n5, n6, n7]
  have hu : u32 (2 + l.length + e.meta_length) = 2 + l.length + e.meta_length :=
    u32_small _ (by omega)
  refine ⟨?_, ?_, ?_, rfl, hkind.symm, ?_, rfl, ?_⟩
  · rw [i32_small _ (by omega)]
    simp only [List.length_append, List.length_cons]
    congr 1
    omega
  · rw [hu, i32_small _ (by omega)]
    omega
  · rw [hu, u32_small _ (by omega)]
    simp only [List.length_append, List.length_cons]
    omega
  · rw [u32_small _ (by omega), bytes_of_append_at]
    simp [bytes_of]
  · intro i hi
    rw [ptr_add_add, ptr_add_add, hptr, hp2, bytes_of_append, ptr_add_bytes_of, ← hpl]
    exact bytes_of_mem_take _ _ _ _ hi

/-! ## Claims on variable-length quantities -/

/-- C1: for every value `v` in `[0, 0x0FFFFFFF]`, `midi_vlq_decode` applied to
the bytes that `midi_vlq_encode v` produced (whatever memory follows them)
succeeds, returns `v`, and reports as consumed exactly the number of bytes that
the encoder emitted. -/
theorem midi_vlq_decode_encode_roundtrip (v : Nat) (hv : v ≤ 0x0FFFFFFF) (rest : Mem) :
    midi_vlq_decode (bytes_of (midi_vlq_encode v) rest) (midi_vlq_encode v).length =
      some ((midi_vlq_encode v).length, v) :=
  vlq_decode_encode v (by omega) _ _ (Nat.le_refl _) (fun i hi => bytes_of_lt _ _ i hi)

/-- Witness of C1 at `v = 300`, encoded as `82 2C`. -/
theorem midi_vlq_decode_encode_roundtrip_witness :
    300 ≤ 0x0FFFFFFF ∧
      midi_vlq_decode (bytes_of (midi_vlq_encode 300) zero_mem) (midi_vlq_encode 300).length =
        some ((midi_vlq_encode 300).length, 300) :=
  ⟨by decide, midi_vlq_decode_encode_roundtrip 300 (by decide) zero_mem⟩

/-- C2: for every 32-bit value `v`, `midi_vlq_encode v` is the minimal big-endian
base-128 representation of `v`: its length `k` is between 1 and 5 and is the
least `k ≥ 1` with `v < 2^(7k)`; byte `i` holds the 7-bit group
`v / 2^(7(k-1-i)) mod 128`, most significant group first, with bit 7 added on
every byte but the last; bit 7 is set exactly on the bytes before the last; and
the encoding of 0 is the single byte `0x00`. -/
theorem midi_vlq_encode_minimal (v : Nat) (hv : v < 2 ^ 32) :
    (1 ≤ (midi_vlq_encode v).length ∧ (midi_vlq_encode v).length ≤ 5) ∧
    v < 2 ^ (7 * (midi_vlq_encode v).length) ∧
    (∀ j, 1 ≤ j → v < 2 ^ (7 * j) → (midi_vlq_encode v).length ≤ j) ∧
    (∀ i, i < (midi_vlq_encode v).length →
      (midi_vlq_encode v).getD i 0 =
        v / 2 ^ (7 * ((midi_vlq_encode v).length - 1 - i)) % 128 +
          (if i + 1 < (midi_vlq_encode v).length then 128 else 0)) ∧
    (∀ i, i < (midi_vlq_encode v).length →
      ((midi_vlq_encode v).getD i 0 &&& 0x80 ≠ 0 ↔ i + 1 < (midi_vlq_encode v).length)) ∧
    midi_vlq_encode 0 = [0] := by
  refine ⟨⟨vlq_encode_length_pos v, vlq_encode_length_le v⟩, ?_, ?_, ?_, ?_, by decide⟩
  · rw [vlq_encode_cases]
    split_ifs <;> simp only [List.length_cons, List.length_nil] <;> norm_num <;> omega
  · intro j hj hlt
    by_contra hcon
    rw [vlq_encode_length] at hcon
    have hj4 : j ≤ 4 := by
      split_ifs at hcon <;> omega
    interval_cases j <;> norm_num at hlt <;> split_ifs at hcon <;> omega
  · intro i hi
    rw [vlq_encode_cases] at hi ⊢
    split_ifs at hi ⊢ <;> simp only [List.length_cons, List.length_nil] at * <;>
      interval_cases i <;> norm_num <;> omega
  · intro i hi
    rw [and_80]
    rw [vlq_encode_cases] at hi ⊢
    split_ifs at hi ⊢ <;> simp only [List.length_cons, List.length_nil] at * <;>
      interval_cases i <;> first | (norm_num; done) | (norm_num; omega)

/-- Witness of C2 at `v = 0x0FFFFFFF`. -/
theorem midi_vlq_encode_minimal_witness :
    midi_vlq_encode 0x0FFFFFFF = [0xFF, 0xFF, 0xFF, 0x7F] ∧
      (∀ j, 1 ≤ j → 0x0FFFFFFF < 2 ^ (7 * j) → (midi_vlq_encode 0x0FFFFFFF).length ≤ j) :=
  ⟨by decide, (midi_vlq_encode_minimal 0x0FFFFFFF (by decide)).2.2.1⟩

/-- C3: for every byte buffer of length `len`, `midi_vlq_decode` fails if and
only if `len` is 0 or none of the first `min 5 len` bytes has bit 7 clear; and
when it succeeds, the byte count `n` it returns is the 1-based index of the
first byte with bit 7 clear (byte `n - 1` has bit 7 clear, the bytes before it
have it set, and `n` lies within the bytes that may be read). -/
theorem midi_vlq_decode_fails_iff (bytes : Mem) (len : Nat) :
    (midi_vlq_decode bytes len = none ↔
      len = 0 ∨ ∀ i, i < min 5 len → bytes i &&& 0x80 ≠ 0) ∧
    (∀ n v, midi_vlq_decode bytes len = some (n, v) →
      1 ≤ n ∧ n ≤ min 5 len ∧ bytes (n - 1) &&& 0x80 = 0 ∧
        ∀ i, i < n - 1 → bytes i &&& 0x80 ≠ 0) := by
  simp only [and_80_eq_zero, ne_eq]
  unfold midi_vlq_decode
  by_cases h0 : len = 0
  · simp [h0]
  · rw [if_neg h0]
    constructor
    · rw [vlq_loop_none_iff]
      constructor
      · intro h
        right
        intro i hi
        exact h i (Nat.zero_le i) (by omega) (by omega)
      · intro h j _ h2 h3
        rcases h with h | h
        · exact absurd h h0
        · exact h j (by omega)
    · intro n v h
      obtain ⟨h1, h2, h3, h4, h5⟩ := vlq_loop_some _ _ _ _ _ _ _ h
      refine ⟨by omega, by omega, h4, ?_⟩
      intro i hi
      exact h5 i (Nat.zero_le i) hi

/-- Witness of C3: `81 00` decodes in two bytes, and `80 80 80 80 80 00` fails. -/
theorem midi_vlq_decode_fails_iff_witness :
    midi_vlq_decode (bytes_of [0x81, 0x00] zero_mem) 2 = some (2, 128) ∧
    (1 ≤ 2 ∧ 2 ≤ min 5 2 ∧ bytes_of [0x81, 0x00] zero_mem (2 - 1) &&& 0x80 = 0 ∧
      ∀ i, i < 2 - 1 → bytes_of [0x81, 0x00] zero_mem i &&& 0x80 ≠ 0) ∧
    midi_vlq_decode (bytes_of [0x80, 0x80, 0x80, 0x80, 0x80, 0x00] zero_mem) 6 = none :=
  ⟨by decide,
    (midi_vlq_decode_fails_iff (bytes_of [0x81, 0x00] zero_mem) 2).2 2 128 (by decide),
    by decide⟩

/-! ## Claims on channel events -/

theorem to_bytes_rolling_some (e : midi_event_t) (hk : 8 ≤ e.kind ∧ e.kind ≤ 14) :
    ∃ supp, midi_event_to_bytes e true = some supp ∧
      supp.length = (if e.kind = 12 ∨ e.kind = 13 then 1 else 2) := by
  obtain ⟨kind, channel, b0, b1⟩ := e
  obtain ⟨hk1, hk2⟩ := hk
  simp only at hk1 hk2 ⊢
  interval_cases kind <;> simp [midi_event_to_bytes]

/-- C4: for every channel event `e` with kind in `0x8..0xE` and channel in
`0..15`, decoding the status-suppressed encoding of `e` with
`midi_event_from_bytes_rolling` and the inherited status `kind<<4 | channel`
yields the same event as decoding the full encoding of `e` with
`midi_event_from_bytes` (both started on the same event storage `e0`), with the
kind and channel of `e`, and consumes exactly one byte fewer (all of the
suppressed encoding against all of the full one). -/
theorem midi_event_rolling_decode_agrees (e e0 : midi_event_t) (rest1 rest2 : Mem)
    (hk : 0x8 ≤ e.kind ∧ e.kind ≤ 0xE) (hc : e.channel ≤ 15) :
    ∃ full supp n m,
      midi_event_to_bytes e false = some full ∧
      midi_event_to_bytes e true = some supp ∧
      midi_event_from_bytes e0 (bytes_of full rest1) full.length = some (n + 1, m) ∧
      midi_event_from_bytes_rolling e0 ((e.kind <<< 4) ||| e.channel) (bytes_of supp rest2)
        supp.length = some (n, m) ∧
      n = supp.length ∧ n + 1 = full.length ∧ m.kind = e.kind ∧ m.channel = e.channel := by
  obtain ⟨supp, hsupp, hlen⟩ := to_bytes_rolling_some e hk
  have hfull := to_bytes_cons e (by omega) hc
  rw [hsupp] at hfull
  simp only [Option.map_some'] at hfull
  have hkd : (16 * e.kind + e.channel) / 16 % 16 = e.kind := by omega
  have hcd : (16 * e.kind + e.channel) % 16 = e.channel := by omega
  obtain ⟨m, hm, hmk, hmc, -⟩ :=
    rolling_some e0 (16 * e.kind + e.channel) (bytes_of supp rest2) supp.length
      (by rw [hkd]; exact hk) (by rw [hkd, hlen])
  rw [hkd, ← hlen] at hm
  refine ⟨_, supp, supp.length, m, hfull, hsupp, ?_, ?_, rfl, by simp, ?_, ?_⟩
  · have h0 : bytes_of ((16 * e.kind + e.channel) :: supp) rest1 0 = 16 * e.kind + e.channel := by
      simp [bytes_of]
    rw [List.length_cons, from_bytes_eq_rolling, h0, ptr_add_bytes_of_cons,
      rolling_congr e0 _ (bytes_of supp rest1) (bytes_of supp rest2) supp.length
        (fun i hi => by rw [bytes_of_lt _ _ _ hi, bytes_of_lt _ _ _ hi]), hm]
    rfl
  · rw [status_inherited _ _ hc]
    exact hm
  · rw [hmk, hkd]
  · rw [hmc, hcd]

/-- Witness of C4: a note-on on channel 3 (note 60, velocity 100). -/
theorem midi_event_rolling_decode_agrees_witness :
    ∃ full supp n m,
      midi_event_to_bytes { kind := 9, channel := 3, bytes0 := 60, bytes1 := 100 } false
        = some full ∧
      midi_event_to_bytes { kind := 9, channel := 3, bytes0 := 60, bytes1 := 100 } true
        = some supp ∧
      midi_event_from_bytes midi_event_zero (bytes_of full zero_mem) full.length
        = some (n + 1, m) ∧
      midi_event_from_bytes_rolling midi_event_zero ((9 <<< 4) ||| 3) (bytes_of supp zero_mem)
        supp.length = some (n, m) ∧
      n = supp.length ∧ n + 1 = full.length ∧ m.kind = 9 ∧ m.channel = 3 :=
  midi_event_rolling_decode_agrees { kind := 9, channel := 3, bytes0 := 60, bytes1 := 100 }
    midi_event_zero zero_mem zero_mem (by decide) (by decide)

/-- C5: for every channel event with kind in `0x8..0xE` and channel in `0..15`,
`midi_event_to_bytes` without status suppression emits the status byte
`kind<<4 | channel` followed by the bytes it emits with status suppression;
these are exactly 2 data bytes for note-on, note-off, poly-pressure, controller
and pitch-bend and exactly 1 data byte for program and channel-pressure; and
for any kind outside `0x8..0xE` it fails, with or without suppression. -/
theorem midi_event_to_bytes_layout (e : midi_event_t) :
    (0x8 ≤ e.kind ∧ e.kind ≤ 0xE → e.channel ≤ 15 →
      midi_event_to_bytes e false =
          (midi_event_to_bytes e true).map (fun d => ((e.kind <<< 4) ||| e.channel) :: d) ∧
      (e.kind = MIDI_NOTE_ON ∨ e.kind = MIDI_NOTE_OFF ∨ e.kind = MIDI_POLY_PRESSURE
          ∨ e.kind = MIDI_CONTROLLER →
        midi_event_to_bytes e true = some [e.bytes0, e.bytes1]) ∧
      (e.kind = MIDI_PITCH_BEND →
        midi_event_to_bytes e true = some [u8 e.pitch_bend, u8 (e.pitch_bend >>> 7)]) ∧
      (e.kind = MIDI_PROGRAM ∨ e.kind = MIDI_CHAN_PRESSURE →
        midi_event_to_bytes e true = some [e.bytes0])) ∧
    (¬ (0x8 ≤ e.kind ∧ e.kind ≤ 0xE) → ∀ rolling, midi_event_to_bytes e rolling = none) := by
  constructor
  · intro hk hc
    refine ⟨?_, ?_, ?_, ?_⟩
    · rw [to_bytes_cons e (by omega) hc, status_inherited _ _ hc]
    · intro h
      simp [midi_event_to_bytes, h]
    · intro h
      simp [midi_event_to_bytes, h]
    · intro h
      rcases h with h | h <;> simp [midi_event_to_bytes, h]
  · intro hk rolling
    have h1 : ¬ (e.kind = MIDI_NOTE_ON ∨ e.kind = MIDI_NOTE_OFF ∨ e.kind = MIDI_POLY_PRESSURE
        ∨ e.kind = MIDI_CONTROLLER) := by
      simp only [MIDI_NOTE_ON, MIDI_NOTE_OFF, MIDI_POLY_PRESSURE, MIDI_CONTROLLER]; omega
    have h2 : ¬ (e.kind = MIDI_PROGRAM ∨ e.kind = MIDI_CHAN_PRESSURE) := by
      simp only [MIDI_PROGRAM, MIDI_CHAN_PRESSURE]; omega
    have h3 : ¬ e.kind = MIDI_PITCH_BEND := by
      simp only [MIDI_PITCH_BEND]; omega
    simp only [midi_event_to_bytes, h1, h2, h3, if_false]

/-- Witness of C5: a program change on channel 2, and a kind outside `0x8..0xE`. -/
theorem midi_event_to_bytes_layout_witness :
    midi_event_to_bytes { kind := 0xC, channel := 2, bytes0 := 5, bytes1 := 0 } true = some [5] ∧
    midi_event_to_bytes { kind := 0xC, channel := 2, bytes0 := 5, bytes1 := 0 } false =
      some [0xC2, 5] ∧
    (∀ rolling,
      midi_event_to_bytes { kind := 0xF, channel := 0, bytes0 := 0, bytes1 := 0 } rolling = none) :=
  ⟨((midi_event_to_bytes_layout { kind := 0xC, channel := 2, bytes0 := 5, bytes1 := 0 }).1
      (by decide) (by decide)).2.2.2 (Or.inl rfl),
    by decide,
    (midi_event_to_bytes_layout { kind := 0xF, channel := 0, bytes0 := 0, bytes1 := 0 }).2
      (by decide)⟩

/-- C6 (the code at the failing input): a pitch-bend event of value 128, a
14-bit number, is emitted with data bytes `80 01`. The low 7 bits of 128 are
`00`, and `0x80` is not below `0x80`: the first data byte is the low 8 bits of
the value, not its low 7 bits. -/
theorem midi_event_to_bytes_pitch_bend_low_byte :
    midi_event_t.pitch_bend { kind := MIDI_PITCH_BEND, channel := 0, bytes0 := 0x80, bytes1 := 0 }
      = 128 ∧
    midi_event_to_bytes { kind := MIDI_PITCH_BEND, channel := 0, bytes0 := 0x80, bytes1 := 0 } false
      = some [0xE0, 0x80, 0x01] ∧
    midi_event_to_bytes { kind := MIDI_PITCH_BEND, channel := 0, bytes0 := 0x80, bytes1 := 0 } true
      = some [0x80, 0x01] ∧
    (128 &&& 0x7F = 0 ∧ (128 >>> 7) &&& 0x7F = 1) ∧ ¬ (0x80 < 0x80) := by
  decide

/-! ## Claims on track events -/

/-- C7: for every track event `e` that is a channel event (kind in `0x8..0xE`,
channel in `0..15`, pitch-bend value 14-bit) or a meta event (any type byte and
payload), with any 32-bit delta-time, whose encoding fits the `int` byte count
that `track_event_to_bytes` returns: `track_event_to_bytes e` returns the number
of bytes it wrote, and reading those bytes with `track_event_next` from a fresh
parser (index 0, no last status), into any event storage `e0`, succeeds, returns
an event with the same delta, kind and payload as `e` (kind, channel and data
bytes of a channel event; type, length and payload bytes of a meta event), and
leaves the cursor exactly at the end of the written bytes. -/
theorem track_event_write_read_roundtrip (e e0 : track_event_t) (rest : Mem)
    (hdelta : e.delta < 2 ^ 32)
    (hev : (e.kind = midi_event_kind.EV_MIDI ∧ 0x8 ≤ e.midi.kind ∧ e.midi.kind ≤ 0xE ∧
          e.midi.channel ≤ 15 ∧ e.midi.bytes0 < 256 ∧
          (e.midi.kind = MIDI_PITCH_BEND → e.midi.pitch_bend < 16384)) ∨
        (e.kind = midi_event_kind.EV_META ∧ e.meta_length < 2 ^ 32 ∧
          (track_event_to_bytes e).out.length < 2 ^ 31)) :
    (track_event_to_bytes e).ret = ((track_event_to_bytes e).out.length : Nat) ∧
    0 < (track_event_next (track_parser_fresh (bytes_of (track_event_to_bytes e).out rest)
      (track_event_to_bytes e).out.length) e0).ret ∧
    (track_event_next (track_parser_fresh (bytes_of (track_event_to_bytes e).out rest)
      (track_event_to_bytes e).out.length) e0).p.idx = (track_event_to_bytes e).out.length ∧
    (track_event_next (track_parser_fresh (bytes_of (track_event_to_bytes e).out rest)
      (track_event_to_bytes e).out.length) e0).e.delta = e.delta ∧
    (track_event_next (track_parser_fresh (bytes_of (track_event_to_bytes e).out rest)
      (track_event_to_bytes e).out.length) e0).e.kind = e.kind ∧
    (e.kind = midi_event_kind.EV_MIDI →
      (track_event_next (track_parser_fresh (bytes_of (track_event_to_bytes e).out rest)
        (track_event_to_bytes e).out.length) e0).e.midi.kind = e.midi.kind ∧
      (track_event_next (track_parser_fresh (bytes_of (track_event_to_bytes e).out rest)
        (track_event_to_bytes e).out.length) e0).e.midi.channel = e.midi.channel ∧
      (track_event_next (track_parser_fresh (bytes_of (track_event_to_bytes e).out rest)
        (track_event_to_bytes e).out.length) e0).e.midi.bytes0 = e.midi.bytes0 ∧
      (¬ (e.midi.kind = MIDI_PROGRAM ∨ e.midi.kind = MIDI_CHAN_PRESSURE) →
        (track_event_next (track_parser_fresh (bytes_of (track_event_to_bytes e).out rest)
          (track_event_to_bytes e).out.length) e0).e.midi.bytes1 = e.midi.bytes1)) ∧
    (e.kind = midi_event_kind.EV_META →
      (track_event_next (track_parser_fresh (bytes_of (track_event_to_bytes e).out rest)
        (track_event_to_bytes e).out.length) e0).e.meta_type = e.meta_type ∧
      (track_event_next (track_parser_fresh (bytes_of (track_event_to_bytes e).out rest)
        (track_event_to_bytes e).out.length) e0).e.meta_length = e.meta_length ∧
      (∀ i, i < e.meta_length →
        (track_event_next (track_parser_fresh (bytes_of (track_event_to_bytes e).out rest)
          (track_event_to_bytes e).out.length) e0).e.meta_data i = e.meta_data i)) := by
  have hd : e.delta < 4294967296 := by simpa using hdelta
  rcases hev with ⟨hkind, hk1, hk2, hc, hb0, hpb⟩ | ⟨hkind, hlen, hfit⟩
  · obtain ⟨r1, r2, r3, r4, r5, r6, r7, r8, r9⟩ :=
      roundtrip_midi e e0 rest hd hkind ⟨hk1, hk2⟩ hc hb0 hpb
    refine ⟨r1, r2, r3, r4, r5, fun _ => ⟨r6, r7, r8, r9⟩, ?_⟩
    intro h
    rw [hkind] at h
    cases h
  · obtain ⟨r1, r2, r3, r4, r5, r6, r7, r8⟩ :=
      roundtrip_meta e e0 rest hd hkind (by simpa using hlen) (by simpa using hfit)
    refine ⟨r1, r2, r3, r4, r5, ?_, fun _ => ⟨r6, r7, r8⟩⟩
    intro h
    rw [hkind] at h
    cases h

/-- Witness of C7: a note-on event at delta 480 and a tempo meta event. -/
theorem track_event_write_read_roundtrip_witness :
    (track_event_to_bytes sample_note_event).out = [0x83, 0x60, 0x90, 60, 0] ∧
    (track_event_next (track_parser_fresh (bytes_of (track_event_to_bytes sample_note_event).out zero_mem)
      (track_event_to_bytes sample_note_event).out.length) track_event_zero).p.idx =
        (track_event_to_bytes sample_note_event).out.length ∧
    (track_event_to_bytes sample_tempo_event).out = [0x00, 0xFF, 0x51, 0x03, 0x07, 0xA1, 0x20] ∧
    (track_event_next (track_parser_fresh (bytes_of (track_event_to_bytes sample_tempo_event).out zero_mem)
      (track_event_to_bytes sample_tempo_event).out.length) track_event_zero).p.idx =
        (track_event_to_bytes sample_tempo_event).out.length :=
  ⟨by decide,
    (track_event_write_read_roundtrip sample_note_event track_event_zero zero_mem (by decide)
      (Or.inl ⟨rfl, by decide, by decide, by decide, by decide, by decide⟩)).2.2.1,
    by decide,
    (track_event_write_read_roundtrip sample_tempo_event track_event_zero zero_mem (by decide)
      (Or.inr ⟨rfl, by decide, by decide⟩)).2.2.1⟩

/-- C8 (the code at the failing input): the system-exclusive event with the
one-byte payload `42` is written as `00 F0 01 42`; reading these four bytes
back succeeds as a system-exclusive event whose data starts at the byte `42`,
with the cursor at the end of the buffer, but with length 0, not 1. -/
theorem track_event_sysex_length_off_by_one :
    track_event_to_bytes sample_sysex_event = { ret := 4, out := [0x00, 0xF0, 0x01, 0x42] } ∧
    (track_event_next (track_parser_fresh (bytes_of [0x00, 0xF0, 0x01, 0x42] zero_mem) 4)
      track_event_zero).ret = 3 ∧
    (track_event_next (track_parser_fresh (bytes_of [0x00, 0xF0, 0x01, 0x42] zero_mem) 4)
      track_event_zero).p.idx = 4 ∧
    (track_event_next (track_parser_fresh (bytes_of [0x00, 0xF0, 0x01, 0x42] zero_mem) 4)
      track_event_zero).e.kind = midi_event_kind.EV_SYSEX ∧
    (track_event_next (track_parser_fresh (bytes_of [0x00, 0xF0, 0x01, 0x42] zero_mem) 4)
      track_event_zero).e.sysex_data 0 = 0x42 ∧
    (track_event_next (track_parser_fresh (bytes_of [0x00, 0xF0, 0x01, 0x42] zero_mem) 4)
      track_event_zero).e.sysex_length = 0 ∧
    sample_sysex_event.sysex_length = 1 := by
  decide

/-- C9, as stated, fails at a concrete input: over the buffer `00 3C`, with
last status `0x90` (a valid channel status), the delta-time is read, the byte
that follows it is `3C` (not a status byte, not `F0`, `F7` or `FF`), and
`track_event_next` returns the error `-1`: a note-on needs two data bytes and
one remains. -/
theorem track_event_next_running_status_short :
    midi_vlq_decode (ptr_add sample_parser_short.bytes sample_parser_short.idx)
      (u32_sub sample_parser_short.len sample_parser_short.idx) = some (1, 0) ∧
    sample_parser_short.bytes 1 = 0x3C ∧
    (0x80 ≤ sample_parser_short.last_status ∧ sample_parser_short.last_status ≤ 0xEF) ∧
    (track_event_next sample_parser_short track_event_zero).ret = -1 := by
  decide

/-- C9, amended: for every parser state and input in which the delta-time is
read (`n` bytes, value `delta`), a byte follows it, and that byte is not in
`0x80..0xEF` and is not `0xF0`, `0xF7` or `0xFF`:
if the stream's last status is a valid channel status (`0x80..0xEF`) and the
bytes left are at least the data bytes its kind needs (1 for program and
channel-pressure, 2 otherwise), `track_event_next` decodes a channel event with
that status's kind and channel, returns the number of data bytes, advances the
cursor by exactly the delta-time and the data bytes (no status byte is consumed:
outside pitch-bend the first data byte is the byte that follows the delta-time)
and keeps the last status; if fewer bytes are left it fails; and with no valid
last status it fails. -/
theorem track_event_next_running_status (p : track_parser_t) (e : track_event_t)
    (n delta : Nat)
    (h1 : midi_vlq_decode (ptr_add p.bytes p.idx) (u32_sub p.len p.idx) = some (n, delta))
    (h2 : u32_sub p.len (u32 (p.idx + n)) ≠ 0)
    (hb : ¬ (0x80 ≤ p.bytes (u32 (p.idx + n)) ∧ p.bytes (u32 (p.idx + n)) ≤ 0xEF) ∧
      p.bytes (u32 (p.idx + n)) ≠ 0xF0 ∧ p.bytes (u32 (p.idx + n)) ≠ 0xF7 ∧
      p.bytes (u32 (p.idx + n)) ≠ 0xFF) :
    (0x80 ≤ p.last_status ∧ p.last_status ≤ 0xEF →
      ((if (p.last_status &&& 0xF0) >>> 4 = MIDI_PROGRAM ∨
            (p.last_status &&& 0xF0) >>> 4 = MIDI_CHAN_PRESSURE then 1 else 2)
          ≤ u32_sub p.len (u32 (p.idx + n)) →
        (track_event_next p e).ret =
          ((if (p.last_status &&& 0xF0) >>> 4 = MIDI_PROGRAM ∨
            (p.last_status &&& 0xF0) >>> 4 = MIDI_CHAN_PRESSURE then 1 else 2 : Nat) : Int) ∧
        (track_event_next p e).p.idx =
          u32 (u32 (p.idx + n) +
            (if (p.last_status &&& 0xF0) >>> 4 = MIDI_PROGRAM ∨
              (p.last_status &&& 0xF0) >>> 4 = MIDI_CHAN_PRESSURE then 1 else 2)) ∧
        (track_event_next p e).p.last_status = p.last_status ∧
        (track_event_next p e).e.kind = midi_event_kind.EV_MIDI ∧
        (track_event_next p e).e.delta = delta ∧
        (track_event_next p e).e.midi.kind = (p.last_status &&& 0xF0) >>> 4 ∧
        (track_event_next p e).e.midi.channel = p.last_status &&& 0x0F ∧
        ((p.last_status &&& 0xF0) >>> 4 ≠ MIDI_PITCH_BEND →
          (track_event_next p e).e.midi.bytes0 = p.bytes (u32 (p.idx + n)))) ∧
      (u32_sub p.len (u32 (p.idx + n)) <
          (if (p.last_status &&& 0xF0) >>> 4 = MIDI_PROGRAM ∨
            (p.last_status &&& 0xF0) >>> 4 = MIDI_CHAN_PRESSURE then 1 else 2) →
        (track_event_next p e).ret = -1)) ∧
    (¬ (0x80 ≤ p.last_status ∧ p.last_status ≤ 0xEF) → (track_event_next p e).ret = -1) := by
  obtain ⟨hb1, hb2, hb3, hb4⟩ := hb
  have h3a : ¬ (0x80 ≤ p.bytes (u32 (p.idx + n)) ∧ p.bytes (u32 (p.idx + n)) < 0xF0) := by
    omega
  have h3b : ¬ (p.bytes (u32 (p.idx + n)) = 0xF0 ∨ p.bytes (u32 (p.idx + n)) = 0xF7) := by
    omega
  rw [and_F0_shr, and_0F]
  constructor
  · intro hs
    have hs' : 0x80 ≤ p.last_status ∧ p.last_status < 0xF0 := by omega
    have hk : 8 ≤ p.last_status / 16 % 16 ∧ p.last_status / 16 % 16 ≤ 14 := by omega
    constructor
    · intro hlen
      obtain ⟨m, hm, hmk, hmc, hm0, -, -⟩ :=
        rolling_some e.midi p.last_status (ptr_add p.bytes (u32 (p.idx + n)))
          (u32_sub p.len (u32 (p.idx + n))) hk hlen
      obtain ⟨r1, r2, r3, r4, r5, r6⟩ :=
        next_rolling p e n delta _ m h1 h2 h3a h3b hb4 hs' hm (by split_ifs <;> omega)
      refine ⟨r1, r2, r3, r4, r5, ?_, ?_, ?_⟩
      · rw [r6, hmk]
      · rw [r6, hmc]
      · intro h14
        rw [r6, hm0 h14]
        simp [ptr_add]
    · intro hlen
      by_cases h12 : p.last_status / 16 % 16 = 12 ∨ p.last_status / 16 % 16 = 13
      · rw [if_pos h12] at hlen
        omega
      · rw [if_neg h12] at hlen
        exact next_rolling_fail p e n delta h1 h2 h3a h3b hb4 hs'
          (rolling_short _ _ _ _ hk h12 hlen)
  · intro hs
    exact next_no_status p e n delta h1 h2 h3a h3b hb4 (by omega)

/-- Witness of the amended C9: over the buffer `00 3C 40` with last status
`0x90`, a note-on on channel 0 is decoded from the two data bytes. -/
theorem track_event_next_running_status_witness :
    (track_event_next sample_parser_running track_event_zero).ret = 2 ∧
    (track_event_next sample_parser_running track_event_zero).p.idx = 3 ∧
    (track_event_next sample_parser_running track_event_zero).e.midi.kind = MIDI_NOTE_ON ∧
    (track_event_next sample_parser_running track_event_zero).e.midi.bytes0 = 0x3C :=
  have h := ((track_event_next_running_status sample_parser_running track_event_zero 1 0
    (by decide) (by decide) (by decide)).1 (by decide)).1 (by decide)
  ⟨h.1, h.2.1, h.2.2.2.2.2.1, h.2.2.2.2.2.2.2 (by decide)⟩

/-- C10 (the code at the failing input): in the 4-byte buffer `00 FF 2F 05` a
meta event declares 5 payload bytes and none remain; `track_event_next` returns
8, not an error, and leaves the cursor at 9, past the buffer length 4. The same
happens for the system-exclusive buffer `00 F0 05` (returns 7, cursor 8, length 3). -/
theorem track_event_next_truncated_meta :
    (track_event_next (track_parser_fresh (bytes_of [0x00, 0xFF, 0x2F, 0x05] zero_mem) 4)
      track_event_zero).ret = 8 ∧
    (track_event_next (track_parser_fresh (bytes_of [0x00, 0xFF, 0x2F, 0x05] zero_mem) 4)
      track_event_zero).p.idx = 9 ∧
    (track_event_next (track_parser_fresh (bytes_of [0x00, 0xFF, 0x2F, 0x05] zero_mem) 4)
      track_event_zero).p.len = 4 ∧
    (track_event_next (track_parser_fresh (bytes_of [0x00, 0xF0, 0x05] zero_mem) 3)
      track_event_zero).ret = 7 ∧
    (track_event_next (track_parser_fresh (bytes_of [0x00, 0xF0, 0x05] zero_mem) 3)
      track_event_zero).p.idx = 8 := by
  decide

/-! ## The parser: loops and macros -/

theorem parse_loop_unroll_eq (loop_seq break_seq : List mml_event) : ∀ (n : Nat)
    (parent_seq : List mml_event),
    parse_loop_unroll loop_seq break_seq n parent_seq
      = parent_seq ++ (List.replicate n (loop_seq ++ break_seq)).flatten
  | 0, parent_seq => by simp [parse_loop_unroll]
  | n + 1, parent_seq => by
    unfold parse_loop_unroll
    simp only []
    rw [parse_loop_unroll_eq loop_seq break_seq n]
    by_cases hb : break_seq.length > 0
    · rw [if_pos hb]
      simp [List.replicate_succ]
    · rw [if_neg hb]
      have : break_seq = [] := List.length_eq_zero.1 (by omega)
      subst this
      simp [List.replicate_succ]

theorem parse_loop_unroll_length (loop_seq break_seq : List mml_event) : ∀ (n : Nat)
    (parent_seq : List mml_event),
    (parse_loop_unroll loop_seq break_seq n parent_seq).length
      = parent_seq.length + n * (loop_seq.length + break_seq.length)
  | 0, parent_seq => by simp [parse_loop_unroll]
  | n + 1, parent_seq => by
    unfold parse_loop_unroll
    simp only []
    rw [parse_loop_unroll_length loop_seq break_seq n]
    by_cases hb : break_seq.length > 0
    · rw [if_pos hb]
      simp only [List.length_append]
      ring
    · rw [if_neg hb]
      have : break_seq.length = 0 := by omega
      rw [this]
      simp only [List.length_append]
      ring

/-- The path of `parse_loop` on which both scans end, the closing bracket and
the count follow: what it returns. -/
theorem parse_loop_done (src : Mem) (act : parser_context → outcome (Bool × parser_context))
    (ctx ctx1 ctx2 : parser_context) (loopi : Nat)
    (hk : peek_kind ctx = token_kind.MML_LBRACKET)
    (hbody : scan_actions act loop_body_stop parse_abort.unexpected_in_loop_body
      (ctx.tokens.length + 1) { (advance ctx).2 with out_sequence := [] } = outcome.done ctx1)
    (hbrk : (if peek_kind ctx1 = token_kind.MML_COLON then
        scan_actions act loop_break_stop parse_abort.unexpected_in_loop_break
          (ctx1.tokens.length + 1) { (advance ctx1).2 with out_sequence := [] }
      else outcome.done { ctx1 with out_sequence := [] }) = outcome.done ctx2)
    (hrb : peek_kind ctx2 = token_kind.MML_RBRACKET)
    (hnum : (token_at ctx2.tokens (ctx2.idx + 1)).kind = token_kind.MML_NUMBER)
    (hn : read_unsigned src (token_at ctx2.tokens (ctx2.idx + 1)).view = outcome.done loopi) :
    parse_loop src act ctx
      = outcome.done (true,
          { tokens := ctx2.tokens, idx := ctx2.idx + 1 + 1,
            out_sequence :=
              parse_loop_unroll ctx1.out_sequence ctx2.out_sequence (u32_sub loopi 1)
                ctx.out_sequence ++ ctx1.out_sequence,
            macro_table := ctx2.macro_table }) := by
  unfold parse_loop
  rw [if_neg (by rw [hk]; simp)]
  simp only []
  have hb : scan_actions act loop_body_stop parse_abort.unexpected_in_loop_body
      ((advance ctx).2.tokens.length + 1) { (advance ctx).2 with out_sequence := [] }
      = outcome.done ctx1 := hbody
  rw [hb]
  simp only []
  rw [hbrk]
  simp only []
  have hp : peek_kind { ctx2 with out_sequence := (advance ctx).2.out_sequence }
      = token_kind.MML_RBRACKET := hrb
  have he : expect { ctx2 with out_sequence := (advance ctx).2.out_sequence }
      token_kind.MML_RBRACKET
      = (true, (advance { ctx2 with out_sequence := (advance ctx).2.out_sequence }).2) := by
    unfold expect
    rw [if_neg (by rw [hp]; simp)]
  rw [he]
  simp only []
  have hp2 : peek_kind (advance { ctx2 with out_sequence := (advance ctx).2.out_sequence }).2
      = token_kind.MML_NUMBER := hnum
  rw [if_neg (by simp), if_neg (by rw [hp2]; simp)]
  have hv : read_unsigned src
      (advance (advance { ctx2 with out_sequence := (advance ctx).2.out_sequence }).2).1.view
      = outcome.done loopi := hn
  rw [hv]
  rfl

theorem read_unsigned_lt (src : Mem) (view : string_view) (n : Nat)
    (h : read_unsigned src view = outcome.done n) : n < 4294967296 := by
  unfold read_unsigned at h
  simp only [] at h
  split_ifs at h
  injection h with h
  rw [← h]
  unfold u32
  omega

/-- C11 (code defect): `parse_definition` takes the `mml_sequence` of a macro
body from `malloc` and never initialises it, so the body starts with whatever
the block denotes. When the block is zero-filled, `!x{cde}@x;` parses to the
events of `cde;`; when it still denotes a sequence of one stale event, the
macro body and the expansion start with that event, and the parse of
`!x{cde}@x;` differs from the parse of `cde;`. -/
theorem parse_definition_uninitialised_body :
    parse_text [] text_macro_cde = parse_text [] text_cde
    ∧ parse_text stale_sequence text_cde
        = some (outcome.done (0,
            [mml_event.note 99 0 0 0 false false, mml_event.note 100 0 0 0 false false,
             mml_event.note 101 0 0 0 false false, mml_event.eot]))
    ∧ parse_text stale_sequence text_macro_cde
        = some (outcome.done (0,
            stale_sequence ++
            [mml_event.note 99 0 0 0 false false, mml_event.note 100 0 0 0 false false,
             mml_event.note 101 0 0 0 false false, mml_event.eot]))
    ∧ parse_text stale_sequence text_macro_cde ≠ parse_text stale_sequence text_cde := by
  refine ⟨by decide, by decide, by decide, by decide⟩

/-- C12: for a loop `[A:B]n` whose body scan ends with the body sequence A,
whose break scan (or the absence of a break section) ends with the break
sequence B, and whose count is read as n >= 1, `parse_loop` succeeds and the
enclosing sequence becomes what it was, followed by (A ++ B) repeated n-1
times, followed by A; with an empty B that is A repeated n times. -/
theorem parse_loop_repeats (src : Mem)
    (act : parser_context → outcome (Bool × parser_context))
    (ctx ctx1 ctx2 : parser_context) (n : Nat)
    (hk : peek_kind ctx = token_kind.MML_LBRACKET)
    (hbody : scan_actions act loop_body_stop parse_abort.unexpected_in_loop_body
      (ctx.tokens.length + 1) { (advance ctx).2 with out_sequence := [] } = outcome.done ctx1)
    (hbrk : (if peek_kind ctx1 = token_kind.MML_COLON then
        scan_actions act loop_break_stop parse_abort.unexpected_in_loop_break
          (ctx1.tokens.length + 1) { (advance ctx1).2 with out_sequence := [] }
      else outcome.done { ctx1 with out_sequence := [] }) = outcome.done ctx2)
    (hrb : peek_kind ctx2 = token_kind.MML_RBRACKET)
    (hnum : (token_at ctx2.tokens (ctx2.idx + 1)).kind = token_kind.MML_NUMBER)
    (hn : read_unsigned src (token_at ctx2.tokens (ctx2.idx + 1)).view = outcome.done n)
    (h1 : 1 ≤ n) :
    ∃ ctx3 : parser_context,
      parse_loop src act ctx = outcome.done (true, ctx3)
      ∧ ctx3.out_sequence
          = ctx.out_sequence
            ++ (List.replicate (n - 1) (ctx1.out_sequence ++ ctx2.out_sequence)).flatten
            ++ ctx1.out_sequence
      ∧ (ctx2.out_sequence = [] →
          ctx3.out_sequence = ctx.out_sequence ++ (List.replicate n ctx1.out_sequence).flatten) := by
  have hlt := read_unsigned_lt src _ n hn
  have hsub : u32_sub n 1 = n - 1 := by
    unfold u32_sub u32
    rw [Nat.mod_eq_of_lt hlt, Nat.mod_eq_of_lt (by omega : 1 < 4294967296), if_pos h1]
  have hseq : parse_loop_unroll ctx1.out_sequence ctx2.out_sequence (u32_sub n 1)
      ctx.out_sequence ++ ctx1.out_sequence
      = ctx.out_sequence
        ++ (List.replicate (n - 1) (ctx1.out_sequence ++ ctx2.out_sequence)).flatten
        ++ ctx1.out_sequence := by
    rw [hsub, parse_loop_unroll_eq]
  refine ⟨_, parse_loop_done src act ctx ctx1 ctx2 n hk hbody hbrk hrb hnum hn, hseq, ?_⟩
  intro hempty
  show parse_loop_unroll ctx1.out_sequence ctx2.out_sequence (u32_sub n 1)
      ctx.out_sequence ++ ctx1.out_sequence = _
  rw [hseq, hempty, List.append_nil, List.append_assoc]
  congr 1
  obtain ⟨m, rfl⟩ : ∃ m, n = m + 1 := ⟨n - 1, by omega⟩
  rw [Nat.add_sub_cancel]
  clear hsub hseq hlt hn h1
  induction m with
  | zero => simp
  | succ m ih =>
    rw [List.replicate_succ, List.flatten_cons, List.append_assoc, ih]
    simp [List.replicate_succ]

theorem parse_loop_repeats_witness :
    parse_text [] text_loop_cd_e_3 = parse_text [] text_cdecdecd
    ∧ ∃ ctx3 : parser_context,
      parse_loop (bytes_of text_loop_cd_e_3 zero_mem)
          (parse_action (bytes_of text_loop_cd_e_3 zero_mem) 9) context_loop_cd_e_3
        = outcome.done (true, ctx3)
      ∧ ctx3.out_sequence
          = context_loop_cd_e_3.out_sequence
            ++ (List.replicate (3 - 1)
                (context_loop_cd_e_3_body.out_sequence
                  ++ context_loop_cd_e_3_break.out_sequence)).flatten
            ++ context_loop_cd_e_3_body.out_sequence
      ∧ (context_loop_cd_e_3_break.out_sequence = [] →
          ctx3.out_sequence
            = context_loop_cd_e_3.out_sequence
              ++ (List.replicate 3 context_loop_cd_e_3_body.out_sequence).flatten) :=
  ⟨by decide!,
   parse_loop_repeats (bytes_of text_loop_cd_e_3 zero_mem)
    (parse_action (bytes_of text_loop_cd_e_3 zero_mem) 9)
    context_loop_cd_e_3 context_loop_cd_e_3_body context_loop_cd_e_3_break 3
    (by decide!) (by decide!) (by decide!) (by decide!) (by decide!) (by decide!)
    (by decide!)⟩

/-- C13 (code defect): for a loop whose count is read as 0 the bound
`loopi - 1` of the unrolling loop is computed in `unsigned` and wraps to
4294967295, so `parse_loop` appends the body A and the break sequence B
4294967295 times and then A once more, instead of nothing. -/
theorem parse_loop_count_zero (src : Mem)
    (act : parser_context → outcome (Bool × parser_context))
    (ctx ctx1 ctx2 : parser_context)
    (hk : peek_kind ctx = token_kind.MML_LBRACKET)
    (hbody : scan_actions act loop_body_stop parse_abort.unexpected_in_loop_body
      (ctx.tokens.length + 1) { (advance ctx).2 with out_sequence := [] } = outcome.done ctx1)
    (hbrk : (if peek_kind ctx1 = token_kind.MML_COLON then
        scan_actions act loop_break_stop parse_abort.unexpected_in_loop_break
          (ctx1.tokens.length + 1) { (advance ctx1).2 with out_sequence := [] }
      else outcome.done { ctx1 with out_sequence := [] }) = outcome.done ctx2)
    (hrb : peek_kind ctx2 = token_kind.MML_RBRACKET)
    (hnum : (token_at ctx2.tokens (ctx2.idx + 1)).kind = token_kind.MML_NUMBER)
    (hn : read_unsigned src (token_at ctx2.tokens (ctx2.idx + 1)).view = outcome.done 0) :
    ∃ ctx3 : parser_context,
      parse_loop src act ctx = outcome.done (true, ctx3)
      ∧ ctx3.out_sequence
          = ctx.out_sequence
            ++ (List.replicate 4294967295 (ctx1.out_sequence ++ ctx2.out_sequence)).flatten
            ++ ctx1.out_sequence
      ∧ ctx3.out_sequence.length
          = ctx.out_sequence.length
            + 4294967295 * (ctx1.out_sequence.length + ctx2.out_sequence.length)
            + ctx1.out_sequence.length := by
  have hsub : u32_sub 0 1 = 4294967295 := by decide
  refine ⟨_, parse_loop_done src act ctx ctx1 ctx2 0 hk hbody hbrk hrb hnum hn, ?_, ?_⟩
  · show parse_loop_unroll ctx1.out_sequence ctx2.out_sequence (u32_sub 0 1)
      ctx.out_sequence ++ ctx1.out_sequence = _
    rw [hsub, parse_loop_unroll_eq]
  · show (parse_loop_unroll ctx1.out_sequence ctx2.out_sequence (u32_sub 0 1)
      ctx.out_sequence ++ ctx1.out_sequence).length = _
    rw [hsub, List.length_append, parse_loop_unroll_length]

theorem parse_loop_count_zero_witness :
    ∃ ctx3 : parser_context,
      parse_loop (bytes_of text_loop_c_0 zero_mem)
          (parse_action (bytes_of text_loop_c_0 zero_mem) 6) context_loop_c_0
        = outcome.done (true, ctx3)
      ∧ ctx3.out_sequence
          = context_loop_c_0.out_sequence
            ++ (List.replicate 4294967295
                (context_loop_c_0_body.out_sequence
                  ++ context_loop_c_0_break.out_sequence)).flatten
            ++ context_loop_c_0_body.out_sequence
      ∧ ctx3.out_sequence.length
          = context_loop_c_0.out_sequence.length
            + 4294967295 * (context_loop_c_0_body.out_sequence.length
                + context_loop_c_0_break.out_sequence.length)
            + context_loop_c_0_body.out_sequence.length :=
  parse_loop_count_zero (bytes_of text_loop_c_0 zero_mem)
    (parse_action (bytes_of text_loop_c_0 zero_mem) 6)
    context_loop_c_0 context_loop_c_0_body context_loop_c_0_break
    (by decide!) (by decide!) (by decide!) (by decide!) (by decide!) (by decide!)

/-- C14 (code defect): a reference from inside the body of its own definition,
a forward reference, and a reference to a macro whose only definition is empty
all stop the parse with "macro not defined" when the block that `malloc` hands
to `parse_definition` is zero-filled; but the block is never initialised, and
when it still denotes a non-empty sequence the empty definition `!x{}` is
registered with that sequence as its body, so that `!x{}@x;` parses without
the "macro not defined" stop. -/
theorem parse_expansion_of_empty_definition :
    parse_text [] text_self_reference
        = some (outcome.abort parse_abort.macro_not_defined)
    ∧ parse_text stale_sequence text_self_reference
        = some (outcome.abort parse_abort.macro_not_defined)
    ∧ parse_text [] text_forward_reference
        = some (outcome.abort parse_abort.macro_not_defined)
    ∧ parse_text stale_sequence text_forward_reference
        = some (outcome.abort parse_abort.macro_not_defined)
    ∧ parse_text [] text_empty_definition
        = some (outcome.abort parse_abort.macro_not_defined)
    ∧ parse_text stale_sequence text_empty_definition
        = some (outcome.done (0, stale_sequence ++ [mml_event.eot])) := by
  refine ⟨by decide, by decide, by decide, by decide, by decide, by decide⟩

theorem skip_whitespace_loop_bounds (data : Mem) : ∀ n offset : Nat,
    offset ≤ skip_whitespace_loop data n offset
      ∧ skip_whitespace_loop data n offset ≤ offset + n
  | 0, offset => by simp [skip_whitespace_loop]
  | n + 1, offset => by
    unfold skip_whitespace_loop
    split
    · have := skip_whitespace_loop_bounds data n (offset + 1)
      omega
    · omega

theorem expansion_loop_run (data : Mem) (offset : Nat) : ∀ n length : Nat,
    length ≤ expansion_loop data offset n length
      ∧ expansion_loop data offset n length ≤ length + n
      ∧ (∀ i, length ≤ i → i < expansion_loop data offset n length →
          is_ident_char (data (offset + i)) = true)
      ∧ (expansion_loop data offset n length < length + n →
          is_ident_char (data (offset + expansion_loop data offset n length)) = false)
  | 0, length => by
    simp only [expansion_loop]
    refine ⟨le_refl _, by omega, ?_, ?_⟩
    · intro i h1 h2; omega
    · intro h; omega
  | n + 1, length => by
    unfold expansion_loop
    by_cases hc : is_ident_char (data (offset + length)) = true
    · rw [if_pos hc]
      obtain ⟨h1, h2, h3, h4⟩ := expansion_loop_run data offset n (length + 1)
      refine ⟨by omega, by omega, ?_, ?_⟩
      · intro i hi1 hi2
        rcases Nat.eq_or_lt_of_le hi1 with heq | hlt
        · rw [← heq]; exact hc
        · exact h3 i hlt hi2
      · intro h; exact h4 (by omega)
    · rw [if_neg hc]
      refine ⟨le_refl _, by omega, ?_, ?_⟩
      · intro i h1 h2; omega
      · intro _; simpa using hc

theorem ident_char_plain (c : Nat) (h : is_ident_char c = true) :
    is_space c = false ∧ c ≠ 123 := by
  unfold is_ident_char isalnum at h
  unfold is_space isspace
  simp only [Bool.or_eq_true, Bool.and_eq_true, decide_eq_true_eq, ge_iff_le] at h
  simp only [Bool.or_eq_false_iff, Bool.and_eq_false_imp, beq_eq_false_iff_ne, ne_eq,
    decide_eq_true_eq, decide_eq_false_iff_not]
  omega

theorem definition_loop_eq (data : Mem) (offset : Nat) : ∀ n length : Nat,
    definition_loop data offset n length = expansion_loop data offset n length
  | 0, length => by simp [definition_loop, expansion_loop]
  | n + 1, length => by
    unfold definition_loop expansion_loop
    by_cases hc : is_ident_char (data (offset + length)) = true
    · have hp := ident_char_plain _ hc
      rw [if_pos hc, if_pos ⟨hc, by simp [hp.1], hp.2⟩]
      exact definition_loop_eq data offset n (length + 1)
    · rw [if_neg hc, if_neg (fun h => hc h.1)]

theorem number_loop_run (data : Mem) (offset : Nat) : ∀ n length : Nat,
    length ≤ number_loop data offset n length
      ∧ number_loop data offset n length ≤ length + n
      ∧ (∀ i, length ≤ i → i < number_loop data offset n length →
          is_digit (data (offset + i)) = true)
      ∧ (number_loop data offset n length < length + n →
          is_digit (data (offset + number_loop data offset n length)) = false)
  | 0, length => by
    simp only [number_loop]
    refine ⟨le_refl _, by omega, ?_, ?_⟩
    · intro i h1 h2; omega
    · intro h; omega
  | n + 1, length => by
    unfold number_loop
    by_cases hc : is_digit (data (offset + length)) = true
    · rw [if_pos hc]
      obtain ⟨h1, h2, h3, h4⟩ := number_loop_run data offset n (length + 1)
      refine ⟨by omega, by omega, ?_, ?_⟩
      · intro i hi1 hi2
        rcases Nat.eq_or_lt_of_le hi1 with heq | hlt
        · rw [← heq]; exact hc
        · exact h3 i hlt hi2
      · intro h; exact h4 (by omega)
    · rw [if_neg hc]
      refine ⟨le_refl _, by omega, ?_, ?_⟩
      · intro i h1 h2; omega
      · intro _; simpa using hc

theorem number_loop_pos (data : Mem) (offset n : Nat) (hn : 0 < n)
    (hd : is_digit (data offset) = true) : 1 ≤ number_loop data offset n 0 := by
  obtain ⟨m, rfl⟩ : ∃ m, n = m + 1 := ⟨n - 1, by omega⟩
  unfold number_loop
  rw [Nat.add_zero, if_pos hd]
  exact (number_loop_run data offset m (0 + 1)).1

/-- The run of identifier bytes after `@` or `!` at `offset`. -/
theorem expansion_loop_maximal (data : Mem) (offset size : Nat) (h : offset < size) :
    ∃ len, expansion_loop data offset (size - (offset + 1)) 1 = 1 + len
      ∧ maximal_run is_ident_char data (offset + 1) size len := by
  obtain ⟨h1, h2, h3, h4⟩ := expansion_loop_run data offset (size - (offset + 1)) 1
  refine ⟨expansion_loop data offset (size - (offset + 1)) 1 - 1, by omega, by omega, ?_, ?_⟩
  · intro i hi
    have := h3 (1 + i) (by omega) (by omega)
    rw [show offset + 1 + i = offset + (1 + i) from by omega]
    exact this
  · intro hlt
    have := h4 (by omega)
    rw [show offset + 1 + (expansion_loop data offset (size - (offset + 1)) 1 - 1)
      = offset + expansion_loop data offset (size - (offset + 1)) 1 from by omega]
    exact this

/-- The run of digits at `offset`. -/
theorem number_loop_maximal (data : Mem) (offset size : Nat) (h : offset < size)
    (hd : is_digit (data offset) = true) :
    1 ≤ number_loop data offset (size - (offset + 0)) 0
      ∧ maximal_run is_digit data offset size (number_loop data offset (size - (offset + 0)) 0) := by
  obtain ⟨h1, h2, h3, h4⟩ := number_loop_run data offset (size - (offset + 0)) 0
  refine ⟨number_loop_pos data offset _ (by omega) hd, by omega, ?_, ?_⟩
  · intro i hi
    exact h3 i (by omega) hi
  · intro hlt
    exact h4 (by omega)

theorem skip_whitespace_size (lexer : mmlexer) : (skip_whitespace lexer).size = lexer.size := rfl

theorem skip_whitespace_data (lexer : mmlexer) : (skip_whitespace lexer).data = lexer.data := rfl

theorem skip_whitespace_offset (lexer : mmlexer) (h : lexer.offset ≤ lexer.size) :
    lexer.offset ≤ (skip_whitespace lexer).offset
      ∧ (skip_whitespace lexer).offset ≤ lexer.size := by
  have := skip_whitespace_loop_bounds lexer.data (lexer.size - lexer.offset) lexer.offset
  simp only [skip_whitespace]
  omega

/-- The byte at which `skip_whitespace` stops inside the buffer is not a space. -/
theorem skip_whitespace_loop_stops (data : Mem) : ∀ n offset : Nat,
    skip_whitespace_loop data n offset < offset + n →
      is_space (data (skip_whitespace_loop data n offset)) = false
  | 0, offset => by simp [skip_whitespace_loop]
  | n + 1, offset => by
    unfold skip_whitespace_loop
    by_cases hc : is_space (data offset) = true
    · rw [if_pos hc]
      intro h
      exact skip_whitespace_loop_stops data n (offset + 1) (by omega)
    · rw [if_neg hc]
      intro _
      simpa using hc

theorem read_next_token_at (lexer : mmlexer) (h : (skip_whitespace lexer).offset < lexer.size) :
    read_next_token lexer =
      if (read_next_token_switch (skip_whitespace lexer) (skip_whitespace lexer).offset
            (token_char_len lexer) (lexer.data (skip_whitespace lexer).offset)).1
          = token_kind.MML_UNKNOWN then none
      else some
        ({ kind := (read_next_token_switch (skip_whitespace lexer) (skip_whitespace lexer).offset
              (token_char_len lexer) (lexer.data (skip_whitespace lexer).offset)).1,
           view := { data := (skip_whitespace lexer).offset,
                     size := (read_next_token_switch (skip_whitespace lexer)
                        (skip_whitespace lexer).offset (token_char_len lexer)
                        (lexer.data (skip_whitespace lexer).offset)).2 } },
         { skip_whitespace lexer with
           offset := (skip_whitespace lexer).offset
             + (read_next_token_switch (skip_whitespace lexer) (skip_whitespace lexer).offset
                (token_char_len lexer) (lexer.data (skip_whitespace lexer).offset)).2 }) := by
  unfold read_next_token
  have hne : ¬ (skip_whitespace lexer).offset = (skip_whitespace lexer).size := by
    rw [skip_whitespace_size]; omega
  simp only [if_neg hne]
  rfl

theorem read_next_token_eof (lexer : mmlexer) (h : (skip_whitespace lexer).offset = lexer.size) :
    read_next_token lexer
      = some ({ kind := token_kind.MML_EOF, view := { data := 0, size := 0 } },
              skip_whitespace lexer) := by
  unfold read_next_token
  have he : (skip_whitespace lexer).offset = (skip_whitespace lexer).size := by
    rw [skip_whitespace_size]; exact h
  simp only [if_pos he]

theorem utf8_char_len_pos (c : Nat) : 1 ≤ utf8_char_len c := by
  unfold utf8_char_len
  split_ifs <;> omega

theorem utf8_char_len_ascii (c : Nat) (h : c < 128) : utf8_char_len c = 1 := by
  unfold utf8_char_len
  have : c &&& 0x80 = 0 := by
    interval_cases c <;> rfl
  rw [if_pos this]

theorem token_char_len_bounds (lexer : mmlexer) (h : (skip_whitespace lexer).offset < lexer.size) :
    1 ≤ token_char_len lexer ∧ (skip_whitespace lexer).offset + token_char_len lexer ≤ lexer.size := by
  unfold token_char_len
  have := utf8_char_len_pos (lexer.data (skip_whitespace lexer).offset)
  split_ifs <;> omega

theorem token_char_len_ascii (lexer : mmlexer) (h : (skip_whitespace lexer).offset < lexer.size)
    (hc : lexer.data (skip_whitespace lexer).offset < 128) : token_char_len lexer = 1 := by
  unfold token_char_len
  rw [utf8_char_len_ascii _ hc, if_neg (by omega)]

theorem read_next_token_of_switch (lexer : mmlexer)
    (h : (skip_whitespace lexer).offset < lexer.size) (k : token_kind) (s : Nat)
    (hk : k ≠ token_kind.MML_UNKNOWN)
    (hs : read_next_token_switch (skip_whitespace lexer) (skip_whitespace lexer).offset
      (token_char_len lexer) (lexer.data (skip_whitespace lexer).offset) = (k, s)) :
    read_next_token lexer
      = some ({ kind := k, view := { data := (skip_whitespace lexer).offset, size := s } },
              { lexer with offset := (skip_whitespace lexer).offset + s }) := by
  rw [read_next_token_at lexer h, hs]
  simp only [if_neg hk]
  rfl

theorem read_next_token_unknown (lexer : mmlexer)
    (h : (skip_whitespace lexer).offset < lexer.size)
    (hs : (read_next_token_switch (skip_whitespace lexer) (skip_whitespace lexer).offset
      (token_char_len lexer) (lexer.data (skip_whitespace lexer).offset)).1
        = token_kind.MML_UNKNOWN) :
    read_next_token lexer = none := by
  rw [read_next_token_at lexer h, if_pos hs]

theorem switch_note (lexer : mmlexer) (o u c : Nat) (hc : (97 ≤ c ∧ c ≤ 103) ∨ c = 114) :
    read_next_token_switch lexer o u c = (token_kind.MML_NOTE, u) := by
  unfold read_next_token_switch
  rw [if_pos hc]

theorem switch_command (lexer : mmlexer) (o u c : Nat)
    (hc : c = 111 ∨ c = 60 ∨ c = 62 ∨ c = 108 ∨ c = 118 ∨ c = 116) :
    read_next_token_switch lexer o u c = (token_kind.MML_COMMAND, u) := by
  unfold read_next_token_switch
  rw [if_neg (by omega), if_pos hc]

theorem switch_expansion (lexer : mmlexer) (o u : Nat) :
    read_next_token_switch lexer o u 64
      = (token_kind.MML_EXPANSION, expansion_loop lexer.data o (lexer.size - (o + 1)) 1) := rfl

theorem switch_definition (lexer : mmlexer) (o u : Nat) :
    read_next_token_switch lexer o u 33
      = (token_kind.MML_DEFINITION, expansion_loop lexer.data o (lexer.size - (o + 1)) 1) := by
  rw [← definition_loop_eq]
  rfl

theorem isdigit_range (c : Nat) : isdigit c = true ↔ 48 ≤ c ∧ c ≤ 57 := by
  unfold isdigit
  simp only [Bool.and_eq_true, decide_eq_true_eq]

theorem switch_number (lexer : mmlexer) (o u c : Nat) (hc : isdigit c = true) :
    read_next_token_switch lexer o u c
      = (token_kind.MML_NUMBER, number_loop lexer.data o (lexer.size - (o + 0)) 0) := by
  have hr := (isdigit_range c).1 hc
  unfold read_next_token_switch
  repeat rw [if_neg (by omega)]
  rw [if_pos (show is_digit c = true from hc)]

theorem switch_unknown (lexer : mmlexer) (o u c : Nat)
    (h1 : ¬ ((97 ≤ c ∧ c ≤ 103) ∨ c = 114))
    (h2 : ¬ (c = 111 ∨ c = 60 ∨ c = 62 ∨ c = 108 ∨ c = 118 ∨ c = 116))
    (h3 : ¬ (c = 43 ∨ c = 45 ∨ c = 46 ∨ c = 59 ∨ c = 125 ∨ c = 123 ∨ c = 93 ∨ c = 91 ∨ c = 58))
    (h4 : c ≠ 64) (h5 : c ≠ 33) (h6 : isdigit c = false) :
    read_next_token_switch lexer o u c = (token_kind.MML_UNKNOWN, u) := by
  unfold read_next_token_switch
  have h7 : ¬ is_digit c = true := by unfold is_digit; simp [h6]
  rw [if_neg h1, if_neg h2]
  repeat rw [if_neg (by omega)]
  rw [if_neg h7]

theorem switch_structural (lexer : mmlexer) (o u c : Nat)
    (h : c = 43 ∨ c = 45 ∨ c = 46 ∨ c = 59 ∨ c = 125 ∨ c = 123 ∨ c = 93 ∨ c = 91 ∨ c = 58) :
    ∃ k, read_next_token_switch lexer o u c = (k, u) ∧ k ≠ token_kind.MML_EOF
      ∧ k ≠ token_kind.MML_UNKNOWN := by
  rcases h with rfl | rfl | rfl | rfl | rfl | rfl | rfl | rfl | rfl
  · exact ⟨token_kind.MML_PLUS, rfl, fun hk => token_kind.noConfusion hk,
      fun hk => token_kind.noConfusion hk⟩
  · exact ⟨token_kind.MML_MINUS, rfl, fun hk => token_kind.noConfusion hk,
      fun hk => token_kind.noConfusion hk⟩
  · exact ⟨token_kind.MML_DOT, rfl, fun hk => token_kind.noConfusion hk,
      fun hk => token_kind.noConfusion hk⟩
  · exact ⟨token_kind.MML_SCOLON, rfl, fun hk => token_kind.noConfusion hk,
      fun hk => token_kind.noConfusion hk⟩
  · exact ⟨token_kind.MML_RBRACE, rfl, fun hk => token_kind.noConfusion hk,
      fun hk => token_kind.noConfusion hk⟩
  · exact ⟨token_kind.MML_LBRACE, rfl, fun hk => token_kind.noConfusion hk,
      fun hk => token_kind.noConfusion hk⟩
  · exact ⟨token_kind.MML_RBRACKET, rfl, fun hk => token_kind.noConfusion hk,
      fun hk => token_kind.noConfusion hk⟩
  · exact ⟨token_kind.MML_LBRACKET, rfl, fun hk => token_kind.noConfusion hk,
      fun hk => token_kind.noConfusion hk⟩
  · exact ⟨token_kind.MML_COLON, rfl, fun hk => token_kind.noConfusion hk,
      fun hk => token_kind.noConfusion hk⟩

/-- The `switch` never yields the end-of-input kind, and a view that it sizes
covers at least one byte and ends inside the buffer. -/
theorem switch_bounds (lexer : mmlexer) (o u : Nat) (ho : o < lexer.size) (hu1 : 1 ≤ u)
    (hu2 : o + u ≤ lexer.size) :
    (read_next_token_switch lexer o u (lexer.data o)).1 ≠ token_kind.MML_EOF
      ∧ 1 ≤ (read_next_token_switch lexer o u (lexer.data o)).2
      ∧ o + (read_next_token_switch lexer o u (lexer.data o)).2 ≤ lexer.size := by
  have he := expansion_loop_run lexer.data o (lexer.size - (o + 1)) 1
  have hn := number_loop_run lexer.data o (lexer.size - (o + 0)) 0
  by_cases h1 : (97 ≤ lexer.data o ∧ lexer.data o ≤ 103) ∨ lexer.data o = 114
  · rw [switch_note _ _ _ _ h1]
    exact ⟨fun hk => token_kind.noConfusion hk, hu1, hu2⟩
  by_cases h2 : lexer.data o = 111 ∨ lexer.data o = 60 ∨ lexer.data o = 62 ∨ lexer.data o = 108
      ∨ lexer.data o = 118 ∨ lexer.data o = 116
  · rw [switch_command _ _ _ _ h2]
    exact ⟨fun hk => token_kind.noConfusion hk, hu1, hu2⟩
  by_cases h3 : lexer.data o = 43 ∨ lexer.data o = 45 ∨ lexer.data o = 46 ∨ lexer.data o = 59
      ∨ lexer.data o = 125 ∨ lexer.data o = 123 ∨ lexer.data o = 93 ∨ lexer.data o = 91
      ∨ lexer.data o = 58
  · obtain ⟨k, hk, hk1, _⟩ := switch_structural lexer o u _ h3
    rw [hk]
    exact ⟨hk1, hu1, hu2⟩
  by_cases h4 : lexer.data o = 64
  · rw [h4, switch_expansion]
    exact ⟨fun hk => token_kind.noConfusion hk, by show 1 ≤ expansion_loop _ _ _ _; omega,
      by show o + expansion_loop _ _ _ _ ≤ _; omega⟩
  by_cases h5 : lexer.data o = 33
  · rw [h5, switch_definition]
    exact ⟨fun hk => token_kind.noConfusion hk, by show 1 ≤ expansion_loop _ _ _ _; omega,
      by show o + expansion_loop _ _ _ _ ≤ _; omega⟩
  by_cases h6 : isdigit (lexer.data o) = true
  · rw [switch_number _ _ _ _ h6]
    exact ⟨fun hk => token_kind.noConfusion hk, number_loop_pos lexer.data o _ (by omega) h6,
      by show o + number_loop _ _ _ _ ≤ _; omega⟩
  · rw [switch_unknown _ _ _ _ h1 h2 h3 h4 h5 (by simpa using h6)]
    exact ⟨fun hk => token_kind.noConfusion hk, hu1, hu2⟩

theorem read_next_token_progress (lexer : mmlexer) (h : lexer.offset ≤ lexer.size)
    (t : token) (l : mmlexer) (hr : read_next_token lexer = some (t, l)) :
    l.size = lexer.size ∧ l.data = lexer.data ∧ l.offset ≤ l.size
      ∧ (t = { kind := token_kind.MML_EOF, view := { data := 0, size := 0 } }
        ∨ (t.kind ≠ token_kind.MML_EOF ∧ 1 ≤ t.view.size
            ∧ t.view.data + t.view.size ≤ lexer.size
            ∧ lexer.offset + t.view.size ≤ l.offset)) := by
  have hs := skip_whitespace_offset lexer h
  rcases Nat.eq_or_lt_of_le hs.2 with heq | hlt
  · rw [read_next_token_eof lexer heq] at hr
    injection hr with hr
    injection hr with ht hl
    subst ht
    subst hl
    exact ⟨rfl, rfl, hs.2, Or.inl rfl⟩
  · have hb := switch_bounds (skip_whitespace lexer) (skip_whitespace lexer).offset
      (token_char_len lexer) hlt (token_char_len_bounds lexer hlt).1
      (token_char_len_bounds lexer hlt).2
    rw [skip_whitespace_data, skip_whitespace_size] at hb
    rw [read_next_token_at lexer hlt] at hr
    split_ifs at hr with hk
    injection hr with hr
    injection hr with ht hl
    subst ht
    subst hl
    refine ⟨rfl, rfl, hb.2.2, Or.inr ⟨hb.1, hb.2.1, hb.2.2, ?_⟩⟩
    have := hs.1
    simp only []
    omega

theorem mml_tokenize_loop_shape : ∀ (n : Nat) (lexer : mmlexer) (acc : List token),
    lexer.offset ≤ lexer.size → lexer.size - lexer.offset < n →
    mml_tokenize_loop n lexer acc = tokenize_result.trap
      ∨ ∃ front : List token,
          mml_tokenize_loop n lexer acc
            = tokenize_result.tokens
                (acc ++ front ++ [{ kind := token_kind.MML_EOF, view := { data := 0, size := 0 } }])
          ∧ ∀ t ∈ front, t.kind ≠ token_kind.MML_EOF ∧ 1 ≤ t.view.size
              ∧ t.view.data + t.view.size ≤ lexer.size
  | 0, lexer, acc => by
    intro _ h
    omega
  | n + 1, lexer, acc => by
    intro h hn
    unfold mml_tokenize_loop
    cases hr : read_next_token lexer with
    | none => exact Or.inl rfl
    | some r =>
      obtain ⟨t, l⟩ := r
      obtain ⟨h1, h2, h3, h4⟩ := read_next_token_progress lexer h t l hr
      simp only []
      rcases h4 with heof | ⟨hk, hsz, hin, hadv⟩
      · right
        refine ⟨[], ?_, ?_⟩
        · rw [if_pos (by rw [heof])]
          rw [heof]
          simp
        · intro t ht
          simp at ht
      · rw [if_neg hk]
        rcases mml_tokenize_loop_shape n l (acc ++ [t]) h3 (by omega) with htrap | ⟨front, hf, hall⟩
        · exact Or.inl htrap
        · right
          refine ⟨t :: front, ?_, ?_⟩
          · rw [hf]
            simp
          · intro x hx
            rcases List.mem_cons.1 hx with rfl | hx
            · exact ⟨hk, hsz, hin⟩
            · have := hall x hx
              rw [h1] at this
              exact this

/-! ## Claims on the lexer -/

/-- C16: for every source buffer on which the tokenizer does not run into an
unclassifiable byte at a token start (it does not trap), `mml_tokenize`
terminates and returns a token list that ends with the end-of-input token and
holds no other end-of-input token; every other token covers at least one byte
of the source. -/
theorem mml_tokenize_terminates (source : Mem) (length strlen_source : Nat)
    (h : mml_tokenize source length strlen_source ≠ tokenize_result.trap) :
    ∃ front : List token,
      mml_tokenize source length strlen_source
        = tokenize_result.tokens
            (front ++ [{ kind := token_kind.MML_EOF, view := { data := 0, size := 0 } }])
      ∧ ∀ t ∈ front, t.kind ≠ token_kind.MML_EOF ∧ 1 ≤ t.view.size
          ∧ t.view.data + t.view.size ≤ (if length = 0 then strlen_source else length) := by
  unfold mml_tokenize at h ⊢
  simp only [] at h ⊢
  rcases mml_tokenize_loop_shape ((if length = 0 then strlen_source else length) + 1)
      { data := source, offset := 0, size := if length = 0 then strlen_source else length } []
      (Nat.zero_le _) (by simp) with htrap | ⟨front, hf, hall⟩
  · exact absurd htrap h
  · refine ⟨front, ?_, hall⟩
    rw [hf]
    simp

theorem mml_tokenize_terminates_witness :
    mml_tokenize (bytes_of text_c4 zero_mem) 0 2
        = tokenize_result.tokens
            [{ kind := token_kind.MML_NOTE, view := { data := 0, size := 1 } },
             { kind := token_kind.MML_NUMBER, view := { data := 1, size := 1 } },
             { kind := token_kind.MML_EOF, view := { data := 0, size := 0 } }]
    ∧ ∃ front : List token,
        mml_tokenize (bytes_of text_c4 zero_mem) 0 2
          = tokenize_result.tokens
              (front ++ [{ kind := token_kind.MML_EOF, view := { data := 0, size := 0 } }])
        ∧ ∀ t ∈ front, t.kind ≠ token_kind.MML_EOF ∧ 1 ≤ t.view.size
            ∧ t.view.data + t.view.size ≤ (if 0 = 0 then 2 else 0) :=
  ⟨by decide, mml_tokenize_terminates (bytes_of text_c4 zero_mem) 0 2 (by decide)⟩

/-- C17: at a token start `o` (the offset after skipping whitespace, inside the
buffer) `read_next_token` classifies by the byte `c` found there: a-g or r gives
a 1-byte note token; o, <, >, l, v, t a 1-byte command token; + - . ; { } [ ] :
the matching 1-byte structural token; `@` a macro-reference token covering `@`
and the maximal following run of identifier bytes; `!` a macro-definition token
covering `!` and the maximal following run of identifier bytes; a digit a number
token covering the maximal run of digits; any other byte (so every upper-case
letter and every byte from 0x80 up) makes the lexer trap. -/
theorem read_next_token_classifies (lexer : mmlexer) (o c : Nat)
    (ho : o = (skip_whitespace lexer).offset) (hc : c = lexer.data o) (h : o < lexer.size) :
    ((97 ≤ c ∧ c ≤ 103) ∨ c = 114 →
      read_next_token lexer
        = some ({ kind := token_kind.MML_NOTE, view := { data := o, size := 1 } },
                { lexer with offset := o + 1 }))
    ∧ (c = 111 ∨ c = 60 ∨ c = 62 ∨ c = 108 ∨ c = 118 ∨ c = 116 →
      read_next_token lexer
        = some ({ kind := token_kind.MML_COMMAND, view := { data := o, size := 1 } },
                { lexer with offset := o + 1 }))
    ∧ (c = 43 →
      read_next_token lexer
        = some ({ kind := token_kind.MML_PLUS, view := { data := o, size := 1 } },
                { lexer with offset := o + 1 }))
    ∧ (c = 45 →
      read_next_token lexer
        = some ({ kind := token_kind.MML_MINUS, view := { data := o, size := 1 } },
                { lexer with offset := o + 1 }))
    ∧ (c = 46 →
      read_next_token lexer
        = some ({ kind := token_kind.MML_DOT, view := { data := o, size := 1 } },
                { lexer with offset := o + 1 }))
    ∧ (c = 59 →
      read_next_token lexer
        = some ({ kind := token_kind.MML_SCOLON, view := { data := o, size := 1 } },
                { lexer with offset := o + 1 }))
    ∧ (c = 123 →
      read_next_token lexer
        = some ({ kind := token_kind.MML_LBRACE, view := { data := o, size := 1 } },
                { lexer with offset := o + 1 }))
    ∧ (c = 125 →
      read_next_token lexer
        = some ({ kind := token_kind.MML_RBRACE, view := { data := o, size := 1 } },
                { lexer with offset := o + 1 }))
    ∧ (c = 91 →
      read_next_token lexer
        = some ({ kind := token_kind.MML_LBRACKET, view := { data := o, size := 1 } },
                { lexer with offset := o + 1 }))
    ∧ (c = 93 →
      read_next_token lexer
        = some ({ kind := token_kind.MML_RBRACKET, view := { data := o, size := 1 } },
                { lexer with offset := o + 1 }))
    ∧ (c = 58 →
      read_next_token lexer
        = some ({ kind := token_kind.MML_COLON, view := { data := o, size := 1 } },
                { lexer with offset := o + 1 }))
    ∧ (c = 64 → ∃ len : Nat,
      maximal_run is_ident_char lexer.data (o + 1) lexer.size len
      ∧ read_next_token lexer
        = some ({ kind := token_kind.MML_EXPANSION, view := { data := o, size := 1 + len } },
                { lexer with offset := o + (1 + len) }))
    ∧ (c = 33 → ∃ len : Nat,
      maximal_run is_ident_char lexer.data (o + 1) lexer.size len
      ∧ read_next_token lexer
        = some ({ kind := token_kind.MML_DEFINITION, view := { data := o, size := 1 + len } },
                { lexer with offset := o + (1 + len) }))
    ∧ (48 ≤ c ∧ c ≤ 57 → ∃ len : Nat,
      1 ≤ len ∧ maximal_run is_digit lexer.data o lexer.size len
      ∧ read_next_token lexer
        = some ({ kind := token_kind.MML_NUMBER, view := { data := o, size := len } },
                { lexer with offset := o + len }))
    ∧ (¬ ((97 ≤ c ∧ c ≤ 103) ∨ c = 114)
        → ¬ (c = 111 ∨ c = 60 ∨ c = 62 ∨ c = 108 ∨ c = 118 ∨ c = 116)
        → ¬ (c = 43 ∨ c = 45 ∨ c = 46 ∨ c = 59 ∨ c = 125 ∨ c = 123 ∨ c = 93 ∨ c = 91 ∨ c = 58)
        → c ≠ 64 → c ≠ 33 → ¬ (48 ≤ c ∧ c ≤ 57)
        → read_next_token lexer = none)
    ∧ ((65 ≤ c ∧ c ≤ 90) ∨ 128 ≤ c → read_next_token lexer = none) := by
  subst ho
  subst hc
  have hu : ∀ x : Nat, lexer.data (skip_whitespace lexer).offset = x → x < 128 →
      token_char_len lexer = 1 := fun x hx hlt =>
    token_char_len_ascii lexer h (by rw [hx]; exact hlt)
  have one : ∀ (k : token_kind), k ≠ token_kind.MML_UNKNOWN →
      read_next_token_switch (skip_whitespace lexer) (skip_whitespace lexer).offset
        (token_char_len lexer) (lexer.data (skip_whitespace lexer).offset)
        = (k, token_char_len lexer) →
      lexer.data (skip_whitespace lexer).offset < 128 →
      read_next_token lexer
        = some ({ kind := k, view := { data := (skip_whitespace lexer).offset, size := 1 } },
                { lexer with offset := (skip_whitespace lexer).offset + 1 }) := by
    intro k hk hs hlt
    have h1 := token_char_len_ascii lexer h hlt
    rw [h1] at hs
    have := read_next_token_of_switch lexer h k 1 hk (by rw [h1]; exact hs)
    exact this
  have hnone : ¬ ((97 ≤ lexer.data (skip_whitespace lexer).offset
        ∧ lexer.data (skip_whitespace lexer).offset ≤ 103)
        ∨ lexer.data (skip_whitespace lexer).offset = 114)
      → ¬ (lexer.data (skip_whitespace lexer).offset = 111
        ∨ lexer.data (skip_whitespace lexer).offset = 60
        ∨ lexer.data (skip_whitespace lexer).offset = 62
        ∨ lexer.data (skip_whitespace lexer).offset = 108
        ∨ lexer.data (skip_whitespace lexer).offset = 118
        ∨ lexer.data (skip_whitespace lexer).offset = 116)
      → ¬ (lexer.data (skip_whitespace lexer).offset = 43
        ∨ lexer.data (skip_whitespace lexer).offset = 45
        ∨ lexer.data (skip_whitespace lexer).offset = 46
        ∨ lexer.data (skip_whitespace lexer).offset = 59
        ∨ lexer.data (skip_whitespace lexer).offset = 125
        ∨ lexer.data (skip_whitespace lexer).offset = 123
        ∨ lexer.data (skip_whitespace lexer).offset = 93
        ∨ lexer.data (skip_whitespace lexer).offset = 91
        ∨ lexer.data (skip_whitespace lexer).offset = 58)
      → lexer.data (skip_whitespace lexer).offset ≠ 64
      → lexer.data (skip_whitespace lexer).offset ≠ 33
      → ¬ (48 ≤ lexer.data (skip_whitespace lexer).offset
        ∧ lexer.data (skip_whitespace lexer).offset ≤ 57)
      → read_next_token lexer = none := by
    intro h1 h2 h3 h4 h5 h6
    apply read_next_token_unknown lexer h
    rw [switch_unknown _ _ _ _ h1 h2 h3 h4 h5
      (by
        cases hd : isdigit (lexer.data (skip_whitespace lexer).offset) with
        | false => rfl
        | true => exact absurd ((isdigit_range _).1 hd) h6)]
  refine ⟨?_, ?_, ?_, ?_, ?_, ?_, ?_, ?_, ?_, ?_, ?_, ?_, ?_, ?_, hnone, ?_⟩
  · intro hc
    exact one _ (fun hk => token_kind.noConfusion hk) (switch_note _ _ _ _ hc) (by omega)
  · intro hc
    exact one _ (fun hk => token_kind.noConfusion hk) (switch_command _ _ _ _ hc) (by omega)
  · intro hc
    exact one _ (fun hk => token_kind.noConfusion hk) (by rw [hc]; rfl) (by omega)
  · intro hc
    exact one _ (fun hk => token_kind.noConfusion hk) (by rw [hc]; rfl) (by omega)
  · intro hc
    exact one _ (fun hk => token_kind.noConfusion hk) (by rw [hc]; rfl) (by omega)
  · intro hc
    exact one _ (fun hk => token_kind.noConfusion hk) (by rw [hc]; rfl) (by omega)
  · intro hc
    exact one _ (fun hk => token_kind.noConfusion hk) (by rw [hc]; rfl) (by omega)
  · intro hc
    exact one _ (fun hk => token_kind.noConfusion hk) (by rw [hc]; rfl) (by omega)
  · intro hc
    exact one _ (fun hk => token_kind.noConfusion hk) (by rw [hc]; rfl) (by omega)
  · intro hc
    exact one _ (fun hk => token_kind.noConfusion hk) (by rw [hc]; rfl) (by omega)
  · intro hc
    exact one _ (fun hk => token_kind.noConfusion hk) (by rw [hc]; rfl) (by omega)
  · intro hc
    obtain ⟨len, hl, hm⟩ := expansion_loop_maximal lexer.data (skip_whitespace lexer).offset
      lexer.size h
    refine ⟨len, hm, ?_⟩
    have := read_next_token_of_switch lexer h token_kind.MML_EXPANSION (1 + len)
      (fun hk => token_kind.noConfusion hk) (by rw [hc, switch_expansion, ← hl]; rfl)
    exact this
  · intro hc
    obtain ⟨len, hl, hm⟩ := expansion_loop_maximal lexer.data (skip_whitespace lexer).offset
      lexer.size h
    refine ⟨len, hm, ?_⟩
    have := read_next_token_of_switch lexer h token_kind.MML_DEFINITION (1 + len)
      (fun hk => token_kind.noConfusion hk) (by rw [hc, switch_definition, ← hl]; rfl)
    exact this
  · intro hc
    have hd : isdigit (lexer.data (skip_whitespace lexer).offset) = true :=
      (isdigit_range _).2 hc
    obtain ⟨hl, hm⟩ := number_loop_maximal lexer.data (skip_whitespace lexer).offset
      lexer.size h hd
    refine ⟨_, hl, hm, ?_⟩
    have := read_next_token_of_switch lexer h token_kind.MML_NUMBER _
      (fun hk => token_kind.noConfusion hk) (switch_number _ _ _ _ hd)
    exact this
  · intro hc
    exact hnone (by omega) (by omega) (by omega) (by omega) (by omega) (by omega)

theorem read_next_token_classifies_witness :
    read_next_token { offset := 0, size := 2, data := bytes_of text_c4 zero_mem }
      = some ({ kind := token_kind.MML_NOTE, view := { data := 0, size := 1 } },
              { offset := 0 + 1, size := 2, data := bytes_of text_c4 zero_mem }) :=
  (read_next_token_classifies { offset := 0, size := 2, data := bytes_of text_c4 zero_mem }
    0 99 (by decide) (by decide) (by decide)).1 (Or.inl ⟨by decide, by decide⟩)

/-! ## The translator: durations -/

theorem duration_formula_succ (base k : Nat) :
    duration_formula base (k + 1) = duration_formula base k + base / 2 ^ (k + 1) := by
  unfold duration_formula
  rw [List.range_succ, List.map_append, List.sum_append]
  simp only [List.map_cons, List.map_nil, List.sum_cons, List.sum_nil]
  omega

theorem duration_formula_bound (base : Nat) (hb : 1 ≤ base) : ∀ k : Nat,
    duration_formula base k + base / 2 ^ k ≤ 2 * base ∧ duration_formula base k + 1 ≤ 2 * base
  | 0 => by
    simp [duration_formula]
    omega
  | k + 1 => by
    have ih := duration_formula_bound base hb k
    rw [duration_formula_succ]
    have hq : base / 2 ^ (k + 1) = base / 2 ^ k / 2 := by
      rw [pow_succ, Nat.div_div_eq_div_mul]
    rw [hq]
    omega

theorem duration_formula_ge (base k : Nat) : base ≤ duration_formula base k := by
  unfold duration_formula
  omega

theorem duration_formula_lt (base k : Nat) (hb : base ≤ 2147483648) :
    duration_formula base k < 4294967296 := by
  rcases Nat.eq_zero_or_pos base with h0 | hpos
  · subst h0
    have : duration_formula 0 k = 0 := by
      induction k with
      | zero => simp [duration_formula]
      | succ k ih => rw [duration_formula_succ, ih]; simp
    omega
  · have := (duration_formula_bound base hpos k).2
    omega

theorem calculate_duration_loop_eq (base : Nat) (hb : base ≤ 2147483648) : ∀ n k : Nat,
    calculate_duration_loop n (duration_formula base k) (base / 2 ^ k)
      = duration_formula base (k + n)
  | 0, k => by simp [calculate_duration_loop]
  | n + 1, k => by
    unfold calculate_duration_loop
    have hq : base / 2 ^ k / 2 = base / 2 ^ (k + 1) := by
      rw [pow_succ, Nat.div_div_eq_div_mul]
    simp only [hq]
    have hs : u32 (duration_formula base k + base / 2 ^ (k + 1)) = duration_formula base (k + 1) := by
      rw [← duration_formula_succ]
      unfold u32
      exact Nat.mod_eq_of_lt (duration_formula_lt base (k + 1) hb)
    rw [hs, calculate_duration_loop_eq base hb n (k + 1)]
    congr 1
    omega

/-! ## Claims on the translator -/

/-- C19, as stated, fails: with length 1, one dot and 1073741823 ticks per
quarter note (so that `4 * ticks_per_quarter < 2^32`) the base is 4294967292 and
the formula gives 6442450938, but `calculate_duration` adds in 32 bits and
returns 2147483642, which is less than the base. -/
theorem calculate_duration_wraps :
    4 * 1073741823 < 4294967296
    ∧ duration_formula (4 * 1073741823 / 1) 1 = 6442450938
    ∧ calculate_duration 1 1 1073741823 = 2147483642
    ∧ calculate_duration 1 1 1073741823 < 4 * 1073741823 / 1 := by
  refine ⟨by norm_num, by decide, by decide, by decide⟩

/-- C19, amended: for every length >= 1, every dot count and every
ticks_per_quarter with `4 * ticks_per_quarter < 2^32` and a base
`floor (4 * ticks_per_quarter / length)` of at most 2^31, `calculate_duration`
returns base + the sum over i = 1..dots of floor (base / 2^i); the result is at
least base and, when base > 0, strictly less than 2 * base. -/
theorem calculate_duration_formula (length dots ticks_per_quarter : Nat)
    (hl : 1 ≤ length) (ht : 4 * ticks_per_quarter < 4294967296)
    (hb : 4 * ticks_per_quarter / length ≤ 2147483648) :
    calculate_duration length dots ticks_per_quarter
        = duration_formula (4 * ticks_per_quarter / length) dots
    ∧ 4 * ticks_per_quarter / length ≤ calculate_duration length dots ticks_per_quarter
    ∧ (0 < 4 * ticks_per_quarter / length →
        calculate_duration length dots ticks_per_quarter
          < 2 * (4 * ticks_per_quarter / length)) := by
  have hu : u32 (4 * ticks_per_quarter) = 4 * ticks_per_quarter := Nat.mod_eq_of_lt ht
  have heq : calculate_duration length dots ticks_per_quarter
      = duration_formula (4 * ticks_per_quarter / length) dots := by
    unfold calculate_duration
    rw [if_neg (by omega), hu]
    have h := calculate_duration_loop_eq (4 * ticks_per_quarter / length) hb dots 0
    simp only [pow_zero, Nat.div_one, Nat.zero_add] at h
    have h0 : duration_formula (4 * ticks_per_quarter / length) 0
        = 4 * ticks_per_quarter / length := by simp [duration_formula]
    rw [h0] at h
    exact h
  refine ⟨heq, ?_, ?_⟩
  · rw [heq]; exact duration_formula_ge _ _
  · intro hpos
    rw [heq]
    have := (duration_formula_bound _ hpos dots).2
    omega

theorem calculate_duration_formula_witness :
    calculate_duration 4 2 480 = duration_formula (4 * 480 / 4) 2
    ∧ 4 * 480 / 4 ≤ calculate_duration 4 2 480
    ∧ (0 < 4 * 480 / 4 → calculate_duration 4 2 480 < 2 * (4 * 480 / 4)) :=
  calculate_duration_formula 4 2 480 (by decide) (by decide) (by decide)

/-- C18, as stated, fails: the track that the translation of `t120 o4 c4;`
writes holds five events, not four, and the second of them is a tempo meta
event, not the Note-On. -/
theorem translate_t120_o4_c4_second_tempo :
    ∃ (evs : List mml_event) (file : FILE_t) (track : List event_summary),
      parse_text [] text_t120_o4_c4 = some (outcome.done (0, evs))
      ∧ mml_write_midi evs = translated.done (0, file)
      ∧ track_events 27 (track_parser_fresh (bytes_of (file.content.drop 22) zero_mem) 27)
          = some track
      ∧ track.length = 5
      ∧ track.get? 1 = some summary_tempo
      ∧ track ≠ [summary_tempo, summary_note_on 0 100, summary_note_on 480 0,
                 summary_end_of_track 480] :=
  ⟨[mml_event.ctl 116 120, mml_event.ctl 111 4, mml_event.note 99 4 0 0 false false,
    mml_event.eot],
   { content := header_one_track ++ [77, 84, 114, 107, 0, 0, 0, 27] ++ track_t120_o4_c4,
     pos := 12 },
   [summary_tempo, summary_tempo, summary_note_on 0 100, summary_note_on 480 0,
    summary_end_of_track 480],
   by decide!, by decide!, by decide!, by decide!, by decide!, by decide!⟩

/-- C18, amended: translating `t120 o4 c4;` at division 480 produces a file of
one track whose events are exactly, in order: the tempo meta event (500000
microseconds) that opens every track, at delta 0; the tempo meta event (500000
microseconds) of `t120`, at delta 0; a Note-On (channel 0, note 60, velocity
100) at delta 0; a Note-On (channel 0, note 60, velocity 0) at delta 480; the
end-of-track meta event; and no other events. The statement leaves the delta of
the end-of-track event open. -/
theorem translate_t120_o4_c4 :
    ∃ (evs : List mml_event) (file : FILE_t) (delta : Nat),
      parse_text [] text_t120_o4_c4 = some (outcome.done (0, evs))
      ∧ mml_write_midi evs = translated.done (0, file)
      ∧ file.content.take 18 = header_one_track ++ [77, 84, 114, 107]
      ∧ track_events (file.content.length - 22)
          (track_parser_fresh (bytes_of (file.content.drop 22) zero_mem)
            (file.content.length - 22))
          = some [summary_tempo, summary_tempo, summary_note_on 0 100, summary_note_on 480 0,
                  summary_end_of_track delta] :=
  ⟨[mml_event.ctl 116 120, mml_event.ctl 111 4, mml_event.note 99 4 0 0 false false,
    mml_event.eot],
   { content := header_one_track ++ [77, 84, 114, 107, 0, 0, 0, 27] ++ track_t120_o4_c4,
     pos := 12 },
   480, by decide!, by decide!, by decide!, by decide!⟩

theorem int_to_u8_of_range (octave : Int) (h0 : 0 ≤ octave) (h1 : octave ≤ 255) :
    ((int_to_u8 octave : Nat) : Int) = octave := by
  unfold int_to_u8
  rw [Int.toNat_of_nonneg (Int.emod_nonneg _ (by norm_num))]
  exact Int.emod_eq_of_lt h0 (by omega)

/-- For an octave that fits the `uint8_t` parameter, `pitch_to_midi_note`
computes the formula of the specification. -/
theorem pitch_to_midi_note_in_range (pitch : Nat) (offset : Int) (octave accidental : Int)
    (hp : (pitch = 99 ∧ offset = 0) ∨ (pitch = 100 ∧ offset = 2) ∨ (pitch = 101 ∧ offset = 4)
      ∨ (pitch = 102 ∧ offset = 5) ∨ (pitch = 103 ∧ offset = 7) ∨ (pitch = 97 ∧ offset = 9)
      ∨ (pitch = 98 ∧ offset = 11))
    (h0 : 0 ≤ octave) (h1 : octave ≤ 255) :
    pitch_to_midi_note pitch (int_to_u8 octave) accidental
      = note_number_formula octave offset accidental := by
  have hu := int_to_u8_of_range octave h0 h1
  unfold pitch_to_midi_note note_number_formula
  rw [hu]
  rcases hp with ⟨rfl, rfl⟩ | ⟨rfl, rfl⟩ | ⟨rfl, rfl⟩ | ⟨rfl, rfl⟩ | ⟨rfl, rfl⟩ | ⟨rfl, rfl⟩
    | ⟨rfl, rfl⟩
  all_goals
    simp only [tolower]
    norm_num
    split_ifs <;> omega

/-- C20 (code defect): the octave of the translator state is an `int`, but
`pitch_to_midi_note` takes it as a `uint8_t`, so an octave outside 0..255 is
reduced modulo 256 before the note number is computed. For `o0<c;` the octave
is -1, the parameter is 255 and the note is 127, where the formula
clamp((octave+1)*12 + offset + accidental, 0, 127) gives 0; for c at octave 4
both give 60. -/
theorem pitch_octave_truncated :
    (∃ (evs : List mml_event) (file : FILE_t),
      parse_text [] text_o0_down_c = some (outcome.done (0, evs))
      ∧ mml_write_midi evs = translated.done (0, file)
      ∧ file.content = header_one_track ++ [77, 84, 114, 107, 0, 0, 0, 20] ++ track_o0_down_c)
    ∧ int_to_u8 (-1) = 255
    ∧ pitch_to_midi_note 99 (int_to_u8 (-1)) 0 = 127
    ∧ note_number_formula (-1) 0 0 = 0
    ∧ pitch_to_midi_note 99 (int_to_u8 256) 0 = 12
    ∧ note_number_formula 256 0 0 = 127
    ∧ pitch_to_midi_note 99 (int_to_u8 4) 0 = 60
    ∧ note_number_formula 4 0 0 = 60 :=
  ⟨⟨[mml_event.ctl 111 0, mml_event.ctl 60 0, mml_event.note 99 0 0 0 false false,
     mml_event.eot],
    { content := header_one_track ++ [77, 84, 114, 107, 0, 0, 0, 20] ++ track_o0_down_c,
      pos := 12 },
    by decide!, by decide!, by decide!⟩,
   by decide!, by decide!, by decide!, by decide!, by decide!, by decide!, by decide!⟩

/-! ## The translator: what the write functions append -/

theorem and_FF (x : Nat) : x &&& 0xff = x % 256 :=
  Nat.and_pow_two_sub_one_eq_mod x 8

theorem mem_take_bytes_of (l : List Nat) (rest : Mem) :
    mem_take (bytes_of l rest) l.length = l := by
  apply List.ext_getElem
  · simp [mem_take]
  · intro i h1 h2
    simp only [mem_take, List.getElem_map, List.getElem_range]
    rw [bytes_of_lt _ _ _ h2]
    simp [List.getD_eq_getElem?_getD, List.getElem?_eq_getElem h2]

theorem vlq_encode_zero : midi_vlq_encode 0 = [0] := by decide

theorem vlq_encode_three : midi_vlq_encode 3 = [3] := by decide

theorem write_tempo_eq (mw : midi_writer_t) (delta tempo_us : Nat) :
    write_tempo mw delta tempo_us
      = mw_track_append mw
          (midi_vlq_encode delta ++
            [0xFF, 0x51, 0x03, tempo_us / 65536 % 256, tempo_us / 256 % 256, tempo_us % 256]) := by
  have h5 := vlq_encode_length_le delta
  unfold write_tempo
  simp only []
  rw [track_to_bytes_meta _ rfl]
  simp only []
  have hm : mem_take (bytes_of [tempo_us >>> 16 &&& 0xff, tempo_us >>> 8 &&& 0xff,
      tempo_us &&& 0xff] zero_mem) 3
      = [tempo_us >>> 16 &&& 0xff, tempo_us >>> 8 &&& 0xff, tempo_us &&& 0xff] :=
    mem_take_bytes_of _ _
  rw [hm, vlq_encode_three]
  have hi : i32 ((midi_vlq_encode delta).length + 2 + [3].length + 3)
      = (((midi_vlq_encode delta).length + 6 : Nat) : Int) := by
    rw [i32_small _ (by simp; omega)]
    simp
    omega
  rw [hi, if_neg (by omega)]
  have ht : ((((midi_vlq_encode delta).length + 6 : Nat) : Int)).toNat
      = (midi_vlq_encode delta).length + 6 := Int.toNat_ofNat _
  rw [ht]
  have hl : (midi_vlq_encode delta ++ [0xFF, 0x51] ++ [3] ++
      [tempo_us >>> 16 &&& 0xff, tempo_us >>> 8 &&& 0xff, tempo_us &&& 0xff]).length
      = (midi_vlq_encode delta).length + 6 := by simp
  rw [← hl, List.take_length]
  simp only [and_FF, Nat.shiftRight_eq_div_pow]
  congr 1
  simp

theorem write_end_of_track_eq (mw : midi_writer_t) (delta : Nat) :
    write_end_of_track mw delta
      = mw_track_append mw (midi_vlq_encode delta ++ [0xFF, 0x2F, 0x00]) := by
  have h5 := vlq_encode_length_le delta
  unfold write_end_of_track
  simp only []
  rw [track_to_bytes_meta _ rfl]
  simp only []
  have hm : mem_take zero_mem 0 = [] := rfl
  rw [hm, vlq_encode_zero]
  have hi : i32 ((midi_vlq_encode delta).length + 2 + [0].length + 0)
      = (((midi_vlq_encode delta).length + 3 : Nat) : Int) := by
    rw [i32_small _ (by simp; omega)]
    simp
    omega
  rw [hi, if_neg (by omega)]
  have ht : ((((midi_vlq_encode delta).length + 3 : Nat) : Int)).toNat
      = (midi_vlq_encode delta).length + 3 := Int.toNat_ofNat _
  rw [ht]
  have hl : (midi_vlq_encode delta ++ [0xFF, 0x2F] ++ [0] ++ ([] : List Nat)).length
      = (midi_vlq_encode delta).length + 3 := by simp
  rw [← hl, List.take_length]
  congr 1
  simp

theorem be24_value (t : Nat) (h : t < 16777216) :
    (t / 65536 % 256) * 65536 + (t / 256 % 256) * 256 + t % 256 = t := by
  omega

/-! ## Claims on the translator: tempo, end of track, chords, running status -/

/-- C21, as stated, fails: for `t1;` the tempo is 60000000, which does not fit
in the three payload bytes; the tempo meta event written for it holds
`93 87 00`, which reads back as 9668352. -/
theorem process_control_tempo_truncated :
    parse_text [] text_t1 = some (outcome.done (0, events_t1))
    ∧ mml_write_midi events_t1
        = translated.done (0,
            { content := header_chunk 1 1 480 ++ track_chunk
                ([0x00, 0xFF, 0x51, 0x03, 0x07, 0xA1, 0x20]
                  ++ [0x00, 0xFF, 0x51, 0x03, 0x93, 0x87, 0x00] ++ [0x00, 0xFF, 0x2F, 0x00]),
              pos := 12 })
    ∧ 0x93 * 65536 + 0x87 * 256 + 0x00 = 9668352
    ∧ 60000000 / 1 = 60000000 := by
  refine ⟨by decide!, by decide!, by decide!, by decide!⟩

/-- C21, amended: for every BPM argument b >= 4 the control command `t` with
argument b sets the tempo state to floor (60000000 / b) and appends to the
track a tempo meta event at delta 0 (`00 FF 51 03` and three payload bytes)
whose payload, read as a 24-bit big-endian number, is that tempo; nothing else
of the state changes. -/
theorem process_control_tempo (ctx : mml_context) (b : Nat) (hb : 4 ≤ b) :
    process_control ctx 116 b
        = translated.done
            { ctx with
              tempo_us := 60000000 / b,
              mw := (mw_track_append ctx.mw
                [0x00, 0xFF, 0x51, 0x03, 60000000 / b / 65536 % 256, 60000000 / b / 256 % 256,
                 60000000 / b % 256]).2 }
    ∧ (60000000 / b / 65536 % 256) * 65536 + (60000000 / b / 256 % 256) * 256
        + 60000000 / b % 256 = 60000000 / b := by
  constructor
  · unfold process_control
    rw [if_pos rfl, if_neg (by omega)]
    simp only []
    rw [write_tempo_eq, vlq_encode_zero]
    rfl
  · apply be24_value
    have : 60000000 / b ≤ 60000000 / 4 := Nat.div_le_div_left hb (by norm_num)
    omega

theorem process_control_tempo_witness :
    process_control (mml_write_midi_start events_t1) 116 120
        = translated.done
            { mml_write_midi_start events_t1 with
              tempo_us := 60000000 / 120,
              mw := (mw_track_append (mml_write_midi_start events_t1).mw
                [0x00, 0xFF, 0x51, 0x03, 60000000 / 120 / 65536 % 256,
                 60000000 / 120 / 256 % 256, 60000000 / 120 % 256]).2 }
    ∧ (60000000 / 120 / 65536 % 256) * 65536 + (60000000 / 120 / 256 % 256) * 256
        + 60000000 / 120 % 256 = 60000000 / 120 :=
  process_control_tempo (mml_write_midi_start events_t1) 120 (by decide)

/-- C22 (code defect): `mml_write_midi` passes the tick of the last event
written (`last_tick`, an absolute tick) to `write_end_of_track` as the
delta-time of the end-of-track event. For `c4;` the translator's tick at the end
of the track is 480, the events carry the deltas 0, 0, 480 and 480, and the
end-of-track event lies at tick 960; for `r4;` the tick is 480 again and the
end-of-track event lies at tick 0. -/
theorem end_of_track_delta_is_last_tick :
    parse_text [] text_c4_track = some (outcome.done (0, events_c4))
    ∧ mml_write_midi_final events_c4
        = some (480, header_chunk 1 0xAFAF 480 ++ track_chunk
            (written_events 0
              [summary_tempo, summary_note 0 60 100, summary_note 480 60 0,
               summary_end_of_track 480]))
    ∧ track_events 5 (track_parser_fresh (bytes_of (written_events 0
          [summary_tempo, summary_note 0 60 100, summary_note 480 60 0,
           summary_end_of_track 480]) zero_mem) 20)
        = some [summary_tempo, summary_note 0 60 100, summary_note 480 60 0,
                summary_end_of_track 480]
    ∧ ([summary_tempo, summary_note 0 60 100, summary_note 480 60 0,
        summary_end_of_track 480].map (fun s => s.delta)).sum = 960
    ∧ parse_text [] text_r4_track = some (outcome.done (0, events_r4))
    ∧ mml_write_midi_final events_r4
        = some (480, header_chunk 1 0xAFAF 480 ++ track_chunk
            (written_events 0 [summary_tempo, summary_end_of_track 0]))
    ∧ track_events 3 (track_parser_fresh (bytes_of (written_events 0
          [summary_tempo, summary_end_of_track 0]) zero_mem) 11)
        = some [summary_tempo, summary_end_of_track 0] := by
  refine ⟨by decide!, by decide!, by decide!, by decide!, by decide!, by decide!, by decide!⟩

/-- C28 (code defect): in the loop that turns the notes of a batch on, the
delta is passed only to the note at index 0 of the batch (`(i == 0) ? delta : 0`),
and that note is skipped when it is already sounding. For a tied quarter note c
followed by the chord of c and e, the Note-On of e is the first of its batch and
is written with delta 0, although 480 ticks have passed since the last event;
the 480 ticks are lost (the next event, the Note-On with velocity 0 of c, has
delta 480, so e starts at tick 0 and ends at tick 480). -/
theorem chord_on_delta_lost :
    mml_write_midi events_tied_chord
        = translated.done (0,
            { content := header_chunk 1 1 480 ++ track_chunk
                (written_events 0
                  [summary_tempo, summary_note 0 60 100, summary_note 0 64 100,
                   summary_note 480 60 0, summary_note 0 64 0, summary_end_of_track 960]),
              pos := 12 })
    ∧ track_events 7 (track_parser_fresh (bytes_of (written_events 0
          [summary_tempo, summary_note 0 60 100, summary_note 0 64 100,
           summary_note 480 60 0, summary_note 0 64 0, summary_end_of_track 960]) zero_mem) 26)
        = some [summary_tempo, summary_note 0 60 100, summary_note 0 64 100,
                summary_note 480 60 0, summary_note 0 64 0, summary_end_of_track 960]
    ∧ mml_write_midi_final events_tied_chord
        = some (960, header_chunk 1 0xAFAF 480 ++ track_chunk
            (written_events 0
              [summary_tempo, summary_note 0 60 100, summary_note 0 64 100,
               summary_note 480 60 0, summary_note 0 64 0, summary_end_of_track 960])) := by
  refine ⟨by decide!, by decide!, by decide!⟩

/-- C29 (code defect): `write_tempo` does not touch the `last_status` of the
translator, so the Note-On that follows a tempo meta event is written without
its status byte when the channel event before the meta event had the same
status. For `c t120 c;` the bytes after the second tempo event are `00 3C 64`:
delta 0, note 60, velocity 100, no status byte `90`, although the status byte
written immediately before is the `FF` of the meta event. -/
theorem status_omitted_after_meta :
    parse_text [] text_c_t120_c = some (outcome.done (0, events_c_t120_c))
    ∧ mml_write_midi events_c_t120_c
        = translated.done (0,
            { content := header_chunk 1 1 480 ++ track_chunk
                ([0x00, 0xFF, 0x51, 0x03, 0x07, 0xA1, 0x20]
                  ++ [0x00, 0x90, 0x3C, 0x64] ++ [0x83, 0x60, 0x3C, 0x00]
                  ++ [0x00, 0xFF, 0x51, 0x03, 0x07, 0xA1, 0x20]
                  ++ [0x00, 0x3C, 0x64] ++ [0x83, 0x60, 0x3C, 0x00]
                  ++ [0x87, 0x40, 0xFF, 0x2F, 0x00]),
              pos := 12 }) := by
  refine ⟨by decide!, by decide!⟩

/-! ## Claims on the storage size of a track event -/

theorem to_bytes_status_length (e : midi_event_t) (hk : 8 ≤ e.kind ∧ e.kind ≤ 14) :
    ∃ bs, midi_event_to_bytes e false = some bs ∧
      bs.length = (if e.kind = 12 ∨ e.kind = 13 then 2 else 3) := by
  obtain ⟨kind, channel, b0, b1⟩ := e
  obtain ⟨hk1, hk2⟩ := hk
  simp only at hk1 hk2 ⊢
  interval_cases kind <;> simp [midi_event_to_bytes]

/-- C30 (code defect): `track_event_get_storage_size` counts one byte more than
`track_event_to_bytes` writes for a system-exclusive event (the terminating
`F7`, which the writer does not write); for a channel event with a kind in
0x8..0xE and for a meta event the two agree. -/
theorem storage_size_counts_sysex_end (e : track_event_t)
    (hsize : (track_event_to_bytes e).out.length + 1 < 4294967296) :
    (e.kind = midi_event_kind.EV_MIDI → 8 ≤ e.midi.kind ∧ e.midi.kind ≤ 14 →
      track_event_get_storage_size e = (track_event_to_bytes e).out.length)
    ∧ (e.kind = midi_event_kind.EV_META →
      track_event_get_storage_size e = (track_event_to_bytes e).out.length)
    ∧ (e.kind = midi_event_kind.EV_SYSEX →
      track_event_get_storage_size e = (track_event_to_bytes e).out.length + 1) := by
  refine ⟨?_, ?_, ?_⟩
  · intro hk hr
    obtain ⟨bs, hbs, hlen⟩ := to_bytes_status_length e.midi hr
    rw [track_to_bytes_midi e bs hk hbs] at hsize ⊢
    simp only [List.length_append] at hsize ⊢
    unfold track_event_get_storage_size
    simp only [hk, MIDI_NOTE_ON, MIDI_NOTE_OFF, MIDI_POLY_PRESSURE, MIDI_CONTROLLER,
      MIDI_PROGRAM, MIDI_CHAN_PRESSURE, MIDI_PITCH_BEND, u32, Nat.zero_add]
    split_ifs at hlen ⊢ <;> omega
  · intro hk
    rw [track_to_bytes_meta e hk] at hsize ⊢
    simp only [List.length_append, mem_take_length, List.length_cons, List.length_nil]
      at hsize ⊢
    unfold track_event_get_storage_size
    simp only [hk, u32, Nat.zero_add]
    omega
  · intro hk
    rw [track_to_bytes_sysex e hk] at hsize ⊢
    simp only [List.length_append, mem_take_length, List.length_cons, List.length_nil]
      at hsize ⊢
    unfold track_event_get_storage_size
    simp only [hk, u32, Nat.zero_add]
    omega

theorem storage_size_counts_sysex_end_witness :
    (track_event_to_bytes sample_sysex_event).out = [0x00, 0xF0, 0x01, 0x42]
    ∧ track_event_get_storage_size sample_sysex_event = 5
    ∧ (sample_sysex_event.kind = midi_event_kind.EV_SYSEX →
      track_event_get_storage_size sample_sysex_event
        = (track_event_to_bytes sample_sysex_event).out.length + 1) :=
  ⟨by decide!, by decide!,
   (storage_size_counts_sysex_end sample_sysex_event (by decide!)).2.2⟩

/-! ## The file writer: what each operation does to the file -/

theorem fwrite_append (f : FILE_t) (data : List Nat) (h : f.pos = f.content.length) :
    fwrite f data = { content := f.content ++ data, pos := f.content.length + data.length } := by
  unfold fwrite
  rw [h]
  simp

theorem fwrite_patch (f : FILE_t) (a old b data : List Nat) (hc : f.content = a ++ old ++ b)
    (hp : f.pos = a.length) (hl : data.length = old.length) :
    fwrite f data = { content := a ++ data ++ b, pos := a.length + data.length } := by
  unfold fwrite
  rw [hp, hc]
  have h1 : a.length - (a ++ old ++ b).length = 0 := by simp
  rw [h1]
  have h2 : List.take a.length (a ++ old ++ b ++ List.replicate 0 0) = a := by
    simp [List.take_append_eq_append_take]
  have h3 : List.drop (a.length + data.length) (a ++ old ++ b) = b := by
    rw [hl, ← List.length_append, List.drop_left]
  rw [h2, h3]

theorem be32_eq (x : Nat) : [u8 (x >>> 24), u8 (x >>> 16), u8 (x >>> 8), u8 x] = be32 x := by
  simp [u8, be32, Nat.shiftRight_eq_div_pow]

theorem be16_eq (x : Nat) : [u8 (x >>> 8), u8 x] = be16 x := by
  simp [u8, be16, Nat.shiftRight_eq_div_pow]

theorem be32_length (x : Nat) : (be32 x).length = 4 := rfl

theorem be16_length (x : Nat) : (be16 x).length = 2 := rfl

theorem mw_write_u32_eq (mw : midi_writer_t) (x : Nat) :
    _mw_write_u32 mw x = (0, { mw with dst := fwrite mw.dst (be32 x), i := u32 (mw.i + 4) }) := by
  unfold _mw_write_u32
  simp only [be32_eq]
  rfl

theorem mw_write_u16_eq (mw : midi_writer_t) (x : Nat) :
    _mw_write_u16 mw x = (0, { mw with dst := fwrite mw.dst (be16 x), i := u32 (mw.i + 2) }) := by
  unfold _mw_write_u16
  simp only [be16_eq]
  rfl

theorem mw_begin_eq (format tickdiv : Nat) :
    mw_begin file_opened format tickdiv
      = (0, { dst := { content := header_chunk format 0xAFAF tickdiv, pos := 14 }, i := 14,
              ntracks := 0, track_offset := 0 }) := by
  unfold mw_begin
  simp only [mw_write_u32_eq, mw_write_u16_eq, ne_eq, not_true_eq_false, if_false]
  have e1 : fwrite file_opened (be32 0x4d546864) = { content := [0x4d, 0x54, 0x68, 0x64], pos := 4 } := by
    decide
  rw [e1]
  rw [fwrite_append _ _ (by rfl), fwrite_append _ _ (by rfl), fwrite_append _ _ (by rfl),
    fwrite_append _ _ (by rfl)]
  simp [header_chunk, be32_length, be16_length, u32]

theorem mw_track_begin_eq (mw : midi_writer_t) (hs : mw_synced mw)
    (hsize : mw.dst.content.length + 8 < 4294967296) :
    (mw_track_begin mw).1 = 0
    ∧ (mw_track_begin mw).2.dst.content
        = mw.dst.content ++ [0x4d, 0x54, 0x72, 0x6b] ++ [0xFA, 0xFA, 0xFA, 0xFA]
    ∧ mw_synced (mw_track_begin mw).2
    ∧ (mw_track_begin mw).2.track_offset = mw.dst.content.length + 8
    ∧ (mw_track_begin mw).2.ntracks = mw.ntracks := by
  obtain ⟨hpos, hi⟩ := hs
  have hb1 : be32 0x4d54726b = [0x4d, 0x54, 0x72, 0x6b] := by decide
  have hb2 : be32 0xFAFAFAFA = [0xFA, 0xFA, 0xFA, 0xFA] := by decide
  have hu : u32 (u32 (mw.dst.content.length + 4) + 4) = mw.dst.content.length + 8 := by
    unfold u32
    omega
  have hv : mw_track_begin mw
      = (0, { dst := { content := mw.dst.content ++ [0x4d, 0x54, 0x72, 0x6b]
                        ++ [0xFA, 0xFA, 0xFA, 0xFA],
                       pos := mw.dst.content.length + 8 },
              i := mw.dst.content.length + 8, ntracks := mw.ntracks,
              track_offset := mw.dst.content.length + 8 }) := by
    unfold mw_track_begin
    simp only [mw_write_u32_eq, ne_eq, not_true_eq_false, if_false]
    rw [fwrite_append _ _ hpos]
    rw [fwrite_append _ _ (by simp)]
    rw [hb1, hb2, hi, hu]
    simp
  rw [hv]
  refine ⟨rfl, rfl, ⟨?_, ?_⟩, rfl, rfl⟩
  · simp
  · simp

theorem mw_track_append_eq (mw : midi_writer_t) (data : List Nat) (hs : mw_synced mw)
    (hne : data ≠ []) (hsize : mw.dst.content.length + data.length < 4294967296) :
    (mw_track_append mw data).1 = 0
    ∧ (mw_track_append mw data).2.dst.content = mw.dst.content ++ data
    ∧ mw_synced (mw_track_append mw data).2
    ∧ (mw_track_append mw data).2.track_offset = mw.track_offset
    ∧ (mw_track_append mw data).2.ntracks = mw.ntracks := by
  obtain ⟨hpos, hi⟩ := hs
  have hl : ¬ data.length = 0 := fun h => hne (List.length_eq_zero.1 h)
  unfold mw_track_append
  rw [if_neg hl, fwrite_append _ _ hpos, hi]
  refine ⟨rfl, rfl, ⟨?_, ?_⟩, rfl, rfl⟩
  · simp
  · simp only [u32]
    rw [Nat.mod_eq_of_lt hsize]
    simp

theorem mw_track_appends_eq : ∀ (bufs : List (List Nat)) (mw : midi_writer_t),
    mw_synced mw → (∀ b ∈ bufs, b ≠ []) →
    mw.dst.content.length + bufs.flatten.length < 4294967296 →
    (∀ r ∈ (mw_track_appends mw bufs).1, r = 0)
    ∧ (mw_track_appends mw bufs).2.dst.content = mw.dst.content ++ bufs.flatten
    ∧ mw_synced (mw_track_appends mw bufs).2
    ∧ (mw_track_appends mw bufs).2.track_offset = mw.track_offset
    ∧ (mw_track_appends mw bufs).2.ntracks = mw.ntracks
  | [], mw, hs, _, _ => by
    simp [mw_track_appends, hs]
  | b :: bs, mw, hs, hne, hsize => by
    simp only [List.flatten_cons, List.length_append] at hsize
    obtain ⟨h1, h2, h3, h4, h5⟩ := mw_track_append_eq mw b hs (hne b (List.mem_cons_self _ _))
      (by omega)
    obtain ⟨k1, k2, k3, k4, k5⟩ := mw_track_appends_eq bs (mw_track_append mw b).2 h3
      (fun x hx => hne x (List.mem_cons_of_mem _ hx))
      (by rw [h2, List.length_append]; omega)
    unfold mw_track_appends
    refine ⟨?_, ?_, k3, ?_, ?_⟩
    · intro r hr
      rcases List.mem_cons.1 hr with rfl | hr
      · exact h1
      · exact k1 r hr
    · show (mw_track_appends (mw_track_append mw b).2 bs).2.dst.content = _
      rw [k2, h2]
      simp
    · show (mw_track_appends (mw_track_append mw b).2 bs).2.track_offset = _
      rw [k4, h4]
    · show (mw_track_appends (mw_track_append mw b).2 bs).2.ntracks = _
      rw [k5, h5]

theorem mw_track_end_eq (mw : midi_writer_t) (base data : List Nat) (hs : mw_synced mw)
    (hc : mw.dst.content = base ++ [0xFA, 0xFA, 0xFA, 0xFA] ++ data)
    (ho : mw.track_offset = base.length + 4)
    (hsize : mw.dst.content.length < 4294967296) :
    (mw_track_end mw).1 = 0
    ∧ (mw_track_end mw).2.dst.content = base ++ be32 data.length ++ data
    ∧ mw_synced (mw_track_end mw).2
    ∧ (mw_track_end mw).2.ntracks = u16 (mw.ntracks + 1) := by
  obtain ⟨hpos, hi⟩ := hs
  have hlen : mw.dst.content.length = base.length + 4 + data.length := by
    rw [hc]; simp; omega
  have h1 : u32_sub mw.track_offset 4 = base.length := by
    rw [ho, u32_sub_small _ _ (by omega) (by omega)]
    omega
  have h2 : u32_sub mw.i mw.track_offset = data.length := by
    rw [hi, ho, hlen, u32_sub_small _ _ (by omega) (by omega)]
    omega
  have hw : fwrite (fseek mw.dst base.length) (be32 data.length)
      = { content := base ++ be32 data.length ++ data, pos := base.length + 4 } :=
    fwrite_patch _ base [0xFA, 0xFA, 0xFA, 0xFA] data _ hc rfl rfl
  have hv : mw_track_end mw
      = (0, { dst := { content := base ++ be32 data.length ++ data, pos := mw.i },
              i := mw.i, ntracks := u16 (mw.ntracks + 1), track_offset := mw.track_offset }) := by
    unfold mw_track_end
    simp only [mw_write_u32_eq, ne_eq, not_true_eq_false, if_false]
    rw [h1, h2, hw]
    rfl
  rw [hv]
  have hl2 : (base ++ be32 data.length ++ data).length = mw.i := by
    rw [hi, hlen]
    simp [be32_length]
    omega
  exact ⟨rfl, rfl, ⟨hl2.symm, hl2.symm⟩, rfl⟩

theorem track_chunk_length (data : List Nat) : (track_chunk data).length = 8 + data.length := by
  simp [track_chunk, be32_length]
  omega

theorem mw_write_track_eq (mw : midi_writer_t) (bufs : List (List Nat)) (hs : mw_synced mw)
    (hne : ∀ b ∈ bufs, b ≠ [])
    (hsize : mw.dst.content.length + 8 + bufs.flatten.length < 4294967296) :
    (∀ r ∈ (mw_write_track mw bufs).1, r = 0)
    ∧ (mw_write_track mw bufs).2.dst.content = mw.dst.content ++ track_chunk bufs.flatten
    ∧ mw_synced (mw_write_track mw bufs).2
    ∧ (mw_write_track mw bufs).2.ntracks = u16 (mw.ntracks + 1) := by
  obtain ⟨b1, b2, b3, b4, b5⟩ := mw_track_begin_eq mw hs (by omega)
  obtain ⟨a1, a2, a3, a4, a5⟩ := mw_track_appends_eq bufs (mw_track_begin mw).2 b3 hne
    (by rw [b2]; simp only [List.length_append, List.length_cons, List.length_nil]; omega)
  have hc : (mw_track_appends (mw_track_begin mw).2 bufs).2.dst.content
      = (mw.dst.content ++ [0x4d, 0x54, 0x72, 0x6b]) ++ [0xFA, 0xFA, 0xFA, 0xFA]
        ++ bufs.flatten := by
    rw [a2, b2]
  obtain ⟨e1, e2, e3, e4⟩ := mw_track_end_eq (mw_track_appends (mw_track_begin mw).2 bufs).2
    (mw.dst.content ++ [0x4d, 0x54, 0x72, 0x6b]) bufs.flatten a3 hc
    (by rw [a4, b4]; simp only [List.length_append, List.length_cons, List.length_nil])
    (by rw [hc]; simp only [List.length_append, List.length_cons, List.length_nil]; omega)
  unfold mw_write_track
  refine ⟨?_, ?_, e3, ?_⟩
  · intro r hr
    simp only [List.mem_cons, List.mem_append, List.not_mem_nil, or_false] at hr
    rcases hr with (hr | hr) | hr
    · rw [hr]; exact b1
    · exact a1 r hr
    · rw [hr]; exact e1
  · show (mw_track_end (mw_track_appends (mw_track_begin mw).2 bufs).2).2.dst.content = _
    rw [e2]
    simp [track_chunk]
  · show (mw_track_end (mw_track_appends (mw_track_begin mw).2 bufs).2).2.ntracks = _
    rw [e4, a5, b5]

theorem track_chunks_cons (t : List (List Nat)) (ts : List (List (List Nat))) :
    track_chunks (t :: ts) = track_chunk t.flatten ++ track_chunks ts := by
  simp [track_chunks]

theorem mw_write_tracks_eq : ∀ (tracks : List (List (List Nat))) (mw : midi_writer_t),
    mw_synced mw → mw.ntracks < 65536 → (∀ t ∈ tracks, ∀ b ∈ t, b ≠ []) →
    mw.dst.content.length + (track_chunks tracks).length < 4294967296 →
    (∀ r ∈ (mw_write_tracks mw tracks).1, r = 0)
    ∧ (mw_write_tracks mw tracks).2.dst.content = mw.dst.content ++ track_chunks tracks
    ∧ mw_synced (mw_write_tracks mw tracks).2
    ∧ (mw_write_tracks mw tracks).2.ntracks = u16 (mw.ntracks + tracks.length)
  | [], mw, hs, hn, _, _ => by
    refine ⟨by simp [mw_write_tracks], by simp [mw_write_tracks, track_chunks], hs, ?_⟩
    show mw.ntracks = u16 (mw.ntracks + 0)
    unfold u16
    omega
  | t :: ts, mw, hs, hn, hne, hsize => by
    rw [track_chunks_cons, List.length_append, track_chunk_length] at hsize
    obtain ⟨h1, h2, h3, h4⟩ := mw_write_track_eq mw t hs (hne t (List.mem_cons_self _ _))
      (by omega)
    obtain ⟨k1, k2, k3, k4⟩ := mw_write_tracks_eq ts (mw_write_track mw t).2 h3
      (by rw [h4]; unfold u16; omega)
      (fun x hx => hne x (List.mem_cons_of_mem _ hx))
      (by rw [h2, List.length_append, track_chunk_length]; omega)
    unfold mw_write_tracks
    refine ⟨?_, ?_, k3, ?_⟩
    · intro r hr
      rcases List.mem_append.1 hr with hr | hr
      · exact h1 r hr
      · exact k1 r hr
    · show (mw_write_tracks (mw_write_track mw t).2 ts).2.dst.content = _
      rw [k2, h2, track_chunks_cons]
      simp
    · show (mw_write_tracks (mw_write_track mw t).2 ts).2.ntracks = _
      rw [k4, h4]
      simp only [u16, List.length_cons]
      omega

theorem mw_end_eq (mw : midi_writer_t) (format placeholder tickdiv : Nat) (rest : List Nat)
    (hc : mw.dst.content = header_chunk format placeholder tickdiv ++ rest) :
    (mw_end mw).1 = 0
    ∧ (mw_end mw).2.dst.content = header_chunk format mw.ntracks tickdiv ++ rest := by
  have hw : fwrite (fseek mw.dst 10) (be16 mw.ntracks)
      = { content := ([0x4d, 0x54, 0x68, 0x64] ++ be32 6 ++ be16 format) ++ be16 mw.ntracks
            ++ (be16 tickdiv ++ rest),
          pos := ([0x4d, 0x54, 0x68, 0x64] ++ be32 6 ++ be16 format).length
            + (be16 mw.ntracks).length } :=
    fwrite_patch _ _ (be16 placeholder) _ _
      (by show mw.dst.content = _; rw [hc]; simp [header_chunk]) rfl rfl
  have hv : mw_end mw
      = (0, { mw with
              dst := { content := ([0x4d, 0x54, 0x68, 0x64] ++ be32 6 ++ be16 format)
                        ++ be16 mw.ntracks ++ (be16 tickdiv ++ rest),
                       pos := 12 },
              i := u32 (mw.i + 2) }) := by
    unfold mw_end
    simp only [mw_write_u16_eq, ne_eq, not_true_eq_false, if_false]
    rw [hw]
    rfl
  rw [hv]
  refine ⟨rfl, ?_⟩
  simp [header_chunk]

theorem header_chunk_length (format ntracks tickdiv : Nat) :
    (header_chunk format ntracks tickdiv).length = 14 := rfl

/-- The writer after `mw_begin` on the file just opened. -/
theorem mw_begin_synced (format tickdiv : Nat) :
    (mw_begin file_opened format tickdiv).1 = 0
    ∧ mw_synced (mw_begin file_opened format tickdiv).2
    ∧ (mw_begin file_opened format tickdiv).2.dst.content = header_chunk format 0xAFAF tickdiv
    ∧ (mw_begin file_opened format tickdiv).2.ntracks = 0 := by
  rw [mw_begin_eq]
  exact ⟨rfl, ⟨rfl, rfl⟩, rfl, rfl⟩

/-! ## Claims on the file writer -/

/-- C24: after `mw_begin` on the file just opened and any tracks written
before (each by `mw_track_begin`, `mw_track_append` of non-empty buffers,
`mw_track_end`), as long as the file stays below 2^32 bytes, every operation of
one more track returns 0; before its `mw_track_end` the file ends with `MTrk`,
the placeholder and the appended bytes verbatim; `mw_track_end` replaces the
placeholder by the number of appended bytes in four bytes, most significant
first, changes nothing else of the file, and leaves the write offset at the end
of the track data. -/
theorem mw_track_end_patches_length (format tickdiv : Nat) (prev : List (List (List Nat)))
    (bufs : List (List Nat)) (mw : midi_writer_t)
    (hmw : mw = (mw_write_tracks (mw_begin file_opened format tickdiv).2 prev).2)
    (hprev : ∀ t ∈ prev, ∀ b ∈ t, b ≠ []) (hbufs : ∀ b ∈ bufs, b ≠ [])
    (hsize : 14 + (track_chunks prev).length + 8 + bufs.flatten.length < 4294967296) :
    (mw_begin file_opened format tickdiv).1 = 0
    ∧ (∀ r ∈ (mw_write_tracks (mw_begin file_opened format tickdiv).2 prev).1, r = 0)
    ∧ mw.dst.content = header_chunk format 0xAFAF tickdiv ++ track_chunks prev
    ∧ (mw_track_begin mw).1 = 0
    ∧ (∀ r ∈ (mw_track_appends (mw_track_begin mw).2 bufs).1, r = 0)
    ∧ (mw_track_appends (mw_track_begin mw).2 bufs).2.dst.content
        = mw.dst.content ++ [0x4d, 0x54, 0x72, 0x6b] ++ [0xFA, 0xFA, 0xFA, 0xFA] ++ bufs.flatten
    ∧ (mw_track_end (mw_track_appends (mw_track_begin mw).2 bufs).2).1 = 0
    ∧ (mw_track_end (mw_track_appends (mw_track_begin mw).2 bufs).2).2.dst.content
        = mw.dst.content ++ [0x4d, 0x54, 0x72, 0x6b] ++ be32 bufs.flatten.length ++ bufs.flatten
    ∧ (mw_track_end (mw_track_appends (mw_track_begin mw).2 bufs).2).2.dst.pos
        = (mw.dst.content ++ [0x4d, 0x54, 0x72, 0x6b] ++ be32 bufs.flatten.length
            ++ bufs.flatten).length
    ∧ (mw_track_end (mw_track_appends (mw_track_begin mw).2 bufs).2).2.i
        = (mw.dst.content ++ [0x4d, 0x54, 0x72, 0x6b] ++ be32 bufs.flatten.length
            ++ bufs.flatten).length := by
  obtain ⟨hb1, hs0, hc00, hn0⟩ := mw_begin_synced format tickdiv
  obtain ⟨p1, p2, p3, _⟩ := mw_write_tracks_eq prev (mw_begin file_opened format tickdiv).2 hs0
    (by rw [hn0]; decide) hprev (by rw [hc00, header_chunk_length]; omega)
  rw [← hmw] at p2 p3
  have hc0 : mw.dst.content = header_chunk format 0xAFAF tickdiv ++ track_chunks prev := by
    rw [p2, hc00]
  have hlen : mw.dst.content.length = 14 + (track_chunks prev).length := by
    rw [hc0, List.length_append, header_chunk_length]
  obtain ⟨b1, b2, b3, b4, b5⟩ := mw_track_begin_eq mw p3 (by omega)
  obtain ⟨a1, a2, a3, a4, a5⟩ := mw_track_appends_eq bufs (mw_track_begin mw).2 b3 hbufs
    (by rw [b2]; simp only [List.length_append, List.length_cons, List.length_nil]; omega)
  have hc : (mw_track_appends (mw_track_begin mw).2 bufs).2.dst.content
      = (mw.dst.content ++ [0x4d, 0x54, 0x72, 0x6b]) ++ [0xFA, 0xFA, 0xFA, 0xFA]
        ++ bufs.flatten := by
    rw [a2, b2]
  obtain ⟨e1, e2, e3, e4⟩ := mw_track_end_eq (mw_track_appends (mw_track_begin mw).2 bufs).2
    (mw.dst.content ++ [0x4d, 0x54, 0x72, 0x6b]) bufs.flatten a3 hc
    (by rw [a4, b4]; simp only [List.length_append, List.length_cons, List.length_nil])
    (by rw [hc]; simp only [List.length_append, List.length_cons, List.length_nil]; omega)
  refine ⟨hb1, p1, hc0, b1, a1, hc, e1, e2, ?_, ?_⟩
  · rw [e3.1, e2]
  · rw [e3.2, e2]

theorem mw_track_end_patches_length_witness :
    (mw_track_end (mw_track_appends (mw_track_begin sample_writer).2 sample_buffers_note).2).2.dst.content
      = sample_writer.dst.content ++ [0x4d, 0x54, 0x72, 0x6b]
          ++ be32 sample_buffers_note.flatten.length ++ sample_buffers_note.flatten :=
  (mw_track_end_patches_length 1 480 [sample_buffers_tempo] sample_buffers_note sample_writer
    rfl (by decide) (by decide) (by decide!)).2.2.2.2.2.2.2.1

/-- C25: after `mw_begin (format, division)` on the file just opened, k tracks
(k < 65536, each written by `mw_track_begin`, `mw_track_append` of non-empty
buffers and `mw_track_end`, the file staying below 2^32 bytes) and `mw_end`,
every operation has returned 0 and the file is the header chunk with the track
count k, followed by the track chunks: its first 14 bytes are `MThd`, the
32-bit value 6, the format, k and the division in two bytes each, most
significant byte first. -/
theorem mw_end_patches_track_count (format tickdiv : Nat) (tracks : List (List (List Nat)))
    (hne : ∀ t ∈ tracks, ∀ b ∈ t, b ≠ []) (hk : tracks.length < 65536)
    (hsize : 14 + (track_chunks tracks).length < 4294967296) :
    (mw_begin file_opened format tickdiv).1 = 0
    ∧ (∀ r ∈ (mw_write_tracks (mw_begin file_opened format tickdiv).2 tracks).1, r = 0)
    ∧ (mw_end (mw_write_tracks (mw_begin file_opened format tickdiv).2 tracks).2).1 = 0
    ∧ (mw_end (mw_write_tracks (mw_begin file_opened format tickdiv).2 tracks).2).2.dst.content
        = header_chunk format tracks.length tickdiv ++ track_chunks tracks
    ∧ (mw_end (mw_write_tracks (mw_begin file_opened format tickdiv).2 tracks).2).2.dst.content.take 14
        = [0x4d, 0x54, 0x68, 0x64, 0, 0, 0, 6, format / 256 % 256, format % 256,
           tracks.length / 256, tracks.length % 256, tickdiv / 256 % 256, tickdiv % 256] := by
  obtain ⟨hb1, hs0, hc00, hn0⟩ := mw_begin_synced format tickdiv
  obtain ⟨p1, p2, p3, p4⟩ := mw_write_tracks_eq tracks (mw_begin file_opened format tickdiv).2
    hs0 (by rw [hn0]; decide) hne (by rw [hc00, header_chunk_length]; omega)
  rw [hc00] at p2
  obtain ⟨e1, e2⟩ := mw_end_eq _ format 0xAFAF tickdiv (track_chunks tracks) p2
  have hnt : (mw_write_tracks (mw_begin file_opened format tickdiv).2 tracks).2.ntracks
      = tracks.length := by
    rw [p4, hn0]
    unfold u16
    omega
  rw [hnt] at e2
  refine ⟨hb1, p1, e1, e2, ?_⟩
  rw [e2]
  have h256 : tracks.length / 256 % 256 = tracks.length / 256 := by omega
  simp [header_chunk, be32, be16, h256]

theorem mw_end_patches_track_count_witness :
    (mw_end (mw_write_tracks (mw_begin file_opened 1 480).2
        [sample_buffers_tempo, sample_buffers_note]).2).2.dst.content.take 14
      = [0x4d, 0x54, 0x68, 0x64, 0, 0, 0, 6, 1 / 256 % 256, 1 % 256,
         [sample_buffers_tempo, sample_buffers_note].length / 256,
         [sample_buffers_tempo, sample_buffers_note].length % 256,
         480 / 256 % 256, 480 % 256] :=
  (mw_end_patches_track_count 1 480 [sample_buffers_tempo, sample_buffers_note]
    (by decide) (by decide) (by decide!)).2.2.2.2

/-! ## The file writer: the file never shrinks -/

theorem fwrite_length_ge (f : FILE_t) (data : List Nat) :
    f.content.length ≤ (fwrite f data).content.length := by
  unfold fwrite
  simp only [List.length_append, List.length_take, List.length_drop, List.length_replicate]
  omega

theorem mw_track_append_length_ge (mw : midi_writer_t) (data : List Nat) :
    mw.dst.content.length ≤ (mw_track_append mw data).2.dst.content.length := by
  unfold mw_track_append
  split_ifs
  · exact Nat.le_refl _
  · exact fwrite_length_ge _ _

theorem mw_track_appends_length_ge : ∀ (bufs : List (List Nat)) (mw : midi_writer_t),
    mw.dst.content.length ≤ (mw_track_appends mw bufs).2.dst.content.length
  | [], _ => Nat.le_refl _
  | b :: bs, mw =>
    Nat.le_trans (mw_track_append_length_ge mw b)
      (mw_track_appends_length_ge bs (mw_track_append mw b).2)

theorem mw_track_end_length_ge (mw : midi_writer_t) :
    mw.dst.content.length ≤ (mw_track_end mw).2.dst.content.length := by
  unfold mw_track_end
  simp only [mw_write_u32_eq]
  split_ifs <;>
    exact fwrite_length_ge (fseek mw.dst (u32_sub mw.track_offset 4))
      (be32 (u32_sub mw.i mw.track_offset))

theorem mw_track_begin_length (mw : midi_writer_t) (hs : mw_synced mw) :
    (mw_track_begin mw).2.dst.content.length = mw.dst.content.length + 8 := by
  unfold mw_track_begin
  simp only [mw_write_u32_eq]
  have h1 : fwrite mw.dst (be32 0x4d54726b)
      = { content := mw.dst.content ++ be32 0x4d54726b,
          pos := mw.dst.content.length + (be32 0x4d54726b).length } := fwrite_append _ _ hs.1
  rw [h1]
  rw [fwrite_append _ _ (by simp)]
  simp [be32_length]

theorem mw_track_append_length (mw : midi_writer_t) (data : List Nat) (hs : mw_synced mw) :
    (mw_track_append mw data).2.dst.content.length = mw.dst.content.length + data.length := by
  unfold mw_track_append
  split_ifs with h
  · rw [h]
    rfl
  · show (fwrite mw.dst data).content.length = _
    rw [fwrite_append _ _ hs.1]
    simp

theorem mw_track_appends_fit : ∀ (bufs : List (List Nat)) (mw : midi_writer_t),
    mw_synced mw → (∀ b ∈ bufs, b ≠ []) →
    (mw_track_appends mw bufs).2.dst.content.length < 4294967296 →
    mw.dst.content.length + bufs.flatten.length < 4294967296
  | [], mw, _, _, h => by simpa [mw_track_appends] using h
  | b :: bs, mw, hs, hne, h => by
    have h1 := mw_track_appends_length_ge bs (mw_track_append mw b).2
    have h2 := mw_track_append_length mw b hs
    have h3 : (mw_track_appends (mw_track_append mw b).2 bs).2.dst.content.length
        < 4294967296 := h
    obtain ⟨_, a2, a3, _, _⟩ := mw_track_append_eq mw b hs (hne b (List.mem_cons_self _ _))
      (by omega)
    have ih := mw_track_appends_fit bs (mw_track_append mw b).2 a3
      (fun x hx => hne x (List.mem_cons_of_mem _ hx)) h3
    simp only [List.flatten_cons, List.length_append]
    omega

theorem mw_write_track_fit (mw : midi_writer_t) (bufs : List (List Nat)) (hs : mw_synced mw)
    (hne : ∀ b ∈ bufs, b ≠ [])
    (h : (mw_write_track mw bufs).2.dst.content.length < 4294967296) :
    mw.dst.content.length + 8 + bufs.flatten.length < 4294967296 := by
  have h1 := mw_track_end_length_ge (mw_track_appends (mw_track_begin mw).2 bufs).2
  have h2 : (mw_track_end (mw_track_appends (mw_track_begin mw).2 bufs).2).2.dst.content.length
      < 4294967296 := h
  have h3 := mw_track_appends_length_ge bufs (mw_track_begin mw).2
  have h4 := mw_track_begin_length mw hs
  obtain ⟨_, _, b3, _, _⟩ := mw_track_begin_eq mw hs (by omega)
  have h5 := mw_track_appends_fit bufs (mw_track_begin mw).2 b3 hne (by omega)
  omega

theorem mw_write_track_length_ge (mw : midi_writer_t) (bufs : List (List Nat)) :
    mw.dst.content.length ≤ (mw_write_track mw bufs).2.dst.content.length := by
  have h1 := mw_track_end_length_ge (mw_track_appends (mw_track_begin mw).2 bufs).2
  have h3 := mw_track_appends_length_ge bufs (mw_track_begin mw).2
  have h4 : mw.dst.content.length ≤ (mw_track_begin mw).2.dst.content.length := by
    unfold mw_track_begin
    simp only [mw_write_u32_eq]
    have := fwrite_length_ge mw.dst (be32 0x4d54726b)
    have := fwrite_length_ge (fwrite mw.dst (be32 0x4d54726b)) (be32 0xFAFAFAFA)
    split_ifs <;> simp only [] <;> omega
  exact Nat.le_trans h4 (Nat.le_trans h3 h1)

theorem mw_write_tracks_length_ge : ∀ (tracks : List (List (List Nat))) (mw : midi_writer_t),
    mw.dst.content.length ≤ (mw_write_tracks mw tracks).2.dst.content.length
  | [], _ => Nat.le_refl _
  | t :: ts, mw =>
    Nat.le_trans (mw_write_track_length_ge mw t)
      (mw_write_tracks_length_ge ts (mw_write_track mw t).2)

theorem mw_write_tracks_fit : ∀ (tracks : List (List (List Nat))) (mw : midi_writer_t),
    mw_synced mw → (∀ t ∈ tracks, ∀ b ∈ t, b ≠ []) →
    (mw_write_tracks mw tracks).2.dst.content.length < 4294967296 →
    mw.dst.content.length + (track_chunks tracks).length < 4294967296
  | [], mw, _, _, h => by simpa [mw_write_tracks, track_chunks] using h
  | t :: ts, mw, hs, hne, h => by
    have h1 := mw_write_tracks_length_ge ts (mw_write_track mw t).2
    have h3 : (mw_write_tracks (mw_write_track mw t).2 ts).2.dst.content.length
        < 4294967296 := h
    have h4 := mw_write_track_fit mw t hs (hne t (List.mem_cons_self _ _)) (by omega)
    obtain ⟨_, a2, a3, _⟩ := mw_write_track_eq mw t hs (hne t (List.mem_cons_self _ _)) h4
    have ih := mw_write_tracks_fit ts (mw_write_track mw t).2 a3
      (fun x hx => hne x (List.mem_cons_of_mem _ hx)) h3
    rw [a2, List.length_append, track_chunk_length] at ih
    rw [track_chunks_cons, List.length_append, track_chunk_length]
    omega

theorem mw_end_length_ge (mw : midi_writer_t) :
    mw.dst.content.length ≤ (mw_end mw).2.dst.content.length := by
  unfold mw_end
  simp only [mw_write_u16_eq]
  split_ifs <;> exact fwrite_length_ge (fseek mw.dst 10) (be16 mw.ntracks)

/-! ## The translator: the events it appends to a track -/

theorem event_buffers_flatten : ∀ (evs : List event_summary) (st : Nat),
    (event_buffers st evs).flatten = written_events st evs
  | [], _ => rfl
  | s :: rest, st => by
    simp only [event_buffers, written_events, List.flatten_cons]
    rw [event_buffers_flatten rest]

theorem event_buffers_append : ∀ (a b : List event_summary) (st : Nat),
    event_buffers st (a ++ b)
      = event_buffers st a ++ event_buffers (status_after_events st a) b
  | [], _, _ => rfl
  | s :: rest, b, st => by
    simp only [List.cons_append, event_buffers, status_after_events, List.append_eq]
    rw [event_buffers_append rest b]

theorem status_after_events_append : ∀ (a b : List event_summary) (st : Nat),
    status_after_events st (a ++ b) = status_after_events (status_after_events st a) b
  | [], _, _ => rfl
  | s :: rest, b, st => by
    simp only [List.cons_append, status_after_events, List.append_eq]
    rw [status_after_events_append rest b]

theorem written_events_append : ∀ (a b : List event_summary) (st : Nat),
    written_events st (a ++ b)
      = written_events st a ++ written_events (status_after_events st a) b
  | [], _, _ => rfl
  | s :: rest, b, st => by
    simp only [List.cons_append, written_events, status_after_events, List.append_eq]
    rw [written_events_append rest b, List.append_assoc]

theorem mw_track_appends_snoc : ∀ (bufs : List (List Nat)) (mw : midi_writer_t) (b : List Nat),
    (mw_track_appends mw (bufs ++ [b])).2 = (mw_track_append (mw_track_appends mw bufs).2 b).2
  | [], _, _ => rfl
  | x :: rest, mw, b => by
    simp only [List.cons_append, mw_track_appends, List.append_eq]
    rw [mw_track_appends_snoc rest]

/-- The bytes of a meta event. -/
theorem written_event_meta (st delta type : Nat) (payload : List Nat) :
    written_event st (summary_meta delta type payload)
      = midi_vlq_encode delta ++ [0xFF, type] ++ midi_vlq_encode payload.length ++ payload := by
  unfold written_event summary_meta
  simp only []
  rw [track_to_bytes_meta _ rfl]
  simp only [event_of_summary]
  rw [mem_take_bytes_of]

theorem write_tempo_event (mw : midi_writer_t) (st delta tempo_us : Nat) :
    write_tempo mw delta tempo_us
      = mw_track_append mw (written_event st
          (summary_meta delta 0x51 [tempo_us / 65536 % 256, tempo_us / 256 % 256,
            tempo_us % 256])) := by
  rw [write_tempo_eq, written_event_meta]
  congr 1
  show _ = _ ++ midi_vlq_encode 3 ++ _
  rw [vlq_encode_three]
  simp

theorem write_end_of_track_event (mw : midi_writer_t) (st delta : Nat) :
    write_end_of_track mw delta
      = mw_track_append mw (written_event st (summary_meta delta 0x2F [])) := by
  rw [write_end_of_track_eq, written_event_meta]
  congr 1
  show _ = _ ++ midi_vlq_encode 0 ++ _
  rw [vlq_encode_zero]
  simp

theorem write_midi_event (ctx : mml_context) (delta note velocity : Nat) :
    (write_midi ctx delta
        { kind := MIDI_NOTE_ON, channel := ctx.channel, bytes0 := note, bytes1 := velocity }).2
      = { ctx with
          mw := (mw_track_append ctx.mw (written_event ctx.last_status
            (summary_midi delta
              { kind := MIDI_NOTE_ON, channel := ctx.channel, bytes0 := note,
                bytes1 := velocity }))).2,
          last_status := status_after_event ctx.last_status
            (summary_midi delta
              { kind := MIDI_NOTE_ON, channel := ctx.channel, bytes0 := note,
                bytes1 := velocity }) } := by
  unfold write_midi written_event status_after_event summary_midi
  simp only []
  cases hb : midi_event_to_bytes
      { kind := MIDI_NOTE_ON, channel := ctx.channel, bytes0 := note, bytes1 := velocity }
      (ctx.last_status == u8 ((MIDI_NOTE_ON <<< 4) ||| (ctx.channel &&& 0x0F))) with
  | none =>
    exfalso
    unfold midi_event_to_bytes at hb
    simp at hb
  | some bs => rfl

theorem mw_track_appends_append : ∀ (a b : List (List Nat)) (mw : midi_writer_t),
    (mw_track_appends mw (a ++ b)).2 = (mw_track_appends (mw_track_appends mw a).2 b).2
  | [], _, _ => rfl
  | x :: rest, b, mw => by
    simp only [List.cons_append, mw_track_appends, List.append_eq]
    rw [mw_track_appends_append rest]

theorem mw_track_appends_snoc_list (a : List (List Nat)) (mw : midi_writer_t)
    (st : Nat) (s : event_summary) :
    (mw_track_appends mw (a ++ event_buffers st [s])).2
      = (mw_track_append (mw_track_appends mw a).2 (written_event st s)).2 := by
  rw [mw_track_appends_append]
  rfl

theorem track_inv_write_midi (mw0 : midi_writer_t) (ch : Nat) (ctx : mml_context)
    (evs : List event_summary) (delta note velocity : Nat)
    (h : track_inv mw0 ch ctx evs) (hd : delta < 4294967296) (hn : note < 128)
    (hv : velocity < 128) :
    track_inv mw0 ch
      (write_midi ctx delta
        { kind := MIDI_NOTE_ON, channel := ctx.channel, bytes0 := note, bytes1 := velocity }).2
      (evs ++ [summary_midi delta
        { kind := MIDI_NOTE_ON, channel := ch, bytes0 := note, bytes1 := velocity }]) := by
  obtain ⟨h1, h2, h3, h4, h5, h6⟩ := h
  subst h4
  rw [write_midi_event]
  refine ⟨?_, ?_, ?_, rfl, h5, h6⟩
  · rw [event_buffers_append, mw_track_appends_snoc_list, ← h1, ← h2]
  · rw [status_after_events_append, ← h2]
    rfl
  · intro s hs
    rcases List.mem_append.1 hs with hs | hs
    · exact h3 s hs
    · rw [List.mem_singleton.1 hs]
      exact ⟨hd, Or.inr ⟨note, velocity, hn, hv, rfl⟩⟩

theorem track_inv_append (mw0 : midi_writer_t) (ch : Nat) (ctx : mml_context)
    (evs : List event_summary) (s : event_summary) (mw : midi_writer_t)
    (h : track_inv mw0 ch ctx evs) (hs : translator_event ch s)
    (hk : s.kind = midi_event_kind.EV_META)
    (hmw : mw = (mw_track_append ctx.mw (written_event ctx.last_status s)).2) :
    track_inv mw0 ch { ctx with mw := mw } (evs ++ [s]) := by
  obtain ⟨h1, h2, h3, h4, h5, h6⟩ := h
  refine ⟨?_, ?_, ?_, h4, h5, h6⟩
  · show mw = _
    rw [hmw, event_buffers_append, mw_track_appends_snoc_list, ← h1, ← h2]
  · show ctx.last_status = _
    rw [status_after_events_append, ← h2]
    show ctx.last_status = status_after_event ctx.last_status s
    unfold status_after_event
    rw [hk]
  · intro x hx
    rcases List.mem_append.1 hx with hx | hx
    · exact h3 x hx
    · rw [List.mem_singleton.1 hx]
      exact hs

theorem track_inv_congr (mw0 : midi_writer_t) (ch : Nat) (ctx ctx2 : mml_context)
    (evs : List event_summary) (h : track_inv mw0 ch ctx evs)
    (hmw : ctx2.mw = ctx.mw) (hst : ctx2.last_status = ctx.last_status)
    (hch : ctx2.channel = ctx.channel) (hv : ctx2.velocity = ctx.velocity) :
    track_inv mw0 ch ctx2 evs := by
  obtain ⟨h1, h2, h3, h4, h5, h6⟩ := h
  exact ⟨by rw [hmw, h1], by rw [hst, h2], h3, by rw [hch, h4], h5, by rw [hv]; exact h6⟩

theorem pitch_to_midi_note_le (pitch octave : Nat) (acc : Int) :
    pitch_to_midi_note pitch octave acc ≤ 127 := by
  unfold pitch_to_midi_note
  simp only []
  split
  · omega
  · split_ifs <;> omega

theorem gather_note_lt (pitch octave : Nat) (acc : Int) :
    u8 (pitch_to_midi_note pitch octave acc).toNat < 128 := by
  have h := pitch_to_midi_note_le pitch octave acc
  unfold u8
  omega

theorem gather_spec : ∀ (n : Nat) (s : batch_state),
    (∀ c ∈ s.batch, c.midi_note < 128) →
    (process_track_gather n s).ctx.mw = s.ctx.mw
    ∧ (process_track_gather n s).ctx.last_status = s.ctx.last_status
    ∧ (process_track_gather n s).ctx.channel = s.ctx.channel
    ∧ (process_track_gather n s).ctx.velocity = s.ctx.velocity
    ∧ (process_track_gather n s).ctx.events.length = s.ctx.events.length
    ∧ s.ctx.offset ≤ (process_track_gather n s).ctx.offset
    ∧ (process_track_gather n s).ctx.offset ≤ s.ctx.offset + n
    ∧ (∀ c ∈ (process_track_gather n s).batch, c.midi_note < 128)
  | 0, s, hb => ⟨rfl, rfl, rfl, rfl, rfl, Nat.le_refl _, Nat.le_refl _, hb⟩
  | n + 1, s, hb => by
    have key : ∀ S : batch_state, S.ctx.mw = s.ctx.mw → S.ctx.last_status = s.ctx.last_status →
        S.ctx.channel = s.ctx.channel → S.ctx.velocity = s.ctx.velocity →
        S.ctx.events.length = s.ctx.events.length → S.ctx.offset = s.ctx.offset + 1 →
        (∀ c ∈ S.batch, c.midi_note < 128) →
        (process_track_gather n S).ctx.mw = s.ctx.mw
        ∧ (process_track_gather n S).ctx.last_status = s.ctx.last_status
        ∧ (process_track_gather n S).ctx.channel = s.ctx.channel
        ∧ (process_track_gather n S).ctx.velocity = s.ctx.velocity
        ∧ (process_track_gather n S).ctx.events.length = s.ctx.events.length
        ∧ s.ctx.offset ≤ (process_track_gather n S).ctx.offset
        ∧ (process_track_gather n S).ctx.offset ≤ s.ctx.offset + (n + 1)
        ∧ (∀ c ∈ (process_track_gather n S).batch, c.midi_note < 128) := by
      intro S h1 h2 h3 h4 h5 h6 h7
      obtain ⟨k1, k2, k3, k4, k5, k6, k7, k8⟩ := gather_spec n S h7
      exact ⟨k1.trans h1, k2.trans h2, k3.trans h3, k4.trans h4, k5.trans h5, by omega,
        by omega, k8⟩
    unfold process_track_gather
    by_cases hc : s.step_complete = true
    · rw [if_pos hc]
      exact ⟨rfl, rfl, rfl, rfl, rfl, Nat.le_refl _, by omega, hb⟩
    · rw [if_neg hc]
      split
      · rename_i pitch length dots acc chord_link tie hev
        have hbatch : ∀ c ∈ (if pitch_to_midi_note pitch (int_to_u8 s.ctx.octave) acc ≥ 0
            then s.batch ++ [{ midi_note := u8 (pitch_to_midi_note pitch
              (int_to_u8 s.ctx.octave) acc).toNat, is_tied := tie }]
            else s.batch), c.midi_note < 128 := by
          intro c hcm
          split_ifs at hcm
          · rcases List.mem_append.1 hcm with hcm | hcm
            · exact hb c hcm
            · rw [List.mem_singleton.1 hcm]
              exact gather_note_lt _ _ _
          · exact hb c hcm
        apply key
        · by_cases hcl : chord_link = false <;> simp [hcl]
        · by_cases hcl : chord_link = false <;> simp [hcl]
        · by_cases hcl : chord_link = false <;> simp [hcl]
        · by_cases hcl : chord_link = false <;> simp [hcl]
        · by_cases hcl : chord_link = false <;> simp [hcl]
        · by_cases hcl : chord_link = false <;> simp [hcl]
        · by_cases hcl : chord_link = false
          · simp only [hcl, if_true]
            exact hbatch
          · simp only [hcl, if_false]
            exact hbatch
      · exact ⟨rfl, rfl, rfl, rfl, rfl, Nat.le_refl _, by omega, hb⟩

theorem gather_progress (n : Nat) (s : batch_state) (hn : 0 < n)
    (hc : s.step_complete = false)
    (hev : ∃ pitch length dots acc chord_link tie,
      s.ctx.events.getD s.ctx.offset mml_event.eot
        = mml_event.note pitch length dots acc chord_link tie)
    (hb : ∀ c ∈ s.batch, c.midi_note < 128) :
    s.ctx.offset + 1 ≤ (process_track_gather n s).ctx.offset := by
  obtain ⟨m, rfl⟩ : ∃ m, n = m + 1 := ⟨n - 1, by omega⟩
  obtain ⟨pitch, length, dots, acc, chord_link, tie, hev⟩ := hev
  have key : ∀ S : batch_state, S.ctx.offset = s.ctx.offset + 1 →
      (∀ c ∈ S.batch, c.midi_note < 128) →
      s.ctx.offset + 1 ≤ (process_track_gather m S).ctx.offset := by
    intro S h1 h2
    have := (gather_spec m S h2).2.2.2.2.2.1
    omega
  unfold process_track_gather
  rw [if_neg (by rw [hc]; decide), hev]
  simp only []
  apply key
  · by_cases hcl : chord_link = false <;> simp [hcl]
  · have hbatch : ∀ c ∈ (if pitch_to_midi_note pitch (int_to_u8 s.ctx.octave) acc ≥ 0
        then s.batch ++ [{ midi_note := u8 (pitch_to_midi_note pitch
          (int_to_u8 s.ctx.octave) acc).toNat, is_tied := tie }]
        else s.batch), c.midi_note < 128 := by
      intro c hcm
      split_ifs at hcm
      · rcases List.mem_append.1 hcm with hcm | hcm
        · exact hb c hcm
        · rw [List.mem_singleton.1 hcm]
          exact gather_note_lt _ _ _
      · exact hb c hcm
    cases chord_link <;> exact hbatch

/-! ## The translator: two runs on the same track events -/

theorem same_state_refl (a : mml_context) : same_state a a := rfl

theorem same_state_fields (a b : mml_context) (h : same_state a b) :
    a.last_status = b.last_status ∧ a.tempo_us = b.tempo_us
    ∧ a.ticks_per_quarter = b.ticks_per_quarter ∧ a.current_tick = b.current_tick
    ∧ a.default_length = b.default_length ∧ a.octave = b.octave ∧ a.velocity = b.velocity
    ∧ a.channel = b.channel ∧ a.active_notes = b.active_notes := by
  have e : { a with mw := b.mw, events := b.events, offset := b.offset } = b := h
  have e1 := congrArg mml_context.last_status e
  have e2 := congrArg mml_context.tempo_us e
  have e3 := congrArg mml_context.ticks_per_quarter e
  have e4 := congrArg mml_context.current_tick e
  have e5 := congrArg mml_context.default_length e
  have e6 := congrArg mml_context.octave e
  have e7 := congrArg mml_context.velocity e
  have e8 := congrArg mml_context.channel e
  have e9 := congrArg mml_context.active_notes e
  exact ⟨e1, e2, e3, e4, e5, e6, e7, e8, e9⟩

theorem same_state_of_fields (a b : mml_context)
    (h1 : a.last_status = b.last_status) (h2 : a.tempo_us = b.tempo_us)
    (h3 : a.ticks_per_quarter = b.ticks_per_quarter) (h4 : a.current_tick = b.current_tick)
    (h5 : a.default_length = b.default_length) (h6 : a.octave = b.octave)
    (h7 : a.velocity = b.velocity) (h8 : a.channel = b.channel)
    (h9 : a.active_notes = b.active_notes) : same_state a b := by
  obtain ⟨a1, a2, a3, a4, a5, a6, a7, a8, a9, a10, a11, a12⟩ := a
  obtain ⟨b1, b2, b3, b4, b5, b6, b7, b8, b9, b10, b11, b12⟩ := b
  simp only at h1 h2 h3 h4 h5 h6 h7 h8 h9
  subst h1 h2 h3 h4 h5 h6 h7 h8 h9
  rfl

theorem track_rel_write_midi (mwa mwb : midi_writer_t) (ch : Nat) (a b : mml_context)
    (evs : List event_summary) (delta note velocity : Nat)
    (h : track_rel mwa mwb ch a b evs) (hd : delta < 4294967296) (hn : note < 128)
    (hv : velocity < 128) :
    track_rel mwa mwb ch
      (write_midi a delta
        { kind := MIDI_NOTE_ON, channel := a.channel, bytes0 := note, bytes1 := velocity }).2
      (write_midi b delta
        { kind := MIDI_NOTE_ON, channel := b.channel, bytes0 := note, bytes1 := velocity }).2
      (evs ++ [summary_midi delta
        { kind := MIDI_NOTE_ON, channel := ch, bytes0 := note, bytes1 := velocity }]) := by
  obtain ⟨ha, hb, hs⟩ := h
  obtain ⟨s1, s2, s3, s4, s5, s6, s7, s8, s9⟩ := same_state_fields a b hs
  refine ⟨track_inv_write_midi mwa ch a evs delta note velocity ha hd hn hv,
    track_inv_write_midi mwb ch b evs delta note velocity hb hd hn hv, ?_⟩
  rw [write_midi_event, write_midi_event]
  apply same_state_of_fields
  · simp only []
    rw [s1, s8]
  · exact s2
  · exact s3
  · exact s4
  · exact s5
  · exact s6
  · exact s7
  · exact s8
  · exact s9

/-- Both contexts after the same change of fields that no write depends on. -/
theorem track_rel_congr (mwa mwb : midi_writer_t) (ch : Nat) (a b a2 b2 : mml_context)
    (evs : List event_summary) (h : track_rel mwa mwb ch a b evs)
    (hmwa : a2.mw = a.mw) (hmwb : b2.mw = b.mw)
    (hsa : a2.last_status = a.last_status) (hsb : b2.last_status = b.last_status)
    (hca : a2.channel = a.channel) (hcb : b2.channel = b.channel)
    (hva : a2.velocity = a.velocity) (hvb : b2.velocity = b.velocity)
    (h2 : a2.tempo_us = b2.tempo_us) (h3 : a2.ticks_per_quarter = b2.ticks_per_quarter)
    (h4 : a2.current_tick = b2.current_tick) (h5 : a2.default_length = b2.default_length)
    (h6 : a2.octave = b2.octave) (h9 : a2.active_notes = b2.active_notes) :
    track_rel mwa mwb ch a2 b2 evs := by
  obtain ⟨ha, hb, hs⟩ := h
  obtain ⟨s1, s2, s3, s4, s5, s6, s7, s8, s9⟩ := same_state_fields a b hs
  refine ⟨track_inv_congr mwa ch a a2 evs ha hmwa hsa hca hva,
    track_inv_congr mwb ch b b2 evs hb hmwb hsb hcb hvb, ?_⟩
  exact same_state_of_fields a2 b2 (by rw [hsa, hsb, s1]) h2 h3 h4 h5 h6 (by rw [hva, hvb, s7])
    (by rw [hca, hcb, s8]) h9

theorem track_rel_on (mwa mwb : midi_writer_t) (ch : Nat) : ∀ (batch : List chord_note_t)
    (i : Nat) (a b : mml_context) (delta : Nat) (evs : List event_summary),
    track_rel mwa mwb ch a b evs → (∀ c ∈ batch, c.midi_note < 128) → delta < 4294967296 →
    ∃ more : List event_summary,
      track_rel mwa mwb ch (process_track_on batch i a delta).1
        (process_track_on batch i b delta).1 (evs ++ more)
      ∧ (process_track_on batch i a delta).1.events = a.events
      ∧ (process_track_on batch i a delta).1.offset = a.offset
      ∧ (process_track_on batch i b delta).1.events = b.events
      ∧ (process_track_on batch i b delta).1.offset = b.offset
  | [], i, a, b, delta, evs, h, _, _ => by
    refine ⟨[], ?_, rfl, rfl, rfl, rfl⟩
    rw [List.append_nil]
    exact h
  | c :: rest, i, a, b, delta, evs, h, hb, hd => by
    have hc := hb c (List.mem_cons_self _ _)
    have hrest : ∀ x ∈ rest, x.midi_note < 128 := fun x hx => hb x (List.mem_cons_of_mem _ hx)
    obtain ⟨s1, s2, s3, s4, s5, s6, s7, s8, s9⟩ := same_state_fields a b h.2.2
    have hvel : a.velocity < 128 := h.1.2.2.2.2.2
    have hcha : a.channel = ch := h.1.2.2.2.1
    unfold process_track_on
    rw [← s9, ← s7]
    by_cases hact : a.active_notes.getD c.midi_note false = false
    · rw [if_pos hact, if_pos hact]
      simp only []
      have hw := track_rel_write_midi mwa mwb ch a b evs (if i = 0 then delta else 0)
        c.midi_note a.velocity h (by split_ifs <;> omega) hc hvel
      have hw2 := track_rel_congr mwa mwb ch _ _
        { (write_midi a (if i = 0 then delta else 0)
            { kind := MIDI_NOTE_ON, channel := a.channel, bytes0 := c.midi_note,
              bytes1 := a.velocity }).2 with
          active_notes := (write_midi a (if i = 0 then delta else 0)
            { kind := MIDI_NOTE_ON, channel := a.channel, bytes0 := c.midi_note,
              bytes1 := a.velocity }).2.active_notes.set c.midi_note true }
        { (write_midi b (if i = 0 then delta else 0)
            { kind := MIDI_NOTE_ON, channel := b.channel, bytes0 := c.midi_note,
              bytes1 := a.velocity }).2 with
          active_notes := (write_midi b (if i = 0 then delta else 0)
            { kind := MIDI_NOTE_ON, channel := b.channel, bytes0 := c.midi_note,
              bytes1 := a.velocity }).2.active_notes.set c.midi_note true }
        _ hw rfl rfl rfl rfl rfl rfl rfl rfl
        (by rw [write_midi_event, write_midi_event]; exact s2)
        (by rw [write_midi_event, write_midi_event]; exact s3)
        (by rw [write_midi_event, write_midi_event]; exact s4)
        (by rw [write_midi_event, write_midi_event]; exact s5)
        (by rw [write_midi_event, write_midi_event]; exact s6)
        (by rw [write_midi_event, write_midi_event]
            show a.active_notes.set _ _ = b.active_notes.set _ _
            rw [s9])
      obtain ⟨more, k1, k2, k3, k4, k5⟩ := track_rel_on mwa mwb ch rest (i + 1) _ _
        (if i = 0 then 0 else delta) _ hw2 hrest (by split_ifs <;> omega)
      refine ⟨[summary_midi (if i = 0 then delta else 0)
        { kind := MIDI_NOTE_ON, channel := ch, bytes0 := c.midi_note,
          bytes1 := a.velocity }] ++ more, ?_, ?_, ?_, ?_, ?_⟩
      · rw [← List.append_assoc]
        exact k1
      · rw [k2]
        show (write_midi a _ _).2.events = _
        rw [write_midi_event]
      · rw [k3]
        show (write_midi a _ _).2.offset = _
        rw [write_midi_event]
      · rw [k4]
        show (write_midi b _ _).2.events = _
        rw [write_midi_event]
      · rw [k5]
        show (write_midi b _ _).2.offset = _
        rw [write_midi_event]
    · rw [if_neg hact, if_neg hact]
      exact track_rel_on mwa mwb ch rest (i + 1) a b delta evs h hrest hd

theorem track_rel_off (mwa mwb : midi_writer_t) (ch : Nat) : ∀ (batch : List chord_note_t)
    (a b : mml_context) (first_off : Bool) (off_delta last_tick : Nat)
    (evs : List event_summary),
    track_rel mwa mwb ch a b evs → (∀ c ∈ batch, c.midi_note < 128) →
    off_delta < 4294967296 → last_tick < 4294967296 →
    ∃ more : List event_summary,
      track_rel mwa mwb ch
        (process_track_off batch
          { ctx := a, first_off := first_off, off_delta := off_delta,
            last_tick := last_tick }).ctx
        (process_track_off batch
          { ctx := b, first_off := first_off, off_delta := off_delta,
            last_tick := last_tick }).ctx (evs ++ more)
      ∧ (process_track_off batch
          { ctx := a, first_off := first_off, off_delta := off_delta,
            last_tick := last_tick }).last_tick
        = (process_track_off batch
          { ctx := b, first_off := first_off, off_delta := off_delta,
            last_tick := last_tick }).last_tick
      ∧ (process_track_off batch
          { ctx := a, first_off := first_off, off_delta := off_delta,
            last_tick := last_tick }).last_tick < 4294967296
      ∧ (process_track_off batch
          { ctx := a, first_off := first_off, off_delta := off_delta,
            last_tick := last_tick }).ctx.events = a.events
      ∧ (process_track_off batch
          { ctx := a, first_off := first_off, off_delta := off_delta,
            last_tick := last_tick }).ctx.offset = a.offset
      ∧ (process_track_off batch
          { ctx := b, first_off := first_off, off_delta := off_delta,
            last_tick := last_tick }).ctx.events = b.events
      ∧ (process_track_off batch
          { ctx := b, first_off := first_off, off_delta := off_delta,
            last_tick := last_tick }).ctx.offset = b.offset
  | [], a, b, first_off, off_delta, last_tick, evs, h, _, _, ht => by
    refine ⟨[], ?_, rfl, ht, rfl, rfl, rfl, rfl⟩
    rw [List.append_nil]
    exact h
  | c :: rest, a, b, first_off, off_delta, last_tick, evs, h, hb, hd, ht => by
    have hc := hb c (List.mem_cons_self _ _)
    have hrest : ∀ x ∈ rest, x.midi_note < 128 := fun x hx => hb x (List.mem_cons_of_mem _ hx)
    obtain ⟨s1, s2, s3, s4, s5, s6, s7, s8, s9⟩ := same_state_fields a b h.2.2
    unfold process_track_off
    by_cases htie : c.is_tied = false
    · rw [if_pos htie, if_pos htie]
      simp only []
      have hw := track_rel_write_midi mwa mwb ch a b evs (if first_off = true then off_delta else 0)
        c.midi_note 0 h (by split_ifs <;> omega) hc (by omega)
      have hw2 := track_rel_congr mwa mwb ch _ _
        { (write_midi a (if first_off = true then off_delta else 0)
            { kind := MIDI_NOTE_ON, channel := a.channel, bytes0 := c.midi_note,
              bytes1 := 0 }).2 with
          active_notes := (write_midi a (if first_off = true then off_delta else 0)
            { kind := MIDI_NOTE_ON, channel := a.channel, bytes0 := c.midi_note,
              bytes1 := 0 }).2.active_notes.set c.midi_note false }
        { (write_midi b (if first_off = true then off_delta else 0)
            { kind := MIDI_NOTE_ON, channel := b.channel, bytes0 := c.midi_note,
              bytes1 := 0 }).2 with
          active_notes := (write_midi b (if first_off = true then off_delta else 0)
            { kind := MIDI_NOTE_ON, channel := b.channel, bytes0 := c.midi_note,
              bytes1 := 0 }).2.active_notes.set c.midi_note false }
        _ hw rfl rfl rfl rfl rfl rfl rfl rfl
        (by rw [write_midi_event, write_midi_event]; exact s2)
        (by rw [write_midi_event, write_midi_event]; exact s3)
        (by rw [write_midi_event, write_midi_event]; exact s4)
        (by rw [write_midi_event, write_midi_event]; exact s5)
        (by rw [write_midi_event, write_midi_event]; exact s6)
        (by rw [write_midi_event, write_midi_event]
            show a.active_notes.set _ _ = b.active_notes.set _ _
            rw [s9])
      have hta : (write_midi a (if first_off = true then off_delta else 0)
            { kind := MIDI_NOTE_ON, channel := a.channel, bytes0 := c.midi_note,
              bytes1 := 0 }).2.current_tick = a.current_tick := by
        rw [write_midi_event]
      have htb : (write_midi b (if first_off = true then off_delta else 0)
            { kind := MIDI_NOTE_ON, channel := b.channel, bytes0 := c.midi_note,
              bytes1 := 0 }).2.current_tick = a.current_tick := by
        rw [write_midi_event]
        exact s4.symm
      obtain ⟨more, k1, k2, k3, k4, k5, k6, k7⟩ := track_rel_off mwa mwb ch rest _ _
        (if first_off = true then false else first_off)
        (if first_off = true then 0 else off_delta)
        (if first_off = true then u32 a.current_tick else last_tick) _ hw2 hrest
        (by split_ifs <;> omega) (by split_ifs
                                     · unfold u32; omega
                                     · exact ht)
      cases first_off
      · simp only [Bool.false_eq_true, if_false] at k1 k2 k3 k4 k5 k6 k7 ⊢
        refine ⟨[summary_midi 0
          { kind := MIDI_NOTE_ON, channel := ch, bytes0 := c.midi_note, bytes1 := 0 }] ++ more,
          ?_, k2, k3, ?_, ?_, ?_, ?_⟩
        · rw [← List.append_assoc]
          exact k1
        · rw [k4]
          show (write_midi a _ _).2.events = _
          rw [write_midi_event]
        · rw [k5]
          show (write_midi a _ _).2.offset = _
          rw [write_midi_event]
        · rw [k6]
          show (write_midi b _ _).2.events = _
          rw [write_midi_event]
        · rw [k7]
          show (write_midi b _ _).2.offset = _
          rw [write_midi_event]
      · simp only [if_true] at k1 k2 k3 k4 k5 k6 k7 hta htb ⊢
        simp only [hta, htb] at k1 k2 k3 k4 k5 k6 k7 ⊢
        refine ⟨[summary_midi off_delta
          { kind := MIDI_NOTE_ON, channel := ch, bytes0 := c.midi_note, bytes1 := 0 }] ++ more,
          ?_, k2, k3, ?_, ?_, ?_, ?_⟩
        · rw [← List.append_assoc]
          exact k1
        · rw [k4]
          show (write_midi a _ _).2.events = _
          rw [write_midi_event]
        · rw [k5]
          show (write_midi a _ _).2.offset = _
          rw [write_midi_event]
        · rw [k6]
          show (write_midi b _ _).2.events = _
          rw [write_midi_event]
        · rw [k7]
          show (write_midi b _ _).2.offset = _
          rw [write_midi_event]
    · rw [if_neg htie, if_neg htie]
      exact track_rel_off mwa mwb ch rest a b first_off off_delta last_tick evs h hrest hd ht

theorem track_rel_control (mwa mwb : midi_writer_t) (ch : Nat) (a b : mml_context)
    (evs : List event_summary) (cmd arg : Nat) (h : track_rel mwa mwb ch a b evs) :
    (∃ (a2 b2 : mml_context) (more : List event_summary),
        process_control a cmd arg = translated.done a2
        ∧ process_control b cmd arg = translated.done b2
        ∧ track_rel mwa mwb ch a2 b2 (evs ++ more)
        ∧ a2.events = a.events ∧ a2.offset = a.offset
        ∧ b2.events = b.events ∧ b2.offset = b.offset)
    ∨ (process_control a cmd arg = translated.division_by_zero
        ∧ process_control b cmd arg = translated.division_by_zero)
    ∨ (process_control a cmd arg = translated.abort
        ∧ process_control b cmd arg = translated.abort) := by
  obtain ⟨s1, s2, s3, s4, s5, s6, s7, s8, s9⟩ := same_state_fields a b h.2.2
  unfold process_control
  by_cases h1 : cmd = 116
  · rw [if_pos h1, if_pos h1]
    by_cases h2 : arg = 0
    · rw [if_pos h2, if_pos h2]
      exact Or.inr (Or.inl ⟨rfl, rfl⟩)
    · rw [if_neg h2, if_neg h2]
      refine Or.inl ⟨_, _, [summary_meta 0 0x51 [60000000 / arg / 65536 % 256,
        60000000 / arg / 256 % 256, 60000000 / arg % 256]], rfl, rfl, ?_, rfl, rfl, rfl, rfl⟩
      have hev : translator_event ch (summary_meta 0 0x51 [60000000 / arg / 65536 % 256,
          60000000 / arg / 256 % 256, 60000000 / arg % 256]) :=
        ⟨by show (0 : Nat) < 4294967296; omega,
          Or.inl ⟨60000000 / arg / 65536 % 256, 60000000 / arg / 256 % 256, 60000000 / arg % 256,
            Nat.mod_lt _ (by omega), Nat.mod_lt _ (by omega), Nat.mod_lt _ (by omega), rfl⟩⟩
      refine ⟨?_, ?_, ?_⟩
      · refine track_inv_append mwa ch { a with tempo_us := 60000000 / arg } evs _ _
          (track_inv_congr mwa ch a _ evs h.1 rfl rfl rfl rfl) hev rfl ?_
        show (write_tempo a.mw 0 (60000000 / arg)).2 = _
        rw [write_tempo_event a.mw a.last_status]
      · refine track_inv_append mwb ch { b with tempo_us := 60000000 / arg } evs _ _
          (track_inv_congr mwb ch b _ evs h.2.1 rfl rfl rfl rfl) hev rfl ?_
        show (write_tempo b.mw 0 (60000000 / arg)).2 = _
        rw [write_tempo_event b.mw b.last_status]
      · exact same_state_of_fields _ _ s1 rfl s3 s4 s5 s6 s7 s8 s9
  · rw [if_neg h1, if_neg h1]
    by_cases h2 : cmd = 111
    · rw [if_pos h2, if_pos h2]
      refine Or.inl ⟨_, _, [], rfl, rfl, ?_, rfl, rfl, rfl, rfl⟩
      rw [List.append_nil]
      exact track_rel_congr mwa mwb ch a b _ _ evs h rfl rfl rfl rfl rfl rfl rfl rfl
        s2 s3 s4 s5 rfl s9
    · rw [if_neg h2, if_neg h2]
      by_cases h3 : cmd = 118
      · rw [if_pos h3, if_pos h3]
        refine Or.inl ⟨_, _, [], rfl, rfl, ?_, rfl, rfl, rfl, rfl⟩
        rw [List.append_nil]
        have hv : u8 (arg % 127) < 128 := by
          unfold u8
          omega
        obtain ⟨⟨k1, k2, k3, k4, k5, _⟩, ⟨m1, m2, m3, m4, m5, _⟩, _⟩ := h
        exact ⟨⟨k1, k2, k3, k4, k5, hv⟩, ⟨m1, m2, m3, m4, m5, hv⟩,
          same_state_of_fields _ _ s1 s2 s3 s4 s5 s6 rfl s8 s9⟩
      · rw [if_neg h3, if_neg h3]
        by_cases h4 : cmd = 108
        · rw [if_pos h4, if_pos h4]
          refine Or.inl ⟨_, _, [], rfl, rfl, ?_, rfl, rfl, rfl, rfl⟩
          rw [List.append_nil]
          exact track_rel_congr mwa mwb ch a b _ _ evs h rfl rfl rfl rfl rfl rfl rfl rfl
            s2 s3 s4 rfl s6 s9
        · rw [if_neg h4, if_neg h4]
          by_cases h5 : cmd = 62
          · rw [if_pos h5, if_pos h5]
            refine Or.inl ⟨_, _, [], rfl, rfl, ?_, rfl, rfl, rfl, rfl⟩
            rw [List.append_nil]
            exact track_rel_congr mwa mwb ch a b _ _ evs h rfl rfl rfl rfl rfl rfl rfl rfl
              s2 s3 s4 s5 (by show a.octave + 1 = b.octave + 1; rw [s6]) s9
          · rw [if_neg h5, if_neg h5]
            by_cases h6 : cmd = 60
            · rw [if_pos h6, if_pos h6]
              refine Or.inl ⟨_, _, [], rfl, rfl, ?_, rfl, rfl, rfl, rfl⟩
              rw [List.append_nil]
              exact track_rel_congr mwa mwb ch a b _ _ evs h rfl rfl rfl rfl rfl rfl rfl rfl
                s2 s3 s4 s5 (by show a.octave - 1 = b.octave - 1; rw [s6]) s9
            · rw [if_neg h6, if_neg h6]
              exact Or.inr (Or.inr ⟨rfl, rfl⟩)

theorem getD_of_drop (l : List mml_event) (o : Nat) (e : mml_event) (r : List mml_event)
    (h : l.drop o = e :: r) : l.getD o mml_event.eot = e := by
  have h1 : (l.drop o)[0]? = some e := by rw [h]; simp
  rw [List.getElem?_drop] at h1
  rw [List.getD_eq_getElem?_getD]
  simp only [Nat.add_zero] at h1
  rw [h1]
  rfl

theorem drop_succ_of_drop (l : List mml_event) (o : Nat) (e : mml_event) (r : List mml_event)
    (h : l.drop o = e :: r) : l.drop (o + 1) = r := by
  have h1 := congrArg (List.drop 1) h
  simpa [List.drop_drop, Nat.add_comm] using h1

theorem drop_set_succ (l : List mml_event) (o : Nat) (x : mml_event) :
    (l.set o x).drop (o + 1) = l.drop (o + 1) := by
  rw [List.drop_set]
  rw [if_pos (by omega)]

theorem length_of_drop (l : List mml_event) (o : Nat) (r : List mml_event)
    (h : l.drop o = r) : l.length - o = r.length := by
  rw [← h, List.length_drop]

theorem gather_sim : ∀ (s : List mml_event) (na nb : Nat) (sa sb : batch_state)
    (qa qb : List mml_event),
    same_track_events sa.ctx sb.ctx s qa qb → na = (s ++ qa).length → nb = (s ++ qb).length →
    same_state sa.ctx sb.ctx → sa.batch = sb.batch → sa.step_duration = sb.step_duration →
    sa.step_complete = sb.step_complete →
    (process_track_gather na sa).batch = (process_track_gather nb sb).batch
    ∧ (process_track_gather na sa).step_duration = (process_track_gather nb sb).step_duration
    ∧ same_state (process_track_gather na sa).ctx (process_track_gather nb sb).ctx
    ∧ ∃ s2, same_track_events (process_track_gather na sa).ctx (process_track_gather nb sb).ctx
        s2 qa qb
  | [], na, nb, sa, sb, qa, qb, hE, hna, hnb, hs, hb, hd, hc => by
    obtain ⟨e1, e2, e3⟩ := hE
    rcases e3 with ⟨rfl, rfl⟩ | ⟨s0, h0⟩
    · subst hna hnb
      exact ⟨hb, hd, hs, [], e1, e2, Or.inl ⟨rfl, rfl⟩⟩
    · exact absurd h0 (by simp)
  | e :: s, na, nb, sa, sb, qa, qb, hE, hna, hnb, hs, hb, hd, hc => by
    obtain ⟨e1, e2, e3⟩ := hE
    simp only [List.cons_append] at e1 e2
    simp only [List.cons_append, List.length_cons] at hna hnb
    subst hna hnb
    obtain ⟨s1, s2, s3, s4, s5, s6, s7, s8, s9⟩ := same_state_fields _ _ hs
    have hga := getD_of_drop _ _ _ _ e1
    have hgb := getD_of_drop _ _ _ _ e2
    have hda := drop_succ_of_drop _ _ _ _ e1
    have hdb := drop_succ_of_drop _ _ _ _ e2
    unfold process_track_gather
    rw [← hc]
    by_cases hcomp : sa.step_complete = true
    · rw [if_pos hcomp, if_pos hcomp]
      exact ⟨hb, hd, hs, e :: s, e1, e2, e3⟩
    · rw [if_neg hcomp, if_neg hcomp, hga, hgb]
      cases e with
      | eot => exact ⟨hb, hd, hs, mml_event.eot :: s, e1, e2, e3⟩
      | ctl cmd value => exact ⟨hb, hd, hs, mml_event.ctl cmd value :: s, e1, e2, e3⟩
      | note pitch length dots acc chord_link tie =>
        simp only []
        have e3n : (qa = [] ∧ qb = []) ∨ ∃ s0, s = s0 ++ [mml_event.eot] := by
          rcases e3 with e3 | ⟨s0, h0⟩
          · exact Or.inl e3
          · cases s0 with
            | nil => simp at h0
            | cons x s0 =>
              simp only [List.cons_append, List.cons.injEq] at h0
              exact Or.inr ⟨s0, h0.2⟩
        rw [← s6, ← hb, ← s5, ← s3]
        cases chord_link
        · simp only [eq_self_iff_true, if_true]
          refine gather_sim s _ _ _ _ qa qb ⟨?_, ?_, e3n⟩ rfl rfl ?_ rfl rfl rfl
          · show (sa.ctx.events.set sa.ctx.offset _).drop (sa.ctx.offset + 1) = _
            rw [drop_set_succ]
            exact hda
          · show (sb.ctx.events.set sb.ctx.offset _).drop (sb.ctx.offset + 1) = _
            rw [drop_set_succ]
            exact hdb
          · apply same_state_of_fields <;> first | rfl | assumption
        · simp only [Bool.true_eq_false, if_false]
          refine gather_sim s _ _ _ _ qa qb ⟨hda, hdb, e3n⟩ rfl rfl ?_ ?_ ?_ ?_
          · apply same_state_of_fields <;> first | rfl | assumption
          · rfl
          · exact hd
          · rfl

theorem track_rel_loop (mwa mwb : midi_writer_t) (ch : Nat) : ∀ (na nb : Nat)
    (a b : mml_context) (last_tick : Nat) (evs : List event_summary)
    (s qa qb : List mml_event),
    track_rel mwa mwb ch a b evs → same_track_events a b s qa qb →
    last_tick < 4294967296 →
    a.events.length - a.offset < na → b.events.length - b.offset < nb →
    (∃ (t : Nat) (a2 b2 : mml_context) (more : List event_summary),
        process_track_loop na a last_tick = translated.done (t, a2)
        ∧ process_track_loop nb b last_tick = translated.done (t, b2)
        ∧ t < 4294967296 ∧ track_rel mwa mwb ch a2 b2 (evs ++ more))
    ∨ (process_track_loop na a last_tick = translated.division_by_zero
        ∧ process_track_loop nb b last_tick = translated.division_by_zero)
    ∨ (process_track_loop na a last_tick = translated.abort
        ∧ process_track_loop nb b last_tick = translated.abort)
    ∨ (process_track_loop na a last_tick = translated.out_of_bounds
        ∧ process_track_loop nb b last_tick = translated.out_of_bounds)
  | 0, nb, a, b, last_tick, evs, s, qa, qb, _, _, _, hna, _ => by omega
  | na + 1, nb, a, b, last_tick, evs, s, qa, qb, h, hE, ht, hna, hnb => by
    obtain ⟨nb, rfl⟩ : ∃ m, nb = m + 1 := ⟨nb - 1, by omega⟩
    obtain ⟨e1, e2, e3⟩ := hE
    obtain ⟨s1, s2, s3, s4, s5, s6, s7, s8, s9⟩ := same_state_fields a b h.2.2
    unfold process_track_loop
    cases s with
    | nil =>
      rcases e3 with ⟨rfl, rfl⟩ | ⟨s0, h0⟩
      · have ha : a.offset ≥ a.events.length := List.drop_eq_nil_iff.1 e1
        have hb : b.offset ≥ b.events.length := List.drop_eq_nil_iff.1 e2
        rw [if_pos ha, if_pos hb]
        exact Or.inl ⟨last_tick, a, b, [], rfl, rfl, ht, by rw [List.append_nil]; exact h⟩
      · exact absurd h0 (by simp)
    | cons e s =>
      simp only [List.cons_append] at e1 e2
      have hla := length_of_drop _ _ _ e1
      have hlb := length_of_drop _ _ _ e2
      simp only [List.length_cons] at hla hlb
      have hga := getD_of_drop _ _ _ _ e1
      have hgb := getD_of_drop _ _ _ _ e2
      have hda := drop_succ_of_drop _ _ _ _ e1
      have hdb := drop_succ_of_drop _ _ _ _ e2
      rw [if_neg (show ¬ a.offset ≥ a.events.length by omega),
        if_neg (show ¬ b.offset ≥ b.events.length by omega), hga, hgb]
      cases e with
      | eot =>
        refine Or.inl ⟨last_tick, _, _, [], rfl, rfl, ht, ?_⟩
        rw [List.append_nil]
        exact track_rel_congr mwa mwb ch a b _ _ evs h rfl rfl rfl rfl rfl rfl rfl rfl
          s2 s3 s4 s5 s6 s9
      | ctl cmd value =>
        simp only []
        have e3c : (qa = [] ∧ qb = []) ∨ ∃ s0, s = s0 ++ [mml_event.eot] := by
          rcases e3 with e3 | ⟨s0, h0⟩
          · exact Or.inl e3
          · cases s0 with
            | nil => simp at h0
            | cons x s0 =>
              simp only [List.cons_append, List.cons.injEq] at h0
              exact Or.inr ⟨s0, h0.2⟩
        rcases track_rel_control mwa mwb ch { a with offset := a.offset + 1 }
          { b with offset := b.offset + 1 } evs cmd value
          (track_rel_congr mwa mwb ch a b _ _ evs h rfl rfl rfl rfl rfl rfl rfl rfl
            s2 s3 s4 s5 s6 s9) with
          ⟨a2, b2, more, hpa, hpb, hrel, hea, hoa, heb, hob⟩ | ⟨hpa, hpb⟩ | ⟨hpa, hpb⟩
        · rw [hpa, hpb]
          simp only []
          have hea2 : a2.events = a.events := hea
          have hoa2 : a2.offset = a.offset + 1 := hoa
          have heb2 : b2.events = b.events := heb
          have hob2 : b2.offset = b.offset + 1 := hob
          rcases track_rel_loop mwa mwb ch na nb a2 b2 last_tick (evs ++ more) s qa qb hrel
            ⟨by rw [hea2, hoa2]; exact hda, by rw [heb2, hob2]; exact hdb, e3c⟩ ht
            (by rw [hea2, hoa2]; omega) (by rw [heb2, hob2]; omega) with
            ⟨t, a3, b3, more2, hl1, hl2, ht3, hrel3⟩ | hl | hl | hl
          · exact Or.inl ⟨t, a3, b3, more ++ more2, hl1, hl2, ht3, by
              rw [← List.append_assoc]; exact hrel3⟩
          · exact Or.inr (Or.inl hl)
          · exact Or.inr (Or.inr (Or.inl hl))
          · exact Or.inr (Or.inr (Or.inr hl))
        · rw [hpa, hpb]
          exact Or.inr (Or.inl ⟨rfl, rfl⟩)
        · rw [hpa, hpb]
          exact Or.inr (Or.inr (Or.inl ⟨rfl, rfl⟩))
      | note pitch length dots acc chord_link tie =>
        simp only []
        have hfa : a.events.length - a.offset
            = (mml_event.note pitch length dots acc chord_link tie :: s ++ qa).length := by
          simp only [List.cons_append, List.length_cons]
          exact hla
        have hfb : b.events.length - b.offset
            = (mml_event.note pitch length dots acc chord_link tie :: s ++ qb).length := by
          simp only [List.cons_append, List.length_cons]
          exact hlb
        obtain ⟨q1, q2, q3, s2, q4, q5, q6⟩ := gather_sim
          (mml_event.note pitch length dots acc chord_link tie :: s)
          (a.events.length - a.offset) (b.events.length - b.offset)
          { ctx := a, batch := [], step_duration := 0, step_complete := false }
          { ctx := b, batch := [], step_duration := 0, step_complete := false } qa qb
          ⟨e1, e2, e3⟩ hfa hfb h.2.2 rfl rfl rfl
        obtain ⟨ga1, ga2, ga3, ga4, ga5, _, ga7, ga8⟩ := gather_spec (a.events.length - a.offset)
          { ctx := a, batch := [], step_duration := 0, step_complete := false }
          (fun c hc => absurd hc (List.not_mem_nil c))
        have ga6 := gather_progress (a.events.length - a.offset)
          { ctx := a, batch := [], step_duration := 0, step_complete := false }
          (by omega) rfl ⟨pitch, length, dots, acc, chord_link, tie, hga⟩
          (fun c hc => absurd hc (List.not_mem_nil c))
        obtain ⟨gb1, gb2, gb3, gb4, gb5, _, gb7, _⟩ := gather_spec (b.events.length - b.offset)
          { ctx := b, batch := [], step_duration := 0, step_complete := false }
          (fun c hc => absurd hc (List.not_mem_nil c))
        have gb6 := gather_progress (b.events.length - b.offset)
          { ctx := b, batch := [], step_duration := 0, step_complete := false }
          (by omega) rfl ⟨pitch, length, dots, acc, chord_link, tie, hgb⟩
          (fun c hc => absurd hc (List.not_mem_nil c))
        generalize process_track_gather (a.events.length - a.offset)
          { ctx := a, batch := [], step_duration := 0, step_complete := false } = ga
          at q1 q2 q3 q4 q5 ga1 ga2 ga3 ga4 ga5 ga6 ga7 ga8
        generalize process_track_gather (b.events.length - b.offset)
          { ctx := b, batch := [], step_duration := 0, step_complete := false } = gb
          at q1 q2 q3 q4 q5 gb1 gb2 gb3 gb4 gb5 gb6 gb7
        rw [← q1, ← q2]
        by_cases hoob : ga.batch.length > 128
        · rw [if_pos hoob, if_pos hoob]
          exact Or.inr (Or.inr (Or.inr ⟨rfl, rfl⟩))
        · rw [if_neg hoob, if_neg hoob]
          obtain ⟨t1, t2, t3, t4, t5, t6, t7, t8, t9⟩ := same_state_fields ga.ctx gb.ctx q3
          have hg : track_rel mwa mwb ch ga.ctx gb.ctx evs :=
            ⟨track_inv_congr mwa ch a _ evs h.1 ga1 ga2 ga3 ga4,
              track_inv_congr mwb ch b _ evs h.2.1 gb1 gb2 gb3 gb4, q3⟩
          rw [← t4]
          obtain ⟨more1, o1, o2, o3, o4, o5⟩ := track_rel_on mwa mwb ch ga.batch 0 ga.ctx gb.ctx
            (u32 (u64_sub ga.ctx.current_tick last_tick)) evs hg ga8 (by unfold u32; omega)
          generalize (process_track_on ga.batch 0 ga.ctx
            (u32 (u64_sub ga.ctx.current_tick last_tick))).1 = ca at o1 o2 o3
          generalize (process_track_on ga.batch 0 gb.ctx
            (u32 (u64_sub ga.ctx.current_tick last_tick))).1 = cb at o1 o4 o5
          obtain ⟨u1, u2, u3, u4, u5, u6, u7, u8, u9⟩ := same_state_fields ca cb o1.2.2
          rw [← u4]
          obtain ⟨more2, f1, f2, f3, f4, f5, f6, f7⟩ := track_rel_off mwa mwb ch ga.batch
            { ca with current_tick := u64 (ca.current_tick + ga.step_duration) }
            { cb with current_tick := u64 (ca.current_tick + ga.step_duration) }
            true
            (u32 (u64_sub (u64 (ca.current_tick + ga.step_duration))
              (if ga.batch.length > 0 then u32 ca.current_tick else last_tick)))
            (if ga.batch.length > 0 then u32 ca.current_tick else last_tick)
            (evs ++ more1)
            (track_rel_congr mwa mwb ch ca cb _ _ _ o1 rfl rfl rfl rfl rfl rfl rfl rfl
              u2 u3 rfl u5 u6 u9) ga8
            (by unfold u32; omega)
            (by split_ifs
                · unfold u32; omega
                · exact ht)
          generalize process_track_off ga.batch
            { ctx := { ca with current_tick := u64 (ca.current_tick + ga.step_duration) },
              first_off := true,
              off_delta := u32 (u64_sub (u64 (ca.current_tick + ga.step_duration))
                (if ga.batch.length > 0 then u32 ca.current_tick else last_tick)),
              last_tick := if ga.batch.length > 0 then u32 ca.current_tick else last_tick } = sa
            at f1 f2 f3 f4 f5
          generalize process_track_off ga.batch
            { ctx := { cb with current_tick := u64 (ca.current_tick + ga.step_duration) },
              first_off := true,
              off_delta := u32 (u64_sub (u64 (ca.current_tick + ga.step_duration))
                (if ga.batch.length > 0 then u32 ca.current_tick else last_tick)),
              last_tick := if ga.batch.length > 0 then u32 ca.current_tick else last_tick } = sb
            at f1 f2 f6 f7
          have hea : sa.ctx.events = ga.ctx.events := by
            rw [f4]
            show ca.events = _
            rw [o2]
          have hoa : sa.ctx.offset = ga.ctx.offset := by
            rw [f5]
            show ca.offset = _
            rw [o3]
          have heb : sb.ctx.events = gb.ctx.events := by
            rw [f6]
            show cb.events = _
            rw [o4]
          have hob : sb.ctx.offset = gb.ctx.offset := by
            rw [f7]
            show cb.offset = _
            rw [o5]
          have ga7b : ga.ctx.offset ≤ a.offset + (a.events.length - a.offset) := ga7
          have gb7b : gb.ctx.offset ≤ b.offset + (b.events.length - b.offset) := gb7
          have ga5b : ga.ctx.events.length = a.events.length := ga5
          have gb5b : gb.ctx.events.length = b.events.length := gb5
          have ga6b : a.offset + 1 ≤ ga.ctx.offset := ga6
          have gb6b : b.offset + 1 ≤ gb.ctx.offset := gb6
          rw [← f2]
          rcases track_rel_loop mwa mwb ch na nb sa.ctx sb.ctx sa.last_tick
            (evs ++ more1 ++ more2) s2 qa qb f1
            ⟨by rw [hea, hoa]; exact q4, by rw [heb, hob]; exact q5, q6⟩ f3
            (by rw [hea, hoa, ga5b]; omega) (by rw [heb, hob, gb5b]; omega) with
            ⟨t, a3, b3, more3, hl1, hl2, ht3, hrel3⟩ | hl | hl | hl
          · exact Or.inl ⟨t, a3, b3, more1 ++ more2 ++ more3, hl1, hl2, ht3, by
              rw [← List.append_assoc, ← List.append_assoc]; exact hrel3⟩
          · exact Or.inr (Or.inl hl)
          · exact Or.inr (Or.inr (Or.inl hl))
          · exact Or.inr (Or.inr (Or.inr hl))

theorem default_tempo_bytes :
    [500000 / 65536 % 256, 500000 / 256 % 256, 500000 % 256] = [0x07, 0xA1, 0x20] := by
  decide

theorem track_start_inv (ctx : mml_context) (ch : Nat) (hc : ctx.channel = ch) (hch : ch < 16) :
    track_inv (mw_track_begin ctx.mw).2 ch
      { ctx with
        current_tick := 0, default_length := 4, tempo_us := 500000, octave := 4,
        velocity := 100, last_status := 0,
        mw := (write_tempo (mw_track_begin ctx.mw).2 0 500000).2,
        active_notes := List.replicate 128 false }
      [summary_meta 0 0x51 [0x07, 0xA1, 0x20]] := by
  refine ⟨?_, rfl, ?_, hc, hch, by show (100 : Nat) < 128; omega⟩
  · show (write_tempo (mw_track_begin ctx.mw).2 0 500000).2 = _
    rw [write_tempo_event _ 0, default_tempo_bytes]
    rfl
  · intro s hs
    rw [List.mem_singleton.1 hs]
    exact ⟨by show (0 : Nat) < 4294967296; omega,
      Or.inl ⟨0x07, 0xA1, 0x20, by omega, by omega, by omega, rfl⟩⟩

theorem track_end_writer (mw0 : midi_writer_t) (ch : Nat) (ctx : mml_context)
    (evs : List event_summary) (t : Nat) (h : track_inv (mw_track_begin mw0).2 ch ctx evs) :
    (mw_track_end (write_end_of_track ctx.mw t).2).2
      = (mw_write_track mw0 (event_buffers 0 (evs ++ [summary_meta t 0x2F []]))).2 := by
  obtain ⟨h1, h2, _⟩ := h
  rw [write_end_of_track_event _ ctx.last_status, event_buffers_append,
    mw_write_track, mw_track_appends_snoc_list, ← h1, ← h2]

theorem track_rel_track (a b : mml_context) (s qa qb : List mml_event)
    (hch : a.channel = b.channel) (h16 : a.channel < 16)
    (htq : a.ticks_per_quarter = b.ticks_per_quarter)
    (hE : same_track_events a b s qa qb) :
    (∃ (a2 b2 : mml_context) (evs : List event_summary),
        mml_write_midi_track a = translated.done a2
        ∧ mml_write_midi_track b = translated.done b2
        ∧ a2.mw = (mw_write_track a.mw (event_buffers 0 evs)).2
        ∧ b2.mw = (mw_write_track b.mw (event_buffers 0 evs)).2
        ∧ translator_track a.channel evs
        ∧ a2.channel = a.channel + 1 ∧ b2.channel = b.channel + 1)
    ∨ (mml_write_midi_track a = translated.division_by_zero
        ∧ mml_write_midi_track b = translated.division_by_zero)
    ∨ (mml_write_midi_track a = translated.abort
        ∧ mml_write_midi_track b = translated.abort)
    ∨ (mml_write_midi_track a = translated.out_of_bounds
        ∧ mml_write_midi_track b = translated.out_of_bounds) := by
  have hrel : track_rel (mw_track_begin a.mw).2 (mw_track_begin b.mw).2 a.channel
      { a with
        current_tick := 0, default_length := 4, tempo_us := 500000, octave := 4,
        velocity := 100, last_status := 0,
        mw := (write_tempo (mw_track_begin a.mw).2 0 500000).2,
        active_notes := List.replicate 128 false }
      { b with
        current_tick := 0, default_length := 4, tempo_us := 500000, octave := 4,
        velocity := 100, last_status := 0,
        mw := (write_tempo (mw_track_begin b.mw).2 0 500000).2,
        active_notes := List.replicate 128 false }
      [summary_meta 0 0x51 [0x07, 0xA1, 0x20]] :=
    ⟨track_start_inv a a.channel rfl h16, track_start_inv b a.channel hch.symm h16,
      same_state_of_fields _ _ rfl rfl htq rfl rfl rfl rfl hch rfl⟩
  unfold mml_write_midi_track process_track
  simp only []
  rcases track_rel_loop (mw_track_begin a.mw).2 (mw_track_begin b.mw).2 a.channel
    (a.events.length - a.offset + 1) (b.events.length - b.offset + 1) _ _ 0 _ s qa qb hrel hE
    (by omega) (by show a.events.length - a.offset < _; omega)
    (by show b.events.length - b.offset < _; omega) with
    ⟨t, a3, b3, more, hla, hlb, ht, ha3, hb3, hs3⟩ | ⟨hla, hlb⟩ | ⟨hla, hlb⟩ | ⟨hla, hlb⟩
  · rw [hla, hlb]
    simp only []
    refine Or.inl ⟨_, _, [summary_meta 0 0x51 [0x07, 0xA1, 0x20]] ++ more
      ++ [summary_meta t 0x2F []], rfl, rfl, ?_, ?_, ⟨more, t, rfl, ht, ?_⟩, ?_, ?_⟩
    · exact track_end_writer a.mw a.channel a3 _ t ha3
    · exact track_end_writer b.mw a.channel b3 _ t hb3
    · intro x hx
      exact ha3.2.2.1 x (List.mem_append_right _ hx)
    · show u8 (a3.channel + 1) = _
      rw [ha3.2.2.2.1]
      unfold u8
      omega
    · show u8 (b3.channel + 1) = _
      rw [hb3.2.2.2.1, ← hch]
      unfold u8
      omega
  · rw [hla, hlb]
    exact Or.inr (Or.inl ⟨rfl, rfl⟩)
  · rw [hla, hlb]
    exact Or.inr (Or.inr (Or.inl ⟨rfl, rfl⟩))
  · rw [hla, hlb]
    exact Or.inr (Or.inr (Or.inr ⟨rfl, rfl⟩))

theorem track_spec (ctx : mml_context) (hch : ctx.channel < 16) :
    (∃ (ctx2 : mml_context) (evs : List event_summary),
        mml_write_midi_track ctx = translated.done ctx2
        ∧ ctx2.mw = (mw_write_track ctx.mw (event_buffers 0 evs)).2
        ∧ translator_track ctx.channel evs
        ∧ ctx2.channel = ctx.channel + 1)
    ∨ mml_write_midi_track ctx = translated.division_by_zero
    ∨ mml_write_midi_track ctx = translated.abort
    ∨ mml_write_midi_track ctx = translated.out_of_bounds := by
  rcases track_rel_track ctx ctx (ctx.events.drop ctx.offset) [] [] rfl hch rfl
    ⟨(List.append_nil _).symm, (List.append_nil _).symm, Or.inl ⟨rfl, rfl⟩⟩ with
    ⟨a2, b2, evs, h1, _, h3, _, h5, h6, _⟩ | ⟨h, _⟩ | ⟨h, _⟩ | ⟨h, _⟩
  · exact Or.inl ⟨a2, evs, h1, h3, h5, h6⟩
  · exact Or.inr (Or.inl h)
  · exact Or.inr (Or.inr (Or.inl h))
  · exact Or.inr (Or.inr (Or.inr h))

theorem loop_spec : ∀ (n : Nat) (ctx : mml_context), 16 ≤ n + ctx.channel → ctx.channel < 16 →
    (∃ (ctx2 : mml_context) (tracks : List (List event_summary)),
        mml_write_midi_loop n ctx = translated.done ctx2
        ∧ ctx2.mw = (mw_write_tracks ctx.mw (tracks.map (event_buffers 0))).2
        ∧ translator_tracks ctx.channel tracks
        ∧ tracks.length + ctx.channel ≤ 16)
    ∨ mml_write_midi_loop n ctx = translated.division_by_zero
    ∨ mml_write_midi_loop n ctx = translated.abort
    ∨ mml_write_midi_loop n ctx = translated.out_of_bounds
  | 0, ctx, hn, hch => by omega
  | n + 1, ctx, hn, hch => by
    unfold mml_write_midi_loop
    by_cases hend : ctx.offset ≥ ctx.events.length
    · rw [if_pos hend]
      exact Or.inl ⟨ctx, [], rfl, rfl, trivial, by simp only [List.length_nil]; omega⟩
    · rw [if_neg hend]
      rcases track_spec ctx hch with ⟨ctx2, evs, ht, hmw, htr, hc2⟩ | ht | ht | ht
      · rw [ht]
        simp only []
        by_cases h16 : ctx2.channel ≥ 16
        · rw [if_pos h16]
          refine Or.inl ⟨ctx2, [evs], rfl, ?_, ⟨htr, trivial⟩, by
            simp only [List.length_cons, List.length_nil]; omega⟩
          rw [hmw]
          rfl
        · rw [if_neg h16]
          rcases loop_spec n ctx2 (by omega) (by omega) with
            ⟨ctx3, tracks, hl, hmw3, htr3, hlen⟩ | hl | hl | hl
          · refine Or.inl ⟨ctx3, evs :: tracks, hl, ?_, ⟨htr, by rw [← hc2]; exact htr3⟩, by
              simp only [List.length_cons]; omega⟩
            rw [hmw3, hmw]
            rfl
          · exact Or.inr (Or.inl hl)
          · exact Or.inr (Or.inr (Or.inl hl))
          · exact Or.inr (Or.inr (Or.inr hl))
      · rw [ht]
        exact Or.inr (Or.inl rfl)
      · rw [ht]
        exact Or.inr (Or.inr (Or.inl rfl))
      · rw [ht]
        exact Or.inr (Or.inr (Or.inr rfl))

/-! ## Reading a written track back -/

theorem at_delta (pre : List Nat) (delta : Nat) (hd : delta < 4294967296) (after : List Nat)
    (rest : Mem) (hL : (pre ++ (midi_vlq_encode delta ++ after)).length < 4294967296) :
    midi_vlq_decode (ptr_add (bytes_of (pre ++ (midi_vlq_encode delta ++ after)) rest) pre.length)
        (u32_sub (pre ++ (midi_vlq_encode delta ++ after)).length pre.length)
      = some ((midi_vlq_encode delta).length, delta)
    ∧ u32 (pre.length + (midi_vlq_encode delta).length)
        = pre.length + (midi_vlq_encode delta).length
    ∧ u32_sub (pre ++ (midi_vlq_encode delta ++ after)).length
        (pre.length + (midi_vlq_encode delta).length) = after.length
    ∧ ptr_add (bytes_of (pre ++ (midi_vlq_encode delta ++ after)) rest)
        (pre.length + (midi_vlq_encode delta).length) = bytes_of after rest := by
  simp only [List.length_append] at hL
  refine ⟨?_, ?_, ?_, ?_⟩
  · rw [bytes_of_append, ptr_add_bytes_of, u32_sub_small _ _ (by simp) (by simpa using hL)]
    apply vlq_decode_encode delta hd
    · simp
    · intro i hi
      exact bytes_of_append_lt _ _ _ i hi
  · rw [u32_small _ (by omega)]
  · rw [u32_sub_small _ _ (by simp) (by simpa using hL)]
    simp only [List.length_append]
    omega
  · rw [← List.append_assoc, bytes_of_append, ← List.length_append, ptr_add_bytes_of]

theorem next_midi_full (p : track_parser_t) (e : track_event_t) (n delta ev_len : Nat)
    (m : midi_event_t)
    (h1 : midi_vlq_decode (ptr_add p.bytes p.idx) (u32_sub p.len p.idx) = some (n, delta))
    (h2 : u32_sub p.len (u32 (p.idx + n)) ≠ 0)
    (h3 : 0x80 ≤ p.bytes (u32 (p.idx + n)) ∧ p.bytes (u32 (p.idx + n)) < 0xF0)
    (h4 : midi_event_from_bytes e.midi (ptr_add p.bytes (u32 (p.idx + n)))
        (u32_sub p.len (u32 (p.idx + n))) = some (ev_len, m))
    (h5 : ev_len ≠ 0) :
    track_event_next p e
      = { ret := ev_len,
          p := { p with last_status := p.bytes (u32 (p.idx + n)),
                        idx := u32 (u32 (p.idx + n) + ev_len) },
          e := { e with delta := delta, midi := m, kind := midi_event_kind.EV_MIDI } } := by
  unfold track_event_next
  rw [h1]
  dsimp only
  rw [if_neg h2, if_pos h3, h4]
  dsimp only
  rw [if_neg h5]

theorem next_rolling_full (p : track_parser_t) (e : track_event_t) (n delta ev_len : Nat)
    (m : midi_event_t)
    (h1 : midi_vlq_decode (ptr_add p.bytes p.idx) (u32_sub p.len p.idx) = some (n, delta))
    (h2 : u32_sub p.len (u32 (p.idx + n)) ≠ 0)
    (h3 : p.bytes (u32 (p.idx + n)) < 0x80)
    (hs : 0x80 ≤ p.last_status ∧ p.last_status < 0xF0)
    (h4 : midi_event_from_bytes_rolling e.midi p.last_status (ptr_add p.bytes (u32 (p.idx + n)))
        (u32_sub p.len (u32 (p.idx + n))) = some (ev_len, m))
    (h5 : ev_len ≠ 0) :
    track_event_next p e
      = { ret := ev_len,
          p := { p with idx := u32 (u32 (p.idx + n) + ev_len) },
          e := { e with delta := delta, midi := m, kind := midi_event_kind.EV_MIDI } } := by
  have h3a : ¬ (0x80 ≤ p.bytes (u32 (p.idx + n)) ∧ p.bytes (u32 (p.idx + n)) < 0xF0) := by
    omega
  have h3b : ¬ (p.bytes (u32 (p.idx + n)) = 0xF0 ∨ p.bytes (u32 (p.idx + n)) = 0xF7) := by
    omega
  have h3c : ¬ p.bytes (u32 (p.idx + n)) = 0xFF := by omega
  unfold track_event_next
  rw [h1]
  dsimp only
  rw [if_neg h2, if_neg h3a, if_neg h3b, if_neg h3c, if_pos hs, h4]
  dsimp only
  rw [if_neg h5]

theorem next_meta_full (p : track_parser_t) (e : track_event_t) (n delta n2 vlength : Nat)
    (h1 : midi_vlq_decode (ptr_add p.bytes p.idx) (u32_sub p.len p.idx) = some (n, delta))
    (h2 : u32_sub p.len (u32 (p.idx + n)) ≠ 0)
    (h3 : p.bytes (u32 (p.idx + n)) = 0xFF)
    (h4 : midi_vlq_decode (ptr_add p.bytes (u32 (p.idx + n) + 2))
        (u32_sub (u32_sub p.len (u32 (p.idx + n))) 2) = some (n2, vlength)) :
    track_event_next p e
      = { ret := i32 (u32 (2 + n2 + vlength)),
          p := { p with idx := u32 (u32 (p.idx + n) + u32 (2 + n2 + vlength)) },
          e := { e with delta := delta, kind := midi_event_kind.EV_META,
                        meta_type := p.bytes (u32 (u32 (p.idx + n) + 1)),
                        meta_data := ptr_add p.bytes (u32 (p.idx + n) + 2 + n2),
                        meta_length := vlength } } := by
  have h3a : ¬ (0x80 ≤ p.bytes (u32 (p.idx + n)) ∧ p.bytes (u32 (p.idx + n)) < 0xF0) := by
    omega
  have h3b : ¬ (p.bytes (u32 (p.idx + n)) = 0xF0 ∨ p.bytes (u32 (p.idx + n)) = 0xF7) := by
    omega
  unfold track_event_next
  rw [h1]
  dsimp only
  rw [if_neg h2, if_neg h3a, if_neg h3b, if_pos h3, h4]

theorem note_status (ch : Nat) (hch : ch < 16) :
    u8 ((MIDI_NOTE_ON <<< 4) ||| (ch &&& 0x0F)) = 144 + ch := by
  have h : ch &&& 0x0F = ch := by rw [and_0F]; omega
  rw [h]
  show u8 ((9 <<< 4) ||| ch) = 144 + ch
  have h2 : (9 <<< 4 : Nat) = 16 * 9 := by decide
  rw [h2, or_low4 9 ch hch]
  unfold u8
  omega

theorem written_event_note (st delta ch note velocity : Nat) (hch : ch < 16) :
    written_event st (summary_midi delta
        { kind := MIDI_NOTE_ON, channel := ch, bytes0 := note, bytes1 := velocity })
      = midi_vlq_encode delta
          ++ (if st = 144 + ch then [note, velocity] else [144 + ch, note, velocity]) := by
  unfold written_event summary_midi
  simp only []
  rw [note_status ch hch]
  by_cases h : st = 144 + ch
  · rw [if_pos h, h]
    simp [midi_event_to_bytes]
  · rw [if_neg h]
    have hb : (st == 144 + ch) = false := by simpa using h
    rw [hb]
    have hs := note_status ch hch
    have hand : ch &&& 0x0F = ch := by rw [and_0F]; omega
    rw [hand] at hs
    simp only [midi_event_to_bytes, Bool.false_eq_true, if_false, true_or, if_true,
      Option.getD_some, List.singleton_append, Nat.zero_or]
    congr 2

theorem status_after_note (st delta ch note velocity : Nat) (hch : ch < 16) :
    status_after_event st (summary_midi delta
        { kind := MIDI_NOTE_ON, channel := ch, bytes0 := note, bytes1 := velocity })
      = 144 + ch := by
  unfold status_after_event summary_midi
  simp only []
  exact note_status ch hch

theorem read_note_explicit (pre tail : List Nat) (rest : Mem) (st delta ch note velocity : Nat)
    (hch : ch < 16) (hd : delta < 4294967296)
    (hL : (pre ++ (midi_vlq_encode delta ++ [144 + ch, note, velocity] ++ tail)).length
      < 4294967296) :
    track_event_next
        (track_parser_at pre (midi_vlq_encode delta ++ [144 + ch, note, velocity] ++ tail) rest st)
        track_event_zero
      = { ret := 3,
          p := track_parser_at (pre ++ (midi_vlq_encode delta ++ [144 + ch, note, velocity])) tail
            rest (144 + ch),
          e := { track_event_zero with
                 delta := delta,
                 midi := { kind := MIDI_NOTE_ON, channel := ch, bytes0 := note,
                           bytes1 := velocity },
                 kind := midi_event_kind.EV_MIDI } } := by
  have hassoc : midi_vlq_encode delta ++ [144 + ch, note, velocity] ++ tail
      = midi_vlq_encode delta ++ ((144 + ch) :: note :: velocity :: tail) := by simp
  rw [hassoc] at hL
  obtain ⟨h1, hidx, hleft, hptr⟩ := at_delta pre delta hd ((144 + ch) :: note :: velocity :: tail)
    rest hL
  have hb0 : bytes_of (pre ++ (midi_vlq_encode delta ++ ((144 + ch) :: note :: velocity :: tail)))
      rest (pre.length + (midi_vlq_encode delta).length) = 144 + ch := by
    have h := congrFun hptr 0
    simp only [ptr_add, Nat.add_zero] at h
    rw [h, bytes_of_cons_zero]
  have hfrom : midi_event_from_bytes track_event_zero.midi
      (bytes_of ((144 + ch) :: note :: velocity :: tail) rest)
      ((144 + ch) :: note :: velocity :: tail).length
      = some (3, { kind := MIDI_NOTE_ON, channel := ch, bytes0 := note, bytes1 := velocity }) := by
    have e0 : bytes_of ((144 + ch) :: note :: velocity :: tail) rest 0 = 144 + ch := by
      simp [bytes_of]
    have e1 : bytes_of ((144 + ch) :: note :: velocity :: tail) rest 1 = note := by
      simp [bytes_of]
    have e2 : bytes_of ((144 + ch) :: note :: velocity :: tail) rest 2 = velocity := by
      simp [bytes_of]
    have k1 : (144 + ch) / 16 % 16 = 9 := by omega
    have k2 : (144 + ch) % 16 = ch := by omega
    simp only [midi_event_from_bytes, e0, e1, e2, and_F0_shr, and_0F, k1, k2, List.length_cons]
    rw [if_neg (by omega), if_pos (Or.inl trivial), if_neg (by omega)]
  have hn := next_midi_full
    { bytes := bytes_of (pre ++ (midi_vlq_encode delta ++ (144 + ch) :: note :: velocity :: tail))
        rest,
      idx := pre.length,
      len := (pre ++ (midi_vlq_encode delta ++ (144 + ch) :: note :: velocity :: tail)).length,
      last_status := st }
    track_event_zero (midi_vlq_encode delta).length delta 3
    { kind := MIDI_NOTE_ON, channel := ch, bytes0 := note, bytes1 := velocity } h1
    (by dsimp only
        rw [hidx, hleft]
        simp)
    (by dsimp only
        rw [hidx, hb0]
        omega)
    (by dsimp only
        rw [hidx, hleft, hptr]
        exact hfrom)
    (by omega)
  unfold track_parser_at
  rw [hassoc, hn]
  have hlen5 := vlq_encode_length_le delta
  simp only [List.length_append, List.length_cons] at hL
  dsimp only
  rw [hidx, hb0, u32_small _ (by omega)]
  simp only [List.length_append, List.length_cons, List.length_nil,
    List.append_assoc, List.cons_append, List.nil_append]
  congr 2

theorem read_note_running (pre tail : List Nat) (rest : Mem) (delta ch note velocity : Nat)
    (hch : ch < 16) (hd : delta < 4294967296) (hn : note < 128)
    (hL : (pre ++ (midi_vlq_encode delta ++ [note, velocity] ++ tail)).length < 4294967296) :
    track_event_next
        (track_parser_at pre (midi_vlq_encode delta ++ [note, velocity] ++ tail) rest (144 + ch))
        track_event_zero
      = { ret := 2,
          p := track_parser_at (pre ++ (midi_vlq_encode delta ++ [note, velocity])) tail
            rest (144 + ch),
          e := { track_event_zero with
                 delta := delta,
                 midi := { kind := MIDI_NOTE_ON, channel := ch, bytes0 := note,
                           bytes1 := velocity },
                 kind := midi_event_kind.EV_MIDI } } := by
  have hassoc : midi_vlq_encode delta ++ [note, velocity] ++ tail
      = midi_vlq_encode delta ++ (note :: velocity :: tail) := by simp
  rw [hassoc] at hL
  obtain ⟨h1, hidx, hleft, hptr⟩ := at_delta pre delta hd (note :: velocity :: tail) rest hL
  have hb0 : bytes_of (pre ++ (midi_vlq_encode delta ++ (note :: velocity :: tail)))
      rest (pre.length + (midi_vlq_encode delta).length) = note := by
    have h := congrFun hptr 0
    simp only [ptr_add, Nat.add_zero] at h
    rw [h, bytes_of_cons_zero]
  have hfrom : midi_event_from_bytes_rolling track_event_zero.midi (144 + ch)
      (bytes_of (note :: velocity :: tail) rest) (note :: velocity :: tail).length
      = some (2, { kind := MIDI_NOTE_ON, channel := ch, bytes0 := note, bytes1 := velocity }) := by
    have e0 : bytes_of (note :: velocity :: tail) rest 0 = note := by simp [bytes_of]
    have e1 : bytes_of (note :: velocity :: tail) rest 1 = velocity := by simp [bytes_of]
    have k1 : (144 + ch) / 16 % 16 = 9 := by omega
    have k2 : (144 + ch) % 16 = ch := by omega
    simp only [midi_event_from_bytes_rolling, e0, e1, and_F0_shr, and_0F, k1, k2,
      List.length_cons]
    rw [if_neg (by omega), if_pos (Or.inl trivial), if_neg (by omega)]
  have hnx := next_rolling_full
    { bytes := bytes_of (pre ++ (midi_vlq_encode delta ++ note :: velocity :: tail)) rest,
      idx := pre.length,
      len := (pre ++ (midi_vlq_encode delta ++ note :: velocity :: tail)).length,
      last_status := 144 + ch }
    track_event_zero (midi_vlq_encode delta).length delta 2
    { kind := MIDI_NOTE_ON, channel := ch, bytes0 := note, bytes1 := velocity } h1
    (by dsimp only
        rw [hidx, hleft]
        simp)
    (by dsimp only
        rw [hidx, hb0]
        exact hn)
    (by dsimp only
        omega)
    (by dsimp only
        rw [hidx, hleft, hptr]
        exact hfrom)
    (by omega)
  unfold track_parser_at
  rw [hassoc, hnx]
  have hlen5 := vlq_encode_length_le delta
  simp only [List.length_append, List.length_cons] at hL
  dsimp only
  rw [hidx, u32_small _ (by omega)]
  simp only [List.length_append, List.length_cons, List.length_nil,
    List.append_assoc, List.cons_append, List.nil_append]
  congr 2

theorem mem_take_bytes_of_append (l tail : List Nat) (rest : Mem) :
    mem_take (bytes_of (l ++ tail) rest) l.length = l := by
  rw [bytes_of_append]
  exact mem_take_bytes_of l _

theorem read_meta (pre tail : List Nat) (rest : Mem) (st delta type : Nat) (payload : List Nat)
    (hd : delta < 4294967296) (hp : payload.length < 1000)
    (hL : (pre ++ (midi_vlq_encode delta ++ [0xFF, type] ++ midi_vlq_encode payload.length
      ++ payload ++ tail)).length < 4294967296) :
    (track_event_next
        (track_parser_at pre (midi_vlq_encode delta ++ [0xFF, type]
          ++ midi_vlq_encode payload.length ++ payload ++ tail) rest st)
        track_event_zero).ret ≥ 0
    ∧ (track_event_next
        (track_parser_at pre (midi_vlq_encode delta ++ [0xFF, type]
          ++ midi_vlq_encode payload.length ++ payload ++ tail) rest st)
        track_event_zero).p
      = track_parser_at (pre ++ (midi_vlq_encode delta ++ [0xFF, type]
          ++ midi_vlq_encode payload.length ++ payload)) tail rest st
    ∧ summary_of (track_event_next
        (track_parser_at pre (midi_vlq_encode delta ++ [0xFF, type]
          ++ midi_vlq_encode payload.length ++ payload ++ tail) rest st)
        track_event_zero).e
      = summary_meta delta type payload := by
  have hassoc : midi_vlq_encode delta ++ [0xFF, type] ++ midi_vlq_encode payload.length
      ++ payload ++ tail
      = midi_vlq_encode delta ++ (0xFF :: type ::
          (midi_vlq_encode payload.length ++ (payload ++ tail))) := by simp
  rw [hassoc] at hL ⊢
  generalize hl : midi_vlq_encode payload.length = l at hL ⊢
  have hl5 : l.length ≤ 5 := by rw [← hl]; exact vlq_encode_length_le _
  have hl1 : 1 ≤ l.length := by rw [← hl]; exact vlq_encode_length_pos _
  have hd5 := vlq_encode_length_le delta
  obtain ⟨h1, hidx, hleft, hptr⟩ := at_delta pre delta hd
    (0xFF :: type :: (l ++ (payload ++ tail))) rest hL
  have hb0 : bytes_of (pre ++ (midi_vlq_encode delta ++ 0xFF :: type :: (l ++ (payload ++ tail))))
      rest (pre.length + (midi_vlq_encode delta).length) = 0xFF := by
    have h := congrFun hptr 0
    simp only [ptr_add, Nat.add_zero] at h
    rw [h, bytes_of_cons_zero]
  have hb1 : bytes_of (pre ++ (midi_vlq_encode delta ++ 0xFF :: type :: (l ++ (payload ++ tail))))
      rest (pre.length + (midi_vlq_encode delta).length + 1) = type := by
    have h := congrFun hptr 1
    simp only [ptr_add] at h
    rw [h]
    simp [bytes_of]
  have hp2 : ptr_add (bytes_of (0xFF :: type :: (l ++ (payload ++ tail))) rest) 2 =
      bytes_of (l ++ (payload ++ tail)) rest := by
    have h := ptr_add_bytes_of [0xFF, type] (bytes_of (l ++ (payload ++ tail)) rest)
    rw [← bytes_of_append] at h
    exact h
  have hvl : midi_vlq_decode (bytes_of (l ++ (payload ++ tail)) rest)
      (l.length + (payload ++ tail).length) = some (l.length, payload.length) := by
    have h := vlq_decode_encode payload.length (by omega) (bytes_of (l ++ (payload ++ tail)) rest)
      (l.length + (payload ++ tail).length) (by rw [hl]; omega)
      (by rw [hl]; intro i hi; exact bytes_of_append_lt _ _ _ i hi)
    rwa [hl] at h
  simp only [List.length_append, List.length_cons] at hL
  have hnx := next_meta_full
    { bytes := bytes_of (pre ++ (midi_vlq_encode delta ++ 0xFF :: type :: (l ++ (payload ++ tail))))
        rest,
      idx := pre.length,
      len := (pre ++ (midi_vlq_encode delta ++ 0xFF :: type :: (l ++ (payload ++ tail)))).length,
      last_status := st }
    track_event_zero (midi_vlq_encode delta).length delta l.length payload.length h1
    (by dsimp only
        rw [hidx, hleft]
        simp)
    (by dsimp only
        rw [hidx, hb0])
    (by dsimp only
        rw [hidx, hleft, ptr_add_add, hptr, hp2, u32_sub_small _ _ (by simp) (by simp; omega)]
        simp only [List.length_cons, List.length_append]
        rw [show l.length + (payload.length + tail.length) + 1 + 1 - 2
          = l.length + (payload.length + tail.length) by omega]
        simpa using hvl)
  unfold track_parser_at
  rw [hnx]
  dsimp only
  have hu : u32 (2 + l.length + payload.length) = 2 + l.length + payload.length :=
    u32_small _ (by omega)
  refine ⟨?_, ?_, ?_⟩
  · rw [hu, i32_small _ (by omega)]
    omega
  · rw [hidx, hu, u32_small _ (by omega)]
    simp only [List.length_append, List.length_cons, List.length_nil,
      List.append_assoc, List.cons_append, List.nil_append, track_parser_t.mk.injEq, true_and,
      and_true]
    omega
  · unfold summary_of summary_meta
    dsimp only
    rw [hidx, u32_small _ (by omega), hb1, ptr_add_add, ptr_add_add, hptr, hp2, bytes_of_append,
      ptr_add_bytes_of, mem_take_bytes_of_append]

theorem written_event_ne_nil (st : Nat) (s : event_summary) : written_event st s ≠ [] := by
  have hpos := vlq_encode_length_pos s.delta
  intro h
  have hl := congrArg List.length h
  unfold written_event at hl
  cases hk : s.kind with
  | EV_MIDI =>
    rw [hk] at hl
    simp only [List.length_append, List.length_nil] at hl
    omega
  | EV_SYSEX =>
    rw [hk] at hl
    simp only [] at hl
    rw [track_to_bytes_sysex _ (by exact hk)] at hl
    simp only [List.length_append, List.length_nil] at hl
    have : (event_of_summary s).delta = s.delta := rfl
    rw [this] at hl
    omega
  | EV_META =>
    rw [hk] at hl
    simp only [] at hl
    rw [track_to_bytes_meta _ (by exact hk)] at hl
    simp only [List.length_append, List.length_nil] at hl
    have : (event_of_summary s).delta = s.delta := rfl
    rw [this] at hl
    omega

theorem track_events_step (n : Nat) (p q : track_parser_t) (s : event_summary)
    (evs : List event_summary) (hidx : p.idx < p.len)
    (hret : (track_event_next p track_event_zero).ret ≥ 0)
    (hp : (track_event_next p track_event_zero).p = q)
    (he : summary_of (track_event_next p track_event_zero).e = s)
    (hrest : track_events n q = some evs) :
    track_events (n + 1) p = some (s :: evs) := by
  unfold track_events
  rw [if_neg (by omega)]
  simp only []
  rw [if_neg (by omega), hp, hrest, he]
  rfl

theorem read_written (ch : Nat) (hch : ch < 16) : ∀ (evs : List event_summary)
    (pre : List Nat) (st : Nat) (rest : Mem) (fuel : Nat),
    (∀ s ∈ evs, translator_event ch s ∨ ∃ t, t < 4294967296 ∧ s = summary_meta t 0x2F []) →
    (st = 0 ∨ st = 144 + ch) → (pre ++ written_events st evs).length < 4294967296 →
    evs.length < fuel →
    track_events fuel (track_parser_at pre (written_events st evs) rest st) = some evs
  | [], pre, st, rest, fuel, _, _, _, hf => by
    obtain ⟨n, rfl⟩ : ∃ n, fuel = n + 1 := ⟨fuel - 1, by simp only [List.length_nil] at hf; omega⟩
    unfold track_events
    rw [if_pos (by simp [track_parser_at, written_events])]
  | s :: evs, pre, st, rest, fuel, hev, hst, hL, hf => by
    obtain ⟨n, rfl⟩ : ∃ n, fuel = n + 1 := ⟨fuel - 1, by simp only [List.length_cons] at hf; omega⟩
    simp only [List.length_cons] at hf
    have hrest : ∀ x ∈ evs, translator_event ch x
        ∨ ∃ t, t < 4294967296 ∧ x = summary_meta t 0x2F [] :=
      fun x hx => hev x (List.mem_cons_of_mem _ hx)
    have hne := written_event_ne_nil st s
    have hpos : 0 < (written_event st s).length := List.length_pos.2 hne
    have hw : written_events st (s :: evs)
        = written_event st s ++ written_events (status_after_event st s) evs := rfl
    rw [hw] at hL ⊢
    have hL2 : ((pre ++ written_event st s)
        ++ written_events (status_after_event st s) evs).length < 4294967296 := by
      rw [List.append_assoc]
      exact hL
    have hidx : (track_parser_at pre
        (written_event st s ++ written_events (status_after_event st s) evs) rest st).idx
        < (track_parser_at pre
        (written_event st s ++ written_events (status_after_event st s) evs) rest st).len := by
      simp only [track_parser_at, List.length_append]
      omega
    rcases hev s (List.mem_cons_self _ _) with ⟨hd, ⟨b2, b1, b0, _, _, _, hs⟩ | ⟨note, vel, hn, hv, hs⟩⟩
      | ⟨t, ht, hs⟩
    · have hsa : status_after_event st s = st := by rw [hs]; rfl
      have hwe : written_event st s = midi_vlq_encode s.delta ++ [0xFF, 0x51]
          ++ midi_vlq_encode [b2, b1, b0].length ++ [b2, b1, b0] := by
        rw [hs]
        exact written_event_meta st _ 0x51 [b2, b1, b0]
      rw [hsa] at hL hL2 hidx ⊢
      rw [hwe] at hL hL2 hidx ⊢
      obtain ⟨r1, r2, r3⟩ := read_meta pre (written_events st evs) rest st s.delta 0x51 [b2, b1, b0]
        hd (by simp) hL
      exact track_events_step n _ _ s evs hidx r1 r2 (by rw [r3, ← hs])
        (read_written ch hch evs _ st rest n hrest hst hL2 (by omega))
    · have hsa : status_after_event st s = 144 + ch := by
        rw [hs]
        exact status_after_note st _ ch note vel hch
      rw [hsa] at hL hL2 hidx ⊢
      by_cases hrun : st = 144 + ch
      · have hwe : written_event st s = midi_vlq_encode s.delta ++ [note, vel] := by
          have key := written_event_note st s.delta ch note vel hch
          rw [← hs, if_pos hrun] at key
          exact key
        rw [hwe] at hL hL2 hidx ⊢
        have hr := read_note_running pre (written_events (144 + ch) evs) rest s.delta ch note vel
          hch hd hn hL
        rw [hrun] at hidx ⊢
        refine track_events_step n _ _ s evs hidx (by rw [hr]; show (2 : Int) ≥ 0; decide)
          (by rw [hr]) (by rw [hr]; exact hs.symm)
          (read_written ch hch evs _ (144 + ch) rest n hrest (Or.inr rfl) hL2 (by omega))
      · have hwe : written_event st s = midi_vlq_encode s.delta ++ [144 + ch, note, vel] := by
          have key := written_event_note st s.delta ch note vel hch
          rw [← hs, if_neg hrun] at key
          exact key
        rw [hwe] at hL hL2 hidx ⊢
        have hr := read_note_explicit pre (written_events (144 + ch) evs) rest st s.delta ch note
          vel hch hd hL
        refine track_events_step n _ _ s evs hidx (by rw [hr]; show (3 : Int) ≥ 0; decide)
          (by rw [hr]) (by rw [hr]; exact hs.symm)
          (read_written ch hch evs _ (144 + ch) rest n hrest (Or.inr rfl) hL2 (by omega))
    · have hsa : status_after_event st s = st := by rw [hs]; rfl
      have hwe : written_event st s = midi_vlq_encode t ++ [0xFF, 0x2F]
          ++ midi_vlq_encode ([] : List Nat).length ++ [] := by
        rw [hs]
        exact written_event_meta st t 0x2F []
      rw [hsa] at hL hL2 hidx ⊢
      rw [hwe] at hL hL2 hidx ⊢
      obtain ⟨r1, r2, r3⟩ := read_meta pre (written_events st evs) rest st t 0x2F []
        ht (by simp) hL
      exact track_events_step n _ _ s evs hidx r1 r2 (by rw [r3, ← hs])
        (read_written ch hch evs _ st rest n hrest hst hL2 (by omega))

/-! ## The translator: the file it writes -/

theorem event_buffers_ne_nil : ∀ (evs : List event_summary) (st : Nat),
    ∀ b ∈ event_buffers st evs, b ≠ []
  | [], _, b, hb => absurd hb (List.not_mem_nil b)
  | s :: evs, st, b, hb => by
    rcases List.mem_cons.1 hb with h | h
    · rw [h]
      exact written_event_ne_nil st s
    · exact event_buffers_ne_nil evs _ b h

theorem written_events_length_ge : ∀ (evs : List event_summary) (st : Nat),
    evs.length ≤ (written_events st evs).length
  | [], _ => Nat.le_refl _
  | s :: evs, st => by
    have h1 := List.length_pos.2 (written_event_ne_nil st s)
    have h2 := written_events_length_ge evs (status_after_event st s)
    simp only [written_events, List.length_cons, List.length_append]
    omega

theorem track_chunks_events (tracks : List (List event_summary)) :
    track_chunks (tracks.map (event_buffers 0)) = event_track_chunks tracks := by
  unfold track_chunks event_track_chunks
  rw [List.map_map]
  congr 2
  funext evs
  show track_chunk (event_buffers 0 evs).flatten = _
  rw [event_buffers_flatten]

theorem event_track_chunks_mem : ∀ (tracks : List (List event_summary)) (evs : List event_summary),
    evs ∈ tracks → (written_events 0 evs).length ≤ (event_track_chunks tracks).length
  | [], evs, h => absurd h (List.not_mem_nil evs)
  | t :: ts, evs, h => by
    have hc : event_track_chunks (t :: ts)
        = track_chunk (written_events 0 t) ++ event_track_chunks ts := by
      simp [event_track_chunks]
    rw [hc, List.length_append, track_chunk_length]
    rcases List.mem_cons.1 h with h | h
    · rw [h]
      omega
    · have := event_track_chunks_mem ts evs h
      omega

theorem translator_tracks_mem : ∀ (tracks : List (List event_summary)) (k : Nat),
    translator_tracks k tracks → tracks.length + k ≤ 16 →
    ∀ evs ∈ tracks, ∃ ch, ch < 16 ∧ translator_track ch evs
  | [], _, _, _, evs, h => absurd h (List.not_mem_nil evs)
  | t :: ts, k, htr, hlen, evs, h => by
    simp only [List.length_cons] at hlen
    rcases List.mem_cons.1 h with h | h
    · rw [h]
      exact ⟨k, by omega, htr.1⟩
    · exact translator_tracks_mem ts (k + 1) htr.2 (by omega) evs h

theorem translator_track_reads (ch : Nat) (hch : ch < 16) (evs : List event_summary)
    (h : translator_track ch evs) (hL : (written_events 0 evs).length < 4294967296)
    (rest : Mem) :
    track_events ((written_events 0 evs).length + 1)
        (track_parser_fresh (bytes_of (written_events 0 evs) rest) (written_events 0 evs).length)
      = some evs := by
  obtain ⟨mid, t, rfl, ht, hmid⟩ := h
  have hp : track_parser_fresh (bytes_of (written_events 0
        (summary_meta 0 0x51 [0x07, 0xA1, 0x20] :: (mid ++ [summary_meta t 0x2F []]))) rest)
      (written_events 0
        (summary_meta 0 0x51 [0x07, 0xA1, 0x20] :: (mid ++ [summary_meta t 0x2F []]))).length
      = track_parser_at [] (written_events 0
        (summary_meta 0 0x51 [0x07, 0xA1, 0x20] :: (mid ++ [summary_meta t 0x2F []]))) rest 0 := by
    simp [track_parser_fresh, track_parser_at]
  rw [hp]
  apply read_written ch hch _ [] 0 rest _ _ (Or.inl rfl) (by simpa using hL)
    (Nat.lt_succ_of_le (written_events_length_ge _ 0))
  intro s hs
  rcases List.mem_cons.1 hs with hs | hs
  · rw [hs]
    exact Or.inl ⟨by show (0 : Nat) < 4294967296; omega,
      Or.inl ⟨0x07, 0xA1, 0x20, by omega, by omega, by omega, rfl⟩⟩
  · rcases List.mem_append.1 hs with hs | hs
    · exact Or.inl (hmid s hs)
    · rw [List.mem_singleton.1 hs]
      exact Or.inr ⟨t, ht, rfl⟩

theorem translator_event_not_end (ch : Nat) (s : event_summary) (h : translator_event ch s) :
    is_end_of_track s = false := by
  rcases h with ⟨_, ⟨b2, b1, b0, _, _, _, hs⟩ | ⟨note, vel, _, _, hs⟩⟩
  · rw [hs]
    simp [is_end_of_track, summary_meta]
  · rw [hs]
    simp [is_end_of_track, summary_midi]

theorem translator_track_shape (ch : Nat) (evs : List event_summary)
    (h : translator_track ch evs) :
    ∃ (mid : List event_summary) (t : Nat),
      evs = summary_meta 0 0x51 [0x07, 0xA1, 0x20] :: (mid ++ [summary_meta t 0x2F []])
      ∧ written_events 0 evs
          = [0x00, 0xFF, 0x51, 0x03, 0x07, 0xA1, 0x20] ++ written_events 0 mid
            ++ (midi_vlq_encode t ++ [0xFF, 0x2F, 0x00])
      ∧ (evs.filter is_end_of_track).length = 1 := by
  obtain ⟨mid, t, rfl, ht, hmid⟩ := h
  refine ⟨mid, t, rfl, ?_, ?_⟩
  · have h1 : written_events 0 (summary_meta 0 0x51 [0x07, 0xA1, 0x20]
          :: (mid ++ [summary_meta t 0x2F []]))
        = written_event 0 (summary_meta 0 0x51 [0x07, 0xA1, 0x20])
          ++ written_events 0 (mid ++ [summary_meta t 0x2F []]) := rfl
    rw [h1, written_events_append, written_event_meta]
    have h2 : written_events (status_after_events 0 mid) [summary_meta t 0x2F []]
        = written_event (status_after_events 0 mid) (summary_meta t 0x2F []) ++ [] := rfl
    rw [h2, written_event_meta]
    have h3 : midi_vlq_encode ([0x07, 0xA1, 0x20] : List Nat).length = [3] := by decide
    have h4 : midi_vlq_encode ([] : List Nat).length = [0] := by decide
    rw [h3, h4, vlq_encode_zero]
    simp
  · have hf : mid.filter is_end_of_track = [] := by
      rw [List.filter_eq_nil_iff]
      intro s hs
      rw [translator_event_not_end ch s (hmid s hs)]
      decide
    have h0 : is_end_of_track (summary_meta 0 0x51 [0x07, 0xA1, 0x20]) = false := by decide
    have h1 : is_end_of_track (summary_meta t 0x2F []) = true := by
      unfold is_end_of_track summary_meta
      simp
    rw [List.filter_cons, h0, List.filter_append, hf]
    simp [List.filter_cons, h1]

theorem write_midi_done (events : List mml_event) (r : Int) (file : FILE_t)
    (hdone : mml_write_midi events = translated.done (r, file))
    (hsize : file.content.length < 4294967296) :
    ∃ (ctx : mml_context) (tracks : List (List event_summary)),
      mml_write_midi_loop 16 (mml_write_midi_start events) = translated.done ctx
      ∧ ctx.mw = (mw_write_tracks (mml_write_midi_start events).mw
          (tracks.map (event_buffers 0))).2
      ∧ translator_tracks 0 tracks ∧ tracks.length ≤ 16
      ∧ r = 0
      ∧ file.content = header_chunk 1 tracks.length 480 ++ event_track_chunks tracks := by
  unfold mml_write_midi at hdone
  have hstart : (mml_write_midi_start events).mw = (mw_begin file_opened 1 480).2 := rfl
  have hch0 : (mml_write_midi_start events).channel = 0 := rfl
  rcases loop_spec 16 (mml_write_midi_start events) (by omega) (by rw [hch0]; omega) with
    ⟨ctx, tracks, hl, hmw, htr, hlen⟩ | hl | hl | hl
  · rw [hl] at hdone
    simp only [translated.done.injEq, Prod.mk.injEq] at hdone
    obtain ⟨hr, hfile⟩ := hdone
    rw [hch0] at htr hlen
    obtain ⟨_, b2, b3, b4⟩ := mw_begin_synced 1 480
    have hne : ∀ t ∈ tracks.map (event_buffers 0), ∀ b ∈ t, b ≠ [] := by
      intro t ht b hb
      obtain ⟨evs, _, rfl⟩ := List.mem_map.1 ht
      exact event_buffers_ne_nil evs 0 b hb
    have hge := mw_end_length_ge ctx.mw
    rw [hfile] at hge
    rw [hstart] at hmw
    have hfit := mw_write_tracks_fit (tracks.map (event_buffers 0)) (mw_begin file_opened 1 480).2
      b2 hne (by rw [← hmw]; omega)
    obtain ⟨_, c2, _, c4⟩ := mw_write_tracks_eq (tracks.map (event_buffers 0))
      (mw_begin file_opened 1 480).2 b2 (by rw [b4]; omega) hne hfit
    rw [← hmw] at c2 c4
    rw [b3] at c2
    rw [b4, List.length_map] at c4
    have hn : ctx.mw.ntracks = tracks.length := by
      rw [c4]
      unfold u16
      omega
    obtain ⟨_, e2⟩ := mw_end_eq ctx.mw 1 0xAFAF 480 _ c2
    refine ⟨ctx, tracks, hl, by rw [hstart]; exact hmw, htr, by omega, hr.symm, ?_⟩
    rw [← hfile, e2, hn, track_chunks_events]
  · rw [hl] at hdone
    cases hdone
  · rw [hl] at hdone
    cases hdone
  · rw [hl] at hdone
    cases hdone

/-! ## Claims on the tracks that the translator writes -/

/-- C23: when `mml_write_midi` returns on an event sequence and the file it
has written is shorter than 2^32 bytes, the file is the header chunk and one
chunk for each track, and the data of every track begins with the tempo meta
event `00 FF 51 03 07 A1 20` at delta 0, ends with an end-of-track meta event
(`FF 2F 00` after its delta), is read by `track_event_next` as the events of the
track, and holds exactly one end-of-track meta event among them. -/
theorem track_begins_with_tempo_ends_with_end_of_track (events : List mml_event) (r : Int)
    (file : FILE_t) (hdone : mml_write_midi events = translated.done (r, file))
    (hsize : file.content.length < 4294967296) :
    ∃ tracks : List (List event_summary),
      file.content = header_chunk 1 tracks.length 480 ++ event_track_chunks tracks
      ∧ ∀ evs ∈ tracks,
          (∀ rest : Mem,
            track_events ((written_events 0 evs).length + 1)
                (track_parser_fresh (bytes_of (written_events 0 evs) rest)
                  (written_events 0 evs).length) = some evs)
          ∧ ∃ (mid : List event_summary) (t : Nat),
              evs = summary_meta 0 0x51 [0x07, 0xA1, 0x20]
                :: (mid ++ [summary_meta t 0x2F []])
              ∧ written_events 0 evs
                  = [0x00, 0xFF, 0x51, 0x03, 0x07, 0xA1, 0x20] ++ written_events 0 mid
                    ++ (midi_vlq_encode t ++ [0xFF, 0x2F, 0x00])
              ∧ (evs.filter is_end_of_track).length = 1 := by
  obtain ⟨ctx, tracks, _, _, htr, hlen, _, hfile⟩ := write_midi_done events r file hdone hsize
  refine ⟨tracks, hfile, ?_⟩
  intro evs hevs
  obtain ⟨ch, hch, ht⟩ := translator_tracks_mem tracks 0 htr (by omega) evs hevs
  have hL : (written_events 0 evs).length < 4294967296 := by
    have h1 := event_track_chunks_mem tracks evs hevs
    rw [hfile, List.length_append] at hsize
    omega
  exact ⟨fun rest => translator_track_reads ch hch evs ht hL rest, translator_track_shape ch evs ht⟩

/-- Witness of C23 on the events of `t120 o4 c4;`. -/
theorem track_begins_with_tempo_ends_with_end_of_track_witness :
    mml_write_midi events_t120_o4_c4 = translated.done (0, file_t120_o4_c4)
    ∧ file_t120_o4_c4.content.length < 4294967296
    ∧ ∃ tracks : List (List event_summary),
      file_t120_o4_c4.content = header_chunk 1 tracks.length 480 ++ event_track_chunks tracks
      ∧ ∀ evs ∈ tracks,
          (∀ rest : Mem,
            track_events ((written_events 0 evs).length + 1)
                (track_parser_fresh (bytes_of (written_events 0 evs) rest)
                  (written_events 0 evs).length) = some evs)
          ∧ ∃ (mid : List event_summary) (t : Nat),
              evs = summary_meta 0 0x51 [0x07, 0xA1, 0x20]
                :: (mid ++ [summary_meta t 0x2F []])
              ∧ written_events 0 evs
                  = [0x00, 0xFF, 0x51, 0x03, 0x07, 0xA1, 0x20] ++ written_events 0 mid
                    ++ (midi_vlq_encode t ++ [0xFF, 0x2F, 0x00])
              ∧ (evs.filter is_end_of_track).length = 1 :=
  ⟨by decide!, by decide!,
    track_begins_with_tempo_ends_with_end_of_track events_t120_o4_c4 0 file_t120_o4_c4
      (by decide!) (by decide!)⟩

/-- C26: when `mml_write_midi` returns on an event sequence and the file it
has written is shorter than 2^32 bytes, there are lists of track events, one for
each track, such that the translator has appended to each track the bytes of
these events, one `mw_track_append` for each event, the file holds after the
header one chunk for each track with these bytes, and reading the data of each
chunk with `track_event_next` from a fresh parser until the data is used up
succeeds at every call and gives back exactly these events in order. -/
theorem written_tracks_read_back (events : List mml_event) (r : Int) (file : FILE_t)
    (hdone : mml_write_midi events = translated.done (r, file))
    (hsize : file.content.length < 4294967296) :
    ∃ (ctx : mml_context) (tracks : List (List event_summary)),
      mml_write_midi_loop 16 (mml_write_midi_start events) = translated.done ctx
      ∧ ctx.mw = (mw_write_tracks (mml_write_midi_start events).mw
          (tracks.map (event_buffers 0))).2
      ∧ file.content = header_chunk 1 tracks.length 480 ++ event_track_chunks tracks
      ∧ ∀ evs ∈ tracks, ∀ rest : Mem,
          track_events ((written_events 0 evs).length + 1)
              (track_parser_fresh (bytes_of (written_events 0 evs) rest)
                (written_events 0 evs).length) = some evs := by
  obtain ⟨ctx, tracks, hl, hmw, htr, hlen, _, hfile⟩ := write_midi_done events r file hdone hsize
  refine ⟨ctx, tracks, hl, hmw, hfile, ?_⟩
  intro evs hevs rest
  obtain ⟨ch, hch, ht⟩ := translator_tracks_mem tracks 0 htr (by omega) evs hevs
  have hL : (written_events 0 evs).length < 4294967296 := by
    have h1 := event_track_chunks_mem tracks evs hevs
    rw [hfile, List.length_append] at hsize
    omega
  exact translator_track_reads ch hch evs ht hL rest

/-- Witness of C26 on the events of `c t120 c;`. -/
theorem written_tracks_read_back_witness :
    mml_write_midi events_c_t120_c = translated.done (0, file_c_t120_c)
    ∧ file_c_t120_c.content.length < 4294967296
    ∧ ∃ (ctx : mml_context) (tracks : List (List event_summary)),
      mml_write_midi_loop 16 (mml_write_midi_start events_c_t120_c) = translated.done ctx
      ∧ ctx.mw = (mw_write_tracks (mml_write_midi_start events_c_t120_c).mw
          (tracks.map (event_buffers 0))).2
      ∧ file_c_t120_c.content
          = header_chunk 1 tracks.length 480 ++ event_track_chunks tracks
      ∧ ∀ evs ∈ tracks, ∀ rest : Mem,
          track_events ((written_events 0 evs).length + 1)
              (track_parser_fresh (bytes_of (written_events 0 evs) rest)
                (written_events 0 evs).length) = some evs :=
  ⟨by decide!, by decide!,
    written_tracks_read_back events_c_t120_c 0 file_c_t120_c (by decide!) (by decide!)⟩

theorem mem_take_add (m : Mem) (x y : Nat) :
    mem_take m (x + y) = mem_take m x ++ mem_take (ptr_add m x) y := by
  unfold mem_take
  rw [List.range_add, List.map_append, List.map_map]
  rfl

theorem mem_take_mem (m : Mem) (n c : Nat) (h : c ∈ mem_take m n) : ∃ i, i < n ∧ m i = c := by
  unfold mem_take at h
  obtain ⟨i, hi, hc⟩ := List.mem_map.1 h
  exact ⟨i, List.mem_range.1 hi, hc⟩

theorem filter_spaces (m : Mem) (n : Nat) (h : ∀ i, i < n → is_space (m i) = true) :
    (mem_take m n).filter (fun c => !is_space c) = [] := by
  rw [List.filter_eq_nil_iff]
  intro c hc
  obtain ⟨i, hi, rfl⟩ := mem_take_mem m n c hc
  simp [h i hi]

theorem filter_plain (m : Mem) (n : Nat) (h : ∀ i, i < n → is_space (m i) = false) :
    (mem_take m n).filter (fun c => !is_space c) = mem_take m n := by
  rw [List.filter_eq_self]
  intro c hc
  obtain ⟨i, hi, rfl⟩ := mem_take_mem m n c hc
  simp [h i hi]

theorem skip_whitespace_loop_spaces (data : Mem) : ∀ n offset i : Nat,
    offset ≤ i → i < skip_whitespace_loop data n offset → is_space (data i) = true
  | 0, offset, i => by
    intro h1 h2
    simp only [skip_whitespace_loop] at h2
    omega
  | n + 1, offset, i => by
    unfold skip_whitespace_loop
    by_cases hc : is_space (data offset) = true
    · rw [if_pos hc]
      intro h1 h2
      rcases Nat.eq_or_lt_of_le h1 with heq | hlt
      · rw [← heq]
        exact hc
      · exact skip_whitespace_loop_spaces data n (offset + 1) i hlt h2
    · rw [if_neg hc]
      intro h1 h2
      omega

theorem digit_plain (c : Nat) (h : is_digit c = true) : is_space c = false := by
  unfold is_digit isdigit at h
  unfold is_space isspace
  simp only [Bool.and_eq_true, decide_eq_true_eq] at h
  simp only [Bool.or_eq_false_iff, Bool.and_eq_false_imp, beq_eq_false_iff_ne, ne_eq,
    decide_eq_true_eq, decide_eq_false_iff_not]
  omega

theorem printable_plain (c : Nat) (h : 33 ≤ c) : is_space c = false := by
  unfold is_space isspace
  simp only [Bool.or_eq_false_iff, Bool.and_eq_false_imp, beq_eq_false_iff_ne, ne_eq,
    decide_eq_true_eq, decide_eq_false_iff_not]
  omega

/-- No byte of a view that the `switch` sizes for a classified token is a
space; `u` is the length of the first character, 1 for an ASCII byte. -/
theorem switch_plain (lexer : mmlexer) (o u : Nat) (hu : lexer.data o < 128 → u = 1)
    (hk : (read_next_token_switch lexer o u (lexer.data o)).1 ≠ token_kind.MML_UNKNOWN) :
    ∀ i, i < (read_next_token_switch lexer o u (lexer.data o)).2 →
      is_space (lexer.data (o + i)) = false := by
  have he := expansion_loop_run lexer.data o (lexer.size - (o + 1)) 1
  have hn := number_loop_run lexer.data o (lexer.size - (o + 0)) 0
  have one : ∀ i, 33 ≤ lexer.data o → lexer.data o < 128 → i < u →
      is_space (lexer.data (o + i)) = false := by
    intro i h33 h128 hi
    have : i = 0 := by have := hu h128; omega
    rw [this, Nat.add_zero]
    exact printable_plain _ h33
  by_cases h1 : (97 ≤ lexer.data o ∧ lexer.data o ≤ 103) ∨ lexer.data o = 114
  · rw [switch_note _ _ _ _ h1]
    intro i hi
    exact one i (by omega) (by omega) hi
  by_cases h2 : lexer.data o = 111 ∨ lexer.data o = 60 ∨ lexer.data o = 62 ∨ lexer.data o = 108
      ∨ lexer.data o = 118 ∨ lexer.data o = 116
  · rw [switch_command _ _ _ _ h2]
    intro i hi
    exact one i (by omega) (by omega) hi
  by_cases h3 : lexer.data o = 43 ∨ lexer.data o = 45 ∨ lexer.data o = 46 ∨ lexer.data o = 59
      ∨ lexer.data o = 125 ∨ lexer.data o = 123 ∨ lexer.data o = 93 ∨ lexer.data o = 91
      ∨ lexer.data o = 58
  · obtain ⟨k, hk2, _, _⟩ := switch_structural lexer o u _ h3
    rw [hk2]
    intro i hi
    exact one i (by omega) (by omega) hi
  by_cases h4 : lexer.data o = 64
  · rw [h4, switch_expansion]
    intro i hi
    rcases Nat.eq_zero_or_pos i with h0 | hpos
    · rw [h0, Nat.add_zero]
      exact printable_plain _ (by omega)
    · exact (ident_char_plain _ (he.2.2.1 i hpos hi)).1
  by_cases h5 : lexer.data o = 33
  · rw [h5, switch_definition]
    intro i hi
    rcases Nat.eq_zero_or_pos i with h0 | hpos
    · rw [h0, Nat.add_zero]
      exact printable_plain _ (by omega)
    · exact (ident_char_plain _ (he.2.2.1 i hpos hi)).1
  by_cases h6 : isdigit (lexer.data o) = true
  · rw [switch_number _ _ _ _ h6]
    intro i hi
    exact digit_plain _ (hn.2.2.1 i (Nat.zero_le _) hi)
  · rw [switch_unknown _ _ _ _ h1 h2 h3 h4 h5 (by simpa using h6)] at hk
    exact absurd rfl hk

/-- What a call of `read_next_token` covers: at the end of the input only
spaces were left; otherwise the token starts after spaces only, none of its
bytes is a space, and the lexer stands right after it. -/
theorem read_next_token_cover (lexer : mmlexer) (h : lexer.offset ≤ lexer.size)
    (t : token) (l : mmlexer) (hr : read_next_token lexer = some (t, l)) :
    l.size = lexer.size ∧ l.data = lexer.data ∧ l.offset ≤ l.size
      ∧ ((t = { kind := token_kind.MML_EOF, view := { data := 0, size := 0 } }
          ∧ ∀ i, lexer.offset ≤ i → i < lexer.size → is_space (lexer.data i) = true)
        ∨ (t.kind ≠ token_kind.MML_EOF ∧ 1 ≤ t.view.size
            ∧ lexer.offset ≤ t.view.data
            ∧ l.offset = t.view.data + t.view.size
            ∧ (∀ i, lexer.offset ≤ i → i < t.view.data → is_space (lexer.data i) = true)
            ∧ (∀ i, i < t.view.size → is_space (lexer.data (t.view.data + i)) = false))) := by
  have hs := skip_whitespace_offset lexer h
  have hsp : ∀ i, lexer.offset ≤ i → i < (skip_whitespace lexer).offset →
      is_space (lexer.data i) = true :=
    fun i h1 h2 => skip_whitespace_loop_spaces lexer.data _ lexer.offset i h1 h2
  rcases Nat.eq_or_lt_of_le hs.2 with heq | hlt
  · rw [read_next_token_eof lexer heq] at hr
    injection hr with hr
    injection hr with ht hl
    subst ht
    subst hl
    refine ⟨rfl, rfl, hs.2, Or.inl ⟨rfl, ?_⟩⟩
    intro i h1 h2
    exact hsp i h1 (by omega)
  · have hb := switch_bounds (skip_whitespace lexer) (skip_whitespace lexer).offset
      (token_char_len lexer) hlt (token_char_len_bounds lexer hlt).1
      (token_char_len_bounds lexer hlt).2
    rw [skip_whitespace_data, skip_whitespace_size] at hb
    rw [read_next_token_at lexer hlt] at hr
    split_ifs at hr with hk
    have hp := switch_plain (skip_whitespace lexer) (skip_whitespace lexer).offset
      (token_char_len lexer) (fun hc => token_char_len_ascii lexer hlt hc) hk
    rw [skip_whitespace_data] at hp
    injection hr with hr
    injection hr with ht hl
    subst ht
    subst hl
    exact ⟨rfl, rfl, hb.2.2, Or.inr ⟨hb.1, hb.2.1, hs.1, rfl, hsp, hp⟩⟩

theorem mml_tokenize_loop_cover : ∀ (n : Nat) (lexer : mmlexer) (acc : List token),
    lexer.offset ≤ lexer.size → lexer.size - lexer.offset < n →
    mml_tokenize_loop n lexer acc = tokenize_result.trap
      ∨ ∃ front : List token,
          mml_tokenize_loop n lexer acc
            = tokenize_result.tokens
                (acc ++ front ++ [{ kind := token_kind.MML_EOF, view := { data := 0, size := 0 } }])
          ∧ (∀ t ∈ front, t.kind ≠ token_kind.MML_EOF ∧ 1 ≤ t.view.size
              ∧ lexer.offset ≤ t.view.data ∧ t.view.data + t.view.size ≤ lexer.size)
          ∧ front.Pairwise (fun a b => a.view.data + a.view.size ≤ b.view.data)
          ∧ (front.map (fun t => view_bytes lexer.data t.view)).flatten
              = (mem_take (ptr_add lexer.data lexer.offset) (lexer.size - lexer.offset)).filter
                  (fun c => !is_space c)
  | 0, lexer, acc => by
    intro _ h
    omega
  | n + 1, lexer, acc => by
    intro h hn
    unfold mml_tokenize_loop
    cases hr : read_next_token lexer with
    | none => exact Or.inl rfl
    | some r =>
      obtain ⟨t, l⟩ := r
      obtain ⟨h1, h2, h3, h4⟩ := read_next_token_cover lexer h t l hr
      simp only []
      rcases h4 with ⟨heof, hsp⟩ | ⟨hk, hsz, hlo, hadv, hsp, hpl⟩
      · right
        refine ⟨[], ?_, ?_, List.Pairwise.nil, ?_⟩
        · rw [if_pos (by rw [heof])]
          rw [heof]
          simp
        · intro t ht
          simp at ht
        · rw [filter_spaces]
          · rfl
          · intro i hi
            exact hsp (lexer.offset + i) (by omega) (by omega)
      · rw [if_neg hk]
        have hle : t.view.data + t.view.size ≤ lexer.size := by
          rw [← hadv, ← h1]
          exact h3
        rcases mml_tokenize_loop_cover n l (acc ++ [t]) h3 (by omega) with
          htrap | ⟨front, hf, hall, hpw, hcat⟩
        · exact Or.inl htrap
        · right
          refine ⟨t :: front, ?_, ?_, ?_, ?_⟩
          · rw [hf]
            simp
          · intro x hx
            rcases List.mem_cons.1 hx with rfl | hx
            · exact ⟨hk, hsz, hlo, hle⟩
            · obtain ⟨a1, a2, a3, a4⟩ := hall x hx
              rw [h1] at a4
              exact ⟨a1, a2, by omega, a4⟩
          · rw [List.pairwise_cons]
            refine ⟨?_, hpw⟩
            intro x hx
            have := (hall x hx).2.2.1
            omega
          · rw [h1, h2, hadv] at hcat
            rw [List.map_cons, List.flatten_cons, hcat]
            have ea : mem_take (ptr_add lexer.data lexer.offset) (lexer.size - lexer.offset)
                = mem_take (ptr_add lexer.data lexer.offset) (t.view.data - lexer.offset)
                  ++ (mem_take (ptr_add lexer.data t.view.data) t.view.size
                    ++ mem_take (ptr_add lexer.data (t.view.data + t.view.size))
                        (lexer.size - (t.view.data + t.view.size))) := by
              have hsplit : lexer.size - lexer.offset
                  = (t.view.data - lexer.offset)
                    + (t.view.size + (lexer.size - (t.view.data + t.view.size))) := by omega
              rw [hsplit, mem_take_add, mem_take_add, ← ptr_add_add, ← ptr_add_add,
                show lexer.offset + (t.view.data - lexer.offset) = t.view.data by omega]
            have fa := filter_spaces (ptr_add lexer.data lexer.offset)
              (t.view.data - lexer.offset) (by
                intro i hi
                exact hsp (lexer.offset + i) (by omega) (by omega))
            have fb := filter_plain (ptr_add lexer.data t.view.data) t.view.size hpl
            rw [ea, List.filter_append, List.filter_append, fa, fb]
            rfl

/-! ## Claims on the views of the tokens -/

/-- C32: when `mml_tokenize` returns the tokens of a source buffer, they are
the tokens before the end of the input and the end-of-input token; each of the
former has a view of at least one byte inside the buffer; the view of a token
ends where or before the view of every later token starts, so the views do not
overlap and start at strictly increasing offsets; the bytes of the views, one
after the other, are the bytes of the buffer that are not spaces, in order; and
no byte of a view is a space. -/
theorem token_views_cover_source (source : Mem) (length strlen_source : Nat)
    (items : List token)
    (h : mml_tokenize source length strlen_source = tokenize_result.tokens items) :
    ∃ front : List token,
      items = front ++ [{ kind := token_kind.MML_EOF, view := { data := 0, size := 0 } }]
      ∧ (∀ t ∈ front, t.kind ≠ token_kind.MML_EOF ∧ 1 ≤ t.view.size
          ∧ t.view.data + t.view.size ≤ (if length = 0 then strlen_source else length))
      ∧ front.Pairwise (fun a b => a.view.data + a.view.size ≤ b.view.data)
      ∧ front.Pairwise (fun a b => a.view.data < b.view.data)
      ∧ (front.map (fun t => view_bytes source t.view)).flatten
          = (mem_take source (if length = 0 then strlen_source else length)).filter
              (fun c => !is_space c)
      ∧ ∀ t ∈ front, ∀ c ∈ view_bytes source t.view, is_space c = false := by
  unfold mml_tokenize at h
  simp only [] at h
  rcases mml_tokenize_loop_cover ((if length = 0 then strlen_source else length) + 1)
    { data := source, offset := 0, size := if length = 0 then strlen_source else length } []
    (Nat.zero_le _) (by simp only [Nat.sub_zero]; omega) with htrap | ⟨front, hf, hall, hpw, hcat⟩
  · rw [htrap] at h
    cases h
  · rw [hf] at h
    simp only [List.nil_append, tokenize_result.tokens.injEq] at h
    simp only [Nat.sub_zero] at hcat
    have hp0 : ptr_add source 0 = source := by
      funext i
      simp [ptr_add]
    have hcat2 : (front.map (fun t => view_bytes source t.view)).flatten
        = (mem_take (ptr_add source 0) (if length = 0 then strlen_source else length)).filter
            (fun c => !is_space c) := hcat
    rw [hp0] at hcat2
    refine ⟨front, h.symm, ?_, hpw, ?_, hcat2, ?_⟩
    · intro t ht
      obtain ⟨a1, a2, _, a4⟩ := hall t ht
      exact ⟨a1, a2, a4⟩
    · refine List.Pairwise.imp_of_mem ?_ hpw
      intro a b ha _ hab
      have := (hall a ha).2.1
      omega
    · intro t ht c hc
      have hmem : c ∈ (front.map (fun t => view_bytes source t.view)).flatten :=
        List.mem_flatten.2 ⟨view_bytes source t.view, List.mem_map.2 ⟨t, ht, rfl⟩, hc⟩
      rw [hcat2] at hmem
      have := (List.mem_filter.1 hmem).2
      simpa using this

/-- Witness of C32 on the text ` c4 `, tab, `@a1`, newline, `;`. -/
theorem token_views_cover_source_witness :
    mml_tokenize (bytes_of text_spaced zero_mem) 0 10 = tokenize_result.tokens tokens_spaced
    ∧ ∃ front : List token,
      tokens_spaced
        = front ++ [{ kind := token_kind.MML_EOF, view := { data := 0, size := 0 } }]
      ∧ (∀ t ∈ front, t.kind ≠ token_kind.MML_EOF ∧ 1 ≤ t.view.size
          ∧ t.view.data + t.view.size ≤ (if 0 = 0 then 10 else 0))
      ∧ front.Pairwise (fun a b => a.view.data + a.view.size ≤ b.view.data)
      ∧ front.Pairwise (fun a b => a.view.data < b.view.data)
      ∧ (front.map (fun t => view_bytes (bytes_of text_spaced zero_mem) t.view)).flatten
          = (mem_take (bytes_of text_spaced zero_mem) (if 0 = 0 then 10 else 0)).filter
              (fun c => !is_space c)
      ∧ ∀ t ∈ front, ∀ c ∈ view_bytes (bytes_of text_spaced zero_mem) t.view,
          is_space c = false :=
  ⟨by decide!,
    token_views_cover_source (bytes_of text_spaced zero_mem) 0 10 tokens_spaced (by decide!)⟩

/-! ## Claims on the tempo command without an argument -/

/-- C31 (code defect): `parse_command` gives a `t` that no number follows the
argument 0, as it does for `t0`, and `process_control` divides 60000000 by the
argument without a test. The texts `t;` and `t0;` are lexed and parsed into the
events `t` 0 and end of track, on which the translation divides by zero. -/
theorem tempo_zero_divides_by_zero :
    parse_text [] text_t_no_argument = some (outcome.done (0, events_t0))
    ∧ parse_text [] text_t0 = some (outcome.done (0, events_t0))
    ∧ mml_write_midi events_t0 = translated.division_by_zero
    ∧ ∀ ctx : mml_context, process_control ctx 116 0 = translated.division_by_zero :=
  ⟨by decide!, by decide!, by decide!, fun _ => rfl⟩

end Mml2Midi
